import Mathlib

/-!
# hfs.util: offline HFS+ volume reader (`hfsutil_main.c`)

A shallow embedding of the raw-device part of `hfsutil_main.c`: the block I/O
layer (`readAt`, `writeAt`), the extent mapper (`LogicalToPhysical`,
`ReadFile`), the volume header reader (`GetEmbeddedHFSPlusVol`,
`ReadHeaderBlock`), the B-tree header reader (`GetBTreeNodeInfo`), the
catalog overflow-extents resolver (`GetCatalogOverflowExtents`), the
root-name extractor (`GetNameFromHFSPlusVolumeStartingAt`), the UUID
derivation (`ConvertHFSUUIDToUUID`, `GenerateHFSVolumeUUID`), the volume UUID
access (`GetVolumeUUIDRaw`, `SetVolumeUUIDRaw`, `GetVolumeUUID`) and the probe
driver (`DoProbe`).

Conventions of the embedding.

* `off_t`, `ssize_t` and `int` values are `Int`.  C division and remainder on
  them are `Int.tdiv` and `Int.tmod` (truncation toward zero).  Arithmetic in
  an unsigned 32-bit or 64-bit C type is written with an explicit
  `% 2 ^ 32` or `% 2 ^ 64`.  Signed 64-bit arithmetic is exact: overflow of
  an `off_t` is undefined in C and the theorems speak of runs without it.
* A byte is a `UInt8`; memory regions and device images are `List UInt8`.  A
  caller buffer is the list of bytes found at the pointer; advancing the
  pointer is `List.drop`.
* A C execution that has no return value is an `Exec.ub` (undefined
  behaviour: division by zero, access outside an allocation) or an
  `Exec.nofuel` (the iteration budget given to a loop was used up).
* The contents of a fresh `malloc` block are indeterminate; they are given by
  a parameter `junk` of the functions that allocate.
* The layouts and constants of `<hfs/hfs_format.h>` and the result codes of
  `<sys/loadable_fs.h>` are system headers; their values are written out
  below.
* On-disk integers are big-endian; `OSSwapBigToHostInt16/32` of a field is
  the big-endian value of its bytes (`be16`, `be32`).
* The digest library (MD5, SHA-1), the mount table and the attribute calls on
  a mounted volume are outside the program; they are parameters of the
  functions that use them.
-/

namespace HfsUtil

/-! ## Result codes and executions -/

/-- Modelled from the spec: status code "recognized", `FSUR_RECOGNIZED` of the
system header `<sys/loadable_fs.h>`. -/
def FSUR_RECOGNIZED : Int := -1
/-- Modelled from the spec: status code "unrecognized format",
`FSUR_UNRECOGNIZED` of `<sys/loadable_fs.h>`. -/
def FSUR_UNRECOGNIZED : Int := -2
/-- Modelled from the spec: status code "success", `FSUR_IO_SUCCESS` of
`<sys/loadable_fs.h>`. -/
def FSUR_IO_SUCCESS : Int := -3
/-- Modelled from the spec: status code "I/O failure", `FSUR_IO_FAIL` of
`<sys/loadable_fs.h>`. -/
def FSUR_IO_FAIL : Int := -4

/-- Outcome of running a C function: it returns `a`, or its behaviour is
undefined, or the loop budget of the model ran out before it returned. -/
inductive Exec (α : Type) where
  | ret (a : α) : Exec α
  | ub : Exec α
  | nofuel : Exec α
  deriving DecidableEq

/-- Sequencing of executions. -/
def Exec.bind {α β : Type} (x : Exec α) (f : α → Exec β) : Exec β :=
  match x with
  | .ret a => f a
  | .ub => .ub
  | .nofuel => .nofuel

/-- Constant `#define HFS_BLOCK_SIZE 512`. -/
def HFS_BLOCK_SIZE : Int := 512

/-! ## The device -/

/-- An open raw device: the answer of the `DKIOCGETBLOCKSIZE` ioctl (`none`
when the ioctl fails) and the bytes of the medium. -/
structure Device where
  blocksize : Option Int
  data : List UInt8
  deriving DecidableEq

/-- System call `lseek(fd, off, SEEK_SET)`: the new position, or `-1` for a negative
offset. -/
def lseek (off : Int) : Int :=
  if off < 0 then -1 else off

/-- System call `read(fd, buf, n)` with the descriptor at position `pos`: the bytes
transferred, fewer than `n` when the medium ends first. -/
def read (dev : Device) (pos n : Int) : List UInt8 :=
  (dev.data.drop pos.toNat).take n.toNat

/-- System call `write(fd, buf, n)` with the descriptor at position `pos`: the number of
bytes transferred (fewer than `n` when the medium ends first) and the medium
afterwards. -/
def write (dev : Device) (pos : Int) (buf : List UInt8) (n : Int) : Int × Device :=
  let k := min n.toNat (dev.data.length - pos.toNat)
  ((k : Int), { dev with data := dev.data.take pos.toNat ++ buf.take k ++ dev.data.drop (pos.toNat + k) })

/-- Library call `bcopy(src, dst, n)`: the destination region after the copy. -/
def bcopy (src dst : List UInt8) (n : Int) : List UInt8 :=
  src.take n.toNat ++ dst.drop n.toNat

/-- Contents of a fresh `malloc(n)` block: `n` bytes, indeterminate, given by
the allocator state `junk`.  The allocation itself is taken to succeed
(`malloc(0)` returns a block of no bytes). -/
def malloc (junk : Nat → UInt8) (n : Int) : List UInt8 :=
  (List.range n.toNat).map junk

/-! ## Block I/O layer -/

/-- The aligned start `rawOffset = offset / blocksize * blocksize`. -/
def rawOffsetOf (offset blocksize : Int) : Int :=
  (offset.tdiv blocksize) * blocksize

/-- The aligned length
`rawLength = ((length + dataOffset + blocksize - 1) / blocksize) * blocksize`. -/
def rawLengthOf (offset length blocksize : Int) : Int :=
  ((length + (offset - rawOffsetOf offset blocksize) + blocksize - 1).tdiv blocksize) * blocksize

/-- The function `readAt(fd, bufPtr, offset, length)`: result code and the caller buffer
afterwards.  `malloc` fails for a negative size; a seek that fails unnoticed
(`rawOffset = -1`) leaves the position to the descriptor state, which is not
part of the model. -/
def readAt (dev : Device) (bufPtr : List UInt8) (offset length : Int) : Exec (Int × List UInt8) :=
  match dev.blocksize with
  | none => .ret (FSUR_IO_FAIL, bufPtr)
  | some blocksize =>
    if blocksize = 0 then .ub
    else
      let rawOffset := rawOffsetOf offset blocksize
      let dataOffset := offset - rawOffset
      let rawLength := rawLengthOf offset length blocksize
      if rawLength < 0 then .ret (FSUR_IO_FAIL, bufPtr)
      else if lseek rawOffset ≠ rawOffset then .ret (FSUR_IO_FAIL, bufPtr)
      else if rawOffset < 0 then .ub
      else
        let rawData := read dev rawOffset rawLength
        if (rawData.length : Int) ≠ rawLength then .ret (FSUR_IO_FAIL, bufPtr)
        else if 0 ≤ dataOffset ∧ 0 ≤ length ∧ dataOffset + length ≤ rawLength then
          .ret (FSUR_IO_SUCCESS, bcopy (rawData.drop dataOffset.toNat) bufPtr length)
        else .ub

/-- The function `readAt(fd, bufPtr, offset, length)` with the outcome of the
call `lseek(fd, rawOffset, SEEK_SET)` left to the environment: `seek rawOffset`
is the value that the call returns. With `seek = lseek` it is `readAt`. -/
def readAtWithSeek (seek : Int → Int) (dev : Device) (bufPtr : List UInt8) (offset length : Int) :
    Exec (Int × List UInt8) :=
  match dev.blocksize with
  | none => .ret (FSUR_IO_FAIL, bufPtr)
  | some blocksize =>
    if blocksize = 0 then .ub
    else
      let rawOffset := rawOffsetOf offset blocksize
      let dataOffset := offset - rawOffset
      let rawLength := rawLengthOf offset length blocksize
      if rawLength < 0 then .ret (FSUR_IO_FAIL, bufPtr)
      else if seek rawOffset ≠ rawOffset then .ret (FSUR_IO_FAIL, bufPtr)
      else if rawOffset < 0 then .ub
      else
        let rawData := read dev rawOffset rawLength
        if (rawData.length : Int) ≠ rawLength then .ret (FSUR_IO_FAIL, bufPtr)
        else if 0 ≤ dataOffset ∧ 0 ≤ length ∧ dataOffset + length ≤ rawLength then
          .ret (FSUR_IO_SUCCESS, bcopy (rawData.drop dataOffset.toNat) bufPtr length)
        else .ub

/-- The function `writeAt(fd, bufPtr, offset, length)`: result code and the device
afterwards.  The scratch block `rawData` is a fresh `malloc(rawLength)`. -/
def writeAt (junk : Nat → UInt8) (dev : Device) (bufPtr : List UInt8) (offset length : Int) :
    Exec (Int × Device) :=
  match dev.blocksize with
  | none => .ret (FSUR_IO_FAIL, dev)
  | some blocksize =>
    if blocksize = 0 then .ub
    else
      let rawOffset := rawOffsetOf offset blocksize
      let dataOffset := offset - rawOffset
      let rawLength := rawLengthOf offset length blocksize
      if rawLength < 0 then .ret (FSUR_IO_FAIL, dev)
      else
        let rawData := malloc junk rawLength
        if lseek rawOffset ≠ rawOffset then .ret (FSUR_IO_FAIL, dev)
        else if rawOffset < 0 then .ub
        else
          let preRead : Option (List UInt8) :=
            if rawOffset.tmod blocksize ≠ 0 ∨ rawLength.tmod blocksize ≠ 0 then
              let got := read dev rawOffset rawLength
              if (got.length : Int) ≠ rawLength then none
              else some (bcopy got rawData rawLength)
            else some rawData
          match preRead with
          | none => .ret (FSUR_IO_FAIL, dev)
          | some rawData1 =>
            if 0 ≤ dataOffset ∧ 0 ≤ length ∧ dataOffset + length ≤ rawLength then
              let rawData2 := rawData1.take dataOffset.toNat ++ bcopy bufPtr (rawData1.drop dataOffset.toNat) length
              if lseek rawOffset ≠ rawOffset then .ret (FSUR_IO_FAIL, dev)
              else
                let (bytestransferred, dev1) := write dev rawOffset rawData2 rawLength
                if bytestransferred ≠ rawLength then .ret (FSUR_IO_FAIL, dev1)
                else .ret (FSUR_IO_SUCCESS, dev1)
            else .ub

/-! ## Extent mapper -/

/-- An `HFSPlusExtentDescriptor`, fields in host byte order. -/
structure HFSPlusExtentDescriptor where
  startBlock : Int
  blockCount : Int
  deriving DecidableEq

/-- The extent scan of `LogicalToPhysical`: the extent found and the block
index remaining inside it, or `none` on a zero `blockCount` or at the end of
the list. -/
def findExtent (logicalBlock : Int) : List HFSPlusExtentDescriptor → Option (HFSPlusExtentDescriptor × Int)
  | [] => none
  | e :: rest =>
    if e.blockCount = 0 then none
    else if logicalBlock < e.blockCount then some (e, logicalBlock)
    else findExtent ((logicalBlock - e.blockCount) % 2 ^ 32) rest

/-- The function `LogicalToPhysical(offset, length, blockSize, extentCount, extentList,
&physicalOffset, &availableBytes)`: the result code and, on success, the two
outputs.  `extentCount` is the length of the list.  The block numbers are kept
in 32 bits as in the code (`u_int32_t`); the values of the `off_t` variable
`temp` are computed here as exact integers, which is what the C code computes
as long as they are values of `off_t` (predicates `TempsFitOffT`,
`CallFitsOffT`); outside that range the C multiplication overflows a signed
integer and the result given here describes no run of the code. -/
def LogicalToPhysical (offset length blockSize : Int) (extentList : List HFSPlusExtentDescriptor) :
    Exec (Int × Option (Int × Int)) :=
  if blockSize = 0 then .ub
  else
    let logicalBlock := (offset.tdiv blockSize) % 2 ^ 32
    let offset1 := offset.tmod blockSize
    match findExtent logicalBlock extentList with
    | none => .ret (FSUR_IO_FAIL, none)
    | some (e, logicalBlock1) =>
      let temp := ((e.startBlock + logicalBlock1) % 2 ^ 32) * blockSize
      let physicalOffset := temp + offset1
      let temp1 := ((e.blockCount - logicalBlock1) % 2 ^ 32) * blockSize - offset1
      .ret (FSUR_IO_SUCCESS, some (physicalOffset, if temp1 < length then temp1 else length))

/-- The `while (length > 0)` loop of `ReadFile`, run for at most `fuel`
iterations. -/
def ReadFileLoop (dev : Device) (volOffset blockSize : Int) (extentList : List HFSPlusExtentDescriptor) :
    Nat → List UInt8 → Int → Int → Exec (Int × List UInt8)
  | fuel, buffer, offset, length =>
    if length > 0 then
      match fuel with
      | 0 => .nofuel
      | fuel1 + 1 =>
        match LogicalToPhysical offset length blockSize extentList with
        | .ub => .ub
        | .nofuel => .nofuel
        | .ret (result, none) => .ret (result, buffer)
        | .ret (_, some (physOffset, physLength)) =>
          match readAt dev buffer (volOffset + physOffset) physLength with
          | .ub => .ub
          | .nofuel => .nofuel
          | .ret (result, buffer1) =>
            if result ≠ FSUR_IO_SUCCESS then .ret (result, buffer1)
            else
              match ReadFileLoop dev volOffset blockSize extentList fuel1
                  (buffer1.drop physLength.toNat) (offset + physLength) (length - physLength) with
              | .ret (r, rest) => .ret (r, buffer1.take physLength.toNat ++ rest)
              | .ub => .ub
              | .nofuel => .nofuel
    else .ret (FSUR_IO_SUCCESS, buffer)

/-- The function `ReadFile(fd, buffer, offset, length, volOffset, blockSize, extentCount,
extentList)`: result code and the caller buffer afterwards.  For
`blockSize ≥ 1` and 32-bit extent fields every iteration of the loop consumes
at least one byte, so `length` iterations are enough. -/
def ReadFile (dev : Device) (buffer : List UInt8) (offset length volOffset blockSize : Int)
    (extentList : List HFSPlusExtentDescriptor) : Exec (Int × List UInt8) :=
  ReadFileLoop dev volOffset blockSize extentList length.toNat buffer offset length

/-! ## Specification vocabulary for the extent mapper -/

/-- A value of an unsigned 32-bit C type. -/
def IsU32 (x : Int) : Prop := 0 ≤ x ∧ x < 2 ^ 32

instance (x : Int) : Decidable (IsU32 x) := by unfold IsU32; infer_instance

/-- Every field of every descriptor is a `u_int32_t`. -/
def ExtentsTyped (extentList : List HFSPlusExtentDescriptor) : Prop :=
  ∀ e ∈ extentList, IsU32 e.startBlock ∧ IsU32 e.blockCount

instance (l : List HFSPlusExtentDescriptor) : Decidable (ExtentsTyped l) := by
  unfold ExtentsTyped; infer_instance

/-- The extents that make up the file: those before the first descriptor with
`blockCount = 0`. -/
def fileExtents : List HFSPlusExtentDescriptor → List HFSPlusExtentDescriptor
  | [] => []
  | e :: rest => if e.blockCount = 0 then [] else e :: fileExtents rest

/-- Total number of allocation blocks of the file: the sum of the
`blockCount`s before the first zero one. -/
def fileBlocks (extentList : List HFSPlusExtentDescriptor) : Int :=
  ((fileExtents extentList).map (fun e => e.blockCount)).sum

/-- Block index `b` falls inside extent `k` at remaining index `r`: the
extents `0..k-1` have non-zero counts whose sum `s` satisfies `s ≤ b`, and
`r = b - s < blockCount k`. -/
def FallsInside (extentList : List HFSPlusExtentDescriptor) (b : Int) (k : Nat)
    (e : HFSPlusExtentDescriptor) (r : Int) : Prop :=
  extentList[k]? = some e ∧
  (∀ e1 ∈ extentList.take k, e1.blockCount ≠ 0) ∧
  r = b - ((extentList.take k).map (fun e1 => e1.blockCount)).sum ∧
  0 ≤ r ∧ r < e.blockCount

instance (l : List HFSPlusExtentDescriptor) (b : Int) (k : Nat) (e : HFSPlusExtentDescriptor) (r : Int) :
    Decidable (FallsInside l b k e r) := by
  unfold FallsInside; infer_instance

/-- The whole range of `n` bytes at position `pos` is readable: a `read` of
`n` bytes there is not short. -/
def RangeReadable (dev : Device) (pos n : Int) : Prop :=
  ((read dev pos n).length : Int) = n

instance (dev : Device) (pos n : Int) : Decidable (RangeReadable dev pos n) := by
  unfold RangeReadable; infer_instance

/-! ## On-disk structures -/

/-- Big-endian 16-bit value of the two bytes at `off` (`OSSwapBigToHostInt16`
of a field stored there). -/
def be16 (b : List UInt8) (off : Nat) : Int :=
  ((b.getD off 0).toNat : Int) * 256 + ((b.getD (off + 1) 0).toNat : Int)

/-- Big-endian 32-bit value of the four bytes at `off` (`OSSwapBigToHostInt32`
of a field stored there). -/
def be32 (b : List UInt8) (off : Nat) : Int :=
  ((b.getD off 0).toNat : Int) * 16777216 + ((b.getD (off + 1) 0).toNat : Int) * 65536
    + ((b.getD (off + 2) 0).toNat : Int) * 256 + ((b.getD (off + 3) 0).toNat : Int)

/-- Modelled from the spec: signature of a classic HFS Master Directory Block,
`kHFSSigWord` of the system header `<hfs/hfs_format.h>`. -/
def kHFSSigWord : Int := 0x4244
/-- Modelled from the spec: signature of an HFS Plus Volume Header,
`kHFSPlusSigWord` of `<hfs/hfs_format.h>`. -/
def kHFSPlusSigWord : Int := 0x482B
/-- Modelled from the spec: signature of an HFSX Volume Header, `kHFSXSigWord`
of `<hfs/hfs_format.h>`. -/
def kHFSXSigWord : Int := 0x4858
/-- Modelled from the spec: the reserved root-parent ID, `kHFSRootParentID`. -/
def kHFSRootParentID : Int := 1
/-- Modelled from the spec: the file ID of the Catalog file,
`kHFSCatalogFileID`. -/
def kHFSCatalogFileID : Int := 4
/-- Modelled from the spec: descriptors per extent record,
`kHFSPlusExtentDensity`. -/
def kHFSPlusExtentDensity : Nat := 8
/-- Modelled from the spec: node kind of a leaf node, `kBTLeafNode`. -/
def kBTLeafNode : Int := -1
/-- Modelled from the spec: node kind of a header node, `kBTHeaderNode`. -/
def kBTHeaderNode : Int := 1

/-- Modelled from the spec: byte offsets of the fields of the packed
`HFSMasterDirectoryBlock` of `<hfs/hfs_format.h>` that the code reads;
`drFndrInfo` is an array of eight 32-bit words. -/
structure MDBLayout where
  drSigWord : Nat := 0
  drAlBlkSiz : Nat := 20
  drAlBlSt : Nat := 28
  drFndrInfo : Nat := 92
  drEmbedSigWord : Nat := 124
  drEmbedExtent_startBlock : Nat := 126
  drEmbedExtent_blockCount : Nat := 128

/-- The layout of the Master Directory Block. -/
def mdb : MDBLayout := {}

/-- Modelled from the spec: byte offsets of the fields of the packed
`HFSPlusVolumeHeader` of `<hfs/hfs_format.h>` that the code reads;
`finderInfo` is an array of 32 bytes, each fork's `extents` record follows 16
bytes of fork data. -/
structure VolumeHeaderLayout where
  signature : Nat := 0
  blockSize : Nat := 40
  finderInfo : Nat := 80
  extentsFile_extents : Nat := 208
  catalogFile_extents : Nat := 288

/-- The layout of the HFS Plus Volume Header. -/
def vh : VolumeHeaderLayout := {}

/-- Modelled from the spec: byte offsets in a B-tree node of the fields of
`BTNodeDescriptor` (14 bytes) and, in the header node, of the `BTHeaderRec`
that follows it. -/
structure BTreeLayout where
  fLink : Nat := 0
  kind : Nat := 8
  numRecords : Nat := 10
  header_leafRecords : Nat := 20
  header_firstLeafNode : Nat := 24
  header_nodeSize : Nat := 32

/-- The layout of B-tree nodes. -/
def bt : BTreeLayout := {}

/-- Modelled from the spec: byte offsets of the fields of `HFSPlusCatalogKey`
(`keyLength`, `parentID`, then the `HFSUniStr255` `nodeName`: `length` and up
to 255 `unicode` units) and of `HFSPlusExtentKey`. -/
structure KeyLayout where
  keyLength : Nat := 0
  parentID : Nat := 2
  nodeName_length : Nat := 6
  nodeName_unicode : Nat := 8
  extentKey_fileID : Nat := 4

/-- The layout of catalog and extent keys. -/
def key : KeyLayout := {}

/-! ## Volume header reader -/

/-- Conversion of an unsigned 64-bit value to `off_t`. -/
def toOffT (x : Int) : Int :=
  if x < 2 ^ 63 then x else x - 2 ^ 64

/-- The function `GetEmbeddedHFSPlusVol(hfsMasterDirectoryBlockPtr,
startOffsetPtr)`: result code and `*startOffsetPtr` afterwards
(`startOffset` is its value before the call). -/
def GetEmbeddedHFSPlusVol (hfsMasterDirectoryBlockPtr : List UInt8) (startOffset : Int) : Int × Int :=
  if be16 hfsMasterDirectoryBlockPtr mdb.drSigWord ≠ kHFSSigWord then (FSUR_UNRECOGNIZED, startOffset)
  else
    let allocationBlockSize := be32 hfsMasterDirectoryBlockPtr mdb.drAlBlkSiz
    let firstAllocationBlock := be16 hfsMasterDirectoryBlockPtr mdb.drAlBlSt
    if be16 hfsMasterDirectoryBlockPtr mdb.drEmbedSigWord ≠ kHFSPlusSigWord then
      (FSUR_UNRECOGNIZED, startOffset)
    else
      let startBlock := be16 hfsMasterDirectoryBlockPtr mdb.drEmbedExtent_startBlock
      (FSUR_IO_SUCCESS,
        toOffT (((startBlock * allocationBlockSize) % 2 ^ 64
          + (firstAllocationBlock * HFS_BLOCK_SIZE) % 2 ^ 64) % 2 ^ 64))

/-- The signature test at the end of `ReadHeaderBlock`: result code and the
offset in the block of the Finder-info UUID (`&mdbPtr->drFndrInfo[6]`, a
32-bit word array, or `&volHdrPtr->finderInfo[24]`). -/
def checkSignature (result : Int) (buf : List UInt8) : Int × Option Nat :=
  if be16 buf mdb.drSigWord = kHFSSigWord then (result, some (mdb.drFndrInfo + 6 * 4))
  else if be16 buf vh.signature = kHFSPlusSigWord ∨ be16 buf vh.signature = kHFSXSigWord then
    (result, some (vh.finderInfo + 24))
  else (FSUR_UNRECOGNIZED, none)

/-- The function `ReadHeaderBlock(fd, bufPtr, &startOffset,
&finderInfoUUIDPtr)`: result code, the buffer, `startOffset` and the offset of
the UUID in the buffer (`none` when the pointer was not set). -/
def ReadHeaderBlock (dev : Device) (bufPtr : List UInt8) : Exec (Int × List UInt8 × Int × Option Nat) :=
  match readAt dev bufPtr (2 * HFS_BLOCK_SIZE) HFS_BLOCK_SIZE with
  | .ub => .ub
  | .nofuel => .nofuel
  | .ret (result, buf1) =>
    if result ≠ FSUR_IO_SUCCESS then .ret (result, buf1, 0, none)
    else if be16 buf1 mdb.drSigWord = kHFSSigWord ∧ be16 buf1 mdb.drEmbedSigWord = kHFSPlusSigWord then
      let (result1, startOffset) := GetEmbeddedHFSPlusVol buf1 0
      if result1 ≠ FSUR_IO_SUCCESS then .ret (result1, buf1, startOffset, none)
      else
        match readAt dev buf1 (startOffset + 2 * HFS_BLOCK_SIZE) HFS_BLOCK_SIZE with
        | .ub => .ub
        | .nofuel => .nofuel
        | .ret (result2, buf2) =>
          if result2 ≠ FSUR_IO_SUCCESS then .ret (result2, buf2, startOffset, none)
          else
            let (result3, uuidPtr) := checkSignature result2 buf2
            .ret (result3, buf2, startOffset, uuidPtr)
    else
      let (result3, uuidPtr) := checkSignature result buf1
      .ret (result3, buf1, 0, uuidPtr)

/-! ## Specification vocabulary for files -/

/-- The device bytes of one extent: `blockCount * blockSize` bytes starting at
`volOffset + startBlock * blockSize`. -/
def extentBytes (dev : Device) (volOffset blockSize : Int) (e : HFSPlusExtentDescriptor) : List UInt8 :=
  (dev.data.drop (volOffset + e.startBlock * blockSize).toNat).take (e.blockCount * blockSize).toNat

/-- The logical file: the concatenation, in list order, of the device bytes
of each extent, up to the first zero-count extent. -/
def logicalFile (dev : Device) (volOffset blockSize : Int) : List HFSPlusExtentDescriptor → List UInt8
  | [] => []
  | e :: rest =>
    if e.blockCount = 0 then []
    else extentBytes dev volOffset blockSize e ++ logicalFile dev volOffset blockSize rest

/-- Every extent of the file lies on the device. -/
def ExtentsOnDevice (dev : Device) (volOffset blockSize : Int)
    (extentList : List HFSPlusExtentDescriptor) : Prop :=
  ∀ e ∈ fileExtents extentList,
    0 ≤ volOffset + e.startBlock * blockSize ∧
    volOffset + (e.startBlock + e.blockCount) * blockSize ≤ (dev.data.length : Int)

instance (dev : Device) (volOffset blockSize : Int) (l : List HFSPlusExtentDescriptor) :
    Decidable (ExtentsOnDevice dev volOffset blockSize l) := by
  unfold ExtentsOnDevice; infer_instance

/-- Every block number of the file fits in 32 bits: the logical block numbers
(there are at most `2 ^ 32` blocks) and the physical block numbers of every
extent. -/
def BlockNumbersFit32 (extentList : List HFSPlusExtentDescriptor) : Prop :=
  ExtentsTyped extentList ∧ fileBlocks extentList ≤ 2 ^ 32 ∧
  ∀ e ∈ extentList, e.startBlock + e.blockCount ≤ 2 ^ 32

instance (l : List HFSPlusExtentDescriptor) : Decidable (BlockNumbersFit32 l) := by
  unfold BlockNumbersFit32; infer_instance

/-- Every device read of a range inside the image succeeds. -/
def ReadsSucceed (dev : Device) : Prop :=
  ∀ (buf : List UInt8) (o l : Int), 0 ≤ o → 0 ≤ l → o + l ≤ (dev.data.length : Int) →
    ∃ b, readAt dev buf o l = .ret (FSUR_IO_SUCCESS, b)

/-- A `readAt` of `l` bytes at offset `o` succeeds, whatever the caller
buffer. -/
def ReadSucceeds (dev : Device) (o l : Int) : Prop :=
  ∀ buf : List UInt8, ∃ b, readAt dev buf o l = .ret (FSUR_IO_SUCCESS, b)

/-- The 512 device bytes at offset `off`. -/
def headerBlockAt (dev : Device) (off : Int) : List UInt8 :=
  (dev.data.drop off.toNat).take 512

/-- The block carries the classic-HFS signature with embedded signature
HFS+. -/
def IsWrapped (blk : List UInt8) : Prop :=
  be16 blk mdb.drSigWord = kHFSSigWord ∧ be16 blk mdb.drEmbedSigWord = kHFSPlusSigWord

instance (blk : List UInt8) : Decidable (IsWrapped blk) := by
  unfold IsWrapped; infer_instance

/-- The embedded volume offset
`embedStartBlock * allocationBlockSize + firstAllocationBlock * 512` of a
Master Directory Block. -/
def embeddedOffset (blk : List UInt8) : Int :=
  be16 blk mdb.drEmbedExtent_startBlock * be32 blk mdb.drAlBlkSiz + be16 blk mdb.drAlBlSt * 512

/-! ## B-tree header reader -/

/-- Value of the signed byte (`int8_t`) at `off`. -/
def int8 (b : List UInt8) (off : Nat) : Int :=
  if (b.getD off 0).toNat < 128 then ((b.getD off 0).toNat : Int)
  else ((b.getD off 0).toNat : Int) - 256

/-- The eight descriptors of the `HFSPlusExtentRecord` stored at `off`, in host
byte order. -/
def decodeExtents (b : List UInt8) (off : Nat) : List HFSPlusExtentDescriptor :=
  (List.range kHFSPlusExtentDensity).map
    (fun i => ⟨be32 b (off + 8 * i), be32 b (off + 8 * i + 4)⟩)

/-- The function `GetBTreeNodeInfo(fd, hfsPlusVolumeOffset, blockSize,
extentCount, extentList, &nodeSize, &firstLeafNode)`: result code and, when the
outputs were stored, `(nodeSize, firstLeafNode)`.  The header buffer is a
fresh `malloc(HFS_BLOCK_SIZE)`. -/
def GetBTreeNodeInfo (junk : Nat → UInt8) (dev : Device) (hfsPlusVolumeOffset blockSize : Int)
    (extentList : List HFSPlusExtentDescriptor) : Exec (Int × Option (Int × Int)) :=
  match ReadFile dev (malloc junk HFS_BLOCK_SIZE) 0 HFS_BLOCK_SIZE hfsPlusVolumeOffset blockSize
      extentList with
  | .ub => .ub
  | .nofuel => .nofuel
  | .ret (result, bTreeHeaderPtr) =>
    if result = FSUR_IO_FAIL then .ret (result, none)
    else if int8 bTreeHeaderPtr bt.kind ≠ kBTHeaderNode then .ret (FSUR_IO_FAIL, none)
    else
      .ret (result, some (be16 bTreeHeaderPtr bt.header_nodeSize,
        if be32 bTreeHeaderPtr bt.header_leafRecords = 0 then 0
        else be32 bTreeHeaderPtr bt.header_firstLeafNode))

/-! ## Node parsing

A node buffer is an allocation of `nodeSize` bytes; a read outside it is
undefined behaviour. -/

/-- Big-endian 16-bit read at byte offset `off` of an allocation. -/
def be16At (buf : List UInt8) (off : Int) : Exec Int :=
  if 0 ≤ off ∧ off + 2 ≤ (buf.length : Int) then .ret (be16 buf off.toNat) else .ub

/-- Big-endian 32-bit read at byte offset `off` of an allocation. -/
def be32At (buf : List UInt8) (off : Int) : Exec Int :=
  if 0 ≤ off ∧ off + 4 ≤ (buf.length : Int) then .ret (be32 buf off.toNat) else .ub

/-- Signed byte read at byte offset `off` of an allocation. -/
def int8At (buf : List UInt8) (off : Int) : Exec Int :=
  if 0 ≤ off ∧ off + 1 ≤ (buf.length : Int) then .ret (int8 buf off.toNat) else .ub

/-- Read of the 64-byte extent record at byte offset `off` of an allocation. -/
def extentRecordAt (buf : List UInt8) (off : Int) : Exec (List HFSPlusExtentDescriptor) :=
  if 0 ≤ off ∧ off + 64 ≤ (buf.length : Int) then .ret (decodeExtents buf off.toNat) else .ub

/-! ## Catalog overflow-extents resolver -/

/-- The record loop `for (i = 1; i <= numRecords; ++i)` of
`GetCatalogOverflowExtents` with `n` iterations left: `true` when it left
through `goto Return` on a record of another file, and the extent list. -/
def scanRecords (buf : List UInt8) (nodeSize : Int) :
    Nat → Int → List HFSPlusExtentDescriptor → Exec (Bool × List HFSPlusExtentDescriptor)
  | 0, _, extents => .ret (false, extents)
  | n + 1, i, extents =>
    (be16At buf (nodeSize - 2 * i)).bind fun recOff =>
    (be32At buf (recOff + key.extentKey_fileID)).bind fun fileID =>
      if fileID ≠ kHFSCatalogFileID then .ret (true, extents)
      else
        (be16At buf (recOff + key.keyLength)).bind fun keyLength =>
        (extentRecordAt buf (recOff + keyLength + 2)).bind fun record =>
          scanRecords buf nodeSize n (i + 1) (extents ++ record)

/-- The leaf walk of `GetCatalogOverflowExtents` from the label `again`, for
at most `fuel` nodes: result code and the catalog extent list. -/
def walkLeaves (dev : Device) (hfsPlusVolumeOffset blockSize nodeSize : Int)
    (extentsFile : List HFSPlusExtentDescriptor) :
    Nat → List UInt8 → Int → List HFSPlusExtentDescriptor →
      Exec (Int × List HFSPlusExtentDescriptor)
  | 0, _, _, _ => .nofuel
  | fuel + 1, bufPtr, offset, extents =>
    (ReadFile dev bufPtr offset nodeSize hfsPlusVolumeOffset blockSize extentsFile).bind
      fun (result, buf) =>
      if result = FSUR_IO_FAIL then .ret (result, extents)
      else
        (int8At buf bt.kind).bind fun kind =>
        if kind ≠ kBTLeafNode then .ret (FSUR_IO_FAIL, extents)
        else
          (be16At buf bt.numRecords).bind fun numRecords =>
          (scanRecords buf nodeSize numRecords.toNat 1 extents).bind fun (stop, extents1) =>
            if stop then .ret (result, extents1)
            else
              (be32At buf bt.fLink).bind fun leafNode =>
                if leafNode ≠ 0 then
                  walkLeaves dev hfsPlusVolumeOffset blockSize nodeSize extentsFile fuel buf
                    (leafNode * nodeSize) extents1
                else .ret (result, extents1)

/-- The function `GetCatalogOverflowExtents(fd, hfsPlusVolumeOffset,
volHdrPtr, &catalogExtents, &catalogExtCount)`, its leaf walk limited to `fuel`
nodes: result code and the catalog extent list (`catalogExtCount` is its
length).  The node buffer is a fresh `malloc(nodeSize)`. -/
def GetCatalogOverflowExtents (fuel : Nat) (junk : Nat → UInt8) (dev : Device)
    (hfsPlusVolumeOffset : Int) (volHdrPtr : List UInt8)
    (catalogExtents : List HFSPlusExtentDescriptor) :
    Exec (Int × List HFSPlusExtentDescriptor) :=
  let blockSize := be32 volHdrPtr vh.blockSize
  let extentsFile := decodeExtents volHdrPtr vh.extentsFile_extents
  (GetBTreeNodeInfo junk dev hfsPlusVolumeOffset blockSize extentsFile).bind fun (result, info) =>
    match info with
    | none => .ret (result, catalogExtents)
    | some (nodeSize, leafNode) =>
      if result ≠ FSUR_IO_SUCCESS ∨ leafNode = 0 then .ret (result, catalogExtents)
      else
        walkLeaves dev hfsPlusVolumeOffset blockSize nodeSize extentsFile fuel
          (malloc junk nodeSize) (leafNode * nodeSize) catalogExtents

/-! ## Root-name extractor -/

/-- Modelled from the spec: UTF-8 encoding of one code point ("transcode
verbatim (no normalization) to UTF-8"); the transcoder is CoreFoundation
code. -/
def utf8OfCodePoint (c : Nat) : List UInt8 :=
  if c < 0x80 then [UInt8.ofNat c]
  else if c < 0x800 then [UInt8.ofNat (0xC0 + c / 64), UInt8.ofNat (0x80 + c % 64)]
  else if c < 0x10000 then
    [UInt8.ofNat (0xE0 + c / 4096), UInt8.ofNat (0x80 + c / 64 % 64), UInt8.ofNat (0x80 + c % 64)]
  else
    [UInt8.ofNat (0xF0 + c / 262144), UInt8.ofNat (0x80 + c / 4096 % 64),
      UInt8.ofNat (0x80 + c / 64 % 64), UInt8.ofNat (0x80 + c % 64)]

/-- Modelled from the spec: the UTF-8 transcoding of a sequence of UTF-16
units, `none` when a surrogate is unpaired. -/
def utf16ToUtf8 : List Int → Option (List UInt8)
  | [] => some []
  | [u] =>
    if 0xD800 ≤ u ∧ u < 0xE000 then none else some (utf8OfCodePoint u.toNat)
  | u :: v :: rest =>
    if 0xD800 ≤ u ∧ u < 0xDC00 then
      if 0xDC00 ≤ v ∧ v < 0xE000 then
        (utf16ToUtf8 rest).map
          (fun t => utf8OfCodePoint (0x10000 + (u.toNat - 0xD800) * 1024 + (v.toNat - 0xDC00)) ++ t)
      else none
    else if 0xDC00 ≤ u ∧ u < 0xE000 then none
    else (utf16ToUtf8 (v :: rest)).map (fun t => utf8OfCodePoint u.toNat ++ t)

/-- Modelled from the spec: `CFStringCreateWithCharacters` followed by
`CFStringGetCString(cfstr, buffer, bufferSize, kCFStringEncodingUTF8)`:
whether the conversion succeeded and the buffer afterwards (the UTF-8 bytes
and a terminating NUL). -/
def CFStringGetCString (units : List Int) (buffer : List UInt8) (bufferSize : Int) :
    Bool × List UInt8 :=
  match utf16ToUtf8 units with
  | none => (false, buffer)
  | some bytes =>
    if (bytes.length : Int) + 1 ≤ bufferSize then
      (true, bcopy (bytes ++ [0]) buffer ((bytes.length : Int) + 1))
    else (false, buffer)

/-- Modelled from the spec: the 255-unit ceiling of a file name, `NAME_MAX` of
`<sys/syslimits.h>`. -/
def NAME_MAX : Int := 255

/-- Modelled from the spec: size in bytes of `HFSUniStr255`, a 16-bit length
and the fixed name buffer of 255 16-bit units. -/
def sizeofHFSUniStr255 : Int := 512

/-- The copy loop `for (i = 0; i < swapped->length; i++)` with `n` iterations
left: the byte-swapped units read from the key. -/
def copyName (buf : List UInt8) (unicode : Int) : Nat → Int → Exec (List Int)
  | 0, _ => .ret []
  | n + 1, i =>
    (be16At buf (unicode + 2 * i)).bind fun u =>
    (copyName buf unicode n (i + 1)).bind fun rest => .ret (u :: rest)

/-- The block of `GetNameFromHFSPlusVolumeStartingAt` that validates the first
record of the leaf node in `bufPtr` and extracts the name: result code and
`name_o` afterwards.  The store `swapped->unicode[i] = 0` lies inside the
`malloc(sizeof(HFSUniStr255))` block only for `i < 255`. -/
def rootNameFromLeaf (bufPtr : List UInt8) (catalogNodeSize : Int) (name_o : List UInt8) :
    Exec (Int × List UInt8) :=
  (be16At bufPtr bt.numRecords).bind fun numRecords =>
  if numRecords < 1 then .ret (FSUR_IO_FAIL, name_o)
  else
    (be16At bufPtr (catalogNodeSize - 2)).bind fun recOff =>
    (be32At bufPtr (recOff + key.parentID)).bind fun parentID =>
    if parentID ≠ kHFSRootParentID then .ret (FSUR_IO_FAIL, name_o)
    else
      (be16At bufPtr (recOff + key.nodeName_length)).bind fun length =>
      if length > 255 ∨ length > 255 then .ret (FSUR_IO_FAIL, name_o)
      else
        (copyName bufPtr (recOff + key.nodeName_unicode) length.toNat 0).bind fun units =>
        if 2 + 2 * (length + 1) ≤ sizeofHFSUniStr255 then
          .ret (FSUR_IO_SUCCESS, (CFStringGetCString units name_o (NAME_MAX * 3 + 1)).2)
        else .ub

/-- Where `GetNameFromHFSPlusVolumeStartingAt` stands after its read of the
first catalog leaf node: it has left early with a result code, or it holds the
leaf node buffer and `catalogNodeSize`. -/
inductive LeafRead where
  | early (result : Int) : LeafRead
  | leaf (bufPtr : List UInt8) (catalogNodeSize : Int) : LeafRead
  deriving DecidableEq

/-- The part of `GetNameFromHFSPlusVolumeStartingAt` up to the read of the
first catalog leaf node.  The buffers are fresh `malloc` blocks. -/
def readFirstCatalogLeaf (fuel : Nat) (junk : Nat → UInt8) (dev : Device)
    (hfsPlusVolumeOffset : Int) : Exec LeafRead :=
  (readAt dev (malloc junk HFS_BLOCK_SIZE) (hfsPlusVolumeOffset + 2 * HFS_BLOCK_SIZE)
    HFS_BLOCK_SIZE).bind fun (result, volHdrPtr) =>
  if result = FSUR_IO_FAIL then .ret (.early result)
  else if be16 volHdrPtr vh.signature ≠ kHFSPlusSigWord ∧
      be16 volHdrPtr vh.signature ≠ kHFSXSigWord then .ret (.early FSUR_IO_FAIL)
  else
    let blockSize := be32 volHdrPtr vh.blockSize
    let catalogExtents := decodeExtents volHdrPtr vh.catalogFile_extents
    (if (catalogExtents.getD 7 ⟨0, 0⟩).blockCount ≠ 0 then
        (GetCatalogOverflowExtents fuel junk dev hfsPlusVolumeOffset volHdrPtr catalogExtents).bind
          fun (result1, extents) =>
            .ret (if result1 ≠ FSUR_IO_SUCCESS then some result1 else none, extents)
      else .ret (none, catalogExtents)).bind fun (early, catalogExtents1) =>
    match early with
    | some result1 => .ret (.early result1)
    | none =>
      (GetBTreeNodeInfo junk dev hfsPlusVolumeOffset blockSize catalogExtents1).bind
        fun (result2, info) =>
        if result2 ≠ FSUR_IO_SUCCESS then .ret (.early result2)
        else
          match info with
          | none => .ub
          | some (catalogNodeSize, leafNode) =>
            (ReadFile dev (malloc junk catalogNodeSize) (leafNode * catalogNodeSize)
              catalogNodeSize hfsPlusVolumeOffset blockSize catalogExtents1).bind
              fun (result3, bufPtr) =>
              if result3 = FSUR_IO_FAIL then .ret (.early result3)
              else .ret (.leaf bufPtr catalogNodeSize)

/-- The function `GetNameFromHFSPlusVolumeStartingAt(fd, hfsPlusVolumeOffset,
name_o)`, the overflow-extents walk limited to `fuel` nodes: result code and
`name_o` afterwards. -/
def GetNameFromHFSPlusVolumeStartingAt (fuel : Nat) (junk : Nat → UInt8) (dev : Device)
    (hfsPlusVolumeOffset : Int) (name_o : List UInt8) : Exec (Int × List UInt8) :=
  (readFirstCatalogLeaf fuel junk dev hfsPlusVolumeOffset).bind fun r =>
    match r with
    | .early result => .ret (result, name_o)
    | .leaf bufPtr catalogNodeSize => rootNameFromLeaf bufPtr catalogNodeSize name_o

/-! ## Specification vocabulary for the first catalog leaf node -/

/-- Record count of the node: the 16-bit big-endian `numRecords` field. -/
def nodeNumRecords (node : List UInt8) : Int :=
  be16 node bt.numRecords

/-- Offset of the first record: the 16-bit big-endian value stored in the last
two bytes of the node. -/
def firstRecordOffset (node : List UInt8) (nodeSize : Int) : Int :=
  be16 node (nodeSize - 2).toNat

/-- The `parentID` of the key of the first record. -/
def firstKeyParentID (node : List UInt8) (nodeSize : Int) : Int :=
  be32 node (firstRecordOffset node nodeSize + key.parentID).toNat

/-- The name length, in UTF-16 units, of the key of the first record. -/
def firstKeyNameLength (node : List UInt8) (nodeSize : Int) : Int :=
  be16 node (firstRecordOffset node nodeSize + key.nodeName_length).toNat

/-- The bytes that the validation of the first record reads lie inside the
node buffer: the `numRecords` field, the last two bytes of the node, the
8-byte head of the key at the stored offset and, when the name length is at
most 255, the name units. -/
def KeyInsideNode (node : List UInt8) (nodeSize : Int) : Prop :=
  ((bt.numRecords : Int) + 2 ≤ (node.length : Int)) ∧
  2 ≤ nodeSize ∧ nodeSize ≤ (node.length : Int) ∧
  firstRecordOffset node nodeSize + 8 ≤ (node.length : Int) ∧
  (firstKeyNameLength node nodeSize ≤ 255 →
    firstRecordOffset node nodeSize + 8 + 2 * firstKeyNameLength node nodeSize
      ≤ (node.length : Int))

instance (node : List UInt8) (nodeSize : Int) : Decidable (KeyInsideNode node nodeSize) := by
  unfold KeyInsideNode; infer_instance

/-- The first record fails the validation: fewer than one record, a parent ID
other than the root-parent ID, or a name longer than 255 units. -/
def RootRecordRejected (node : List UInt8) (nodeSize : Int) : Prop :=
  nodeNumRecords node < 1 ∨ firstKeyParentID node nodeSize ≠ kHFSRootParentID ∨
    firstKeyNameLength node nodeSize > 255

instance (node : List UInt8) (nodeSize : Int) : Decidable (RootRecordRejected node nodeSize) := by
  unfold RootRecordRejected; infer_instance

/-! ## Example images -/

/-- The bytes `v` stored at offset `off` of `b`. -/
def putBytes (b : List UInt8) (off : Nat) (v : List UInt8) : List UInt8 :=
  b.take off ++ v ++ b.drop (off + v.length)

/-- A 512-byte block of zeros with the given fields stored in it. -/
def blockWith (fields : List (Nat × List UInt8)) : List UInt8 :=
  fields.foldl (fun b f => putBytes b f.1 f.2) (List.replicate 512 0)

/-- A wrapped-HFS Master Directory Block: signature `BD`, allocation block
size 1024, first allocation block 3, embedded signature `H+`, embedded extent
`(startBlock = 10, blockCount = 5)`. -/
def exampleMDB : List UInt8 :=
  [0x42, 0x44] ++ List.replicate 18 0 ++ [0, 0, 4, 0] ++ List.replicate 4 0 ++ [0, 3]
    ++ List.replicate 94 0 ++ [0x48, 0x2B] ++ [0, 10, 0, 5] ++ List.replicate 382 0

/-- A 12-byte device with block size 4 whose byte `i` is `i`. -/
def smallDevice : Device :=
  ⟨some 4, [0, 1, 2, 3, 4, 5, 6, 7, 8, 9, 10, 11]⟩

/-- A 1536-byte device, block size 512, whose sector 2 is the wrapped-HFS
example block; the embedded volume at offset 11776 lies past its end. -/
def truncatedWrappedDevice : Device :=
  ⟨some 512, List.replicate 1024 0 ++ exampleMDB⟩

/-- A 512-byte block whose first two bytes are the HFS+ signature `H+`. -/
def exampleVolumeHeader : List UInt8 :=
  [0x48, 0x2B] ++ List.replicate 510 0

/-- A wrapped-HFS Master Directory Block whose embedded volume starts at
offset 512: signature `BD`, first allocation block 1, embedded signature `H+`,
embedded extent starting at block 0. -/
def nearMDB : List UInt8 :=
  [0x42, 0x44] ++ List.replicate 26 0 ++ [0, 1] ++ List.replicate 94 0 ++ [0x48, 0x2B]
    ++ List.replicate 386 0

/-- A 2048-byte device, block size 512: sector 2 is the wrapped-HFS block
`nearMDB` and the embedded volume at offset 512 carries an HFS+ header at
`512 + 1024`. -/
def wrappedDevice : Device :=
  ⟨some 512, List.replicate 1024 0 ++ nearMDB ++ exampleVolumeHeader⟩

/-- An HFS+ volume header: signature `H+`, allocation block size 512, catalog
file in the single extent `(startBlock = 3, blockCount = 2)`. -/
def exampleHeader : List UInt8 :=
  blockWith [(0, [0x48, 0x2B]), (40, [0, 0, 2, 0]), (288, [0, 0, 0, 3, 0, 0, 0, 2])]

/-- The header node of the catalog B-tree: kind 1, one leaf record, first leaf
node 1, node size 512. -/
def exampleHeaderNode : List UInt8 :=
  blockWith [(8, [1]), (20, [0, 0, 0, 1]), (24, [0, 0, 0, 1]), (32, [2, 0])]

/-- A leaf node with one record at offset 14: parent ID 1, name `ABC` (three
UTF-16 units). -/
def exampleLeafNode : List UInt8 :=
  blockWith [(8, [0xFF]), (10, [0, 1]), (14, [0, 12, 0, 0, 0, 1, 0, 3, 0, 0x41, 0, 0x42, 0, 0x43]),
    (510, [0, 14])]

/-- A leaf node with one record whose stored offset `0xFFFF` lies outside the
512-byte node. -/
def strayLeafNode : List UInt8 :=
  blockWith [(8, [0xFF]), (10, [0, 1]), (510, [0xFF, 0xFF])]

/-- A 2560-byte HFS+ image, device block size 512: volume header in sector 2,
catalog header node in block 3, leaf node in block 4. -/
def exampleImage : Device :=
  ⟨some 512, List.replicate 1024 0 ++ exampleHeader ++ exampleHeaderNode ++ exampleLeafNode⟩

/-- The same image with the stray leaf node in block 4. -/
def strayImage : Device :=
  ⟨some 512, List.replicate 1024 0 ++ exampleHeader ++ exampleHeaderNode ++ strayLeafNode⟩

/-- An HFS+ volume header: signature `H+`, allocation block size 512, catalog
file in the single extent `(startBlock = 3, blockCount = 4)`. -/
def longNameHeader : List UInt8 :=
  blockWith [(0, [0x48, 0x2B]), (40, [0, 0, 2, 0]), (288, [0, 0, 0, 3, 0, 0, 0, 4])]

/-- The first 512 bytes of the header node of a catalog B-tree with node size
1024: kind 1, one leaf record, first leaf node 1. -/
def longNameHeaderNode : List UInt8 :=
  blockWith [(8, [1]), (20, [0, 0, 0, 1]), (24, [0, 0, 0, 1]), (32, [4, 0])]

/-- A 1024-byte leaf node with one record at offset 14: parent ID 1 and a name
of exactly 255 UTF-16 units `A`, all inside the node. -/
def longNameLeafNode : List UInt8 :=
  List.replicate 8 0 ++ [0xFF, 0, 0, 1, 0, 0] ++ [2, 4, 0, 0, 0, 1, 0, 255]
    ++ (List.replicate 255 [0, 0x41]).flatten ++ List.replicate 490 0 ++ [0, 14]

/-- A 3584-byte HFS+ image, device block size 512: volume header in sector 2,
catalog header node in blocks 3 and 4, the long-name leaf node in blocks 5 and
6. -/
def longNameImage : Device :=
  ⟨some 512, List.replicate 1024 0 ++ longNameHeader ++ longNameHeaderNode
    ++ List.replicate 512 0 ++ longNameLeafNode⟩

/-! ## UUID derivation module -/

/-- Byte order of the host that runs the program. -/
inductive ByteOrder where
  | little : ByteOrder
  | big : ByteOrder
  deriving DecidableEq

/-- The byte of value `v mod 256`. -/
def byteOf (v : Int) : UInt8 :=
  UInt8.ofNat (v % 256).toNat

/-- Object representation of the `uint32_t` value `x` on the host: its four
bytes in memory order. -/
def bytes32 (host : ByteOrder) (x : Int) : List UInt8 :=
  match host with
  | .big => [byteOf (x / 16777216), byteOf (x / 65536), byteOf (x / 256), byteOf x]
  | .little => [byteOf x, byteOf (x / 256), byteOf (x / 65536), byteOf (x / 16777216)]

/-- Value of the `uint32_t` whose object representation starts at `off`. -/
def word32 (host : ByteOrder) (b : List UInt8) (off : Nat) : Int :=
  match host with
  | .big =>
    ((b.getD off 0).toNat : Int) * 16777216 + ((b.getD (off + 1) 0).toNat : Int) * 65536
      + ((b.getD (off + 2) 0).toNat : Int) * 256 + ((b.getD (off + 3) 0).toNat : Int)
  | .little =>
    ((b.getD (off + 3) 0).toNat : Int) * 16777216 + ((b.getD (off + 2) 0).toNat : Int) * 65536
      + ((b.getD (off + 1) 0).toNat : Int) * 256 + ((b.getD off 0).toNat : Int)

/-- The byte swap `OSSwapInt32` of a 32-bit value. -/
def OSSwapInt32 (x : Int) : Int :=
  (x % 256) * 16777216 + (x / 256 % 256) * 65536 + (x / 65536 % 256) * 256 + x / 16777216 % 256

/-- The conversion `OSSwapHostToBigInt32`: the identity on a big-endian host,
the byte swap on a little-endian one. -/
def OSSwapHostToBigInt32 (host : ByteOrder) (x : Int) : Int :=
  match host with
  | .big => x
  | .little => OSSwapInt32 x

/-- The legacy identifier `hfs_UUID_t`: two `uint32_t` halves. -/
structure hfs_UUID_t where
  high : Int
  low : Int
  deriving DecidableEq

/-- Modelled from the spec: the external digest library and the "fixed,
well-known namespace identifier".  `md5` and `sha1` give the digest of the
bytes fed to the context (16 and 20 bytes); `kFSUUIDNamespaceSHA1` is the
16-byte namespace of `<System/uuid/namespace.h>`. -/
structure Digests where
  md5 : List UInt8 → List UInt8
  sha1 : List UInt8 → List UInt8
  kFSUUIDNamespaceSHA1 : List UInt8
  md5_length : ∀ x, (md5 x).length = 16
  sha1_length : ∀ x, (sha1 x).length = 20

/-- The function `uuid_create_md5_from_name(result_uuid, namespace, name,
namelen)`: the 16 bytes of `result_uuid` afterwards (`nspace` is the argument
`namespace`, `name` holds `namelen` bytes). -/
def uuid_create_md5_from_name (dg : Digests) (nspace name : List UInt8) : List UInt8 :=
  let result_uuid := dg.md5 (nspace ++ name)
  let result_uuid1 := result_uuid.set 6 (((result_uuid.getD 6 0) &&& 0x0F) ||| 0x30)
  result_uuid1.set 8 (((result_uuid1.getD 8 0) &&& 0x3F) ||| 0x80)

/-- The function `ConvertHFSUUIDToUUID(hfsuuid, uu)`: the 16 bytes of
`uu->uuid` afterwards. -/
def ConvertHFSUUIDToUUID (host : ByteOrder) (dg : Digests) (hfsuuid : hfs_UUID_t) : List UInt8 :=
  if hfsuuid.high = 0 ∨ hfsuuid.low = 0 then List.replicate 16 0
  else
    let rawUUID := bytes32 host (OSSwapHostToBigInt32 host hfsuuid.high)
      ++ bytes32 host (OSSwapHostToBigInt32 host hfsuuid.low)
    uuid_create_md5_from_name dg dg.kFSUUIDNamespaceSHA1 rawUUID

/-- The `do ... while` loop of `GenerateHFSVolumeUUID` from its iteration `i`
on, for at most `fuel` iterations; `samples i` is the sequence of bytes fed to
the SHA-1 context in iteration `i` (uptime, boot time, host id, host name, OS
release and version, load average, VM statistics, time text). -/
def generateLoop (host : ByteOrder) (dg : Digests) (samples : Nat → List UInt8) :
    Nat → Nat → Exec hfs_UUID_t
  | 0, _ => .nofuel
  | fuel + 1, i =>
    let digest := dg.sha1 (samples i)
    let hfsuuid : hfs_UUID_t := ⟨word32 host digest 0, word32 host digest 4⟩
    if hfsuuid.high = 0 ∨ hfsuuid.low = 0 then generateLoop host dg samples fuel (i + 1)
    else .ret hfsuuid

/-- The function `GenerateHFSVolumeUUID(newuuid)`, its loop limited to `fuel`
iterations: the identifier stored in `*newuuid`. -/
def GenerateHFSVolumeUUID (fuel : Nat) (host : ByteOrder) (dg : Digests)
    (samples : Nat → List UInt8) : Exec hfs_UUID_t :=
  generateLoop host dg samples fuel 0

/-- A digest is discarded by `GenerateHFSVolumeUUID`: one of the two 32-bit
halves read from its first 8 bytes is zero. -/
def ZeroHalf (host : ByteOrder) (digest : List UInt8) : Prop :=
  word32 host digest 0 = 0 ∨ word32 host digest 4 = 0

instance (host : ByteOrder) (digest : List UInt8) : Decidable (ZeroHalf host digest) := by
  unfold ZeroHalf; infer_instance

/-- The identifier whose object representation is the first 8 bytes of the
digest. -/
def halvesOf (host : ByteOrder) (digest : List UInt8) : hfs_UUID_t :=
  ⟨word32 host digest 0, word32 host digest 4⟩

/-- A stand-in digest library for examples: `md5` and `sha1` pad the input with
`0xAB` bytes and cut it to 16 and 20 bytes. -/
def toyDigests : Digests where
  md5 := fun x => (x ++ List.replicate 16 0xAB).take 16
  sha1 := fun x => (x ++ List.replicate 20 0xAB).take 20
  kFSUUIDNamespaceSHA1 :=
    [0xB3, 0xE2, 0x0F, 0x39, 0xF2, 0x92, 0x11, 0xD6, 0x97, 0xA4, 0x00, 0x30, 0x65, 0x43, 0xEC, 0xAC]
  md5_length := fun x => by simp
  sha1_length := fun x => by simp

/-- A sample sequence for examples: the first sample hashes (with the stand-in
library) to a digest whose first four bytes are zero, the second one does
not. -/
def toySamples (i : Nat) : List UInt8 :=
  if i = 0 then [0, 0, 0, 0, 1, 1, 1, 1] else [0, 0, 0, 7, 0, 0, 0, 9]

/-! ## Volume UUID access -/

/-- The last statement of `GetVolumeUUIDRaw` and of `SetVolumeUUIDRaw`:
`return (result == FSUR_IO_SUCCESS) ? FSUR_IO_SUCCESS : FSUR_IO_FAIL;`. -/
def rawResult (result : Int) : Int :=
  if result = FSUR_IO_SUCCESS then FSUR_IO_SUCCESS else FSUR_IO_FAIL

/-- The function `GetVolumeUUIDRaw(deviceNamePtr, rawName, volUUIDPtr)`: result
code and the 16 bytes of `volUUIDPtr->uuid` afterwards.  `fd` is the
descriptor obtained from `GetFD` (or from the retried `open` after `EBUSY`),
`dev` the device behind it. -/
def GetVolumeUUIDRaw (host : ByteOrder) (dg : Digests) (junk : Nat → UInt8) (fd : Int)
    (dev : Device) (volUUID : List UInt8) : Exec (Int × List UInt8) :=
  let bufPtr := malloc junk HFS_BLOCK_SIZE
  if fd ≤ 0 then .ret (rawResult FSUR_IO_FAIL, volUUID)
  else
    (ReadHeaderBlock dev bufPtr).bind fun r =>
      if r.1 ≠ FSUR_IO_SUCCESS then .ret (rawResult r.1, volUUID)
      else
        match r.2.2.2 with
        | none => .ub
        | some finderInfoUUIDPtr =>
          let hfs_uuid : hfs_UUID_t :=
            ⟨be32 r.2.1 finderInfoUUIDPtr, be32 r.2.1 (finderInfoUUIDPtr + 4)⟩
          let fullUUID := ConvertHFSUUIDToUUID host dg hfs_uuid
          .ret (rawResult r.1, fullUUID)

/-- The function `SetVolumeUUIDRaw(deviceNamePtr, volumeUUIDPtr)`: result code
and the device afterwards.  `fd` is the descriptor obtained from
`open(deviceNamePtr, O_RDWR, 0)`, `dev` the device behind it. -/
def SetVolumeUUIDRaw (host : ByteOrder) (junk : Nat → UInt8) (fd : Int) (dev : Device)
    (volumeUUID : hfs_UUID_t) : Exec (Int × Device) :=
  let bufPtr := malloc junk HFS_BLOCK_SIZE
  if fd ≤ 0 then .ret (rawResult FSUR_IO_FAIL, dev)
  else
    (ReadHeaderBlock dev bufPtr).bind fun r =>
      if r.1 ≠ FSUR_IO_SUCCESS then .ret (rawResult r.1, dev)
      else
        match r.2.2.2 with
        | none => .ub
        | some finderInfoUUIDPtr =>
          let buf1 := putBytes r.2.1 finderInfoUUIDPtr
            (bytes32 host (OSSwapHostToBigInt32 host volumeUUID.high))
          let buf2 := putBytes buf1 (finderInfoUUIDPtr + 4)
            (bytes32 host (OSSwapHostToBigInt32 host volumeUUID.low))
          (writeAt junk dev buf2 (r.2.2.1 + 2 * HFS_BLOCK_SIZE) HFS_BLOCK_SIZE).bind fun w =>
            .ret (rawResult w.1, w.2)

/-- One entry of the mount table that `getmntinfo` returns (`struct statfs`). -/
structure statfs where
  f_mntfromname : String
  f_fstypename : String
  f_mntonname : String
  deriving DecidableEq

/-- The function `GetHFSMountPoint(deviceNamePtr, &path)`: result code and
`*pathPtr` (`none` for `NULL`); `mounts` is the table `getmntinfo` returns. -/
def GetHFSMountPoint (mounts : List statfs) (deviceNamePtr : String) : Int × Option String :=
  if mounts.length = 0 then (FSUR_IO_FAIL, none)
  else
    match mounts.find? (fun m => deviceNamePtr = m.f_mntfromname) with
    | none => (FSUR_IO_SUCCESS, none)
    | some m =>
      if m.f_fstypename = "hfs" then (FSUR_IO_SUCCESS, some m.f_mntonname)
      else (FSUR_UNRECOGNIZED, none)

/-- Modelled from the spec: the mounted volume behind a mount point, reached by
"getattrlist/setattrlist-based metadata access for mounted volumes (a simple OS
call passthrough)".  `finderinfo` is the 32-byte Finder info that
`getattrlist` returns and `setattrlist` replaces; the three flags tell which of
the calls fail. -/
structure MountedVolume where
  finderinfo : List UInt8
  getFinderInfoFails : Bool
  getUUIDFails : Bool
  setFinderInfoFails : Bool
  deriving DecidableEq

/-- The function `GetVolumeUUIDAttr(path, volUUIDPtr)`: result code and the 16
bytes of `volUUIDPtr->uuid` afterwards.  `kernelUUID` is the full UUID that the
file system reports for `ATTR_VOL_UUID`, as a function of the Finder info. -/
def GetVolumeUUIDAttr (host : ByteOrder) (kernelUUID : List UInt8 → List UInt8)
    (vol : MountedVolume) (volUUID : List UInt8) : Int × List UInt8 :=
  if vol.getFinderInfoFails then (FSUR_IO_FAIL, volUUID)
  else
    let high := word32 host vol.finderinfo (6 * 4)
    let low := word32 host vol.finderinfo (6 * 4 + 4)
    if high = 0 ∨ low = 0 then (FSUR_IO_SUCCESS, List.replicate 16 0)
    else if vol.getUUIDFails then (FSUR_IO_FAIL, volUUID)
    else (FSUR_IO_SUCCESS, kernelUUID vol.finderinfo)

/-- The function `SetVolumeUUIDAttr(path, volumeUUIDPtr)`: result code and the
mounted volume afterwards. -/
def SetVolumeUUIDAttr (host : ByteOrder) (vol : MountedVolume) (volumeUUID : hfs_UUID_t) :
    Int × MountedVolume :=
  if vol.getFinderInfoFails then (FSUR_IO_FAIL, vol)
  else
    let info1 := putBytes vol.finderinfo (6 * 4)
      (bytes32 host (OSSwapHostToBigInt32 host volumeUUID.high))
    let info2 := putBytes info1 (6 * 4 + 4)
      (bytes32 host (OSSwapHostToBigInt32 host volumeUUID.low))
    if vol.setFinderInfoFails then (FSUR_IO_FAIL, vol)
    else (FSUR_IO_SUCCESS, { vol with finderinfo := info2 })

/-- Library call `uuid_is_null(uu)`: all 16 bytes are zero. -/
def uuid_is_null (uu : List UInt8) : Bool :=
  (uu.take 16).all (fun b => b = 0)

/-- The function `GetVolumeUUID(deviceNamePtr, rawName, voluu, generate)`:
result code, the 16 bytes of `voluu->uuid` afterwards, the mounted volume and
the device afterwards.  `vol` is the volume at the mount point found for the
device, `dev` the unmounted device, `getFd` and `setFd` the descriptors that
`GetVolumeUUIDRaw` and `SetVolumeUUIDRaw` obtain for it. -/
def GetVolumeUUID (fuel : Nat) (host : ByteOrder) (dg : Digests) (junk : Nat → UInt8)
    (samples : Nat → List UInt8) (kernelUUID : List UInt8 → List UInt8) (mounts : List statfs)
    (vol : MountedVolume) (getFd setFd : Int) (dev : Device) (deviceNamePtr : String)
    (voluu : List UInt8) (generate : Bool) : Exec (Int × List UInt8 × MountedVolume × Device) :=
  let found := GetHFSMountPoint mounts deviceNamePtr
  if found.1 ≠ FSUR_IO_SUCCESS then .ret (found.1, voluu, vol, dev)
  else
    let existing : Exec (Int × List UInt8) :=
      match found.2 with
      | some _ => .ret (GetVolumeUUIDAttr host kernelUUID vol voluu)
      | none => GetVolumeUUIDRaw host dg junk getFd dev voluu
    existing.bind fun g =>
      if g.1 ≠ FSUR_IO_SUCCESS then .ret (g.1, g.2, vol, dev)
      else if generate = true ∧ uuid_is_null g.2 = true then
        (GenerateHFSVolumeUUID fuel host dg samples).bind fun hfsuu =>
          match found.2 with
          | some _ =>
            let s := SetVolumeUUIDAttr host vol hfsuu
            .ret (s.1, g.2, s.2, dev)
          | none =>
            (SetVolumeUUIDRaw host junk setFd dev hfsuu).bind fun s =>
              .ret (s.1, g.2, vol, s.2)
      else .ret (g.1, g.2, vol, dev)

/-- A mount table that holds the root volume only. -/
def exampleMounts : List statfs :=
  [⟨"/dev/disk0s1", "apfs", "/"⟩]

/-- A mounted volume with no UUID. -/
def exampleMounted : MountedVolume :=
  ⟨List.replicate 32 0, false, false, false⟩

/-- A device of 2048 zero bytes with 512-byte blocks: no signature at all. -/
def blankDevice : Device :=
  ⟨some 512, List.replicate 2048 0⟩

/-- The example image after the legacy UUID `(7, 9)` has been stored in the
Finder-info slot of its volume header. -/
def adoptedImage : Device :=
  ⟨some 512, putBytes exampleImage.data (1024 + 104) [0, 0, 0, 7, 0, 0, 0, 9]⟩

/-- Offset on the device of the header block that `ReadHeaderBlock` ends with:
`E + 1024` for a wrapped volume with embedded offset `E`, else 1024. -/
def headerOffset (dev : Device) : Int :=
  if IsWrapped (headerBlockAt dev 1024) then embeddedOffset (headerBlockAt dev 1024) + 1024
  else 1024

/-- Offset in the header block of the Finder-info UUID slot: byte 24 of
`drFndrInfo` in a Master Directory Block, byte 24 of `finderInfo` in a Volume
Header. -/
def uuidSlot (hdr : List UInt8) : Nat :=
  if be16 hdr mdb.drSigWord = kHFSSigWord then mdb.drFndrInfo + 24 else vh.finderInfo + 24

/-- The header block carries one of the three recognised signatures. -/
def Recognised (hdr : List UInt8) : Prop :=
  be16 hdr vh.signature = kHFSSigWord ∨ be16 hdr vh.signature = kHFSPlusSigWord
    ∨ be16 hdr vh.signature = kHFSXSigWord

instance (hdr : List UInt8) : Decidable (Recognised hdr) := by
  unfold Recognised; infer_instance

/-- The block-aligned range that `readAt` and `writeAt` transfer for the
bytes `[o, o + l)` lies on the device. -/
def BlockRangeOnDevice (dev : Device) (B o l : Int) : Prop :=
  rawOffsetOf o B + rawLengthOf o l B ≤ (dev.data.length : Int)

instance (dev : Device) (B o l : Int) : Decidable (BlockRangeOnDevice dev B o l) := by
  unfold BlockRangeOnDevice; infer_instance

/-- The wrapped example image on a device with 4096-byte blocks: 4096 bytes, the
wrapped-HFS block `nearMDB` in sector 2 and the embedded HFS+ header at
`512 + 1024`, both in device block 0. -/
def bigBlockDevice : Device :=
  ⟨some 4096, wrappedDevice.data ++ List.replicate 2048 0⟩

/-- The device `bigBlockDevice` after `SetVolumeUUIDRaw` has stored `(7, 9)` with
a scratch block of zeros: the embedded header with the UUID in its slot, and
zeros all around it. -/
def clobberedDevice : Device :=
  ⟨some 4096, List.replicate 1536 0 ++ putBytes exampleVolumeHeader 104 [0, 0, 0, 7, 0, 0, 0, 9]
    ++ List.replicate 2048 0⟩

/-! ## Example images with an Extents-Overflow file -/

/-- An HFS+ volume header: signature `H+`, allocation block size 512,
Extents-Overflow file in the single extent `(startBlock = 3, blockCount = 1)`,
all eight inline catalog extents in use (one block each, blocks 4 to 11). -/
def fullCatalogHeader : List UInt8 :=
  blockWith [(0, [0x48, 0x2B]), (40, [0, 0, 2, 0]), (208, [0, 0, 0, 3, 0, 0, 0, 1]),
    (288, ((List.range 8).map (fun i => [0, 0, 0, UInt8.ofNat (4 + i), 0, 0, 0, 1])).flatten)]

/-- The header node of an empty Extents-Overflow B-tree: kind 1, no leaf
records, node size 512. -/
def emptyOverflowHeaderNode : List UInt8 :=
  blockWith [(8, [1]), (32, [2, 0])]

/-- A 2048-byte image, device block size 512: the volume header
`fullCatalogHeader` in sector 2 and the header node of an empty
Extents-Overflow tree in block 3. -/
def emptyOverflowImage : Device :=
  ⟨some 512, List.replicate 1024 0 ++ fullCatalogHeader ++ emptyOverflowHeaderNode⟩

/-! ## Specification vocabulary for the overflow-extents walk -/

/-- Record `i` (counted from 1) of a leaf node of the Extents-Overflow tree, in
trailer order: the `fileID` of its key and the 8-descriptor extent record that
follows the key.  The record starts at the 16-bit offset stored at
`nodeSize - 2 * i`. -/
def overflowRecord (buf : List UInt8) (nodeSize : Int) (i : Int) :
    Int × List HFSPlusExtentDescriptor :=
  let recOff := be16 buf (nodeSize - 2 * i).toNat
  (be32 buf (recOff + key.extentKey_fileID).toNat,
    decodeExtents buf (recOff + be16 buf (recOff + key.keyLength).toNat + 2).toNat)

/-- The records of a leaf node in trailer order. -/
def overflowRecords (buf : List UInt8) (nodeSize : Int) :
    List (Int × List HFSPlusExtentDescriptor) :=
  (List.range (be16 buf bt.numRecords).toNat).map
    (fun (j : Nat) => overflowRecord buf nodeSize (1 + (j : Int)))

/-- The maximal leading run of records whose key `fileID` is the Catalog file
ID. -/
def catalogRun (records : List (Int × List HFSPlusExtentDescriptor)) :
    List (Int × List HFSPlusExtentDescriptor) :=
  records.takeWhile (fun r => decide (r.1 = kHFSCatalogFileID))

/-- The extent records collected by a walk of the leaf nodes, from the node at
logical position `offset` along the forward links: in each node the leading run
of Catalog-file records; the walk stops at the first record of another file,
without following the forward link, or at a node whose forward link is zero.
At most `fuel` nodes are visited. -/
def overflowRun (dev : Device) (hfsPlusVolumeOffset blockSize nodeSize : Int)
    (extentsFile : List HFSPlusExtentDescriptor) :
    Nat → List UInt8 → Int → List (List HFSPlusExtentDescriptor)
  | 0, _, _ => []
  | fuel + 1, bufPtr, offset =>
    match ReadFile dev bufPtr offset nodeSize hfsPlusVolumeOffset blockSize extentsFile with
    | .ret (_, buf) =>
      let records := overflowRecords buf nodeSize
      let run := (catalogRun records).map (fun r => r.2)
      if (catalogRun records).length < records.length then run
      else if be32 buf bt.fLink = 0 then run
      else run ++ overflowRun dev hfsPlusVolumeOffset blockSize nodeSize extentsFile fuel buf
        (be32 buf bt.fLink * nodeSize)
    | _ => []

/-- The extent records of the Catalog file found in the Extents-Overflow tree
of a volume: none when the tree is empty, else the records collected by the
walk from the first leaf node. -/
def catalogOverflowRun (fuel : Nat) (junk : Nat → UInt8) (dev : Device)
    (hfsPlusVolumeOffset : Int) (volHdrPtr : List UInt8) :
    List (List HFSPlusExtentDescriptor) :=
  match GetBTreeNodeInfo junk dev hfsPlusVolumeOffset (be32 volHdrPtr vh.blockSize)
      (decodeExtents volHdrPtr vh.extentsFile_extents) with
  | .ret (_, some (nodeSize, leafNode)) =>
    if leafNode = 0 then []
    else overflowRun dev hfsPlusVolumeOffset (be32 volHdrPtr vh.blockSize) nodeSize
      (decodeExtents volHdrPtr vh.extentsFile_extents) fuel (malloc junk nodeSize)
      (leafNode * nodeSize)
  | _ => []

/-- An HFS+ volume header: signature `H+`, allocation block size 512,
Extents-Overflow file in the single extent `(startBlock = 3, blockCount = 3)`,
all eight inline catalog extents in use (one block each, blocks 6 to 13). -/
def overflowHeader : List UInt8 :=
  blockWith [(0, [0x48, 0x2B]), (40, [0, 0, 2, 0]), (208, [0, 0, 0, 3, 0, 0, 0, 3]),
    (288, ((List.range 8).map (fun i => [0, 0, 0, UInt8.ofNat (6 + i), 0, 0, 0, 1])).flatten)]

/-- The header node of an Extents-Overflow B-tree: kind 1, four leaf records,
first leaf node 1, node size 512. -/
def overflowHeaderNode : List UInt8 :=
  blockWith [(8, [1]), (20, [0, 0, 0, 4]), (24, [0, 0, 0, 1]), (32, [2, 0])]

/-- An extent key of length 10 for the file `fileID`, followed by an extent
record whose first descriptor is `(startBlock, 1)`. -/
def overflowEntry (fileID startBlock : UInt8) : List UInt8 :=
  [0, 10, 0, 0, 0, 0, 0, fileID, 0, 0, 0, 0] ++ [0, 0, 0, startBlock, 0, 0, 0, 1]
    ++ List.replicate 56 0

/-- A leaf node with forward link 2 and two records of the Catalog file (file
ID 4), at offsets 14 and 90. -/
def overflowLeaf1 : List UInt8 :=
  blockWith [(0, [0, 0, 0, 2]), (8, [0xFF]), (10, [0, 2]), (14, overflowEntry 4 20),
    (90, overflowEntry 4 21), (508, [0, 90, 0, 14])]

/-- A leaf node with forward link 7 and two records, at offsets 14 and 90: one
of the Catalog file and one of the file with ID 5. -/
def overflowLeaf2 : List UInt8 :=
  blockWith [(0, [0, 0, 0, 7]), (8, [0xFF]), (10, [0, 2]), (14, overflowEntry 4 22),
    (90, overflowEntry 5 23), (508, [0, 90, 0, 14])]

/-- A 3072-byte image, device block size 512: the volume header
`overflowHeader` in sector 2, the Extents-Overflow file (header node and two
leaf nodes) in blocks 3 to 5. -/
def overflowImage : Device :=
  ⟨some 512, List.replicate 1024 0 ++ overflowHeader ++ overflowHeaderNode ++ overflowLeaf1
    ++ overflowLeaf2⟩

/-- An extent record whose first descriptor is `(startBlock, 1)`, the other
seven empty. -/
def singleExtentRecord (startBlock : Int) : List HFSPlusExtentDescriptor :=
  ⟨startBlock, 1⟩ :: List.replicate 7 ⟨0, 0⟩

/-! ## Specification vocabulary for the name extraction -/

/-- The part of `GetNameFromHFSPlusVolumeStartingAt` that follows once the
catalog extent list is settled: the read of the catalog B-tree header node, the
read of the first leaf node and the extraction of the root name, all through
the extent list `catalogExtents`. -/
def nameFromCatalogExtents (junk : Nat → UInt8) (dev : Device) (hfsPlusVolumeOffset blockSize : Int)
    (catalogExtents : List HFSPlusExtentDescriptor) (name_o : List UInt8) :
    Exec (Int × List UInt8) :=
  (GetBTreeNodeInfo junk dev hfsPlusVolumeOffset blockSize catalogExtents).bind
    fun (result2, info) =>
    if result2 ≠ FSUR_IO_SUCCESS then .ret (result2, name_o)
    else
      match info with
      | none => .ub
      | some (catalogNodeSize, leafNode) =>
        (ReadFile dev (malloc junk catalogNodeSize) (leafNode * catalogNodeSize)
          catalogNodeSize hfsPlusVolumeOffset blockSize catalogExtents).bind
          fun (result3, bufPtr) =>
          if result3 = FSUR_IO_FAIL then .ret (result3, name_o)
          else rootNameFromLeaf bufPtr catalogNodeSize name_o

/-- The two devices hold the same bytes in `[o, o + l)`. -/
def SameBytes (d1 d2 : Device) (o l : Int) : Prop :=
  (d1.data.drop o.toNat).take l.toNat = (d2.data.drop o.toNat).take l.toNat

instance (d1 d2 : Device) (o l : Int) : Decidable (SameBytes d1 d2 o l) := by
  unfold SameBytes; infer_instance

/-- Two images of the same geometry that differ at most in the extents-file
record of the volume header (bytes 208 to 271 of the header block) and outside
the header block and the inline extents of the Catalog file: they hold the same
bytes in the rest of the header block and in every inline catalog extent. -/
def SameCatalog (d1 d2 : Device) (hfsPlusVolumeOffset : Int) : Prop :=
  d1.blocksize = d2.blocksize ∧ d1.data.length = d2.data.length ∧
  SameBytes d1 d2 (hfsPlusVolumeOffset + 1024) 208 ∧
  SameBytes d1 d2 (hfsPlusVolumeOffset + 1024 + 272) 240 ∧
  ∀ e ∈ fileExtents (decodeExtents (headerBlockAt d1 (hfsPlusVolumeOffset + 1024))
      vh.catalogFile_extents),
    extentBytes d1 hfsPlusVolumeOffset
        (be32 (headerBlockAt d1 (hfsPlusVolumeOffset + 1024)) vh.blockSize) e
      = extentBytes d2 hfsPlusVolumeOffset
        (be32 (headerBlockAt d1 (hfsPlusVolumeOffset + 1024)) vh.blockSize) e

instance (d1 d2 : Device) (o : Int) : Decidable (SameCatalog d1 d2 o) := by
  unfold SameCatalog; infer_instance

/-- The example image with another Extents-Overflow file: the extents-file
record of its volume header names the extent `(startBlock = 0, blockCount = 2)`
and block 0 is filled with `0xEE`. -/
def relinkedImage : Device :=
  ⟨some 512, putBytes (putBytes exampleImage.data (1024 + 208) [0, 0, 0, 0, 0, 0, 0, 2]) 0
    (List.replicate 512 0xEE)⟩

/-! ## Probe driver -/

/-- Library call `strlen(s)` on the array `s`: the number of bytes before the
first NUL; undefined when the array holds no NUL. -/
def strlen (s : List UInt8) : Exec Int :=
  if (0 : UInt8) ∈ s then .ret ((s.takeWhile (fun c => decide (c ≠ 0))).length : Int) else .ub

/-- The function `DoProbe(rawDeviceNamePtr, blockDeviceNamePtr)` from the
return of `GetFD` on: result code and the bytes written to standard output.
`fd` is the descriptor that `GetFD` returned, `dev` the device behind it,
`volnameUTF8` the indeterminate content of the local array of that name. -/
def DoProbe (fuel : Nat) (junk : Nat → UInt8) (fd : Int) (dev : Device)
    (volnameUTF8 : List UInt8) : Exec (Int × List UInt8) :=
  if fd < 0 then .ret (FSUR_IO_FAIL, [])
  else
    (readAt dev (malloc junk HFS_BLOCK_SIZE) (2 * HFS_BLOCK_SIZE) HFS_BLOCK_SIZE).bind
      fun (result, bufPtr) =>
      if FSUR_IO_FAIL = result then .ret (result, [])
      else
        let named : Exec (Int × List UInt8) :=
          if be16 bufPtr mdb.drSigWord = kHFSSigWord ∧
              be16 bufPtr mdb.drEmbedSigWord ≠ kHFSPlusSigWord then
            .ret (FSUR_UNRECOGNIZED, volnameUTF8)
          else if be16 bufPtr vh.signature = kHFSPlusSigWord ∨
              be16 bufPtr vh.signature = kHFSXSigWord ∨
              (be16 bufPtr mdb.drSigWord = kHFSSigWord ∧
                be16 bufPtr mdb.drEmbedSigWord = kHFSPlusSigWord) then
            if be16 bufPtr vh.signature = kHFSSigWord then
              let embedded := GetEmbeddedHFSPlusVol bufPtr 0
              if embedded.1 ≠ FSUR_IO_SUCCESS then .ret (embedded.1, volnameUTF8)
              else GetNameFromHFSPlusVolumeStartingAt fuel junk dev embedded.2 volnameUTF8
            else GetNameFromHFSPlusVolumeStartingAt fuel junk dev 0 volnameUTF8
          else .ret (FSUR_UNRECOGNIZED, volnameUTF8)
        named.bind fun (result1, volname) =>
          if FSUR_IO_SUCCESS = result1 then
            (strlen volname).bind fun n => .ret (FSUR_RECOGNIZED, volname.take n.toNat)
          else .ret (result1, [])

/-- The UTF-16 units of the name in the key of the first record of a catalog
leaf node, in host byte order. -/
def firstKeyNameUnits (node : List UInt8) (nodeSize : Int) : List Int :=
  (List.range (firstKeyNameLength node nodeSize).toNat).map
    (fun (j : Nat) =>
      be16 node (firstRecordOffset node nodeSize + key.nodeName_unicode + 2 * (j : Int)).toNat)

/-- A string of ASCII characters other than NUL. -/
def IsAsciiName (s : List UInt8) : Prop :=
  ∀ b ∈ s, b ≠ 0 ∧ b.toNat < 128

instance (s : List UInt8) : Decidable (IsAsciiName s) := by
  unfold IsAsciiName; infer_instance

/-- The UTF-16 units of an ASCII string: one unit per character, of the same
value. -/
def asciiUnits (s : List UInt8) : List Int :=
  s.map (fun b => (b.toNat : Int))

/-- A leaf node with one record at offset 14: parent ID 1, name `TestVol`
(seven UTF-16 units). -/
def testVolLeafNode : List UInt8 :=
  blockWith [(8, [0xFF]), (10, [0, 1]),
    (14, [0, 20, 0, 0, 0, 1, 0, 7, 0, 0x54, 0, 0x65, 0, 0x73, 0, 0x74, 0, 0x56, 0, 0x6F, 0, 0x6C]),
    (510, [0, 14])]

/-- A 2560-byte HFS+ image, device block size 512, whose root directory is
named `TestVol`: volume header in sector 2, catalog header node in block 3,
leaf node in block 4. -/
def testVolImage : Device :=
  ⟨some 512, List.replicate 1024 0 ++ exampleHeader ++ exampleHeaderNode ++ testVolLeafNode⟩

/-- A leaf node with one record at offset 14: parent ID 1 and the three-unit
name `A`, NUL, `C`. -/
def nulNameLeafNode : List UInt8 :=
  blockWith [(8, [0xFF]), (10, [0, 1]), (14, [0, 12, 0, 0, 0, 1, 0, 3, 0, 0x41, 0, 0, 0, 0x43]),
    (510, [0, 14])]

/-- The example image with the leaf node `nulNameLeafNode` in block 4. -/
def nulNameImage : Device :=
  ⟨some 512, List.replicate 1024 0 ++ exampleHeader ++ exampleHeaderNode ++ nulNameLeafNode⟩

/-! ## Specification vocabulary for the scratch copy of the name -/

/-- Modelled from the spec: number of elements of the `unicode` array of
`HFSUniStr255` ("the fixed name buffer of 255 16-bit units"). -/
def unicodeCapacity : Int := 255

/-- The indices of `swapped->unicode` that the name copy stores to for a name
of `n` units: the loop `for (i = 0; i < swapped->length; i++)` stores at
`0 .. n - 1` and the statement `swapped->unicode[i] = 0` after it at `i = n`. -/
def swappedStores (n : Nat) : List Int :=
  (List.range n).map (fun (i : Nat) => (i : Int)) ++ [(n : Int)]

/-! ## Example images with stray node geometry -/

/-- The header node of a catalog B-tree that reports a node size of 8 bytes,
less than the 14-byte node descriptor: kind 1, one leaf record, first leaf
node 1. -/
def tinyNodeHeaderNode : List UInt8 :=
  blockWith [(8, [1]), (20, [0, 0, 0, 1]), (24, [0, 0, 0, 1]), (32, [0, 8])]

/-- A 2560-byte HFS+ image, device block size 512: volume header in sector 2
and, in block 3, a catalog header node that reports a node size of 8. -/
def tinyNodeImage : Device :=
  ⟨some 512, List.replicate 1024 0 ++ exampleHeader ++ tinyNodeHeaderNode ++ exampleLeafNode⟩

/-- A 3072-byte image, device block size 512: the volume header
`overflowHeader` in sector 2, the header node of the Extents-Overflow tree in
block 3 and, as its first leaf node in block 4, a node with one record whose
stored offset `0xFFFF` lies outside the 512-byte node. -/
def strayOverflowImage : Device :=
  ⟨some 512, List.replicate 1024 0 ++ overflowHeader ++ overflowHeaderNode ++ strayLeafNode
    ++ overflowLeaf2⟩

/-- A leaf node of the Extents-Overflow tree with no record whose forward link
is 1. -/
def selfLinkLeaf : List UInt8 :=
  blockWith [(0, [0, 0, 0, 1]), (8, [0xFF])]

/-- A 3072-byte image, device block size 512: the volume header
`overflowHeader` in sector 2, the header node of the Extents-Overflow tree in
block 3 and, in block 4, its first leaf node (node 1), whose forward link
points to node 1 itself. -/
def selfLinkImage : Device :=
  ⟨some 512, List.replicate 1024 0 ++ overflowHeader ++ overflowHeaderNode ++ selfLinkLeaf
    ++ List.replicate 512 0⟩

/-! ## Example devices for the probe -/

/-- The Master Directory Block of a plain classic-HFS volume named `MyDisk`:
signature `BD`, 10 allocation blocks of 512 bytes, first allocation block 3,
no embedded volume. -/
def plainMDB : List UInt8 :=
  blockWith [(0, [0x42, 0x44]), (18, [0, 10]), (20, [0, 0, 2, 0]), (28, [0, 3]),
    (36, [6, 0x4D, 0x79, 0x44, 0x69, 0x73, 0x6B])]

/-- A 8192-byte device, block size 512, whose sector 2 is the Master Directory
Block of the plain classic-HFS volume. -/
def plainHFSDevice : Device :=
  ⟨some 512, List.replicate 1024 0 ++ plainMDB ++ List.replicate 6656 0⟩

/-- A 3072-byte device, block size 512: sector 2 is the wrapped-HFS block
`nearMDB`; the embedded HFS+ volume at offset 512 is named `TestVol`, with its
volume header at `512 + 1024`, its catalog header node in block 3 and the leaf
node in block 4 of the embedded volume. -/
def wrappedTestVolImage : Device :=
  ⟨some 512, List.replicate 1024 0 ++ nearMDB ++ exampleHeader ++ exampleHeaderNode
    ++ testVolLeafNode⟩

/-! ## Argument parser -/

/-- Modelled from the spec: status code "invalid argument", `FSUR_INVAL` of
`<sys/loadable_fs.h>`. -/
def FSUR_INVAL : Int := -11

/-- Modelled from the spec: action letter of `<sys/loadable_fs.h>`, `-p (Probe
for mounting)` in the usage text. -/
def FSUC_PROBE : Char := 'p'
/-- Modelled from the spec: action letter of `<sys/loadable_fs.h>`, `-u
(Unmount)` in the usage text. -/
def FSUC_UNMOUNT : Char := 'u'
/-- Modelled from the spec: action letter of `<sys/loadable_fs.h>`, `-m
(Mount)` in the usage text. -/
def FSUC_MOUNT : Char := 'm'
/-- Modelled from the spec: action letter of `<sys/loadable_fs.h>`, `-M (Force
Mount)` in the usage text. -/
def FSUC_MOUNT_FORCE : Char := 'M'
/-- The action letter `FSUC_ADOPT` (adopt a volume). -/
def FSUC_ADOPT : Char := 'a'
/-- The action letter `FSUC_DISOWN` (disown a volume). -/
def FSUC_DISOWN : Char := 'd'
/-- The action letter `FSUC_GETUUID` (print the volume UUID). -/
def FSUC_GETUUID : Char := 'k'
/-- The action letter `FSUC_SETUUID` (set the volume UUID). -/
def FSUC_SETUUID : Char := 's'
/-- The action letter `FSUC_MKJNL` (make a journal). -/
def FSUC_MKJNL : Char := 'J'
/-- The action letter `FSUC_UNJNL` (remove the journal). -/
def FSUC_UNJNL : Char := 'U'
/-- The action letter `FSUC_UNJNL_RAW` (remove the journal of an unmounted volume). -/
def FSUC_UNJNL_RAW : Char := 'N'
/-- The action letter `FSUC_JNLINFS_RAW` (journal inside the file system of an unmounted volume). -/
def FSUC_JNLINFS_RAW : Char := 'e'
/-- The action letter `FSUC_EXTJNL_RAW` (external journal of an unmounted volume). -/
def FSUC_EXTJNL_RAW : Char := 'E'
/-- The action letter `FSUC_JNLINFO` (print journal information). -/
def FSUC_JNLINFO : Char := 'I'

/-- Modelled from the spec: `INT_MAX` of `<limits.h>` for a 32-bit `int`. -/
def INT_MAX : Int := 2147483647

/-- Modelled from the spec: `ULONG_MAX` of `<limits.h>` for a 64-bit
`unsigned long`. -/
def ULONG_MAX : Nat := 2 ^ 64 - 1

/-- Character `i` of the C string `s`: `s[i]`, the terminating NUL at its
end. -/
def charAt (s : String) (i : Nat) : Char :=
  s.data.getD i (Char.ofNat 0)

/-- Library call `isdigit(c)`. -/
def isdigit (c : Char) : Bool :=
  decide ('0' ≤ c ∧ c ≤ '9')

/-- Value of `c` as a digit of `strtoul`: `0` to `9`, then the letters in either
case from 10 on. -/
def digitOf (c : Char) : Option Nat :=
  if '0' ≤ c ∧ c ≤ '9' then some (c.toNat - 48)
  else if 'a' ≤ c ∧ c ≤ 'z' then some (c.toNat - 97 + 10)
  else if 'A' ≤ c ∧ c ≤ 'Z' then some (c.toNat - 65 + 10)
  else none

/-- The digit loop of `strtoul` in base `base`: the value, `ULONG_MAX` once it
overflows, and the unread rest of the string. -/
def strtoulLoop (base : Nat) : List Char → Nat → Nat × List Char
  | [], acc => (acc, [])
  | c :: cs, acc =>
    match digitOf c with
    | some d =>
      if d < base then strtoulLoop base cs (min (acc * base + d) ULONG_MAX) else (acc, c :: cs)
    | none => (acc, c :: cs)

/-- Library call `strtoul(s, &ptr, 0)` on a string that starts with a digit:
the value and the rest of the string at `ptr`.  A prefix `0x` or `0X` before a
hexadecimal digit selects base 16, another leading `0` base 8. -/
def strtoul (s : List Char) : Nat × List Char :=
  match s with
  | '0' :: x :: h :: rest =>
    if (x = 'x' ∨ x = 'X') ∧ (digitOf h).any (fun d => decide (d < 16)) then
      strtoulLoop 16 (h :: rest) 0
    else strtoulLoop 8 s 0
  | '0' :: _ => strtoulLoop 8 s 0
  | _ => strtoulLoop 10 s 0

/-- The function `get_multiplier(c)`. -/
def get_multiplier (c : Char) : Int :=
  if c.toLower = 'k' then 1024
  else if c.toLower = 'm' then 1024 * 1024
  else if c.toLower = 'g' then 1024 * 1024 * 1024
  else 1

/-- What `ParseArgs` leaves behind besides its result: the variables behind its
output pointers, the global `gJournalSize`, whether `DoDisplayUsage` was
called, and the words reported by the `unrecognized flag` messages. -/
structure ParsedArgs where
  action : List Char
  mountPoint : Option String
  isEjectable : Int
  isLocked : Int
  isSetuid : Int
  isDev : Int
  gJournalSize : Int
  usageShown : Bool
  unrecognizedFlags : List String
  deriving DecidableEq

/-- The statement `DoDisplayUsage(argv); goto Return;` with `result` still
`FSUR_INVAL`. -/
def usageAndReturn (out : ParsedArgs) : Int × ParsedArgs :=
  (FSUR_INVAL, { out with usageShown := true })

/-- One flag word of `ParseArgs`, the chain `if (0 == strcmp(word, yes)) *flag
= 1; else if (0 == strcmp(word, no)) *flag = 0; else printf(...)`: the flag
afterwards and the words reported so far as unrecognized. -/
def parseFlag (word yes no : String) (flag : Int) (reported : List String) : Int × List String :=
  if word = yes then (1, reported)
  else if word = no then (0, reported)
  else (flag, reported ++ [word])

/-- The part of `ParseArgs` after the `switch`: the check of the device name
and the flag words from `argv[index]` on. -/
def checkDeviceAndFlags (argv : List String) (index : Nat) (mounting doLengthCheck : Bool)
    (out : ParsedArgs) : Int × ParsedArgs :=
  if doLengthCheck = true ∧ (((argv.getD 2 "").utf8ByteSize : Int) < 3 ∨
      ((argv.getD 2 "").utf8ByteSize : Int) > NAME_MAX) then usageAndReturn out
  else if index ≠ 0 then
    let f1 := parseFlag (argv.getD index "") "removable" "fixed" out.isEjectable
      out.unrecognizedFlags
    let f2 := parseFlag (argv.getD (index + 1) "") "readonly" "writable" out.isLocked f1.2
    if mounting = true then
      let f3 := parseFlag (argv.getD (index + 2) "") "suid" "nosuid" out.isSetuid f2.2
      let f4 := parseFlag (argv.getD (index + 3) "") "dev" "nodev" out.isDev f3.2
      (0, { out with isEjectable := f1.1, isLocked := f2.1, isSetuid := f3.1, isDev := f4.1,
                     unrecognizedFlags := f4.2 })
    else (0, { out with isEjectable := f1.1, isLocked := f2.1, unrecognizedFlags := f2.2 })
  else (0, out)

/-- The function `ParseArgs(argc, argv, actionPtr, mountPointPtr,
isEjectablePtr, isLockedPtr, isSetuidPtr, isDevPtr)` with `argc = argv.length`:
its result, `none` when the `assert` of the journal-size branch stops the
program, and the outputs; `out` holds the outputs before the call. -/
def ParseArgs (argv : List String) (out : ParsedArgs) : Exec (Option Int × ParsedArgs) :=
  let argc := argv.length
  if argc < 3 ∨ charAt (argv.getD 1 "") 0 ≠ '-' then
    .ret (some (usageAndReturn out).1, (usageAndReturn out).2)
  else
    let out1 : ParsedArgs := { out with action := (argv.getD 1 "").data.drop 1 }
    let c := charAt (argv.getD 1 "") 1
    let rest (index : Nat) (mounting doLengthCheck : Bool) (o : ParsedArgs) :
        Exec (Option Int × ParsedArgs) :=
      .ret (some (checkDeviceAndFlags argv index mounting doLengthCheck o).1,
        (checkDeviceAndFlags argv index mounting doLengthCheck o).2)
    if c = FSUC_PROBE then
      if argc < 5 then .ret (some (usageAndReturn out1).1, (usageAndReturn out1).2)
      else rest 3 false true out1
    else if c = FSUC_UNMOUNT then
      rest 0 false true { out1 with mountPoint := argv[3]? }
    else if c = FSUC_MOUNT ∨ c = FSUC_MOUNT_FORCE then
      if argc < 8 then .ret (some (usageAndReturn out1).1, (usageAndReturn out1).2)
      else rest 4 true true { out1 with mountPoint := argv[3]? }
    else if c = FSUC_GETUUID ∨ c = FSUC_SETUUID ∨ c = FSUC_ADOPT ∨ c = FSUC_DISOWN then
      rest 0 false true out1
    else if c = FSUC_MKJNL then
      if isdigit (charAt (argv.getD 2 "") 0) = true then
        let size : Int := ((strtoul (argv.getD 2 "").data).1 : Int)
        let ptr := (strtoul (argv.getD 2 "").data).2
        if ¬ size < INT_MAX then .ret (none, out1)
        else if size * get_multiplier (ptr.headD (Char.ofNat 0)) > INT_MAX then .ub
        else
          .ret (some 0,
            { out1 with gJournalSize := size * get_multiplier (ptr.headD (Char.ofNat 0)) })
      else rest 0 false false out1
    else if c = FSUC_UNJNL ∨ c = FSUC_UNJNL_RAW ∨ c = FSUC_JNLINFS_RAW ∨ c = FSUC_EXTJNL_RAW ∨
        c = FSUC_JNLINFO then
      rest 0 false false out1
    else .ret (some (usageAndReturn out1).1, (usageAndReturn out1).2)

/-- The outputs before a call of `ParseArgs`: nothing parsed yet. -/
def noArgs : ParsedArgs :=
  ⟨[], none, 0, 0, 0, 0, 0, false, []⟩

/-! ## Volume status database -/

/-- Modelled from the spec: error number `EINVAL` of `<errno.h>`. -/
def EINVAL : Int := 22

/-- The status bit `VOLUME_RECORDED`: the volume has a record in the database. -/
def VOLUME_RECORDED : Nat := 0x80000000
/-- The status bit `VOLUME_USEPERMISSIONS`: permissions are honoured on the volume. -/
def VOLUME_USEPERMISSIONS : Nat := 0x00000001
/-- The status bits that may be stored, `VOLUME_VALIDSTATUSBITS`. -/
def VOLUME_VALIDSTATUSBITS : Nat := VOLUME_USEPERMISSIONS
/-- The signature of a valid database handle, `DBHANDLESIGNATURE`. -/
def DBHANDLESIGNATURE : Nat := 0x75917737

/-- The operator `~` on an `unsigned long` of 64 bits. -/
def complement64 (x : Nat) : Nat :=
  2 ^ 64 - 1 - x % 2 ^ 64

/-- The volume status database file `/var/db/volinfo.database` as the program
meets it.  `openErrno` is the `errno` left by `open` when the file can be
opened neither for reading and writing nor for reading only, 0 when it can be
opened; `writable` tells that it is opened for reading and writing, so that
`write` succeeds; `flockResult` is the result of `flock`; `records` are the
well-formed records of the file in order, each the 16-byte UUID of its key
and the status flags written as 8 hexadecimal digits. -/
structure StatusDB where
  openErrno : Int
  writable : Bool
  flockResult : Int
  records : List (List UInt8 × Nat)
  deriving DecidableEq

/-- The field of `struct VSDBState` that the handle checks look at. -/
structure VSDBState where
  signature : Nat
  deriving DecidableEq

/-- The function `OpenVolumeStatusDB(DBHandlePtr)`: result and `*DBHandlePtr`
(`none` for `NULL`).  The database holds full-UUID records, so that
`ConvertVolumeStatusDB`, whose result is dropped, leaves it alone. -/
def OpenVolumeStatusDB (db : StatusDB) : Int × Option VSDBState :=
  if db.openErrno ≠ 0 then (db.openErrno, none)
  else (0, some ⟨DBHANDLESIGNATURE⟩)

/-- The loop of `FindVolumeRecordByUUID` over the records from the current one
on: the number of records read before the first one whose key is `volumeID`,
`none` when the records end without a match. -/
def findRecord (volumeID : List UInt8) : List (List UInt8 × Nat) → Option Nat
  | [] => none
  | r :: rs =>
    if r.1 = volumeID then some 0 else (findRecord volumeID rs).map (fun i => i + 1)

/-- The function `FindVolumeRecordByUUID(dbstateptr, volumeID, targetEntry,
options)`: the position of the first record whose key is `volumeID`, `none`
for the result -1. -/
def FindVolumeRecordByUUID (db : StatusDB) (volumeID : List UInt8) : Option Nat :=
  findRecord volumeID db.records

/-- The function `GetVolumeStatusDBEntry(DBHandle, volumeID, VolumeStatus)`:
result and `*VolumeStatus` afterwards. -/
def GetVolumeStatusDBEntry (db : StatusDB) (DBHandle : VSDBState) (volumeID : List UInt8)
    (VolumeStatus : Nat) : Int × Nat :=
  if DBHandle.signature ≠ DBHANDLESIGNATURE then (EINVAL, VolumeStatus)
  else if db.flockResult ≠ 0 then (db.flockResult, VolumeStatus)
  else
    match FindVolumeRecordByUUID db volumeID with
    | none => (-1, VolumeStatus)
    | some i => (0, VOLUME_RECORDED ||| (db.records.getD i ([], 0)).2)

/-- The function `SetVolumeStatusDBEntry(DBHandle, volumeID, VolumeStatus)`:
result and the database afterwards.  The results of `UpdateVolumeRecord` and
`AddVolumeRecord` are overwritten by `result = 0`. -/
def SetVolumeStatusDBEntry (db : StatusDB) (DBHandle : VSDBState) (volumeID : List UInt8)
    (VolumeStatus : Nat) : Int × StatusDB :=
  if DBHandle.signature ≠ DBHANDLESIGNATURE then (EINVAL, db)
  else if VolumeStatus &&& complement64 VOLUME_VALIDSTATUSBITS ≠ 0 then (EINVAL, db)
  else if db.flockResult ≠ 0 then (db.flockResult, db)
  else
    let dbentry : List UInt8 × Nat := (volumeID, VolumeStatus % 2 ^ 32)
    match FindVolumeRecordByUUID db volumeID with
    | some i => (0, if db.writable = true then { db with records := db.records.set i dbentry } else db)
    | none => (0, if db.writable = true then { db with records := db.records ++ [dbentry] } else db)

/-- The function `CloseVolumeStatusDB(DBHandle)`. -/
def CloseVolumeStatusDB (DBHandle : VSDBState) : Int :=
  if DBHandle.signature ≠ DBHANDLESIGNATURE then EINVAL else 0

/-- The statements that `DoAdopt` and `DoDisown` share, from the call of
`OpenVolumeStatusDB` to the label `Err_Return`; the two functions differ in the
expression `newStatus` for the status to store only.  Result, the database
afterwards and the status handed to `SetVolumeStatusDBEntry`, if it was
called.  `targetVolumeStatus` is the indeterminate value of the local variable
of that name. -/
def updateVolumeStatus (newStatus : Nat → Nat) (db : StatusDB) (targetVolumeUUID : List UInt8)
    (targetVolumeStatus : Nat) : Exec (Int × StatusDB × Option Nat) :=
  let opened := OpenVolumeStatusDB db
  let atErrExit : Exec (Int × StatusDB × Option Nat) :=
    if opened.1 ≠ 0 then .ret (opened.1, db, none)
    else
      match opened.2 with
      | none => .ub
      | some vsdbhandle =>
        let got := GetVolumeStatusDBEntry db vsdbhandle targetVolumeUUID targetVolumeStatus
        let status0 := if got.1 ≠ 0 then 0 else got.2
        let status := newStatus status0
        let set := SetVolumeStatusDBEntry db vsdbhandle targetVolumeUUID status
        if set.1 ≠ 0 then .ret (set.1, set.2, some status)
        else .ret (FSUR_IO_SUCCESS, set.2, some status)
  atErrExit.bind fun (result, db1, stored) =>
    let result1 :=
      match opened.2 with
      | some vsdbhandle =>
        if result = FSUR_IO_SUCCESS then CloseVolumeStatusDB vsdbhandle else result
      | none => result
    .ret (if result1 ≠ 0 ∧ result1 ≠ FSUR_IO_SUCCESS then FSUR_IO_FAIL else result1, db1, stored)

/-- The function `DoAdopt(theDeviceNamePtr, rawName)`: result, the status
database afterwards and the status handed to `SetVolumeStatusDBEntry`, if it
was called.  The volume is reached as in `GetVolumeUUID`. -/
def DoAdopt (fuel : Nat) (host : ByteOrder) (dg : Digests) (junk : Nat → UInt8)
    (samples : Nat → List UInt8) (kernelUUID : List UInt8 → List UInt8) (mounts : List statfs)
    (vol : MountedVolume) (getFd setFd : Int) (dev : Device) (theDeviceNamePtr : String)
    (targetVolumeUUID : List UInt8) (targetVolumeStatus : Nat) (db : StatusDB) :
    Exec (Int × StatusDB × Option Nat) :=
  (GetVolumeUUID fuel host dg junk samples kernelUUID mounts vol getFd setFd dev theDeviceNamePtr
    targetVolumeUUID true).bind fun g =>
    if g.1 ≠ FSUR_IO_SUCCESS then .ret (g.1, db, none)
    else
      updateVolumeStatus (fun s => (s &&& VOLUME_VALIDSTATUSBITS) ||| VOLUME_USEPERMISSIONS) db
        g.2.1 targetVolumeStatus

/-- The function `DoDisown(theDeviceNamePtr, rawName)`: result, the status
database afterwards and the status handed to `SetVolumeStatusDBEntry`, if it
was called. -/
def DoDisown (fuel : Nat) (host : ByteOrder) (dg : Digests) (junk : Nat → UInt8)
    (samples : Nat → List UInt8) (kernelUUID : List UInt8 → List UInt8) (mounts : List statfs)
    (vol : MountedVolume) (getFd setFd : Int) (dev : Device) (theDeviceNamePtr : String)
    (targetVolumeUUID : List UInt8) (targetVolumeStatus : Nat) (db : StatusDB) :
    Exec (Int × StatusDB × Option Nat) :=
  (GetVolumeUUID fuel host dg junk samples kernelUUID mounts vol getFd setFd dev theDeviceNamePtr
    targetVolumeUUID true).bind fun g =>
    if g.1 ≠ FSUR_IO_SUCCESS then .ret (g.1, db, none)
    else
      updateVolumeStatus
        (fun s => (s &&& VOLUME_VALIDSTATUSBITS) &&& complement64 VOLUME_USEPERMISSIONS) db
        g.2.1 targetVolumeStatus

/-- An empty status database that can be opened for reading and writing. -/
def emptyStatusDB : StatusDB :=
  ⟨0, true, 0, []⟩


/-! ## Specification vocabulary for `off_t` arithmetic -/

/-- A value of the signed 64-bit C type `off_t`. -/
def IsOffT (x : Int) : Prop := -(2 ^ 63) ≤ x ∧ x < 2 ^ 63

instance (x : Int) : Decidable (IsOffT x) := by unfold IsOffT; infer_instance

/-- The values that `temp` takes in `LogicalToPhysical` once the scan has ended
at extent `e` with remaining index `r`, `offset1` being the offset inside the
allocation block, are values of `off_t`: the two products `temp *= blockSize`,
the physical offset `temp + offset` and the byte count `temp -= offset`.
When one of them is not, the C computation overflows a signed integer and is
undefined. -/
def TempsFitOffT (blockSize offset1 : Int) (e : HFSPlusExtentDescriptor) (r : Int) : Prop :=
  IsOffT (((e.startBlock + r) % 2 ^ 32) * blockSize) ∧
  IsOffT (((e.startBlock + r) % 2 ^ 32) * blockSize + offset1) ∧
  IsOffT (((e.blockCount - r) % 2 ^ 32) * blockSize) ∧
  IsOffT (((e.blockCount - r) % 2 ^ 32) * blockSize - offset1)

instance (blockSize offset1 : Int) (e : HFSPlusExtentDescriptor) (r : Int) :
    Decidable (TempsFitOffT blockSize offset1 e r) := by
  unfold TempsFitOffT; infer_instance

/-- The call `LogicalToPhysical(offset, length, blockSize, ...)` stays within
`off_t`: when its scan finds an extent, the values of `temp` computed from it
are values of `off_t`. -/
def CallFitsOffT (offset blockSize : Int) (extentList : List HFSPlusExtentDescriptor) : Prop :=
  match findExtent ((offset.tdiv blockSize) % 2 ^ 32) extentList with
  | none => True
  | some (e, r) => TempsFitOffT blockSize (offset.tmod blockSize) e r

instance (offset blockSize : Int) (extentList : List HFSPlusExtentDescriptor) :
    Decidable (CallFitsOffT offset blockSize extentList) := by
  unfold CallFitsOffT; split <;> infer_instance

/-! # Theorems -/

/-! ## Arithmetic of the aligned range -/

theorem rawOffsetOf_eq (offset B : Int) (h0 : 0 ≤ offset) (hB : 1 ≤ B) :
    rawOffsetOf offset B = offset / B * B := by
  unfold rawOffsetOf
  rw [Int.tdiv_eq_ediv h0 (by omega)]

theorem rawOffsetOf_bounds (offset B : Int) (h0 : 0 ≤ offset) (hB : 1 ≤ B) :
    0 ≤ rawOffsetOf offset B ∧ rawOffsetOf offset B ≤ offset ∧ offset < rawOffsetOf offset B + B := by
  rw [rawOffsetOf_eq offset B h0 hB]
  have h1 := Int.ediv_mul_le offset (b := B) (by omega)
  have h2 := Int.lt_ediv_add_one_mul_self offset (b := B) (by omega)
  have h3 : 0 ≤ offset / B := Int.ediv_nonneg h0 (by omega)
  have h4 : 0 ≤ offset / B * B := Int.mul_nonneg h3 (by omega)
  refine ⟨h4, h1, ?_⟩
  have : (offset / B + 1) * B = offset / B * B + B := by ring
  omega

theorem rawLengthOf_eq (offset length B : Int) (h0 : 0 ≤ offset) (h1 : 0 ≤ length) (hB : 1 ≤ B) :
    rawLengthOf offset length B = (length + (offset - rawOffsetOf offset B) + B - 1) / B * B := by
  have hb := rawOffsetOf_bounds offset B h0 hB
  unfold rawLengthOf
  rw [Int.tdiv_eq_ediv (by omega) (by omega)]

theorem rawLengthOf_bounds (offset length B : Int) (h0 : 0 ≤ offset) (h1 : 0 ≤ length) (hB : 1 ≤ B) :
    length + (offset - rawOffsetOf offset B) ≤ rawLengthOf offset length B ∧
    rawLengthOf offset length B < length + (offset - rawOffsetOf offset B) + B ∧
    B ∣ rawLengthOf offset length B := by
  have hb := rawOffsetOf_bounds offset B h0 hB
  rw [rawLengthOf_eq offset length B h0 h1 hB]
  generalize length + (offset - rawOffsetOf offset B) = n
  have h2 := Int.ediv_mul_le (n + B - 1) (b := B) (by omega)
  have h3 := Int.lt_ediv_add_one_mul_self (n + B - 1) (b := B) (by omega)
  have : ((n + B - 1) / B + 1) * B = (n + B - 1) / B * B + B := by ring
  refine ⟨by omega, by omega, Dvd.intro_left _ rfl⟩


/-! ## `readAt` -/

theorem readAt_ioctl_fails (dev : Device) (bufPtr : List UInt8) (offset length : Int)
    (hb : dev.blocksize = none) :
    readAt dev bufPtr offset length = .ret (FSUR_IO_FAIL, bufPtr) := by
  simp [readAt, hb]

theorem read_length (dev : Device) (pos n : Int) :
    ((read dev pos n).length : Int) = min (n.toNat : Int) ((dev.data.length - pos.toNat : Nat) : Int) := by
  simp [read, List.length_take, List.length_drop]

theorem readAt_fits (dev : Device) (bufPtr : List UInt8) (offset length B : Int)
    (hb : dev.blocksize = some B) (hB : 1 ≤ B) (h0 : 0 ≤ offset) (h1 : 0 ≤ length)
    (hfit : rawLengthOf offset length B ≤ max ((dev.data.length : Int) - rawOffsetOf offset B) 0) :
    readAt dev bufPtr offset length =
      .ret (FSUR_IO_SUCCESS, (dev.data.drop offset.toNat).take length.toNat ++ bufPtr.drop length.toNat) := by
  have hro := rawOffsetOf_bounds offset B h0 hB
  have hrl := rawLengthOf_bounds offset length B h0 h1 hB
  have hlen := read_length dev (rawOffsetOf offset B) (rawLengthOf offset length B)
  have hB0 : B ≠ 0 := by omega
  have hseek : lseek (rawOffsetOf offset B) = rawOffsetOf offset B := by
    unfold lseek; rw [if_neg (by omega)]
  have hrd : ((read dev (rawOffsetOf offset B) (rawLengthOf offset length B)).length : Int)
      = rawLengthOf offset length B := by
    rw [hlen]; omega
  simp only [readAt, hb, hB0, if_false, hseek, ne_eq, not_true_eq_false, hrd]
  rw [if_neg (by omega), if_neg (by omega), if_pos ⟨by omega, h1, by omega⟩]
  congr 2
  unfold bcopy read
  congr 1
  rw [List.drop_take, List.drop_drop, List.take_take]
  have e1 : (rawOffsetOf offset B).toNat + (offset - rawOffsetOf offset B).toNat = offset.toNat := by omega
  rw [e1]
  congr 1
  omega

theorem readAt_short (dev : Device) (bufPtr : List UInt8) (offset length B : Int)
    (hb : dev.blocksize = some B) (hB : 1 ≤ B) (h0 : 0 ≤ offset) (h1 : 0 ≤ length)
    (hshort : max ((dev.data.length : Int) - rawOffsetOf offset B) 0 < rawLengthOf offset length B) :
    readAt dev bufPtr offset length = .ret (FSUR_IO_FAIL, bufPtr) := by
  have hro := rawOffsetOf_bounds offset B h0 hB
  have hrl := rawLengthOf_bounds offset length B h0 h1 hB
  have hlen := read_length dev (rawOffsetOf offset B) (rawLengthOf offset length B)
  have hB0 : B ≠ 0 := by omega
  have hseek : lseek (rawOffsetOf offset B) = rawOffsetOf offset B := by
    unfold lseek; rw [if_neg (by omega)]
  have hrd : ((read dev (rawOffsetOf offset B) (rawLengthOf offset length B)).length : Int)
      ≠ rawLengthOf offset length B := by
    rw [hlen]; omega
  simp only [readAt, hb, hB0, if_false, hseek, ne_eq, not_true_eq_false]
  rw [if_neg (by omega), if_neg (by omega), if_pos hrd]

/-! ## `LogicalToPhysical` -/

theorem findExtent_inside (extentList : List HFSPlusExtentDescriptor) :
    ∀ (b : Int) (k : Nat) (e : HFSPlusExtentDescriptor) (r : Int),
      (∀ e1 ∈ extentList, 0 ≤ e1.blockCount) → 0 ≤ b → b < 2 ^ 32 →
      FallsInside extentList b k e r → findExtent b extentList = some (e, r) := by
  induction extentList with
  | nil =>
    intro b k e r _ _ _ h
    simp [FallsInside] at h
  | cons e0 rest ih =>
    intro b k e r hnn hb0 hb1 h
    obtain ⟨hk, hnz, hr, hr0, hr1⟩ := h
    cases k with
    | zero =>
      simp at hk hr
      subst hk
      subst hr
      have : e0.blockCount ≠ 0 := by omega
      simp [findExtent, this, hr1]
    | succ k =>
      simp only [List.getElem?_cons_succ] at hk
      simp only [List.take_succ_cons, List.mem_cons, forall_eq_or_imp, List.map_cons,
        List.sum_cons] at hnz hr
      have hc0 : 0 ≤ e0.blockCount := hnn e0 (List.mem_cons_self _ _)
      have hsum : 0 ≤ ((rest.take k).map (fun e1 => e1.blockCount)).sum := by
        apply List.sum_nonneg
        intro x hx
        simp only [List.mem_map] at hx
        obtain ⟨e1, he1, rfl⟩ := hx
        exact hnn e1 (List.mem_cons_of_mem _ (List.mem_of_mem_take he1))
      have hge : ¬ b < e0.blockCount := by omega
      have hmod : (b - e0.blockCount) % 2 ^ 32 = b - e0.blockCount :=
        Int.emod_eq_of_lt (by omega) (by omega)
      simp only [findExtent, hnz.1, if_false, hge, hmod]
      apply ih (b - e0.blockCount) k e r
      · intro e1 he1; exact hnn e1 (List.mem_cons_of_mem _ he1)
      · omega
      · omega
      · exact ⟨hk, hnz.2, by omega, hr0, hr1⟩

theorem findExtent_past_end (extentList : List HFSPlusExtentDescriptor) :
    ∀ (b : Int), (∀ e1 ∈ extentList, 0 ≤ e1.blockCount) → b < 2 ^ 32 →
      fileBlocks extentList ≤ b → findExtent b extentList = none := by
  induction extentList with
  | nil => intro b _ _ _; rfl
  | cons e0 rest ih =>
    intro b hnn hb1 h
    by_cases hz : e0.blockCount = 0
    · simp [findExtent, hz]
    · have hc0 : 0 ≤ e0.blockCount := hnn e0 (List.mem_cons_self _ _)
      have hfb : fileBlocks (e0 :: rest) = e0.blockCount + fileBlocks rest := by
        simp [fileBlocks, fileExtents, hz]
      have hrest : 0 ≤ fileBlocks rest := by
        unfold fileBlocks
        apply List.sum_nonneg
        intro x hx
        simp only [List.mem_map] at hx
        obtain ⟨e1, he1, rfl⟩ := hx
        have : ∀ (l : List HFSPlusExtentDescriptor) (x : HFSPlusExtentDescriptor),
            x ∈ fileExtents l → x ∈ l := by
          intro l
          induction l with
          | nil => intro x hx; simp [fileExtents] at hx
          | cons a t iht =>
            intro x hx
            simp only [fileExtents] at hx
            split at hx
            · simp at hx
            · rcases List.mem_cons.1 hx with h1 | h1
              · exact h1 ▸ List.mem_cons_self _ _
              · exact List.mem_cons_of_mem _ (iht x h1)
        exact hnn e1 (List.mem_cons_of_mem _ (this rest e1 he1))
      rw [hfb] at h
      have hge : ¬ b < e0.blockCount := by omega
      have hmod : (b - e0.blockCount) % 2 ^ 32 = b - e0.blockCount :=
        Int.emod_eq_of_lt (by omega) (by omega)
      simp only [findExtent, hz, if_false, hge, hmod]
      apply ih (b - e0.blockCount)
      · intro e1 he1; exact hnn e1 (List.mem_cons_of_mem _ he1)
      · omega
      · omega

theorem mem_of_mem_fileExtents (l : List HFSPlusExtentDescriptor) (x : HFSPlusExtentDescriptor)
    (hx : x ∈ fileExtents l) : x ∈ l := by
  induction l with
  | nil => simp [fileExtents] at hx
  | cons a t iht =>
    simp only [fileExtents] at hx
    split at hx
    · simp at hx
    · rcases List.mem_cons.1 hx with h1 | h1
      · exact h1 ▸ List.mem_cons_self _ _
      · exact List.mem_cons_of_mem _ (iht h1)

theorem LogicalToPhysical_unfold (offset length blockSize : Int)
    (extentList : List HFSPlusExtentDescriptor) (hbs : 1 ≤ blockSize) (hoff : 0 ≤ offset) :
    LogicalToPhysical offset length blockSize extentList =
      match findExtent ((offset / blockSize) % 2 ^ 32) extentList with
      | none => .ret (FSUR_IO_FAIL, none)
      | some (e, r) =>
        .ret (FSUR_IO_SUCCESS, some (((e.startBlock + r) % 2 ^ 32) * blockSize + offset % blockSize,
          if ((e.blockCount - r) % 2 ^ 32) * blockSize - offset % blockSize < length
          then ((e.blockCount - r) % 2 ^ 32) * blockSize - offset % blockSize else length)) := by
  have h0 : blockSize ≠ 0 := by omega
  simp only [LogicalToPhysical, h0, if_false, Int.tdiv_eq_ediv hoff (by omega : (0:Int) ≤ blockSize),
    Int.tmod_eq_emod hoff (by omega : (0:Int) ≤ blockSize)]

/-- C2 (amended): for every `blockSize ≥ 1`, every `offset ≥ 0` and every
extent list of 32-bit fields in which the block index `offset / blockSize`
falls inside extent `k` at remaining index `r`, provided the block index and
the physical block number `startBlock k + r` are both below `2 ^ 32` and the
values of `temp` computed for that extent are values of `off_t` (no signed
overflow in `temp *= blockSize`), `LogicalToPhysical` returns
`FSUR_IO_SUCCESS` with
`physicalOffset = (startBlock k + r) * blockSize + offset % blockSize`, a
value of `off_t`. -/
theorem LogicalToPhysical_physicalOffset (offset length blockSize : Int)
    (extentList : List HFSPlusExtentDescriptor) (k : Nat) (e : HFSPlusExtentDescriptor) (r : Int)
    (hbs : 1 ≤ blockSize) (hoff : 0 ≤ offset) (htyped : ExtentsTyped extentList)
    (hin : FallsInside extentList (offset / blockSize) k e r)
    (hlog : offset / blockSize < 2 ^ 32) (hphys : e.startBlock + r < 2 ^ 32)
    (hfits : TempsFitOffT blockSize (offset % blockSize) e r) :
    (∃ availableBytes, LogicalToPhysical offset length blockSize extentList =
      .ret (FSUR_IO_SUCCESS,
        some ((e.startBlock + r) * blockSize + offset % blockSize, availableBytes))) ∧
    IsOffT ((e.startBlock + r) * blockSize + offset % blockSize) := by
  have hb0 : 0 ≤ offset / blockSize := Int.ediv_nonneg hoff (by omega)
  have hmod : (offset / blockSize) % 2 ^ 32 = offset / blockSize := Int.emod_eq_of_lt hb0 hlog
  have hfind := findExtent_inside extentList (offset / blockSize) k e r
    (fun e1 he1 => (htyped e1 he1).2.1) hb0 hlog hin
  have he : e ∈ extentList := List.getElem?_mem hin.1
  have hs0 : 0 ≤ e.startBlock := (htyped e he).1.1
  have hr0 : 0 ≤ r := hin.2.2.2.1
  have hmod2 : (e.startBlock + r) % 2 ^ 32 = e.startBlock + r :=
    Int.emod_eq_of_lt (by omega) hphys
  constructor
  · rw [LogicalToPhysical_unfold offset length blockSize extentList hbs hoff, hmod, hfind]
    simp only [hmod2]
    exact ⟨_, rfl⟩
  · have h := hfits.2.1
    rw [hmod2] at h
    exact h

theorem LogicalToPhysical_physicalOffset_witness :
    ∃ availableBytes, LogicalToPhysical (2 * 512) 1 512 [⟨100, 2⟩, ⟨500, 3⟩] =
      .ret (FSUR_IO_SUCCESS, some ((500 + 0) * 512 + (2 * 512) % 512, availableBytes)) :=
  (LogicalToPhysical_physicalOffset (2 * 512) 1 512 [⟨100, 2⟩, ⟨500, 3⟩] 1 ⟨500, 3⟩ 0
    (by decide) (by decide) (by decide) (by decide) (by decide) (by decide) (by decide)).1

/-- C2 as stated fails: (a) with the single extent `(4294967295, 2)` and
`blockSize = 512`, offset `512` has block index 1 inside extent 0 at index 1,
yet the physical offset returned is `0`, not `(4294967295 + 1) * 512`;
(b) with extents `[(0, 4294967295), (7, 5)]` and `blockSize = 1`, offset
`2 ^ 32` has block index `2 ^ 32` inside extent 1 at index 1, yet the physical
offset returned is `0`, not `(7 + 1) * 1`. -/
theorem LogicalToPhysical_physicalOffset_wraps :
    (FallsInside [⟨4294967295, 2⟩] (512 / 512) 0 ⟨4294967295, 2⟩ 1 ∧
      LogicalToPhysical 512 10 512 [⟨4294967295, 2⟩] = .ret (FSUR_IO_SUCCESS, some (0, 10)) ∧
      (4294967295 + 1) * 512 + 512 % 512 ≠ (0 : Int)) ∧
    (FallsInside [⟨0, 4294967295⟩, ⟨7, 5⟩] (4294967296 / 1) 1 ⟨7, 5⟩ 1 ∧
      LogicalToPhysical 4294967296 10 1 [⟨0, 4294967295⟩, ⟨7, 5⟩] =
        .ret (FSUR_IO_SUCCESS, some (0, 10)) ∧
      (7 + 1) * 1 + 4294967296 % 1 ≠ (0 : Int)) := by
  decide

/-- C3 (amended): for every `blockSize ≥ 1`, every `offset ≥ 0` whose block
index `offset / blockSize` is below `2 ^ 32`, and every extent list of 32-bit
fields, if the block index is at least the sum of the `blockCount`s before the
first zero-count extent (of the whole list if none is zero), then
`LogicalToPhysical` returns `FSUR_IO_FAIL` and no physical offset. -/
theorem LogicalToPhysical_past_end (offset length blockSize : Int)
    (extentList : List HFSPlusExtentDescriptor)
    (hbs : 1 ≤ blockSize) (hoff : 0 ≤ offset) (htyped : ExtentsTyped extentList)
    (hlog : offset / blockSize < 2 ^ 32)
    (hpast : fileBlocks extentList ≤ offset / blockSize) :
    LogicalToPhysical offset length blockSize extentList = .ret (FSUR_IO_FAIL, none) := by
  have hb0 : 0 ≤ offset / blockSize := Int.ediv_nonneg hoff (by omega)
  have hmod : (offset / blockSize) % 2 ^ 32 = offset / blockSize := Int.emod_eq_of_lt hb0 hlog
  have hfind := findExtent_past_end extentList (offset / blockSize)
    (fun e1 he1 => (htyped e1 he1).2.1) hlog hpast
  rw [LogicalToPhysical_unfold offset length blockSize extentList hbs hoff, hmod, hfind]

/-- Witness for C3: extents `[(100,2),(500,3)]`, `blockSize = 512`, offset
`5*512` is past the 5 blocks of the file. -/
theorem LogicalToPhysical_past_end_witness :
    LogicalToPhysical (5 * 512) 1 512 [⟨100, 2⟩, ⟨500, 3⟩] = .ret (FSUR_IO_FAIL, none) :=
  LogicalToPhysical_past_end (5 * 512) 1 512 [⟨100, 2⟩, ⟨500, 3⟩]
    (by decide) (by decide) (by decide) (by decide) (by decide)

/-- C3 as stated fails: with extents `[(100,2),(500,3)]` and `blockSize = 512`
the offset `2 ^ 41` has block index `2 ^ 32 ≥ 5`, past the end of the file, yet
`LogicalToPhysical` succeeds and returns the physical offset `100 * 512`. -/
theorem LogicalToPhysical_past_end_truncates :
    fileBlocks [⟨100, 2⟩, ⟨500, 3⟩] ≤ 2199023255552 / 512 ∧
    LogicalToPhysical 2199023255552 10 512 [⟨100, 2⟩, ⟨500, 3⟩] =
      .ret (FSUR_IO_SUCCESS, some (100 * 512, 10)) := by
  decide

theorem floor_div_eq (a B : Int) (hB : 1 ≤ B) : ⌊(a : ℚ) / (B : ℚ)⌋ = a / B := by
  have hBq : (0 : ℚ) < (B : ℚ) := by exact_mod_cast (by omega : (0 : Int) < B)
  rw [Int.floor_eq_iff]
  have h1 := Int.ediv_mul_le a (b := B) (by omega)
  have h2 := Int.lt_ediv_add_one_mul_self a (b := B) (by omega)
  constructor
  · rw [le_div_iff₀ hBq]; exact_mod_cast h1
  · rw [div_lt_iff₀ hBq]; exact_mod_cast h2

theorem ceil_div_eq (n B : Int) (hB : 1 ≤ B) : ⌈(n : ℚ) / (B : ℚ)⌉ = (n + B - 1) / B := by
  have hBq : (0 : ℚ) < (B : ℚ) := by exact_mod_cast (by omega : (0 : Int) < B)
  rw [Int.ceil_eq_iff]
  have h1 := Int.ediv_mul_le (n + B - 1) (b := B) (by omega)
  have h2 := Int.lt_ediv_add_one_mul_self (n + B - 1) (b := B) (by omega)
  have h3 : ((n + B - 1) / B + 1) * B = (n + B - 1) / B * B + B := by ring
  constructor
  · rw [lt_div_iff₀ hBq]
    have : ((n + B - 1) / B - 1) * B < n := by
      have : ((n + B - 1) / B - 1) * B = (n + B - 1) / B * B - B := by ring
      omega
    exact_mod_cast this
  · rw [div_le_iff₀ hBq]
    have : n ≤ (n + B - 1) / B * B := by omega
    exact_mod_cast this

/-- C4: for every device block size `B ≥ 1`, `readAt` reads the aligned range
that starts at `rawOffset = floor(offset / B) * B` and has
`rawLength = ceil((offset + length - rawOffset) / B) * B` bytes. When the
block-size query fails it returns `FSUR_IO_FAIL` and the caller buffer is
unchanged. When the seek fails, that is, whenever the call of `lseek` returns
a value other than `rawOffset`, it returns `FSUR_IO_FAIL` and the caller
buffer is unchanged: this holds for every outcome `seek` of the call
(`readAtWithSeek`, which is `readAt` when the outcome is that of the device
model), and in the device model the seek to `rawOffset ≥ 0` succeeds. For
`offset ≥ 0` and `length ≥ 0`, when the whole aligned range is readable it
returns `FSUR_IO_SUCCESS` and the caller buffer starts with exactly the device
bytes `[offset, offset + length)` (the bytes after them untouched), and when
the read of the aligned range is short it returns `FSUR_IO_FAIL` and the
caller buffer is unchanged. -/
theorem readAt_aligned_range (dev : Device) (bufPtr : List UInt8) (offset length : Int) :
    (dev.blocksize = none → readAt dev bufPtr offset length = .ret (FSUR_IO_FAIL, bufPtr)) ∧
    readAtWithSeek lseek dev bufPtr offset length = readAt dev bufPtr offset length ∧
    ∀ B : Int, dev.blocksize = some B → 1 ≤ B →
      (∀ seek : Int → Int, seek (rawOffsetOf offset B) ≠ rawOffsetOf offset B →
        readAtWithSeek seek dev bufPtr offset length = .ret (FSUR_IO_FAIL, bufPtr)) ∧
      (0 ≤ offset → 0 ≤ length →
        rawOffsetOf offset B = ⌊(offset : ℚ) / (B : ℚ)⌋ * B ∧
        rawLengthOf offset length B
          = ⌈((offset + length - rawOffsetOf offset B : Int) : ℚ) / (B : ℚ)⌉ * B ∧
        lseek (rawOffsetOf offset B) = rawOffsetOf offset B ∧
        (RangeReadable dev (rawOffsetOf offset B) (rawLengthOf offset length B) →
          readAt dev bufPtr offset length =
            .ret (FSUR_IO_SUCCESS,
              (dev.data.drop offset.toNat).take length.toNat ++ bufPtr.drop length.toNat) ∧
          ((dev.data.drop offset.toNat).take length.toNat).length = length.toNat) ∧
        (¬ RangeReadable dev (rawOffsetOf offset B) (rawLengthOf offset length B) →
          readAt dev bufPtr offset length = .ret (FSUR_IO_FAIL, bufPtr))) := by
  refine ⟨readAt_ioctl_fails dev bufPtr offset length, rfl, ?_⟩
  intro B hb hB
  constructor
  · intro seek hseek
    have hB0 : B ≠ 0 := by omega
    unfold readAtWithSeek
    simp only [hb, hB0, if_false]
    by_cases hneg : rawLengthOf offset length B < 0
    · rw [if_pos hneg]
    · rw [if_neg hneg, if_pos hseek]
  · intro hoff hlen
    have hro := rawOffsetOf_bounds offset B hoff hB
    have hrl := rawLengthOf_bounds offset length B hoff hlen hB
    have hrd := read_length dev (rawOffsetOf offset B) (rawLengthOf offset length B)
    refine ⟨?_, ?_, ?_, ?_, ?_⟩
    · rw [rawOffsetOf_eq offset B hoff hB, floor_div_eq offset B hB]
    · rw [ceil_div_eq _ B hB, rawLengthOf_eq offset length B hoff hlen hB]
      congr 2
      ring
    · unfold lseek; rw [if_neg (by omega)]
    · intro hr
      unfold RangeReadable at hr
      refine ⟨readAt_fits dev bufPtr offset length B hb hB hoff hlen (by omega), ?_⟩
      rw [List.length_take, List.length_drop]
      omega
    · intro hr
      unfold RangeReadable at hr
      exact readAt_short dev bufPtr offset length B hb hB hoff hlen (by omega)

theorem readAt_aligned_range_witness :
    readAt ⟨some 4, [0, 1, 2, 3, 4, 5, 6, 7, 8, 9, 10, 11]⟩ [99, 99, 99, 99] 5 2
      = .ret (FSUR_IO_SUCCESS, [5, 6, 99, 99]) ∧
    readAt ⟨some 4, [0, 1, 2, 3, 4, 5, 6, 7, 8, 9, 10, 11]⟩ [99, 99, 99, 99] 9 4
      = .ret (FSUR_IO_FAIL, [99, 99, 99, 99]) ∧
    readAtWithSeek (fun _ => -1) ⟨some 4, [0, 1, 2, 3, 4, 5, 6, 7, 8, 9, 10, 11]⟩
      [99, 99, 99, 99] 5 2 = .ret (FSUR_IO_FAIL, [99, 99, 99, 99]) :=
  ⟨((((readAt_aligned_range ⟨some 4, [0, 1, 2, 3, 4, 5, 6, 7, 8, 9, 10, 11]⟩ [99, 99, 99, 99]
      5 2).2.2 4 rfl (by decide)).2 (by decide) (by decide)).2.2.2.1 (by decide)).1,
   (((readAt_aligned_range ⟨some 4, [0, 1, 2, 3, 4, 5, 6, 7, 8, 9, 10, 11]⟩ [99, 99, 99, 99]
      9 4).2.2 4 rfl (by decide)).2 (by decide) (by decide)).2.2.2.2 (by decide),
   ((readAt_aligned_range ⟨some 4, [0, 1, 2, 3, 4, 5, 6, 7, 8, 9, 10, 11]⟩ [99, 99, 99, 99]
      5 2).2.2 4 rfl (by decide)).1 (fun _ => -1) (by decide)⟩

/-! ## `writeAt` -/

theorem writeAt_range_is_aligned (offset length B : Int) :
    (rawOffsetOf offset B).tmod B = 0 ∧ (rawLengthOf offset length B).tmod B = 0 := by
  unfold rawLengthOf rawOffsetOf
  exact ⟨Int.mul_tmod_left _ _, Int.mul_tmod_left _ _⟩

/-- C5 (code defect): on the 12-byte device with block size 4, `writeAt` of
the two bytes `[99, 98]` at offset 5 succeeds and stores them at 5 and 6, but
the other bytes of the touched block `[4, 8)`, at 4 and 7, are replaced by the
contents `junk 0` and `junk 3` of the fresh scratch block: the pre-read is
guarded by the alignment of `rawOffset` and `rawLength`, which are always
aligned, so it never runs.  Writing back the bytes just read by `readAt` at
`(5, 2)` therefore does not leave the device unchanged. -/
theorem writeAt_clobbers_block (junk : Nat → UInt8) :
    writeAt junk smallDevice [99, 98] 5 2 =
      .ret (FSUR_IO_SUCCESS, ⟨some 4, [0, 1, 2, 3, junk 0, 99, 98, junk 3, 8, 9, 10, 11]⟩) ∧
    readAt smallDevice [0, 0] 5 2 = .ret (FSUR_IO_SUCCESS, [5, 6]) ∧
    writeAt (fun _ => 77) smallDevice [5, 6] 5 2 =
      .ret (FSUR_IO_SUCCESS, ⟨some 4, [0, 1, 2, 3, 77, 5, 6, 77, 8, 9, 10, 11]⟩) := by
  refine ⟨?_, by decide, by decide⟩
  rfl

/-! ## `GetEmbeddedHFSPlusVol` -/

theorem be16_bounds (b : List UInt8) (off : Nat) : 0 ≤ be16 b off ∧ be16 b off < 2 ^ 16 := by
  unfold be16
  have h1 := (b.getD off 0).toNat_lt
  have h2 := (b.getD (off + 1) 0).toNat_lt
  omega

theorem be32_bounds (b : List UInt8) (off : Nat) : 0 ≤ be32 b off ∧ be32 b off < 2 ^ 32 := by
  unfold be32
  have h1 := (b.getD off 0).toNat_lt
  have h2 := (b.getD (off + 1) 0).toNat_lt
  have h3 := (b.getD (off + 2) 0).toNat_lt
  have h4 := (b.getD (off + 3) 0).toNat_lt
  omega

theorem embedded_offset_exact (s a f : Int) (hs : 0 ≤ s ∧ s < 2 ^ 16) (ha : 0 ≤ a ∧ a < 2 ^ 32)
    (hf : 0 ≤ f ∧ f < 2 ^ 16) :
    toOffT (((s * a) % 2 ^ 64 + (f * HFS_BLOCK_SIZE) % 2 ^ 64) % 2 ^ 64) = s * a + f * 512 ∧
    0 ≤ s * a + f * 512 ∧ s * a + f * 512 < 2 ^ 63 := by
  have h1 : 0 ≤ s * a := Int.mul_nonneg hs.1 ha.1
  have h2 : s * a ≤ (2 ^ 16 - 1) * (2 ^ 32 - 1) :=
    Int.mul_le_mul (by omega) (by omega) ha.1 (by norm_num)
  have h3 : (2 ^ 16 - 1) * (2 ^ 32 - 1) = (281470681677825 : Int) := by norm_num
  have e1 : (s * a) % 2 ^ 64 = s * a := Int.emod_eq_of_lt h1 (by omega)
  have e2 : (f * HFS_BLOCK_SIZE) % 2 ^ 64 = f * 512 := by
    unfold HFS_BLOCK_SIZE; exact Int.emod_eq_of_lt (by omega) (by omega)
  have e3 : (s * a + f * 512) % 2 ^ 64 = s * a + f * 512 :=
    Int.emod_eq_of_lt (by omega) (by omega)
  rw [e1, e2, e3]
  unfold toOffT
  rw [if_pos (by omega)]
  exact ⟨rfl, by omega, by omega⟩

theorem GetEmbeddedHFSPlusVol_wrapped (block : List UInt8) (startOffset : Int)
    (h1 : be16 block mdb.drSigWord = kHFSSigWord)
    (h2 : be16 block mdb.drEmbedSigWord = kHFSPlusSigWord) :
    GetEmbeddedHFSPlusVol block startOffset = (FSUR_IO_SUCCESS, embeddedOffset block) := by
  have hx := embedded_offset_exact (be16 block mdb.drEmbedExtent_startBlock)
    (be32 block mdb.drAlBlkSiz) (be16 block mdb.drAlBlSt)
    (be16_bounds _ _) (be32_bounds _ _) (be16_bounds _ _)
  simp only [GetEmbeddedHFSPlusVol, h1, h2, ne_eq, not_true_eq_false, if_false]
  rw [hx.1]
  rfl

theorem embeddedOffset_bounds (block : List UInt8) :
    0 ≤ embeddedOffset block ∧ embeddedOffset block < 2 ^ 63 := by
  have hx := embedded_offset_exact (be16 block mdb.drEmbedExtent_startBlock)
    (be32 block mdb.drAlBlkSiz) (be16 block mdb.drAlBlSt)
    (be16_bounds _ _) (be32_bounds _ _) (be16_bounds _ _)
  exact ⟨hx.2.1, hx.2.2⟩

/-- C6: for every Master Directory Block whose signature is classic HFS and
whose embedded signature is HFS+, `GetEmbeddedHFSPlusVol` returns
`FSUR_IO_SUCCESS` and the start offset
`embedStartBlock * allocationBlockSize + firstAllocationBlock * 512`, computed
exactly (the 64-bit arithmetic does not wrap and the `off_t` is non-negative)
whatever the 16-bit `embedStartBlock` and `firstAllocationBlock` and the
32-bit `allocationBlockSize` are; when either signature differs it returns
`FSUR_UNRECOGNIZED` and leaves the offset as it was. -/
theorem GetEmbeddedHFSPlusVol_offset (block : List UInt8) (startOffset : Int) :
    (be16 block mdb.drSigWord = kHFSSigWord → be16 block mdb.drEmbedSigWord = kHFSPlusSigWord →
      GetEmbeddedHFSPlusVol block startOffset =
        (FSUR_IO_SUCCESS,
          be16 block mdb.drEmbedExtent_startBlock * be32 block mdb.drAlBlkSiz
            + be16 block mdb.drAlBlSt * 512) ∧
      0 ≤ be16 block mdb.drEmbedExtent_startBlock * be32 block mdb.drAlBlkSiz
            + be16 block mdb.drAlBlSt * 512 ∧
      be16 block mdb.drEmbedExtent_startBlock * be32 block mdb.drAlBlkSiz
            + be16 block mdb.drAlBlSt * 512 < 2 ^ 63) ∧
    (be16 block mdb.drSigWord ≠ kHFSSigWord ∨ be16 block mdb.drEmbedSigWord ≠ kHFSPlusSigWord →
      GetEmbeddedHFSPlusVol block startOffset = (FSUR_UNRECOGNIZED, startOffset)) := by
  constructor
  · intro h1 h2
    have hb := embeddedOffset_bounds block
    unfold embeddedOffset at hb
    exact ⟨GetEmbeddedHFSPlusVol_wrapped block startOffset h1 h2, hb.1, hb.2⟩
  · intro h
    by_cases h1 : be16 block mdb.drSigWord = kHFSSigWord
    · have h2 : be16 block mdb.drEmbedSigWord ≠ kHFSPlusSigWord := by
        rcases h with h | h
        · exact absurd h1 h
        · exact h
      simp [GetEmbeddedHFSPlusVol, h1, h2]
    · simp [GetEmbeddedHFSPlusVol, h1]

/-- Witness for C6: the example block has `embedStartBlock = 10`,
`allocationBlockSize = 1024`, `firstAllocationBlock = 3`; the offset is
`10 * 1024 + 3 * 512 = 11776`. -/
theorem GetEmbeddedHFSPlusVol_offset_witness :
    GetEmbeddedHFSPlusVol exampleMDB 0 = (FSUR_IO_SUCCESS, 11776) :=
  ((GetEmbeddedHFSPlusVol_offset exampleMDB 0).1 (by decide) (by decide)).1

/-! ## `ReadFile` -/

theorem readAt_success (dev : Device) (buf b : List UInt8) (o l : Int)
    (h : readAt dev buf o l = .ret (FSUR_IO_SUCCESS, b)) :
    b = (dev.data.drop o.toNat).take l.toNat ++ buf.drop l.toNat ∧
    ((dev.data.drop o.toNat).take l.toNat).length = l.toNat ∧ 0 ≤ o ∧ 0 ≤ l := by
  unfold readAt at h
  split at h
  · simp [FSUR_IO_SUCCESS, FSUR_IO_FAIL] at h
  · rename_i B hb
    have hrd := read_length dev (rawOffsetOf o B) (rawLengthOf o l B)
    simp only at h
    split at h
    · simp at h
    split at h
    · simp [FSUR_IO_SUCCESS, FSUR_IO_FAIL] at h
    split at h
    · simp [FSUR_IO_SUCCESS, FSUR_IO_FAIL] at h
    split at h
    · simp at h
    split at h
    · simp [FSUR_IO_SUCCESS, FSUR_IO_FAIL] at h
    split at h
    · rename_i h1 h2 h3 h4 h5 h6
      simp only [Exec.ret.injEq, Prod.mk.injEq, true_and] at h
      simp only [ne_eq, Decidable.not_not] at h5
      have hb' : b = (((dev.data.drop (rawOffsetOf o B).toNat).take (rawLengthOf o l B).toNat).drop
          (o - rawOffsetOf o B).toNat).take l.toNat ++ buf.drop l.toNat := by
        rw [← h]; rfl
      have e1 : (rawOffsetOf o B).toNat + (o - rawOffsetOf o B).toNat = o.toNat := by omega
      have hcontent : (((dev.data.drop (rawOffsetOf o B).toNat).take (rawLengthOf o l B).toNat).drop
          (o - rawOffsetOf o B).toNat).take l.toNat = (dev.data.drop o.toNat).take l.toNat := by
        rw [List.drop_take, List.drop_drop, List.take_take, e1]
        congr 1
        omega
      refine ⟨by rw [hb', hcontent], ?_, by omega, by omega⟩
      rw [List.length_take, List.length_drop]
      omega
    · simp at h

theorem extentBytes_length (dev : Device) (volOffset blockSize : Int) (e : HFSPlusExtentDescriptor)
    (h0 : 0 ≤ volOffset + e.startBlock * blockSize)
    (h1 : volOffset + (e.startBlock + e.blockCount) * blockSize ≤ (dev.data.length : Int)) :
    (extentBytes dev volOffset blockSize e).length = (e.blockCount * blockSize).toNat := by
  unfold extentBytes
  rw [List.length_take, List.length_drop]
  have : (e.startBlock + e.blockCount) * blockSize
      = e.startBlock * blockSize + e.blockCount * blockSize := by ring
  omega

theorem fileBlocks_cons (e : HFSPlusExtentDescriptor) (rest : List HFSPlusExtentDescriptor)
    (hz : e.blockCount ≠ 0) : fileBlocks (e :: rest) = e.blockCount + fileBlocks rest := by
  simp [fileBlocks, fileExtents, hz]

theorem fileBlocks_nonneg (l : List HFSPlusExtentDescriptor) (h : ∀ e ∈ l, 0 ≤ e.blockCount) :
    0 ≤ fileBlocks l := by
  unfold fileBlocks
  apply List.sum_nonneg
  intro x hx
  simp only [List.mem_map] at hx
  obtain ⟨e1, he1, rfl⟩ := hx
  exact h e1 (mem_of_mem_fileExtents l e1 he1)

/-- The extent scan agrees with the logical file: the block `b` of a file is
found in an extent `e` at index `r`, and from the in-block position `o1` on,
up to the end of that extent, the logical file is the device. -/
theorem findExtent_segment (dev : Device) (volOffset blockSize : Int) (hbs : 1 ≤ blockSize)
    (l : List HFSPlusExtentDescriptor) :
    ∀ (b o1 : Int), (∀ e ∈ l, 0 ≤ e.blockCount) → ExtentsOnDevice dev volOffset blockSize l →
      0 ≤ b → b < 2 ^ 32 → 0 ≤ o1 → o1 < blockSize → b < fileBlocks l →
      ∃ e r, findExtent b l = some (e, r) ∧ e ∈ fileExtents l ∧ 0 ≤ r ∧ r < e.blockCount ∧
        ∀ n : Nat, (n : Int) ≤ (e.blockCount - r) * blockSize - o1 →
          ((logicalFile dev volOffset blockSize l).drop (b * blockSize + o1).toNat).take n
            = (dev.data.drop (volOffset + (e.startBlock + r) * blockSize + o1).toNat).take n := by
  induction l with
  | nil =>
    intro b o1 _ _ hb0 _ _ _ hb
    simp [fileBlocks, fileExtents] at hb
    omega
  | cons e0 rest ih =>
    intro b o1 hnn hin hb0 hb1 ho0 ho1 hb
    have hc0 : 0 ≤ e0.blockCount := hnn e0 (List.mem_cons_self _ _)
    by_cases hz : e0.blockCount = 0
    · simp [fileBlocks, fileExtents, hz] at hb
      omega
    have hfe : fileExtents (e0 :: rest) = e0 :: fileExtents rest := by simp [fileExtents, hz]
    have hin0 := hin e0 (by rw [hfe]; exact List.mem_cons_self _ _)
    have hinr : ExtentsOnDevice dev volOffset blockSize rest := by
      intro e he; exact hin e (by rw [hfe]; exact List.mem_cons_of_mem _ he)
    have hlen := extentBytes_length dev volOffset blockSize e0 hin0.1 hin0.2
    have hLF : logicalFile dev volOffset blockSize (e0 :: rest)
        = extentBytes dev volOffset blockSize e0 ++ logicalFile dev volOffset blockSize rest := by
      simp [logicalFile, hz]
    have hcb : 0 ≤ e0.blockCount * blockSize := Int.mul_nonneg hc0 (by omega)
    have hbb : 0 ≤ b * blockSize := Int.mul_nonneg hb0 (by omega)
    by_cases hlt : b < e0.blockCount
    · refine ⟨e0, b, by rw [findExtent, if_neg hz, if_pos hlt], by rw [hfe]; exact List.mem_cons_self _ _,
        hb0, hlt, ?_⟩
      intro n hn
      have e2 : (e0.blockCount - b) * blockSize = e0.blockCount * blockSize - b * blockSize := by
        ring
      have e3 : (e0.startBlock + b) * blockSize = e0.startBlock * blockSize + b * blockSize := by
        ring
      rw [hLF, List.drop_append_of_le_length (by omega),
        List.take_append_of_le_length (by rw [List.length_drop]; omega)]
      unfold extentBytes
      rw [List.drop_take, List.drop_drop, List.take_take]
      congr 1
      · omega
      · congr 1; omega
    · have hfb := fileBlocks_cons e0 rest hz
      have hmod : (b - e0.blockCount) % 2 ^ 32 = b - e0.blockCount :=
        Int.emod_eq_of_lt (by omega) (by omega)
      obtain ⟨e, r, hf, hmem, hr0, hr1, hseg⟩ := ih (b - e0.blockCount) o1
        (fun e he => hnn e (List.mem_cons_of_mem _ he)) hinr (by omega) (by omega) ho0 ho1
        (by omega)
      refine ⟨e, r, by rw [findExtent, if_neg hz, if_neg hlt, hmod, hf],
        by rw [hfe]; exact List.mem_cons_of_mem _ hmem, hr0, hr1, ?_⟩
      intro n hn
      have e2 : (b - e0.blockCount) * blockSize = b * blockSize - e0.blockCount * blockSize := by
        ring
      have hle : e0.blockCount * blockSize ≤ b * blockSize :=
        Int.mul_le_mul_of_nonneg_right (by omega) (by omega)
      rw [← hseg n hn, hLF, List.drop_append_eq_append_drop, List.drop_of_length_le (by omega),
        List.nil_append, hlen]
      congr 2
      omega

theorem logicalFile_length (dev : Device) (volOffset blockSize : Int) (hbs : 1 ≤ blockSize)
    (l : List HFSPlusExtentDescriptor) (hnn : ∀ e ∈ l, 0 ≤ e.blockCount)
    (hin : ExtentsOnDevice dev volOffset blockSize l) :
    ((logicalFile dev volOffset blockSize l).length : Int) = fileBlocks l * blockSize := by
  induction l with
  | nil => simp [logicalFile, fileBlocks, fileExtents]
  | cons e0 rest ih =>
    by_cases hz : e0.blockCount = 0
    · simp [logicalFile, fileBlocks, fileExtents, hz]
    · have hfe : fileExtents (e0 :: rest) = e0 :: fileExtents rest := by simp [fileExtents, hz]
      have hin0 := hin e0 (by rw [hfe]; exact List.mem_cons_self _ _)
      have hinr : ExtentsOnDevice dev volOffset blockSize rest := by
        intro e he; exact hin e (by rw [hfe]; exact List.mem_cons_of_mem _ he)
      have hlen := extentBytes_length dev volOffset blockSize e0 hin0.1 hin0.2
      have hc0 : 0 ≤ e0.blockCount := hnn e0 (List.mem_cons_self _ _)
      have hcb : 0 ≤ e0.blockCount * blockSize := Int.mul_nonneg hc0 (by omega)
      have ih1 := ih (fun e he => hnn e (List.mem_cons_of_mem _ he)) hinr
      have hLF : logicalFile dev volOffset blockSize (e0 :: rest)
          = extentBytes dev volOffset blockSize e0 ++ logicalFile dev volOffset blockSize rest := by
        simp [logicalFile, hz]
      rw [hLF, List.length_append, fileBlocks_cons e0 rest hz]
      push_cast
      rw [ih1, hlen, Int.toNat_of_nonneg hcb]
      ring

/-- The loop of `ReadFile` delivers the requested bytes of the logical file. -/
theorem ReadFileLoop_correct (dev : Device) (volOffset blockSize : Int)
    (l : List HFSPlusExtentDescriptor) (hbs : 1 ≤ blockSize) (hfit : BlockNumbersFit32 l)
    (hin : ExtentsOnDevice dev volOffset blockSize l) (hread : ReadsSucceed dev) :
    ∀ (fuel : Nat) (buffer : List UInt8) (offset length : Int),
      length.toNat ≤ fuel → 0 ≤ offset → 0 ≤ length →
      offset + length ≤ ((logicalFile dev volOffset blockSize l).length : Int) →
      ReadFileLoop dev volOffset blockSize l fuel buffer offset length =
        .ret (FSUR_IO_SUCCESS,
          ((logicalFile dev volOffset blockSize l).drop offset.toNat).take length.toNat
            ++ buffer.drop length.toNat) := by
  obtain ⟨htyped, hlog, hphys⟩ := hfit
  have hnn : ∀ e ∈ l, 0 ≤ e.blockCount := fun e he => (htyped e he).2.1
  have hLFlen := logicalFile_length dev volOffset blockSize hbs l hnn hin
  intro fuel
  induction fuel with
  | zero =>
    intro buffer offset length hfuel hoff hlen hend
    have : length = 0 := by omega
    subst this
    simp [ReadFileLoop]
  | succ fuel1 ih =>
    intro buffer offset length hfuel hoff hlen hend
    by_cases hpos : length > 0
    · -- the block of `offset`
      have hq0 : 0 ≤ offset / blockSize := Int.ediv_nonneg hoff (by omega)
      have hm0 : 0 ≤ offset % blockSize := Int.emod_nonneg _ (by omega)
      have hm1 : offset % blockSize < blockSize := Int.emod_lt_of_pos _ (by omega)
      have hdm : blockSize * (offset / blockSize) + offset % blockSize = offset :=
        Int.ediv_add_emod offset blockSize
      have hqlt : offset / blockSize < fileBlocks l := by
        by_contra hge
        have : fileBlocks l * blockSize ≤ (offset / blockSize) * blockSize :=
          Int.mul_le_mul_of_nonneg_right (by omega) (by omega)
        have e1 : (offset / blockSize) * blockSize = blockSize * (offset / blockSize) := by ring
        omega
      have hq32 : offset / blockSize < 2 ^ 32 := by omega
      obtain ⟨e, r, hf, hmem, hr0, hr1, hseg⟩ := findExtent_segment dev volOffset blockSize hbs l
        (offset / blockSize) (offset % blockSize) hnn hin hq0 hq32 hm0 hm1 hqlt
      have hel : e ∈ l := mem_of_mem_fileExtents l e hmem
      have hine := hin e hmem
      have hs0 : 0 ≤ e.startBlock := (htyped e hel).1.1
      have hc32 : e.blockCount < 2 ^ 32 := (htyped e hel).2.2
      have hph := hphys e hel
      have hmodq : (offset / blockSize) % 2 ^ 32 = offset / blockSize :=
        Int.emod_eq_of_lt hq0 hq32
      have hmods : (e.startBlock + r) % 2 ^ 32 = e.startBlock + r :=
        Int.emod_eq_of_lt (by omega) (by omega)
      have hmodc : (e.blockCount - r) % 2 ^ 32 = e.blockCount - r :=
        Int.emod_eq_of_lt (by omega) (by omega)
      have hoffeq : (offset / blockSize) * blockSize + offset % blockSize = offset := by
        have e1 : (offset / blockSize) * blockSize = blockSize * (offset / blockSize) := by ring
        omega
      -- the segment
      have hseg1 : blockSize ≤ (e.blockCount - r) * blockSize := by
        have : 1 * blockSize ≤ (e.blockCount - r) * blockSize :=
          Int.mul_le_mul_of_nonneg_right (by omega) (by omega)
        omega
      have hsr : 0 ≤ (e.startBlock + r) * blockSize := Int.mul_nonneg (by omega) (by omega)
      have e4 : (e.startBlock + e.blockCount) * blockSize
          = (e.startBlock + r) * blockSize + (e.blockCount - r) * blockSize := by ring
      have e5 : (e.startBlock + r) * blockSize = e.startBlock * blockSize + r * blockSize := by ring
      have hrb : 0 ≤ r * blockSize := Int.mul_nonneg hr0 (by omega)
      generalize hp : (if (e.blockCount - r) * blockSize - offset % blockSize < length
        then (e.blockCount - r) * blockSize - offset % blockSize else length) = p
      have hp1 : 1 ≤ p := by rw [← hp]; split <;> omega
      have hp2 : p ≤ length := by rw [← hp]; split <;> omega
      have hp3 : p ≤ (e.blockCount - r) * blockSize - offset % blockSize := by
        rw [← hp]; split <;> omega
      have hL2P : LogicalToPhysical offset length blockSize l =
          .ret (FSUR_IO_SUCCESS, some ((e.startBlock + r) * blockSize + offset % blockSize, p)) := by
        rw [LogicalToPhysical_unfold offset length blockSize l hbs hoff, hmodq, hf]
        simp only [hmods, hmodc, hp]
      obtain ⟨b1, hb1⟩ := hread buffer (volOffset + ((e.startBlock + r) * blockSize + offset % blockSize))
        p (by omega) (by omega) (by omega)
      obtain ⟨hb1eq, hb1len, -, -⟩ := readAt_success dev buffer b1 _ _ hb1
      have hsegp := hseg p.toNat (by omega)
      rw [hoffeq] at hsegp
      have hvo : volOffset + ((e.startBlock + r) * blockSize + offset % blockSize)
          = volOffset + (e.startBlock + r) * blockSize + offset % blockSize := by ring
      rw [hvo] at hb1eq hb1len
      rw [← hsegp] at hb1eq hb1len
      have hih := ih (b1.drop p.toNat) (offset + p) (length - p) (by omega) (by omega) (by omega)
        (by omega)
      have htake : b1.take p.toNat = ((logicalFile dev volOffset blockSize l).drop offset.toNat).take p.toNat := by
        rw [hb1eq, List.take_left' hb1len]
      have hdrop : b1.drop p.toNat = buffer.drop p.toNat := by
        rw [hb1eq, List.drop_left' hb1len]
      rw [ReadFileLoop, if_pos hpos]
      simp only [hL2P, hb1, ne_eq, not_true_eq_false, if_false, hih]
      rw [htake, hdrop, List.drop_drop]
      have e6 : length.toNat = p.toNat + (length - p).toNat := by omega
      have e7 : (offset + p).toNat = offset.toNat + p.toNat := by omega
      rw [e6, List.take_add, List.drop_drop, e7, List.append_assoc]
    · have : length = 0 := by omega
      subst this
      simp [ReadFileLoop]

theorem readsSucceed_of_aligned (dev : Device) (B : Int) (hb : dev.blocksize = some B)
    (hB : 1 ≤ B) (hdiv : B ∣ (dev.data.length : Int)) : ReadsSucceed dev := by
  intro buf o l ho hl hfit
  refine ⟨_, readAt_fits dev buf o l B hb hB ho hl ?_⟩
  have hro := rawOffsetOf_bounds o B ho hB
  have hrl := rawLengthOf_bounds o l B ho hl hB
  obtain ⟨c, hc⟩ := hdiv
  obtain ⟨q2, hq2⟩ := hrl.2.2
  have hq1 : rawOffsetOf o B = B * (o.tdiv B) := by unfold rawOffsetOf; ring
  have hlt : B * (o.tdiv B + q2) < B * (c + 1) := by
    have e1 : B * (o.tdiv B + q2) = B * (o.tdiv B) + B * q2 := by ring
    have e2 : B * (c + 1) = B * c + B := by ring
    omega
  have hle : o.tdiv B + q2 < c + 1 := lt_of_mul_lt_mul_left hlt (by omega)
  have hle2 : B * (o.tdiv B + q2) ≤ B * c := Int.mul_le_mul_of_nonneg_left (by omega) (by omega)
  have e1 : B * (o.tdiv B + q2) = B * (o.tdiv B) + B * q2 := by ring
  omega

/-- C1: for every device image, volume offset, `blockSize ≥ 1` and extent list
whose block numbers fit in 32 bits and whose extents lie on the device, and
for every `offset ≥ 0` and `length ≥ 1` with `offset + length` not past the
end of the logical file, if every device read succeeds then `ReadFile` returns
`FSUR_IO_SUCCESS` and the buffer starts with exactly the bytes
`[offset, offset + length)` of the logical file (the bytes after them
untouched). -/
theorem ReadFile_reads_logical_file (dev : Device) (buffer : List UInt8)
    (offset length volOffset blockSize : Int) (extentList : List HFSPlusExtentDescriptor)
    (hbs : 1 ≤ blockSize) (hfit : BlockNumbersFit32 extentList)
    (hin : ExtentsOnDevice dev volOffset blockSize extentList)
    (hoff : 0 ≤ offset) (hlen : 1 ≤ length)
    (hend : offset + length ≤ ((logicalFile dev volOffset blockSize extentList).length : Int))
    (hread : ReadsSucceed dev) :
    ReadFile dev buffer offset length volOffset blockSize extentList =
      .ret (FSUR_IO_SUCCESS,
        ((logicalFile dev volOffset blockSize extentList).drop offset.toNat).take length.toNat
          ++ buffer.drop length.toNat) ∧
    (((logicalFile dev volOffset blockSize extentList).drop offset.toNat).take length.toNat).length
      = length.toNat := by
  refine ⟨ReadFileLoop_correct dev volOffset blockSize extentList hbs hfit hin hread
    length.toNat buffer offset length (le_refl _) hoff (by omega) hend, ?_⟩
  rw [List.length_take, List.length_drop]
  omega

/-- Witness for C1: on the 12-byte device, the file of extents `(1,1)` and
`(4,2)` with 2-byte blocks is the bytes `2,3,8,9,10,11`; reading 4 bytes at
offset 1 crosses the extent boundary and yields `3,8,9,10`. -/
theorem ReadFile_reads_logical_file_witness :
    ReadFile smallDevice [99, 99, 99, 99, 99] 1 4 0 2 [⟨1, 1⟩, ⟨4, 2⟩] =
      .ret (FSUR_IO_SUCCESS, [3, 8, 9, 10, 99]) :=
  (ReadFile_reads_logical_file smallDevice [99, 99, 99, 99, 99] 1 4 0 2 [⟨1, 1⟩, ⟨4, 2⟩]
    (by decide) (by decide) (by decide) (by decide) (by decide) (by decide)
    (readsSucceed_of_aligned smallDevice 4 rfl (by decide) (by decide))).1

/-! ## `ReadHeaderBlock` -/

theorem getD_append_left (a b : List UInt8) (i : Nat) (h : i < a.length) :
    (a ++ b).getD i 0 = a.getD i 0 := by
  simp [List.getD_eq_getElem?_getD, List.getElem?_append_left h]

theorem be16_append_left (a b : List UInt8) (off : Nat) (h : off + 2 ≤ a.length) :
    be16 (a ++ b) off = be16 a off := by
  unfold be16
  rw [getD_append_left a b off (by omega), getD_append_left a b (off + 1) (by omega)]

theorem be32_append_left (a b : List UInt8) (off : Nat) (h : off + 4 ≤ a.length) :
    be32 (a ++ b) off = be32 a off := by
  unfold be32
  rw [getD_append_left a b off (by omega), getD_append_left a b (off + 1) (by omega),
    getD_append_left a b (off + 2) (by omega), getD_append_left a b (off + 3) (by omega)]

theorem readAt_header (dev : Device) (buf : List UInt8) (off : Int)
    (h : ReadSucceeds dev off 512) :
    readAt dev buf off HFS_BLOCK_SIZE
      = .ret (FSUR_IO_SUCCESS, headerBlockAt dev off ++ buf.drop 512) ∧
    (headerBlockAt dev off).length = 512 := by
  obtain ⟨b, hb⟩ := h buf
  obtain ⟨h1, h2, -, -⟩ := readAt_success dev buf b off 512 hb
  have e : (512 : Int).toNat = 512 := rfl
  rw [e] at h1 h2
  unfold headerBlockAt HFS_BLOCK_SIZE
  exact ⟨by rw [hb, h1], h2⟩

theorem isWrapped_append (blk rest : List UInt8) (hlen : blk.length = 512) :
    (be16 (blk ++ rest) mdb.drSigWord = kHFSSigWord ∧
      be16 (blk ++ rest) mdb.drEmbedSigWord = kHFSPlusSigWord) ↔ IsWrapped blk := by
  unfold IsWrapped
  rw [be16_append_left blk rest _ (by rw [hlen]; decide),
    be16_append_left blk rest _ (by rw [hlen]; decide)]

theorem GetEmbeddedHFSPlusVol_append (blk rest : List UInt8) (hlen : blk.length = 512)
    (hw : IsWrapped blk) :
    GetEmbeddedHFSPlusVol (blk ++ rest) 0 = (FSUR_IO_SUCCESS, embeddedOffset blk) := by
  have hw1 := (isWrapped_append blk rest hlen).2 hw
  rw [GetEmbeddedHFSPlusVol_wrapped (blk ++ rest) 0 hw1.1 hw1.2]
  unfold embeddedOffset
  rw [be16_append_left blk rest _ (by rw [hlen]; decide),
    be32_append_left blk rest _ (by rw [hlen]; decide),
    be16_append_left blk rest _ (by rw [hlen]; decide)]

/-- The run of `ReadHeaderBlock` when its reads succeed. -/
theorem ReadHeaderBlock_eval (dev : Device) (bufPtr : List UInt8)
    (h1 : ReadSucceeds dev 1024 512)
    (h2 : IsWrapped (headerBlockAt dev 1024) →
      ReadSucceeds dev (embeddedOffset (headerBlockAt dev 1024) + 1024) 512) :
    (IsWrapped (headerBlockAt dev 1024) →
      ReadHeaderBlock dev bufPtr = .ret
        ((checkSignature FSUR_IO_SUCCESS
            (headerBlockAt dev (embeddedOffset (headerBlockAt dev 1024) + 1024)
              ++ bufPtr.drop 512)).1,
          headerBlockAt dev (embeddedOffset (headerBlockAt dev 1024) + 1024) ++ bufPtr.drop 512,
          embeddedOffset (headerBlockAt dev 1024),
          (checkSignature FSUR_IO_SUCCESS
            (headerBlockAt dev (embeddedOffset (headerBlockAt dev 1024) + 1024)
              ++ bufPtr.drop 512)).2)) ∧
    (¬ IsWrapped (headerBlockAt dev 1024) →
      ReadHeaderBlock dev bufPtr = .ret
        ((checkSignature FSUR_IO_SUCCESS (headerBlockAt dev 1024 ++ bufPtr.drop 512)).1,
          headerBlockAt dev 1024 ++ bufPtr.drop 512, 0,
          (checkSignature FSUR_IO_SUCCESS (headerBlockAt dev 1024 ++ bufPtr.drop 512)).2)) := by
  obtain ⟨hr1, hl1⟩ := readAt_header dev bufPtr 1024 h1
  have e1024 : 2 * HFS_BLOCK_SIZE = 1024 := rfl
  have hw := isWrapped_append (headerBlockAt dev 1024) (bufPtr.drop 512) hl1
  constructor
  · intro hwr
    obtain ⟨hr2, hl2⟩ := readAt_header dev (headerBlockAt dev 1024 ++ bufPtr.drop 512)
      (embeddedOffset (headerBlockAt dev 1024) + 1024) (h2 hwr)
    rw [List.drop_left' hl1] at hr2
    have hg := GetEmbeddedHFSPlusVol_append (headerBlockAt dev 1024) (bufPtr.drop 512) hl1 hwr
    unfold ReadHeaderBlock
    rw [e1024, hr1]
    simp only [ne_eq, not_true_eq_false, if_false, if_pos (hw.2 hwr), hg, hr2]
  · intro hwr
    unfold ReadHeaderBlock
    rw [e1024, hr1]
    simp only [ne_eq, not_true_eq_false, if_false, if_neg (fun h => hwr (hw.1 h))]

theorem checkSignature_cases (buf : List UInt8) :
    ((checkSignature FSUR_IO_SUCCESS buf).1 = FSUR_UNRECOGNIZED ↔
      (be16 buf vh.signature ≠ kHFSSigWord ∧ be16 buf vh.signature ≠ kHFSPlusSigWord ∧
        be16 buf vh.signature ≠ kHFSXSigWord)) ∧
    ((checkSignature FSUR_IO_SUCCESS buf).1 ≠ FSUR_UNRECOGNIZED →
      (checkSignature FSUR_IO_SUCCESS buf).1 = FSUR_IO_SUCCESS ∧
      (checkSignature FSUR_IO_SUCCESS buf).2 =
        some ((if be16 buf vh.signature = kHFSSigWord then mdb.drFndrInfo else vh.finderInfo)
          + 24)) ∧
    (checkSignature FSUR_IO_SUCCESS buf).1 ≠ FSUR_IO_FAIL := by
  have e0 : mdb.drSigWord = vh.signature := rfl
  have d1 : FSUR_IO_SUCCESS ≠ FSUR_UNRECOGNIZED := by decide
  have d2 : FSUR_IO_SUCCESS ≠ FSUR_IO_FAIL := by decide
  have d3 : FSUR_UNRECOGNIZED ≠ FSUR_IO_FAIL := by decide
  unfold checkSignature
  rw [e0]
  by_cases h1 : be16 buf vh.signature = kHFSSigWord
  · rw [if_pos h1, if_pos h1]
    exact ⟨⟨fun h => absurd h d1, fun h => absurd h1 h.1⟩, fun _ => ⟨rfl, rfl⟩, d2⟩
  · rw [if_neg h1, if_neg h1]
    by_cases h2 : be16 buf vh.signature = kHFSPlusSigWord ∨ be16 buf vh.signature = kHFSXSigWord
    · rw [if_pos h2]
      refine ⟨⟨fun h => absurd h d1, fun h => ?_⟩, fun _ => ⟨rfl, rfl⟩, d2⟩
      rcases h2 with h2 | h2
      · exact absurd h2 h.2.1
      · exact absurd h2 h.2.2
    · rw [if_neg h2]
      refine ⟨⟨fun _ => ⟨h1, fun h => h2 (Or.inl h), fun h => h2 (Or.inr h)⟩, fun _ => rfl⟩,
        fun h => absurd rfl h, d3⟩

/-- C7 (amended): provided the device reads succeed (the 512 bytes at offset
1024 and, for a wrapped volume, the 512 bytes at `E + 1024`), `ReadHeaderBlock`
locates the true volume header: for every device image whose 512 bytes at
offset 1024 carry the classic-HFS signature with embedded signature HFS+, it
returns `startOffset` = the embedded volume offset `E` and the buffer holds
the 512 device bytes at `E + 1024`; for every other image it returns
`startOffset = 0` and the buffer holds the 512 device bytes at offset 1024.
The result code is not `FSUR_IO_FAIL`. -/
theorem ReadHeaderBlock_locates_header (dev : Device) (bufPtr : List UInt8)
    (h1 : ReadSucceeds dev 1024 512)
    (h2 : IsWrapped (headerBlockAt dev 1024) →
      ReadSucceeds dev (embeddedOffset (headerBlockAt dev 1024) + 1024) 512) :
    ∃ result uuidPtr, result ≠ FSUR_IO_FAIL ∧
      (IsWrapped (headerBlockAt dev 1024) →
        ReadHeaderBlock dev bufPtr = .ret (result,
          headerBlockAt dev (embeddedOffset (headerBlockAt dev 1024) + 1024) ++ bufPtr.drop 512,
          embeddedOffset (headerBlockAt dev 1024), uuidPtr) ∧
        (headerBlockAt dev (embeddedOffset (headerBlockAt dev 1024) + 1024)).length = 512) ∧
      (¬ IsWrapped (headerBlockAt dev 1024) →
        ReadHeaderBlock dev bufPtr = .ret (result,
          headerBlockAt dev 1024 ++ bufPtr.drop 512, 0, uuidPtr) ∧
        (headerBlockAt dev 1024).length = 512) := by
  obtain ⟨hw, hn⟩ := ReadHeaderBlock_eval dev bufPtr h1 h2
  by_cases hwr : IsWrapped (headerBlockAt dev 1024)
  · refine ⟨_, _, (checkSignature_cases _).2.2, fun _ => ⟨hw hwr, ?_⟩, fun h => absurd hwr h⟩
    exact (readAt_header dev bufPtr _ (h2 hwr)).2
  · refine ⟨_, _, (checkSignature_cases _).2.2, fun h => absurd h hwr, fun _ => ⟨hn hwr, ?_⟩⟩
    exact (readAt_header dev bufPtr _ h1).2

/-- C7 as stated fails when a read fails: (a) on the 1536-byte device whose
sector 2 is the wrapped-HFS example block, the embedded volume (`E = 11776`)
lies past the end of the image; `ReadHeaderBlock` returns `FSUR_IO_FAIL` with
`startOffset = 11776` and the buffer still holds the Master Directory Block,
there being no device bytes at `E + 1024`; (b) on an empty image the first
read fails and the buffer is left as it was. -/
theorem ReadHeaderBlock_read_failure :
    (IsWrapped (headerBlockAt truncatedWrappedDevice 1024) ∧
      ReadHeaderBlock truncatedWrappedDevice (List.replicate 512 7)
        = .ret (FSUR_IO_FAIL, exampleMDB, 11776, none) ∧
      headerBlockAt truncatedWrappedDevice (11776 + 1024) = []) ∧
    (¬ IsWrapped (headerBlockAt ⟨some 512, []⟩ 1024) ∧
      ReadHeaderBlock ⟨some 512, []⟩ [7, 7] = .ret (FSUR_IO_FAIL, [7, 7], 0, none) ∧
      headerBlockAt ⟨some 512, []⟩ 1024 = []) := by
  decide!

theorem wrappedDevice_reads : ReadsSucceed wrappedDevice :=
  readsSucceed_of_aligned wrappedDevice 512 rfl (by decide) (by decide!)

/-- Witness for C7: on the 2048-byte wrapped device both reads succeed; the
block at sector 2 is wrapped, `E = 512`, and the buffer receives the HFS+
header stored at `512 + 1024`. -/
theorem ReadHeaderBlock_locates_header_witness :
    ∃ result uuidPtr, result ≠ FSUR_IO_FAIL ∧
      ReadHeaderBlock wrappedDevice (List.replicate 512 7)
        = .ret (result, exampleVolumeHeader, 512, uuidPtr) := by
  obtain ⟨result, uuidPtr, h0, hw, -⟩ :=
    ReadHeaderBlock_locates_header wrappedDevice (List.replicate 512 7)
      (fun buf => wrappedDevice_reads buf 1024 512 (by decide) (by decide) (by decide!))
      (fun _ buf => wrappedDevice_reads buf _ 512 (by decide!) (by decide) (by decide!))
  refine ⟨result, uuidPtr, h0, ?_⟩
  have h := (hw (by decide!)).1
  have e1 : embeddedOffset (headerBlockAt wrappedDevice 1024) = 512 := by decide!
  have e2 : headerBlockAt wrappedDevice (512 + 1024) ++ (List.replicate 512 7).drop 512
      = exampleVolumeHeader := by decide!
  rw [e1, e2] at h
  exact h

/-- C8: given that all device reads succeed, `ReadHeaderBlock` returns
`FSUR_UNRECOGNIZED` if and only if the 16-bit big-endian signature of the final
header block (the 512 device bytes at `startOffset + 1024`, now in the buffer)
is none of classic HFS, HFS+ and HFSX; otherwise it returns `FSUR_IO_SUCCESS`
and the UUID pointer addresses byte 24 of the block's Finder-info field
(`drFndrInfo` of a Master Directory Block, `finderInfo` of a Volume Header).
The result is never `FSUR_IO_FAIL`. -/
theorem ReadHeaderBlock_validates_signature (dev : Device) (bufPtr : List UInt8)
    (h1 : ReadSucceeds dev 1024 512)
    (h2 : IsWrapped (headerBlockAt dev 1024) →
      ReadSucceeds dev (embeddedOffset (headerBlockAt dev 1024) + 1024) 512) :
    ∃ result buf startOffset uuidPtr,
      ReadHeaderBlock dev bufPtr = .ret (result, buf, startOffset, uuidPtr) ∧
      buf.take 512 = headerBlockAt dev (startOffset + 1024) ∧
      (result = FSUR_UNRECOGNIZED ↔
        (be16 buf vh.signature ≠ kHFSSigWord ∧ be16 buf vh.signature ≠ kHFSPlusSigWord ∧
          be16 buf vh.signature ≠ kHFSXSigWord)) ∧
      (result ≠ FSUR_UNRECOGNIZED →
        result = FSUR_IO_SUCCESS ∧
        uuidPtr = some ((if be16 buf vh.signature = kHFSSigWord then mdb.drFndrInfo
          else vh.finderInfo) + 24)) ∧
      result ≠ FSUR_IO_FAIL := by
  obtain ⟨hw, hn⟩ := ReadHeaderBlock_eval dev bufPtr h1 h2
  by_cases hwr : IsWrapped (headerBlockAt dev 1024)
  · have hl := (readAt_header dev bufPtr _ (h2 hwr)).2
    have hc := checkSignature_cases
      (headerBlockAt dev (embeddedOffset (headerBlockAt dev 1024) + 1024) ++ bufPtr.drop 512)
    exact ⟨_, _, _, _, hw hwr, List.take_left' hl, hc.1, hc.2.1, hc.2.2⟩
  · have hl := (readAt_header dev bufPtr _ h1).2
    have hc := checkSignature_cases (headerBlockAt dev 1024 ++ bufPtr.drop 512)
    exact ⟨_, _, _, _, hn hwr, by rw [List.take_left' hl]; rfl, hc.1, hc.2.1, hc.2.2⟩

/-- Witness for C8: on the 2048-byte wrapped device both reads succeed. -/
theorem ReadHeaderBlock_validates_signature_witness :
    ∃ result buf startOffset uuidPtr,
      ReadHeaderBlock wrappedDevice (List.replicate 512 7)
        = .ret (result, buf, startOffset, uuidPtr) ∧
      buf.take 512 = headerBlockAt wrappedDevice (startOffset + 1024) ∧
      (result = FSUR_UNRECOGNIZED ↔
        (be16 buf vh.signature ≠ kHFSSigWord ∧ be16 buf vh.signature ≠ kHFSPlusSigWord ∧
          be16 buf vh.signature ≠ kHFSXSigWord)) ∧
      (result ≠ FSUR_UNRECOGNIZED →
        result = FSUR_IO_SUCCESS ∧
        uuidPtr = some ((if be16 buf vh.signature = kHFSSigWord then mdb.drFndrInfo
          else vh.finderInfo) + 24)) ∧
      result ≠ FSUR_IO_FAIL :=
  ReadHeaderBlock_validates_signature wrappedDevice (List.replicate 512 7)
    (fun buf => wrappedDevice_reads buf 1024 512 (by decide) (by decide) (by decide!))
    (fun _ buf => wrappedDevice_reads buf _ 512 (by decide!) (by decide) (by decide!))

/-! ## `GetBTreeNodeInfo` -/

@[simp] theorem Exec.bind_ret {α β : Type} (a : α) (f : α → Exec β) :
    (Exec.ret a).bind f = f a := rfl

@[simp] theorem Exec.bind_ub {α β : Type} (f : α → Exec β) :
    (Exec.ub : Exec α).bind f = Exec.ub := rfl

@[simp] theorem Exec.bind_nofuel {α β : Type} (f : α → Exec β) :
    (Exec.nofuel : Exec α).bind f = Exec.nofuel := rfl

/-- C9: for every special file whose first 512 bytes are readable through its
extent list (`ReadFile` of 512 bytes at offset 0 succeeds and delivers
`node0`), `GetBTreeNodeInfo` fails with `FSUR_IO_FAIL` if the node-descriptor
kind byte of node 0 is not the header-node kind, and otherwise succeeds with
`nodeSize` = the 16-bit big-endian `nodeSize` field of the header record and
`firstLeafNode = 0` when the header's `leafRecords` field is zero, else the
32-bit big-endian `firstLeafNode` field. -/
theorem GetBTreeNodeInfo_header (junk : Nat → UInt8) (dev : Device)
    (hfsPlusVolumeOffset blockSize : Int) (extentList : List HFSPlusExtentDescriptor)
    (node0 : List UInt8)
    (hrd : ReadFile dev (malloc junk HFS_BLOCK_SIZE) 0 HFS_BLOCK_SIZE hfsPlusVolumeOffset
      blockSize extentList = .ret (FSUR_IO_SUCCESS, node0)) :
    (int8 node0 bt.kind ≠ kBTHeaderNode →
      GetBTreeNodeInfo junk dev hfsPlusVolumeOffset blockSize extentList
        = .ret (FSUR_IO_FAIL, none)) ∧
    (int8 node0 bt.kind = kBTHeaderNode →
      GetBTreeNodeInfo junk dev hfsPlusVolumeOffset blockSize extentList
        = .ret (FSUR_IO_SUCCESS, some (be16 node0 bt.header_nodeSize,
            if be32 node0 bt.header_leafRecords = 0 then 0
            else be32 node0 bt.header_firstLeafNode))) := by
  have d : FSUR_IO_SUCCESS ≠ FSUR_IO_FAIL := by decide
  constructor
  · intro hk
    unfold GetBTreeNodeInfo
    rw [hrd]
    simp only [if_neg d, if_pos hk]
  · intro hk
    unfold GetBTreeNodeInfo
    rw [hrd]
    simp only [if_neg d, hk, ne_eq, not_true_eq_false, if_false]

/-- Witness for C9: in the example image the catalog file is the extent
`(3, 2)` of 512-byte blocks; its node 0 is a header node with node size 512,
one leaf record and first leaf node 1. -/
theorem GetBTreeNodeInfo_header_witness :
    GetBTreeNodeInfo (fun _ => 0) exampleImage 0 512 [⟨3, 2⟩]
      = .ret (FSUR_IO_SUCCESS, some (512, 1)) :=
  (GetBTreeNodeInfo_header (fun _ => 0) exampleImage 0 512 [⟨3, 2⟩] exampleHeaderNode
    (by decide!)).2 (by decide!)

/-! ## Root-name validation -/

theorem be16At_inside (buf : List UInt8) (off : Int) (h0 : 0 ≤ off)
    (h1 : off + 2 ≤ (buf.length : Int)) : be16At buf off = .ret (be16 buf off.toNat) := by
  unfold be16At
  rw [if_pos ⟨h0, h1⟩]

theorem be32At_inside (buf : List UInt8) (off : Int) (h0 : 0 ≤ off)
    (h1 : off + 4 ≤ (buf.length : Int)) : be32At buf off = .ret (be32 buf off.toNat) := by
  unfold be32At
  rw [if_pos ⟨h0, h1⟩]

theorem copyName_inside (buf : List UInt8) (unicode : Int) (h0 : 0 ≤ unicode) :
    ∀ (n : Nat) (i : Int), 0 ≤ i → unicode + 2 * (i + n) ≤ (buf.length : Int) →
      ∃ units, copyName buf unicode n i = .ret units := by
  intro n
  induction n with
  | zero => intro i _ _; exact ⟨[], rfl⟩
  | succ n ih =>
    intro i hi hle
    obtain ⟨rest, hrest⟩ := ih (i + 1) (by omega) (by push_cast at hle ⊢; omega)
    refine ⟨be16 buf (unicode + 2 * i).toNat :: rest, ?_⟩
    unfold copyName
    rw [be16At_inside buf (unicode + 2 * i) (by omega) (by push_cast at hle; omega), hrest]
    rfl

/-- The validation block on a node whose examined bytes are inside the
buffer. -/
theorem rootNameFromLeaf_validation (bufPtr : List UInt8) (nodeSize : Int) (name_o : List UInt8)
    (hin : KeyInsideNode bufPtr nodeSize) :
    (RootRecordRejected bufPtr nodeSize →
      rootNameFromLeaf bufPtr nodeSize name_o = .ret (FSUR_IO_FAIL, name_o)) ∧
    (¬ RootRecordRejected bufPtr nodeSize → firstKeyNameLength bufPtr nodeSize ≤ 254 →
      ∃ name, rootNameFromLeaf bufPtr nodeSize name_o = .ret (FSUR_IO_SUCCESS, name)) := by
  obtain ⟨hnum, hn2, hnl, hkey, hname⟩ := hin
  have hoff := be16_bounds bufPtr (nodeSize - 2).toNat
  have hlen := be16_bounds bufPtr (firstRecordOffset bufPtr nodeSize + key.nodeName_length).toNat
  have kp : (key.parentID : Int) = 2 := rfl
  have kl : (key.nodeName_length : Int) = 6 := rfl
  have ku : (key.nodeName_unicode : Int) = 8 := rfl
  have e1 : be16At bufPtr bt.numRecords = .ret (nodeNumRecords bufPtr) :=
    be16At_inside bufPtr _ (by decide) hnum
  have e2 : be16At bufPtr (nodeSize - 2) = .ret (firstRecordOffset bufPtr nodeSize) :=
    be16At_inside bufPtr _ (by omega) (by omega)
  have hro : 0 ≤ firstRecordOffset bufPtr nodeSize := hoff.1
  have e3 : be32At bufPtr (firstRecordOffset bufPtr nodeSize + key.parentID)
      = .ret (firstKeyParentID bufPtr nodeSize) :=
    be32At_inside bufPtr _ (by omega) (by omega)
  have e4 : be16At bufPtr (firstRecordOffset bufPtr nodeSize + key.nodeName_length)
      = .ret (firstKeyNameLength bufPtr nodeSize) :=
    be16At_inside bufPtr _ (by omega) (by omega)
  have hl0 : 0 ≤ firstKeyNameLength bufPtr nodeSize := hlen.1
  constructor
  · intro hbad
    unfold rootNameFromLeaf
    rw [e1]
    simp only [Exec.bind_ret]
    by_cases h1 : nodeNumRecords bufPtr < 1
    · rw [if_pos h1]
    · rw [if_neg h1, e2]
      simp only [Exec.bind_ret]
      rw [e3]
      simp only [Exec.bind_ret]
      by_cases h2 : firstKeyParentID bufPtr nodeSize ≠ kHFSRootParentID
      · rw [if_pos h2]
      · rw [if_neg h2, e4]
        simp only [Exec.bind_ret]
        have h3 : firstKeyNameLength bufPtr nodeSize > 255 := by
          rcases hbad with h | h | h
          · exact absurd h h1
          · exact absurd h h2
          · exact h
        rw [if_pos (Or.inl h3)]
  · intro hgood hl254
    have h1 : ¬ nodeNumRecords bufPtr < 1 := fun h => hgood (Or.inl h)
    have h2 : ¬ firstKeyParentID bufPtr nodeSize ≠ kHFSRootParentID :=
      fun h => hgood (Or.inr (Or.inl h))
    have h3 : ¬ (firstKeyNameLength bufPtr nodeSize > 255 ∨
        firstKeyNameLength bufPtr nodeSize > 255) := by
      intro h; rcases h with h | h <;> omega
    obtain ⟨units, hunits⟩ := copyName_inside bufPtr
      (firstRecordOffset bufPtr nodeSize + key.nodeName_unicode) (by omega)
      (firstKeyNameLength bufPtr nodeSize).toNat 0 (le_refl _)
      (by have := hname (by omega); rw [Int.toNat_of_nonneg hl0]; omega)
    refine ⟨(CFStringGetCString units name_o (NAME_MAX * 3 + 1)).2, ?_⟩
    unfold rootNameFromLeaf
    rw [e1]
    simp only [Exec.bind_ret]
    rw [if_neg h1, e2]
    simp only [Exec.bind_ret]
    rw [e3]
    simp only [Exec.bind_ret]
    rw [if_neg h2, e4]
    simp only [Exec.bind_ret]
    rw [if_neg h3, hunits]
    simp only [Exec.bind_ret]
    rw [if_pos (by unfold sizeofHFSUniStr255; omega)]

/-- C10 (amended): once the first catalog leaf node has been read successfully,
and provided the bytes the validation reads (the `numRecords` field, the last
two bytes of the node, the 8-byte head of the key at the stored record offset
and, for a name length of at most 255, the name units) lie inside the node
buffer, `GetNameFromHFSPlusVolumeStartingAt` fails with `FSUR_IO_FAIL` when the
node's record count is less than 1, or the key of the first record has
`parentID` different from the root-parent ID (1), or the key's name length
exceeds 255 UTF-16 units; when none of these holds and the name length is at
most 254 it succeeds. -/
theorem GetName_root_validation (fuel : Nat) (junk : Nat → UInt8) (dev : Device)
    (hfsPlusVolumeOffset : Int) (name_o bufPtr : List UInt8) (nodeSize : Int)
    (hleaf : readFirstCatalogLeaf fuel junk dev hfsPlusVolumeOffset = .ret (.leaf bufPtr nodeSize))
    (hin : KeyInsideNode bufPtr nodeSize) :
    (RootRecordRejected bufPtr nodeSize →
      GetNameFromHFSPlusVolumeStartingAt fuel junk dev hfsPlusVolumeOffset name_o
        = .ret (FSUR_IO_FAIL, name_o)) ∧
    (¬ RootRecordRejected bufPtr nodeSize → firstKeyNameLength bufPtr nodeSize ≤ 254 →
      ∃ name, GetNameFromHFSPlusVolumeStartingAt fuel junk dev hfsPlusVolumeOffset name_o
        = .ret (FSUR_IO_SUCCESS, name)) := by
  have h := rootNameFromLeaf_validation bufPtr nodeSize name_o hin
  unfold GetNameFromHFSPlusVolumeStartingAt
  rw [hleaf]
  simp only [Exec.bind_ret]
  exact h

/-- Witness for C10: in the example image the first catalog leaf node is read,
its first record has parent ID 1 and the 3-unit name `ABC`, all inside the
node; the extraction succeeds. -/
theorem GetName_root_validation_witness :
    ∃ name, GetNameFromHFSPlusVolumeStartingAt 0 (fun _ => 0) exampleImage 0 [9, 9, 9, 9, 9]
      = .ret (FSUR_IO_SUCCESS, name) :=
  (GetName_root_validation 0 (fun _ => 0) exampleImage 0 [9, 9, 9, 9, 9] exampleLeafNode 512
    (by decide!) (by decide!)).2 (by decide!) (by decide!)

/-- C10 as stated fails: (a) in the stray image the first catalog leaf node is
read successfully and has one record, but the record offset stored in its last
two bytes is `0xFFFF`, outside the 512-byte node buffer; the run reads the key
outside the allocation and is undefined, returning neither `FSUR_IO_FAIL` nor
`FSUR_IO_SUCCESS`; (b) in the long-name image the first record lies inside the
1024-byte node, has parent ID 1 and a name of exactly 255 units, so none of
the three conditions holds, but the store of the terminator at
`swapped->unicode[255]` is outside the `HFSUniStr255` block and the run is
undefined instead of succeeding. -/
theorem GetName_key_outside_node :
    (readFirstCatalogLeaf 0 (fun _ => 0) strayImage 0 = .ret (.leaf strayLeafNode 512) ∧
      nodeNumRecords strayLeafNode = 1 ∧ firstRecordOffset strayLeafNode 512 = 65535 ∧
      GetNameFromHFSPlusVolumeStartingAt 0 (fun _ => 0) strayImage 0 [9, 9, 9, 9, 9] = .ub) ∧
    (readFirstCatalogLeaf 0 (fun _ => 0) longNameImage 0 = .ret (.leaf longNameLeafNode 1024) ∧
      KeyInsideNode longNameLeafNode 1024 ∧ ¬ RootRecordRejected longNameLeafNode 1024 ∧
      firstKeyNameLength longNameLeafNode 1024 = 255 ∧
      GetNameFromHFSPlusVolumeStartingAt 0 (fun _ => 0) longNameImage 0 [9, 9, 9, 9, 9] = .ub) := by
  decide!

/-! ## `ConvertHFSUUIDToUUID` -/

theorem byteOf_congr (a b : Int) (h : a % 256 = b % 256) : byteOf a = byteOf b := by
  unfold byteOf; rw [h]

theorem byte_decomposition (x : Int) (h0 : 0 ≤ x) (h1 : x < 2 ^ 32) :
    ∃ b0 b1 b2 b3 : Int,
      (0 ≤ b0 ∧ b0 < 256) ∧ (0 ≤ b1 ∧ b1 < 256) ∧ (0 ≤ b2 ∧ b2 < 256) ∧ (0 ≤ b3 ∧ b3 < 256) ∧
      x = b3 * 16777216 + b2 * 65536 + b1 * 256 + b0 :=
  ⟨x % 256, x / 256 % 256, x / 65536 % 256, x / 16777216, by omega, by omega, by omega,
    by omega, by omega⟩

theorem base256_digits (b0 b1 b2 b3 v : Int) (hb0 : 0 ≤ b0 ∧ b0 < 256) (hb1 : 0 ≤ b1 ∧ b1 < 256)
    (hb2 : 0 ≤ b2 ∧ b2 < 256) (hb3 : 0 ≤ b3 ∧ b3 < 256)
    (hv : v = b3 * 16777216 + b2 * 65536 + b1 * 256 + b0) :
    v % 256 = b0 ∧ v / 256 % 256 = b1 ∧ v / 65536 % 256 = b2 ∧ v / 16777216 % 256 = b3 := by
  have q1 : v / 256 = b3 * 65536 + b2 * 256 + b1 := by omega
  have q2 : v / 65536 = b3 * 256 + b2 := by omega
  have q3 : v / 16777216 = b3 := by omega
  refine ⟨by omega, ?_, ?_, ?_⟩
  · rw [q1]; omega
  · rw [q2]; omega
  · rw [q3]; omega

/-- The name bytes do not depend on the host: storing the value converted to
big-endian gives the big-endian bytes. -/
theorem bytes32_hostToBig (host : ByteOrder) (x : Int) (h0 : 0 ≤ x) (h1 : x < 2 ^ 32) :
    bytes32 host (OSSwapHostToBigInt32 host x) = bytes32 .big x := by
  cases host with
  | big => rfl
  | little =>
    obtain ⟨b0, b1, b2, b3, hb0, hb1, hb2, hb3, hx⟩ := byte_decomposition x h0 h1
    obtain ⟨x0, x1, x2, x3⟩ := base256_digits b0 b1 b2 b3 x hb0 hb1 hb2 hb3 hx
    obtain ⟨s0, s1, s2, s3⟩ := base256_digits b3 b2 b1 b0
      (b0 * 16777216 + b1 * 65536 + b2 * 256 + b3) hb3 hb2 hb1 hb0 rfl
    simp only [bytes32, OSSwapHostToBigInt32, OSSwapInt32, List.cons.injEq, and_true, x0, x1, x2,
      x3]
    refine ⟨byteOf_congr _ _ ?_, byteOf_congr _ _ ?_, byteOf_congr _ _ ?_, byteOf_congr _ _ ?_⟩
    · rw [s0, x3]
    · rw [s1, x2]
    · rw [s2, x1]
    · rw [s3, x0]

theorem getD_set_eq (l : List UInt8) (i : Nat) (a : UInt8) (h : i < l.length) :
    (l.set i a).getD i 0 = a := by
  simp [List.getD_eq_getElem?_getD, List.getElem?_set_self, h]

theorem getD_set_ne (l : List UInt8) (i j : Nat) (a : UInt8) (h : i ≠ j) :
    (l.set i a).getD j 0 = l.getD j 0 := by
  simp [List.getD_eq_getElem?_getD, List.getElem?_set_ne h]

theorem uuid_create_md5_from_name_bytes (dg : Digests) (nspace name : List UInt8) :
    (uuid_create_md5_from_name dg nspace name).length = 16 ∧
    (uuid_create_md5_from_name dg nspace name).getD 6 0
      = (((dg.md5 (nspace ++ name)).getD 6 0) &&& 0x0F) ||| 0x30 ∧
    (uuid_create_md5_from_name dg nspace name).getD 8 0
      = (((dg.md5 (nspace ++ name)).getD 8 0) &&& 0x3F) ||| 0x80 ∧
    ∀ i, i ≠ 6 → i ≠ 8 →
      (uuid_create_md5_from_name dg nspace name).getD i 0 = (dg.md5 (nspace ++ name)).getD i 0 := by
  have hlen := dg.md5_length (nspace ++ name)
  unfold uuid_create_md5_from_name
  simp only
  refine ⟨by simp [hlen], ?_, ?_, ?_⟩
  · rw [getD_set_ne _ 8 6 _ (by decide), getD_set_eq _ 6 _ (by omega)]
  · rw [getD_set_eq _ 8 _ (by simp [hlen]), getD_set_ne _ 6 8 _ (by decide)]
  · intro i h6 h8
    rw [getD_set_ne _ 8 i _ (fun h => h8 h.symm), getD_set_ne _ 6 i _ (fun h => h6 h.symm)]

/-- C15: `ConvertHFSUUIDToUUID` maps every legacy UUID `(0, x)` and every
legacy UUID `(x, 0)` to the all-zero 16-byte UUID, and it is deterministic: the
same `(high, low)` always yields the same full UUID. -/
theorem ConvertHFSUUIDToUUID_zero_half (host : ByteOrder) (dg : Digests) (x : Int) :
    ConvertHFSUUIDToUUID host dg ⟨0, x⟩ = List.replicate 16 0 ∧
    ConvertHFSUUIDToUUID host dg ⟨x, 0⟩ = List.replicate 16 0 ∧
    ∀ u v : hfs_UUID_t, u.high = v.high → u.low = v.low →
      ConvertHFSUUIDToUUID host dg u = ConvertHFSUUIDToUUID host dg v := by
  refine ⟨by simp [ConvertHFSUUIDToUUID], by simp [ConvertHFSUUIDToUUID], ?_⟩
  intro u v hh hl
  cases u; cases v
  simp only at hh hl
  rw [hh, hl]

/-- C16: for every legacy UUID with both 32-bit halves non-zero,
`ConvertHFSUUIDToUUID` returns the version-3 name-based UUID of the fixed
namespace and the 8-byte name `big-endian(high) ++ big-endian(low)`: the
result is `MD5(namespace ++ name)` with byte 6 replaced by
`(byte6 & 0x0F) | 0x30` and byte 8 replaced by `(byte8 & 0x3F) | 0x80`, the
other 14 bytes being the digest bytes; the 8 name bytes handed to MD5 are the
same on a little-endian and on a big-endian host. -/
theorem ConvertHFSUUIDToUUID_version3 (host : ByteOrder) (dg : Digests) (u : hfs_UUID_t)
    (hh : 0 < u.high ∧ u.high < 2 ^ 32) (hl : 0 < u.low ∧ u.low < 2 ^ 32) :
    (bytes32 host (OSSwapHostToBigInt32 host u.high)
        ++ bytes32 host (OSSwapHostToBigInt32 host u.low)
      = bytes32 .big u.high ++ bytes32 .big u.low) ∧
    (bytes32 .big u.high ++ bytes32 .big u.low).length = 8 ∧
    (ConvertHFSUUIDToUUID host dg u).length = 16 ∧
    (ConvertHFSUUIDToUUID host dg u).getD 6 0
      = (((dg.md5 (dg.kFSUUIDNamespaceSHA1 ++ (bytes32 .big u.high ++ bytes32 .big u.low))).getD
          6 0) &&& 0x0F) ||| 0x30 ∧
    (ConvertHFSUUIDToUUID host dg u).getD 8 0
      = (((dg.md5 (dg.kFSUUIDNamespaceSHA1 ++ (bytes32 .big u.high ++ bytes32 .big u.low))).getD
          8 0) &&& 0x3F) ||| 0x80 ∧
    ∀ i, i ≠ 6 → i ≠ 8 →
      (ConvertHFSUUIDToUUID host dg u).getD i 0
        = (dg.md5 (dg.kFSUUIDNamespaceSHA1
            ++ (bytes32 .big u.high ++ bytes32 .big u.low))).getD i 0 := by
  have e1 := bytes32_hostToBig host u.high (by omega) hh.2
  have e2 := bytes32_hostToBig host u.low (by omega) hl.2
  have hne : ¬ (u.high = 0 ∨ u.low = 0) := by omega
  have hb := uuid_create_md5_from_name_bytes dg dg.kFSUUIDNamespaceSHA1
    (bytes32 .big u.high ++ bytes32 .big u.low)
  have hc : ConvertHFSUUIDToUUID host dg u = uuid_create_md5_from_name dg dg.kFSUUIDNamespaceSHA1
      (bytes32 .big u.high ++ bytes32 .big u.low) := by
    unfold ConvertHFSUUIDToUUID
    rw [if_neg hne, e1, e2]
  rw [hc, e1, e2]
  exact ⟨rfl, rfl, hb.1, hb.2.1, hb.2.2.1, hb.2.2.2⟩

/-! ## `GenerateHFSVolumeUUID` -/

theorem byteOf_toNat (c : UInt8) (v : Int) (h : v % 256 = (c.toNat : Int)) : byteOf v = c := by
  unfold byteOf
  rw [h]
  apply UInt8.ext
  simp [UInt8.toNat, UInt8.ofNat]

theorem drop_take_four (d : List UInt8) (off : Nat) (h : off + 4 ≤ d.length) :
    (d.drop off).take 4
      = [d.getD off 0, d.getD (off + 1) 0, d.getD (off + 2) 0, d.getD (off + 3) 0] := by
  apply List.ext_getElem?
  intro i
  by_cases hi : i < 4
  · have h1 : off + i < d.length := by omega
    rw [List.getElem?_take_of_lt hi, List.getElem?_drop]
    have e : ∀ k, k < 4 → d.getD (off + k) 0 = d[off + k]?.getD 0 := fun k _ =>
      List.getD_eq_getElem?_getD _ _ _
    have g : ∀ k, k < 4 → d[off + k]? = some (d[off + k]?.getD 0) := fun k hk => by
      rw [List.getElem?_eq_getElem (by omega)]; rfl
    interval_cases i
    · simpa using g 0 (by decide)
    · simpa [List.getD_eq_getElem?_getD] using g 1 (by decide)
    · simpa [List.getD_eq_getElem?_getD] using g 2 (by decide)
    · simpa [List.getD_eq_getElem?_getD] using g 3 (by decide)
  · rw [List.getElem?_eq_none (by simp; omega), List.getElem?_eq_none (by simp; omega)]

theorem uint8_bounds (c : UInt8) : 0 ≤ (c.toNat : Int) ∧ (c.toNat : Int) < 256 := by
  have := UInt8.toNat_lt c
  omega

/-- Storing the value read from four bytes gives these four bytes back. -/
theorem bytes32_word32 (host : ByteOrder) (d : List UInt8) (off : Nat) (h : off + 4 ≤ d.length) :
    bytes32 host (word32 host d off) = (d.drop off).take 4 := by
  rw [drop_take_four d off h]
  cases host with
  | big =>
    obtain ⟨x0, x1, x2, x3⟩ := base256_digits _ _ _ _ (word32 .big d off)
      (uint8_bounds (d.getD (off + 3) 0)) (uint8_bounds (d.getD (off + 2) 0))
      (uint8_bounds (d.getD (off + 1) 0)) (uint8_bounds (d.getD off 0)) rfl
    simp only [bytes32, List.cons.injEq, and_true]
    exact ⟨byteOf_toNat _ _ x3, byteOf_toNat _ _ x2, byteOf_toNat _ _ x1, byteOf_toNat _ _ x0⟩
  | little =>
    obtain ⟨x0, x1, x2, x3⟩ := base256_digits _ _ _ _ (word32 .little d off)
      (uint8_bounds (d.getD off 0)) (uint8_bounds (d.getD (off + 1) 0))
      (uint8_bounds (d.getD (off + 2) 0)) (uint8_bounds (d.getD (off + 3) 0)) rfl
    simp only [bytes32, List.cons.injEq, and_true]
    exact ⟨byteOf_toNat _ _ x0, byteOf_toNat _ _ x1, byteOf_toNat _ _ x2, byteOf_toNat _ _ x3⟩

theorem halvesOf_bytes (host : ByteOrder) (d : List UInt8) (h : 8 ≤ d.length) :
    bytes32 host (halvesOf host d).high ++ bytes32 host (halvesOf host d).low = d.take 8 := by
  unfold halvesOf
  simp only
  rw [bytes32_word32 host d 0 (by omega), bytes32_word32 host d 4 (by omega)]
  simp only [List.drop_zero]
  have e1 : d.take 4 = (d.take 8).take 4 := by simp [List.take_take]
  have e2 : (d.drop 4).take 4 = (d.take 8).drop 4 := by simp [List.drop_take]
  rw [e1, e2]
  exact List.take_append_drop 4 (d.take 8)

theorem generateLoop_ret (host : ByteOrder) (dg : Digests) (samples : Nat → List UInt8) :
    ∀ (fuel i : Nat) (u : hfs_UUID_t), generateLoop host dg samples fuel i = .ret u →
      ∃ n, i ≤ n ∧ n < i + fuel ∧
        (∀ j, i ≤ j → j < n → ZeroHalf host (dg.sha1 (samples j))) ∧
        ¬ ZeroHalf host (dg.sha1 (samples n)) ∧ u = halvesOf host (dg.sha1 (samples n)) := by
  intro fuel
  induction fuel with
  | zero => intro i u h; simp [generateLoop] at h
  | succ fuel ih =>
    intro i u h
    unfold generateLoop at h
    simp only at h
    by_cases hz : word32 host (dg.sha1 (samples i)) 0 = 0 ∨ word32 host (dg.sha1 (samples i)) 4 = 0
    · rw [if_pos hz] at h
      obtain ⟨n, h1, h2, h3, h4, h5⟩ := ih (i + 1) u h
      refine ⟨n, by omega, by omega, ?_, h4, h5⟩
      intro j hj1 hj2
      by_cases hji : j = i
      · rw [hji]; exact hz
      · exact h3 j (by omega) hj2
    · rw [if_neg hz] at h
      refine ⟨i, le_refl _, by omega, fun j h1 h2 => absurd h2 (by omega), hz, ?_⟩
      injection h with h
      exact h.symm

theorem generateLoop_enough (host : ByteOrder) (dg : Digests) (samples : Nat → List UInt8)
    (n : Nat) :
    ∀ (fuel i : Nat), i ≤ n → n < i + fuel →
      (∀ j, i ≤ j → j < n → ZeroHalf host (dg.sha1 (samples j))) →
      ¬ ZeroHalf host (dg.sha1 (samples n)) →
      generateLoop host dg samples fuel i = .ret (halvesOf host (dg.sha1 (samples n))) := by
  intro fuel
  induction fuel with
  | zero => intro i h1 h2; omega
  | succ fuel ih =>
    intro i h1 h2 h3 h4
    unfold generateLoop
    simp only
    by_cases hin : i = n
    · rw [hin, if_neg (show ¬ (word32 host (dg.sha1 (samples n)) 0 = 0
          ∨ word32 host (dg.sha1 (samples n)) 4 = 0) from h4)]
      rfl
    · rw [if_pos (show word32 host (dg.sha1 (samples i)) 0 = 0
          ∨ word32 host (dg.sha1 (samples i)) 4 = 0 from h3 i (le_refl _) (by omega))]
      exact ih (i + 1) (by omega) (by omega) (fun j hj1 hj2 => h3 j (by omega) hj2) h4

/-- C17: `GenerateHFSVolumeUUID` never returns a legacy UUID with a zero half.
Whenever it returns `u`, both halves of `u` are non-zero and the 8 bytes it
stores are the first 8 bytes of the SHA-1 digest of one round of samples, every
earlier round having given a digest with a zero half (discarded, the sampling
repeated).  It does return: if round `n` is the first whose digest has no zero
half, every run allowed more than `n` rounds returns the halves of that
digest. -/
theorem GenerateHFSVolumeUUID_nonzero_halves (host : ByteOrder) (dg : Digests)
    (samples : Nat → List UInt8) :
    (∀ (fuel : Nat) (u : hfs_UUID_t), GenerateHFSVolumeUUID fuel host dg samples = .ret u →
      u.high ≠ 0 ∧ u.low ≠ 0 ∧
      ∃ n, n < fuel ∧
        (∀ j, j < n → ZeroHalf host (dg.sha1 (samples j))) ∧
        ¬ ZeroHalf host (dg.sha1 (samples n)) ∧
        bytes32 host u.high ++ bytes32 host u.low = (dg.sha1 (samples n)).take 8) ∧
    (∀ n : Nat, (∀ j, j < n → ZeroHalf host (dg.sha1 (samples j))) →
      ¬ ZeroHalf host (dg.sha1 (samples n)) →
      ∀ fuel, n < fuel →
        GenerateHFSVolumeUUID fuel host dg samples
          = .ret (halvesOf host (dg.sha1 (samples n)))) := by
  constructor
  · intro fuel u h
    obtain ⟨n, _, h2, h3, h4, h5⟩ := generateLoop_ret host dg samples fuel 0 u h
    have hb := halvesOf_bytes host (dg.sha1 (samples n)) (by rw [dg.sha1_length]; decide)
    rw [← h5] at hb
    have hn : ¬ (u.high = 0 ∨ u.low = 0) := by rw [h5]; exact h4
    exact ⟨fun h => hn (Or.inl h), fun h => hn (Or.inr h), n, by omega,
      fun j hj => h3 j (Nat.zero_le _) hj, h4, hb⟩
  · intro n h3 h4 fuel hf
    exact generateLoop_enough host dg samples n fuel 0 (Nat.zero_le _) (by omega)
      (fun j _ hj => h3 j hj) h4

theorem GenerateHFSVolumeUUID_nonzero_halves_witness :
    GenerateHFSVolumeUUID 5 .big toyDigests toySamples = .ret ⟨7, 9⟩ ∧
    ZeroHalf .big (toyDigests.sha1 (toySamples 0)) ∧
    (toyDigests.sha1 (toySamples 1)).take 8 = [0, 0, 0, 7, 0, 0, 0, 9] :=
  ⟨(GenerateHFSVolumeUUID_nonzero_halves .big toyDigests toySamples).2 1 (by decide) (by decide)
    5 (by decide), by decide, by decide⟩

theorem ConvertHFSUUIDToUUID_zero_half_witness :
    ConvertHFSUUIDToUUID .little toyDigests ⟨0, 7⟩ = List.replicate 16 0 ∧
    ConvertHFSUUIDToUUID .little toyDigests ⟨7, 0⟩ = List.replicate 16 0 :=
  ⟨(ConvertHFSUUIDToUUID_zero_half .little toyDigests 7).1,
    (ConvertHFSUUIDToUUID_zero_half .little toyDigests 7).2.1⟩

theorem ConvertHFSUUIDToUUID_version3_witness :
    (ConvertHFSUUIDToUUID .little toyDigests ⟨7, 9⟩).getD 6 0 = 0x31 ∧
    (ConvertHFSUUIDToUUID .little toyDigests ⟨7, 9⟩).getD 8 0 = 0x97 ∧
    bytes32 .little (OSSwapHostToBigInt32 .little 7) ++ bytes32 .little (OSSwapHostToBigInt32 .little 9)
      = [0, 0, 0, 7, 0, 0, 0, 9] := by
  have h := ConvertHFSUUIDToUUID_version3 .little toyDigests ⟨7, 9⟩ (by decide) (by decide)
  refine ⟨?_, ?_, ?_⟩
  · rw [h.2.2.2.1]; decide
  · rw [h.2.2.2.2.1]; decide
  · rw [h.1]; decide

/-! ## Volume UUID access -/

/-- C20 (refuted): an unrecognised header is not passed up unchanged.  When
`ReadHeaderBlock` returns `FSUR_UNRECOGNIZED` on an opened, unmounted device,
`GetVolumeUUIDRaw` returns `FSUR_IO_FAIL` (the caller's UUID untouched),
`SetVolumeUUIDRaw` returns `FSUR_IO_FAIL` (the device untouched), and so does
`GetVolumeUUID` for a device that has no mounted volume. -/
theorem GetVolumeUUIDRaw_unrecognized_becomes_fail (host : ByteOrder) (dg : Digests)
    (junk : Nat → UInt8) (fd : Int) (dev : Device) (volUUID : List UInt8) (u : hfs_UUID_t)
    (buf : List UInt8) (startOffset : Int) (ptr : Option Nat) (hfd : 0 < fd)
    (h : ReadHeaderBlock dev (malloc junk HFS_BLOCK_SIZE)
      = .ret (FSUR_UNRECOGNIZED, buf, startOffset, ptr)) :
    GetVolumeUUIDRaw host dg junk fd dev volUUID = .ret (FSUR_IO_FAIL, volUUID) ∧
    SetVolumeUUIDRaw host junk fd dev u = .ret (FSUR_IO_FAIL, dev) ∧
    (∀ (fuel : Nat) (samples : Nat → List UInt8) (kernelUUID : List UInt8 → List UInt8)
      (mounts : List statfs) (vol : MountedVolume) (setFd : Int) (deviceNamePtr : String)
      (generate : Bool), GetHFSMountPoint mounts deviceNamePtr = (FSUR_IO_SUCCESS, none) →
      GetVolumeUUID fuel host dg junk samples kernelUUID mounts vol fd setFd dev deviceNamePtr
        volUUID generate = .ret (FSUR_IO_FAIL, volUUID, vol, dev)) ∧
    FSUR_IO_FAIL ≠ FSUR_UNRECOGNIZED := by
  have d1 : FSUR_UNRECOGNIZED ≠ FSUR_IO_SUCCESS := by decide
  have d2 : FSUR_IO_FAIL ≠ FSUR_IO_SUCCESS := by decide
  have e1 : rawResult FSUR_UNRECOGNIZED = FSUR_IO_FAIL := rfl
  have hget : GetVolumeUUIDRaw host dg junk fd dev volUUID = .ret (FSUR_IO_FAIL, volUUID) := by
    unfold GetVolumeUUIDRaw
    simp only [if_neg (not_le.2 hfd), h, Exec.bind, ne_eq, d1, not_false_eq_true, if_true, e1]
  refine ⟨hget, ?_, ?_, by decide⟩
  · unfold SetVolumeUUIDRaw
    simp only [if_neg (not_le.2 hfd), h, Exec.bind, ne_eq, d1, not_false_eq_true, if_true, e1]
  · intro fuel samples kernelUUID mounts vol setFd deviceNamePtr generate hm
    unfold GetVolumeUUID
    simp only [hm, hget, Exec.bind, ne_eq, d2, not_true_eq_false, not_false_eq_true, if_true,
      if_false]

theorem GetVolumeUUIDRaw_unrecognized_becomes_fail_witness :
    ReadHeaderBlock blankDevice (malloc (fun _ => 0) HFS_BLOCK_SIZE)
      = .ret (FSUR_UNRECOGNIZED, List.replicate 512 0, 0, none) ∧
    GetVolumeUUIDRaw .little toyDigests (fun _ => 0) 3 blankDevice (List.replicate 16 1)
      = .ret (FSUR_IO_FAIL, List.replicate 16 1) ∧
    SetVolumeUUIDRaw .little (fun _ => 0) 3 blankDevice ⟨7, 9⟩ = .ret (FSUR_IO_FAIL, blankDevice) :=
  have h : ReadHeaderBlock blankDevice (malloc (fun _ => 0) HFS_BLOCK_SIZE)
      = .ret (FSUR_UNRECOGNIZED, List.replicate 512 0, 0, none) := by decide!
  have t := GetVolumeUUIDRaw_unrecognized_becomes_fail .little toyDigests (fun _ => 0) 3
    blankDevice (List.replicate 16 1) ⟨7, 9⟩ (List.replicate 512 0) 0 none (by decide) h
  ⟨h, t.1, t.2.1⟩

/-- C18 (refuted): after a generation `GetVolumeUUID` does not return the UUID
of the volume.  On the unmounted example image, whose legacy UUID is unset,
`GetVolumeUUID` with `generate` set returns `FSUR_IO_SUCCESS`, stores the
generated legacy UUID `(7, 9)` in the volume header, and leaves the null UUID
in the caller's output; a following `GetVolumeUUID` on the resulting image
returns the full UUID derived from `(7, 9)`, which is not the null UUID. -/
theorem GetVolumeUUID_returns_null_after_generation :
    GetVolumeUUID 5 .big toyDigests (fun _ => 0) toySamples (fun _ => []) exampleMounts
        exampleMounted 3 4 exampleImage "/dev/disk2s1" (List.replicate 16 0xFF) true
      = .ret (FSUR_IO_SUCCESS, List.replicate 16 0, exampleMounted, adoptedImage) ∧
    GenerateHFSVolumeUUID 5 .big toyDigests toySamples = .ret ⟨7, 9⟩ ∧
    ((adoptedImage.data.drop (1024 + 104)).take 8 = [0, 0, 0, 7, 0, 0, 0, 9]) ∧
    GetVolumeUUID 5 .big toyDigests (fun _ => 0) toySamples (fun _ => []) exampleMounts
        exampleMounted 3 4 adoptedImage "/dev/disk2s1" (List.replicate 16 0xFF) true
      = .ret (FSUR_IO_SUCCESS, ConvertHFSUUIDToUUID .big toyDigests ⟨7, 9⟩, exampleMounted,
          adoptedImage) ∧
    ConvertHFSUUIDToUUID .big toyDigests ⟨7, 9⟩ ≠ List.replicate 16 0 := by
  refine ⟨by decide!, by decide!, by decide!, by decide!, by decide!⟩

/-! ## Raw UUID round trip -/

theorem malloc_length (junk : Nat → UInt8) (n : Int) : (malloc junk n).length = n.toNat := by
  simp [malloc]

/-- The run of `writeAt` when the aligned block range lies on the device: the
whole range is written, the caller's bytes at their place and the fresh scratch
block around them. -/
theorem writeAt_fits (junk : Nat → UInt8) (dev : Device) (buf : List UInt8)
    (offset length B : Int) (hb : dev.blocksize = some B) (hB : 1 ≤ B) (h0 : 0 ≤ offset)
    (h1 : 0 ≤ length)
    (hfit : rawOffsetOf offset B + rawLengthOf offset length B ≤ (dev.data.length : Int))
    (hbuf : length.toNat ≤ buf.length) :
    ∃ dev1 : Device, writeAt junk dev buf offset length = .ret (FSUR_IO_SUCCESS, dev1) ∧
      dev1.blocksize = some B ∧ dev1.data.length = dev.data.length ∧
      (dev1.data.drop offset.toNat).take length.toNat = buf.take length.toNat ∧
      dev1.data.take (rawOffsetOf offset B).toNat = dev.data.take (rawOffsetOf offset B).toNat ∧
      dev1.data.drop ((rawOffsetOf offset B).toNat + (rawLengthOf offset length B).toNat)
        = dev.data.drop ((rawOffsetOf offset B).toNat + (rawLengthOf offset length B).toNat) := by
  have hro := rawOffsetOf_bounds offset B h0 hB
  have hrl := rawLengthOf_bounds offset length B h0 h1 hB
  have hB0 : B ≠ 0 := by omega
  have hseek : lseek (rawOffsetOf offset B) = rawOffsetOf offset B := by
    unfold lseek; rw [if_neg (by omega)]
  obtain ⟨q, hq⟩ := hrl.2.2
  have hm1 : (rawOffsetOf offset B).tmod B = 0 := by
    unfold rawOffsetOf
    exact Int.mul_tmod_left _ _
  have hm2 : (rawLengthOf offset length B).tmod B = 0 := by
    rw [hq]; exact Int.mul_tmod_right _ _
  generalize hR : rawOffsetOf offset B = R at *
  generalize hL : rawLengthOf offset length B = L at *
  obtain ⟨J, hJdef⟩ : ∃ J, J = malloc junk L := ⟨_, rfl⟩
  have hJ : J.length = L.toNat := by rw [hJdef]; exact malloc_length junk L
  have hk : min L.toNat (dev.data.length - R.toNat) = L.toNat := by omega
  refine ⟨⟨some B, dev.data.take R.toNat
      ++ List.take L.toNat (J.take (offset - R).toNat
        ++ bcopy buf (J.drop (offset - R).toNat) length)
      ++ dev.data.drop (R.toNat + L.toNat)⟩, ?_, rfl, ?_, ?_, ?_, ?_⟩
  · simp only [writeAt, hb, hB0, if_false, hseek, ne_eq, not_true_eq_false, hR, hL, hm1, hm2,
      or_self, write, hk, ← hJdef]
    rw [if_neg (by omega), if_neg (by omega), if_pos ⟨by omega, h1, by omega⟩]
    rw [if_neg (by omega)]
  · simp only [List.length_append, List.length_take, List.length_drop, bcopy, hJ]
    omega
  · have e1 : offset.toNat = R.toNat + (offset - R).toNat := by omega
    have hlen1 : (dev.data.take R.toNat).length = R.toNat := by
      rw [List.length_take]; omega
    have hlen2 : (J.take (offset - R).toNat).length = (offset - R).toNat := by
      rw [List.length_take]; omega
    have hlen3 : (buf.take length.toNat).length = length.toNat := by
      rw [List.length_take]; omega
    have hfull : List.take L.toNat (J.take (offset - R).toNat
        ++ bcopy buf (J.drop (offset - R).toNat) length)
        = J.take (offset - R).toNat ++ bcopy buf (J.drop (offset - R).toNat) length := by
      apply List.take_of_length_le
      simp only [List.length_append, List.length_take, List.length_drop, bcopy, hJ]
      omega
    simp only
    rw [hfull, e1, List.append_assoc, ← List.drop_drop, List.drop_left' hlen1, List.append_assoc,
      List.drop_left' hlen2]
    unfold bcopy
    rw [List.append_assoc, List.take_left' hlen3]
  · simp only
    rw [List.append_assoc, List.take_left' (by rw [List.length_take]; omega)]
  · have hfull : (List.take L.toNat (J.take (offset - R).toNat
        ++ bcopy buf (J.drop (offset - R).toNat) length)).length = L.toNat := by
      simp only [List.length_append, List.length_take, List.length_drop, bcopy, hJ]
      omega
    simp only
    rw [← List.drop_drop, List.append_assoc, List.drop_left' (by rw [List.length_take]; omega),
      List.drop_left' hfull]

theorem putBytes_length (l v : List UInt8) (p : Nat) (h : p + v.length ≤ l.length) :
    (putBytes l p v).length = l.length := by
  simp only [putBytes, List.length_append, List.length_take, List.length_drop]
  omega

theorem putBytes_putBytes (l a b : List UInt8) (p : Nat) (h : p + a.length + b.length ≤ l.length) :
    putBytes (putBytes l p a) (p + a.length) b = putBytes l p (a ++ b) := by
  have h1 : (l.take p ++ a).length = p + a.length := by
    rw [List.length_append, List.length_take]; omega
  have h2 : (l.take p ++ a ++ List.take b.length (l.drop (p + a.length))).length
      = p + a.length + b.length := by
    rw [List.length_append, h1, List.length_take, List.length_drop]; omega
  have e := (List.take_append_drop b.length (l.drop (p + a.length))).symm
  rw [List.drop_drop] at e
  unfold putBytes
  rw [List.take_left' h1]
  congr 1
  · rw [List.append_assoc]
  · conv_lhs => rw [e, ← List.append_assoc, List.drop_left' h2]
    rw [List.length_append]
    congr 1
    omega

theorem putBytes_getD_outside (l v : List UInt8) (p i : Nat) (h : p + v.length ≤ l.length)
    (hi : i < p ∨ p + v.length ≤ i) : (putBytes l p v).getD i 0 = l.getD i 0 := by
  have h1 : (l.take p).length = p := by rw [List.length_take]; omega
  have h2 : (l.take p ++ v).length = p + v.length := by rw [List.length_append, h1]
  unfold putBytes
  simp only [List.getD_eq_getElem?_getD]
  rcases hi with hi | hi
  · rw [List.append_assoc, List.getElem?_append_left (by omega), List.getElem?_take_of_lt hi]
  · rw [List.getElem?_append_right (by omega), h2, List.getElem?_drop]
    congr 2
    omega

theorem putBytes_slot (l v : List UInt8) (p : Nat) (h : p + v.length ≤ l.length) :
    ((putBytes l p v).drop p).take v.length = v := by
  have h1 : (l.take p).length = p := by rw [List.length_take]; omega
  unfold putBytes
  rw [List.append_assoc, List.drop_left' h1, List.take_left' rfl]

theorem putBytes_getD_inside (l v : List UInt8) (p i : Nat) (h : p + v.length ≤ l.length)
    (hi : i < v.length) : (putBytes l p v).getD (p + i) 0 = v.getD i 0 := by
  have h1 : (l.take p).length = p := by rw [List.length_take]; omega
  unfold putBytes
  simp only [List.getD_eq_getElem?_getD]
  rw [List.append_assoc, List.getElem?_append_right (by omega), h1,
    List.getElem?_append_left (by omega)]
  congr 2
  omega

theorem byteOf_toNat_eq (v : Int) : ((byteOf v).toNat : Int) = v % 256 := by
  unfold byteOf
  have h1 : 0 ≤ v % 256 := Int.emod_nonneg _ (by decide)
  have h2 : v % 256 < 256 := Int.emod_lt_of_pos _ (by decide)
  have h3 : (v % 256).toNat < 256 := by omega
  have : (UInt8.ofNat (v % 256).toNat).toNat = (v % 256).toNat := by
    simp [UInt8.toNat, UInt8.ofNat, Nat.mod_eq_of_lt h3]
  rw [this]
  omega

theorem be32_bytes32 (x : Int) (rest : List UInt8) (h0 : 0 ≤ x) (h1 : x < 2 ^ 32) :
    be32 (bytes32 .big x ++ rest) 0 = x := by
  unfold be32 bytes32
  simp only [List.cons_append, List.getD_cons_zero, List.getD_cons_succ, List.nil_append,
    byteOf_toNat_eq]
  omega

theorem readSucceeds_of_range (dev : Device) (B o l : Int) (hb : dev.blocksize = some B)
    (hB : 1 ≤ B) (h0 : 0 ≤ o) (h1 : 0 ≤ l) (h : BlockRangeOnDevice dev B o l) :
    ReadSucceeds dev o l := by
  intro buf
  unfold BlockRangeOnDevice at h
  exact ⟨_, readAt_fits dev buf o l B hb hB h0 h1 (by omega)⟩

theorem headerOffset_ge (dev : Device) : 1024 ≤ headerOffset dev := by
  unfold headerOffset
  split
  · have := (embeddedOffset_bounds (headerBlockAt dev 1024)).1
    omega
  · exact le_refl _

theorem checkSignature_recognised (hdr : List UInt8) (h : Recognised hdr) :
    checkSignature FSUR_IO_SUCCESS hdr = (FSUR_IO_SUCCESS, some (uuidSlot hdr)) := by
  have e0 : mdb.drSigWord = vh.signature := rfl
  unfold checkSignature uuidSlot
  rw [e0]
  by_cases h1 : be16 hdr vh.signature = kHFSSigWord
  · rw [if_pos h1, if_pos h1]
  · rw [if_neg h1, if_neg h1]
    rcases h with h | h
    · exact absurd h h1
    · rw [if_pos h]

/-- The run of `ReadHeaderBlock` when the block ranges of its reads lie on the
device: the buffer holds the header block found at `headerOffset`. -/
theorem ReadHeaderBlock_at_headerOffset (dev : Device) (B : Int) (bufPtr : List UInt8)
    (hb : dev.blocksize = some B) (hB : 1 ≤ B) (hlen : bufPtr.length = 512)
    (h1 : BlockRangeOnDevice dev B 1024 512)
    (h2 : BlockRangeOnDevice dev B (headerOffset dev) 512) :
    ReadHeaderBlock dev bufPtr = .ret
      ((checkSignature FSUR_IO_SUCCESS (headerBlockAt dev (headerOffset dev))).1,
        headerBlockAt dev (headerOffset dev), headerOffset dev - 1024,
        (checkSignature FSUR_IO_SUCCESS (headerBlockAt dev (headerOffset dev))).2) ∧
    (headerBlockAt dev (headerOffset dev)).length = 512 := by
  have r1 := readSucceeds_of_range dev B 1024 512 hb hB (by decide) (by decide) h1
  have r2 := readSucceeds_of_range dev B (headerOffset dev) 512 hb hB
    (by have := headerOffset_ge dev; omega) (by decide) h2
  have hd : bufPtr.drop 512 = [] := List.drop_of_length_le (by omega)
  have hl := (readAt_header dev bufPtr (headerOffset dev) r2).2
  refine ⟨?_, hl⟩
  by_cases hw : IsWrapped (headerBlockAt dev 1024)
  · have e : headerOffset dev = embeddedOffset (headerBlockAt dev 1024) + 1024 := by
      unfold headerOffset; rw [if_pos hw]
    have t := (ReadHeaderBlock_eval dev bufPtr r1 (fun _ => by rw [← e]; exact r2)).1 hw
    have e2 : embeddedOffset (headerBlockAt dev 1024) = headerOffset dev - 1024 := by omega
    rw [t, hd, List.append_nil, ← e, e2]
  · have e : headerOffset dev = 1024 := by
      unfold headerOffset; rw [if_neg hw]
    have t := (ReadHeaderBlock_eval dev bufPtr r1 (fun h => absurd h hw)).2 hw
    rw [t, hd, List.append_nil, e]
    rfl

theorem be16_putBytes_outside (l v : List UInt8) (p off : Nat) (h : p + v.length ≤ l.length)
    (ho : off + 2 ≤ p ∨ p + v.length ≤ off) : be16 (putBytes l p v) off = be16 l off := by
  unfold be16
  rw [putBytes_getD_outside l v p off h (by omega),
    putBytes_getD_outside l v p (off + 1) h (by omega)]

theorem be32_putBytes_outside (l v : List UInt8) (p off : Nat) (h : p + v.length ≤ l.length)
    (ho : off + 4 ≤ p ∨ p + v.length ≤ off) : be32 (putBytes l p v) off = be32 l off := by
  unfold be32
  rw [putBytes_getD_outside l v p off h (by omega),
    putBytes_getD_outside l v p (off + 1) h (by omega),
    putBytes_getD_outside l v p (off + 2) h (by omega),
    putBytes_getD_outside l v p (off + 3) h (by omega)]

theorem be32_putBytes_inside (l v : List UInt8) (p i : Nat) (h : p + v.length ≤ l.length)
    (hi : i + 4 ≤ v.length) : be32 (putBytes l p v) (p + i) = be32 v i := by
  unfold be32
  rw [putBytes_getD_inside l v p i h (by omega),
    show p + i + 1 = p + (i + 1) from rfl, putBytes_getD_inside l v p (i + 1) h (by omega),
    show p + i + 2 = p + (i + 2) from rfl, putBytes_getD_inside l v p (i + 2) h (by omega),
    show p + i + 3 = p + (i + 3) from rfl, putBytes_getD_inside l v p (i + 3) h (by omega)]

theorem uuidSlot_cases (hdr : List UInt8) : uuidSlot hdr = 116 ∨ uuidSlot hdr = 104 := by
  unfold uuidSlot
  split
  · exact Or.inl rfl
  · exact Or.inr rfl

/-- Storing 8 bytes in the UUID slot of a header block leaves its signature
words and the fields that locate an embedded volume as they were. -/
theorem storedHeader_fields (hdr v : List UInt8) (hlen : hdr.length = 512) (hv : v.length = 8) :
    (putBytes hdr (uuidSlot hdr) v).length = 512 ∧
    be16 (putBytes hdr (uuidSlot hdr) v) vh.signature = be16 hdr vh.signature ∧
    (IsWrapped (putBytes hdr (uuidSlot hdr) v) ↔ IsWrapped hdr) ∧
    embeddedOffset (putBytes hdr (uuidSlot hdr) v) = embeddedOffset hdr ∧
    be32 (putBytes hdr (uuidSlot hdr) v) (uuidSlot hdr) = be32 v 0 ∧
    be32 (putBytes hdr (uuidSlot hdr) v) (uuidSlot hdr + 4) = be32 v 4 := by
  have hp := uuidSlot_cases hdr
  have hfit : uuidSlot hdr + v.length ≤ hdr.length := by omega
  have k0 : be16 (putBytes hdr (uuidSlot hdr) v) 0 = be16 hdr 0 :=
    be16_putBytes_outside hdr v _ 0 hfit (by omega)
  have k124 : be16 (putBytes hdr (uuidSlot hdr) v) 124 = be16 hdr 124 :=
    be16_putBytes_outside hdr v _ 124 hfit (by omega)
  have k126 : be16 (putBytes hdr (uuidSlot hdr) v) 126 = be16 hdr 126 :=
    be16_putBytes_outside hdr v _ 126 hfit (by omega)
  have k28 : be16 (putBytes hdr (uuidSlot hdr) v) 28 = be16 hdr 28 :=
    be16_putBytes_outside hdr v _ 28 hfit (by omega)
  have k20 : be32 (putBytes hdr (uuidSlot hdr) v) 20 = be32 hdr 20 :=
    be32_putBytes_outside hdr v _ 20 hfit (by omega)
  refine ⟨by rw [putBytes_length hdr v _ hfit, hlen], k0, ?_, ?_, ?_, ?_⟩
  · unfold IsWrapped
    rw [show mdb.drSigWord = 0 from rfl, show mdb.drEmbedSigWord = 124 from rfl, k0, k124]
  · unfold embeddedOffset
    rw [show mdb.drEmbedExtent_startBlock = 126 from rfl, show mdb.drAlBlkSiz = 20 from rfl,
      show mdb.drAlBlSt = 28 from rfl, k126, k20, k28]
  · exact be32_putBytes_inside hdr v _ 0 hfit (by omega)
  · exact be32_putBytes_inside hdr v _ 4 hfit (by omega)

theorem headerBlockAt_of_take (a b : List UInt8) (n : Nat) (h : a.take n = b.take n)
    (hn : 1536 ≤ n) : (a.drop 1024).take 512 = (b.drop 1024).take 512 := by
  have e : ∀ l : List UInt8, (l.drop 1024).take 512 = ((l.take n).take 1536).drop 1024 := by
    intro l
    rw [List.take_take, List.drop_take, Nat.min_eq_left hn]
  rw [e a, e b, h]

theorem be32_uuid_bytes (high low : Int) (hh : 0 ≤ high ∧ high < 2 ^ 32)
    (hl : 0 ≤ low ∧ low < 2 ^ 32) :
    be32 (bytes32 .big high ++ bytes32 .big low) 0 = high ∧
    be32 (bytes32 .big high ++ bytes32 .big low) 4 = low := by
  refine ⟨be32_bytes32 high _ hh.1 hh.2, ?_⟩
  unfold be32 bytes32
  simp only [List.cons_append, List.nil_append, List.getD_cons_zero, List.getD_cons_succ,
    byteOf_toNat_eq]
  omega

theorem uuidSlot_congr (a b : List UInt8) (h : be16 a vh.signature = be16 b vh.signature) :
    uuidSlot a = uuidSlot b := by
  have e0 : mdb.drSigWord = vh.signature := rfl
  unfold uuidSlot
  rw [e0, h]

/-- Raw UUID write/read round trip away from the wrapper.  For every unmounted device
with block size `B ≥ 1` whose header block (at `headerOffset`: 1024, or
`E + 1024` for a wrapped volume) carries a recognised signature, such that the
block-aligned ranges around sector 2 and around the header lie on the device
and the aligned range around the header of a wrapped volume does not reach the
wrapper's Master Directory Block (it starts at or after byte 1536, unless the
header is sector 2 itself), and for every legacy UUID `u` of two 32-bit halves:
`SetVolumeUUIDRaw` succeeds, afterwards the 8 bytes of the header's Finder-info
UUID slot are `big-endian(u.high) ++ big-endian(u.low)`, and
`GetVolumeUUIDRaw` on the resulting image succeeds and returns
`ConvertHFSUUIDToUUID(u)`. -/
theorem SetVolumeUUIDRaw_round_trip (host : ByteOrder) (dg : Digests) (junk junk1 : Nat → UInt8)
    (fd fd1 : Int) (dev : Device) (B : Int) (volUUID : List UInt8) (u : hfs_UUID_t)
    (hb : dev.blocksize = some B) (hB : 1 ≤ B) (hfd : 0 < fd) (hfd1 : 0 < fd1)
    (h1 : BlockRangeOnDevice dev B 1024 512)
    (h2 : BlockRangeOnDevice dev B (headerOffset dev) 512)
    (hsafe : headerOffset dev = 1024 ∨ 1536 ≤ rawOffsetOf (headerOffset dev) B)
    (hrec : Recognised (headerBlockAt dev (headerOffset dev)))
    (hh : 0 ≤ u.high ∧ u.high < 2 ^ 32) (hl : 0 ≤ u.low ∧ u.low < 2 ^ 32) :
    ∃ dev1 : Device,
      SetVolumeUUIDRaw host junk fd dev u = .ret (FSUR_IO_SUCCESS, dev1) ∧
      headerOffset dev1 = headerOffset dev ∧
      (dev1.data.drop ((headerOffset dev).toNat
          + uuidSlot (headerBlockAt dev (headerOffset dev)))).take 8
        = bytes32 .big u.high ++ bytes32 .big u.low ∧
      GetVolumeUUIDRaw host dg junk1 fd1 dev1 volUUID
        = .ret (FSUR_IO_SUCCESS, ConvertHFSUUIDToUUID host dg u) := by
  have hH := headerOffset_ge dev
  generalize hHdef : headerOffset dev = H at *
  obtain ⟨hrun, hlen⟩ := ReadHeaderBlock_at_headerOffset dev B (malloc junk HFS_BLOCK_SIZE) hb hB
    (malloc_length junk _) h1 (by rw [hHdef]; exact h2)
  rw [hHdef] at hrun hlen
  generalize hhdr : headerBlockAt dev H = hdr at *
  have hcs := checkSignature_recognised hdr hrec
  rw [hcs] at hrun
  obtain ⟨v, hv⟩ : ∃ v, v = bytes32 .big u.high ++ bytes32 .big u.low := ⟨_, rfl⟩
  have hvlen : v.length = 8 := by rw [hv]; rfl
  have hp := uuidSlot_cases hdr
  obtain ⟨f1, f2, f3, f4, f5, f6⟩ := storedHeader_fields hdr v hlen hvlen
  have hbuf2 : putBytes (putBytes hdr (uuidSlot hdr)
        (bytes32 host (OSSwapHostToBigInt32 host u.high))) (uuidSlot hdr + 4)
        (bytes32 host (OSSwapHostToBigInt32 host u.low)) = putBytes hdr (uuidSlot hdr) v := by
    rw [bytes32_hostToBig host u.high hh.1 hh.2, bytes32_hostToBig host u.low hl.1 hl.2, hv]
    exact putBytes_putBytes hdr (bytes32 .big u.high) (bytes32 .big u.low) (uuidSlot hdr)
      (by rw [hlen]; have e1 : (bytes32 .big u.high).length = 4 := rfl
          have e2 : (bytes32 .big u.low).length = 4 := rfl
          omega)
  obtain ⟨dev1, w1, w2, w3, w4, w5, w6⟩ := writeAt_fits junk dev (putBytes hdr (uuidSlot hdr) v)
    H 512 B hb hB (by omega) (by decide) h2 (by rw [f1]; decide)
  have e512 : (512 : Int).toNat = 512 := rfl
  rw [e512] at w4
  have hblk : headerBlockAt dev1 H = putBytes hdr (uuidSlot hdr) v := by
    unfold headerBlockAt
    rw [w4]
    exact List.take_of_length_le (by omega)
  have hHO : headerOffset dev1 = H := by
    rcases hsafe with hs | hs
    · have hM : headerBlockAt dev1 1024 = putBytes hdr (uuidSlot hdr) v := by rw [← hs]; exact hblk
      have hM0 : headerBlockAt dev 1024 = hdr := by rw [← hs]; exact hhdr
      have hH0 := hHdef
      unfold headerOffset at hH0 ⊢
      rw [hM0] at hH0
      rw [hM, f4]
      by_cases hw : IsWrapped hdr
      · rw [if_pos hw] at hH0
        rw [if_pos (f3.2 hw)]
        exact hH0
      · rw [if_neg hw] at hH0
        rw [if_neg (fun h => hw (f3.1 h))]
        exact hH0
    · have hro := rawOffsetOf_bounds H B (by omega) hB
      have hM : headerBlockAt dev1 1024 = headerBlockAt dev 1024 := by
        unfold headerBlockAt
        exact headerBlockAt_of_take _ _ _ w5 (by omega)
      unfold headerOffset at hHdef ⊢
      rw [hM]
      exact hHdef
  have hrec1 : Recognised (putBytes hdr (uuidSlot hdr) v) := by
    unfold Recognised at hrec ⊢
    rw [f2]; exact hrec
  have hslot1 : uuidSlot (putBytes hdr (uuidSlot hdr) v) = uuidSlot hdr := uuidSlot_congr _ _ f2
  obtain ⟨g1, g2⟩ := be32_uuid_bytes u.high u.low hh hl
  rw [← hv] at g1 g2
  refine ⟨dev1, ?_, hHO, ?_, ?_⟩
  · unfold SetVolumeUUIDRaw
    have eo : H - 1024 + 2 * HFS_BLOCK_SIZE = H := by unfold HFS_BLOCK_SIZE; omega
    have w1a : writeAt junk dev (putBytes hdr (uuidSlot hdr) v) H HFS_BLOCK_SIZE
        = .ret (FSUR_IO_SUCCESS, dev1) := w1
    simp only [if_neg (not_le.2 hfd), hrun, Exec.bind, ne_eq, not_true_eq_false, if_false, hbuf2,
      eo, w1a]
    rfl
  · have e : (dev1.data.drop (H.toNat + uuidSlot hdr)).take 8
        = (((dev1.data.drop H.toNat).take 512).drop (uuidSlot hdr)).take 8 := by
      rw [List.drop_take, List.take_take, List.drop_drop, Nat.min_eq_left (by omega)]
    have hb1 : (dev1.data.drop H.toNat).take 512 = putBytes hdr (uuidSlot hdr) v := hblk
    rw [e, hb1, ← hv]
    have := putBytes_slot hdr v (uuidSlot hdr) (by omega)
    rw [hvlen] at this
    exact this
  · obtain ⟨hrun1, -⟩ := ReadHeaderBlock_at_headerOffset dev1 B (malloc junk1 HFS_BLOCK_SIZE) w2
      hB (malloc_length junk1 _) (by unfold BlockRangeOnDevice at h1 ⊢; rw [w3]; exact h1)
      (by rw [hHO]; unfold BlockRangeOnDevice at h2 ⊢; rw [w3]; exact h2)
    rw [hHO, hblk, checkSignature_recognised _ hrec1, hslot1] at hrun1
    unfold GetVolumeUUIDRaw
    simp only [if_neg (not_le.2 hfd1), hrun1, Exec.bind, ne_eq, not_true_eq_false, if_false, f5,
      f6, g1, g2]
    rfl


theorem SetVolumeUUIDRaw_round_trip_witness :
    ∃ dev1 : Device,
      SetVolumeUUIDRaw .little (fun _ => 0xEE) 3 wrappedDevice ⟨7, 9⟩
        = .ret (FSUR_IO_SUCCESS, dev1) ∧
      headerOffset dev1 = headerOffset wrappedDevice ∧
      (dev1.data.drop ((headerOffset wrappedDevice).toNat
          + uuidSlot (headerBlockAt wrappedDevice (headerOffset wrappedDevice)))).take 8
        = bytes32 .big 7 ++ bytes32 .big 9 ∧
      GetVolumeUUIDRaw .little toyDigests (fun _ => 0) 4 dev1 (List.replicate 16 0)
        = .ret (FSUR_IO_SUCCESS, ConvertHFSUUIDToUUID .little toyDigests ⟨7, 9⟩) :=
  SetVolumeUUIDRaw_round_trip .little toyDigests (fun _ => 0xEE) (fun _ => 0) 3 4 wrappedDevice
    512 (List.replicate 16 0) ⟨7, 9⟩ rfl (by decide) (by decide) (by decide) (by decide!)
    (by decide!) (by decide!) (by decide!) (by decide) (by decide)

/-- C19 (refuted): the raw UUID round trip fails on a wrapped volume whose
wrapper shares a device block with the embedded header. On the device
`bigBlockDevice` (4096-byte blocks, wrapper's Master Directory Block at 1024,
embedded HFS+ header at 1536, both recognised) `SetVolumeUUIDRaw` stores the
UUID `(7, 9)`, returns `FSUR_IO_SUCCESS` and the UUID slot of the header holds
the eight big-endian bytes; but `writeAt` wrote the whole 4096-byte scratch
block without reading the device block first, so the Master Directory Block of
the wrapper has lost its signature, and `GetVolumeUUIDRaw` on the resulting
image returns `FSUR_IO_FAIL`, not the stored UUID. -/
theorem SetVolumeUUIDRaw_clobbers_wrapper :
    bigBlockDevice.blocksize = some 4096 ∧
    IsWrapped (headerBlockAt bigBlockDevice 1024) ∧
    headerOffset bigBlockDevice = 1536 ∧
    Recognised (headerBlockAt bigBlockDevice (headerOffset bigBlockDevice)) ∧
    SetVolumeUUIDRaw .little (fun _ => 0) 3 bigBlockDevice ⟨7, 9⟩
      = .ret (FSUR_IO_SUCCESS, clobberedDevice) ∧
    (clobberedDevice.data.drop (1536 + 104)).take 8 = [0, 0, 0, 7, 0, 0, 0, 9] ∧
    be16 (headerBlockAt bigBlockDevice 1024) mdb.drSigWord = kHFSSigWord ∧
    be16 (headerBlockAt clobberedDevice 1024) mdb.drSigWord ≠ kHFSSigWord ∧
    GetVolumeUUIDRaw .little toyDigests (fun _ => 0) 3 clobberedDevice (List.replicate 16 0)
      = .ret (FSUR_IO_FAIL, List.replicate 16 0) := by
  refine ⟨rfl, by decide!, by decide!, by decide!, by decide!, by decide!, by decide!, by decide!,
    by decide!⟩

/-! ## `GetCatalogOverflowExtents` -/

/-- C14: an empty Extents-Overflow tree is "not found", not an error.  When the
header node of the overflow tree is read and reports zero leaf records,
`GetBTreeNodeInfo` reports `firstLeafNode = 0` and `GetCatalogOverflowExtents`
returns `FSUR_IO_SUCCESS` with the catalog extent list, and so its count,
unchanged; it does so for every budget of the leaf walk, the budget of no node
included: no leaf node is read. -/
theorem GetCatalogOverflowExtents_empty_tree (junk : Nat → UInt8) (dev : Device)
    (hfsPlusVolumeOffset : Int) (volHdrPtr hdr : List UInt8)
    (catalogExtents : List HFSPlusExtentDescriptor)
    (hread : ReadFile dev (malloc junk HFS_BLOCK_SIZE) 0 HFS_BLOCK_SIZE hfsPlusVolumeOffset
      (be32 volHdrPtr vh.blockSize) (decodeExtents volHdrPtr vh.extentsFile_extents)
        = .ret (FSUR_IO_SUCCESS, hdr))
    (hkind : int8 hdr bt.kind = kBTHeaderNode)
    (hzero : be32 hdr bt.header_leafRecords = 0) :
    GetBTreeNodeInfo junk dev hfsPlusVolumeOffset (be32 volHdrPtr vh.blockSize)
        (decodeExtents volHdrPtr vh.extentsFile_extents)
      = .ret (FSUR_IO_SUCCESS, some (be16 hdr bt.header_nodeSize, 0)) ∧
    ∀ fuel : Nat,
      GetCatalogOverflowExtents fuel junk dev hfsPlusVolumeOffset volHdrPtr catalogExtents
        = .ret (FSUR_IO_SUCCESS, catalogExtents) := by
  have d1 : FSUR_IO_SUCCESS ≠ FSUR_IO_FAIL := by decide
  have hinfo : GetBTreeNodeInfo junk dev hfsPlusVolumeOffset (be32 volHdrPtr vh.blockSize)
        (decodeExtents volHdrPtr vh.extentsFile_extents)
      = .ret (FSUR_IO_SUCCESS, some (be16 hdr bt.header_nodeSize, 0)) := by
    unfold GetBTreeNodeInfo
    rw [hread]
    simp only [d1, if_false, hkind, ne_eq, not_true_eq_false, hzero, if_true]
  refine ⟨hinfo, fun fuel => ?_⟩
  unfold GetCatalogOverflowExtents
  simp only [hinfo, Exec.bind, or_true, if_true]

theorem GetCatalogOverflowExtents_empty_tree_witness :
    GetCatalogOverflowExtents 0 (fun _ => 0) emptyOverflowImage 0 fullCatalogHeader
        (decodeExtents fullCatalogHeader vh.catalogFile_extents)
      = .ret (FSUR_IO_SUCCESS, decodeExtents fullCatalogHeader vh.catalogFile_extents) ∧
    (decodeExtents fullCatalogHeader vh.catalogFile_extents).length = 8 ∧
    ((decodeExtents fullCatalogHeader vh.catalogFile_extents).getD 7 ⟨0, 0⟩).blockCount = 1 :=
  ⟨(GetCatalogOverflowExtents_empty_tree (fun _ => 0) emptyOverflowImage 0 fullCatalogHeader
      emptyOverflowHeaderNode (decodeExtents fullCatalogHeader vh.catalogFile_extents)
      (by decide!) (by decide!) (by decide!)).2 0, by decide!, by decide!⟩

theorem be16At_ret (buf : List UInt8) (off v : Int) (h : be16At buf off = .ret v) :
    v = be16 buf off.toNat := by
  unfold be16At at h
  split at h
  · injection h with h; exact h.symm
  · simp at h

theorem be32At_ret (buf : List UInt8) (off v : Int) (h : be32At buf off = .ret v) :
    v = be32 buf off.toNat := by
  unfold be32At at h
  split at h
  · injection h with h; exact h.symm
  · simp at h

theorem int8At_ret (buf : List UInt8) (off v : Int) (h : int8At buf off = .ret v) :
    v = int8 buf off.toNat := by
  unfold int8At at h
  split at h
  · injection h with h; exact h.symm
  · simp at h

theorem extentRecordAt_ret (buf : List UInt8) (off : Int) (v : List HFSPlusExtentDescriptor)
    (h : extentRecordAt buf off = .ret v) : v = decodeExtents buf off.toNat := by
  unfold extentRecordAt at h
  split at h
  · injection h with h; exact h.symm
  · simp at h

theorem Exec.bind_eq_ret {α β : Type} (x : Exec α) (f : α → Exec β) (b : β)
    (h : x.bind f = .ret b) : ∃ a, x = .ret a ∧ f a = .ret b := by
  cases x with
  | ret a => exact ⟨a, rfl, h⟩
  | ub => simp [Exec.bind] at h
  | nofuel => simp [Exec.bind] at h

theorem decodeExtents_length (b : List UInt8) (off : Nat) : (decodeExtents b off).length = 8 := by
  simp [decodeExtents, kHFSPlusExtentDensity]

/-- The record loop of `GetCatalogOverflowExtents` appends the extent records of
the leading run of Catalog-file records among the records `i, i + 1, ...`, and
reports whether it met a record of another file. -/
theorem scanRecords_run (buf : List UInt8) (nodeSize : Int) :
    ∀ (n : Nat) (i : Int) (extents : List HFSPlusExtentDescriptor) (stop : Bool)
      (out : List HFSPlusExtentDescriptor),
      scanRecords buf nodeSize n i extents = .ret (stop, out) →
      out = extents ++ ((catalogRun ((List.range n).map
          (fun (j : Nat) => overflowRecord buf nodeSize (i + (j : Int))))).map (fun r => r.2)).flatten ∧
      (stop = true ↔ (catalogRun ((List.range n).map
          (fun (j : Nat) => overflowRecord buf nodeSize (i + (j : Int))))).length < n) := by
  intro n
  induction n with
  | zero =>
    intro i extents stop out h
    simp only [scanRecords, Exec.ret.injEq, Prod.mk.injEq] at h
    simp [catalogRun, ← h.1, ← h.2]
  | succ n ih =>
    intro i extents stop out h
    have hrange : (List.range (n + 1)).map (fun (j : Nat) => overflowRecord buf nodeSize (i + (j : Int)))
        = overflowRecord buf nodeSize i
          :: (List.range n).map (fun (j : Nat) => overflowRecord buf nodeSize (i + 1 + (j : Int))) := by
      rw [List.range_succ_eq_map, List.map_cons, List.map_map, Nat.cast_zero, add_zero]
      refine congrArg _ (List.map_congr_left ?_)
      intro j _
      have e : i + ((Nat.succ j : Nat) : Int) = i + 1 + (j : Int) := by
        rw [Nat.succ_eq_add_one, Nat.cast_add, Nat.cast_one]; ring
      show overflowRecord buf nodeSize (i + ((Nat.succ j : Nat) : Int)) = _
      rw [e]
    rw [hrange]
    unfold scanRecords at h
    obtain ⟨recOff, h1, h⟩ := Exec.bind_eq_ret _ _ _ h
    obtain ⟨fileID, h2, h⟩ := Exec.bind_eq_ret _ _ _ h
    have e1 := be16At_ret _ _ _ h1
    have e2 := be32At_ret _ _ _ h2
    have hfid : (overflowRecord buf nodeSize i).1 = fileID := by
      rw [e2, e1]; rfl
    by_cases hne : fileID ≠ kHFSCatalogFileID
    · rw [if_pos hne] at h
      simp only [Exec.ret.injEq, Prod.mk.injEq] at h
      have : catalogRun (overflowRecord buf nodeSize i
          :: (List.range n).map (fun (j : Nat) => overflowRecord buf nodeSize (i + 1 + (j : Int)))) = [] := by
        unfold catalogRun
        rw [List.takeWhile_cons, hfid]
        simp [hne]
      rw [this, ← h.1, ← h.2]
      simp
    · rw [if_neg hne] at h
      obtain ⟨keyLength, h3, h⟩ := Exec.bind_eq_ret _ _ _ h
      obtain ⟨record, h4, h⟩ := Exec.bind_eq_ret _ _ _ h
      have e3 := be16At_ret _ _ _ h3
      have e4 := extentRecordAt_ret _ _ _ h4
      have hrec : (overflowRecord buf nodeSize i).2 = record := by
        rw [e4, e3, e1]; rfl
      obtain ⟨ih1, ih2⟩ := ih (i + 1) (extents ++ record) stop out h
      have : catalogRun (overflowRecord buf nodeSize i
          :: (List.range n).map (fun (j : Nat) => overflowRecord buf nodeSize (i + 1 + (j : Int))))
          = overflowRecord buf nodeSize i :: catalogRun
            ((List.range n).map (fun (j : Nat) => overflowRecord buf nodeSize (i + 1 + (j : Int)))) := by
        unfold catalogRun
        rw [List.takeWhile_cons, hfid]
        simp only [ne_eq, Decidable.not_not] at hne
        simp [hne]
      rw [this]
      refine ⟨?_, ?_⟩
      · rw [ih1, List.map_cons, List.flatten_cons, hrec, List.append_assoc]
      · rw [ih2, List.length_cons]
        omega


/-- The leaf walk of `GetCatalogOverflowExtents`, when it succeeds, appends the
extent records that the walk of the specification collects; a larger budget of
nodes changes neither. -/
theorem walkLeaves_run (dev : Device) (hfsPlusVolumeOffset blockSize nodeSize : Int)
    (extentsFile : List HFSPlusExtentDescriptor) :
    ∀ (fuel : Nat) (bufPtr : List UInt8) (offset : Int)
      (extents out : List HFSPlusExtentDescriptor),
      walkLeaves dev hfsPlusVolumeOffset blockSize nodeSize extentsFile fuel bufPtr offset extents
        = .ret (FSUR_IO_SUCCESS, out) →
      out = extents ++ (overflowRun dev hfsPlusVolumeOffset blockSize nodeSize extentsFile fuel
        bufPtr offset).flatten ∧
      ∀ k : Nat,
        walkLeaves dev hfsPlusVolumeOffset blockSize nodeSize extentsFile (fuel + k) bufPtr offset
          extents = .ret (FSUR_IO_SUCCESS, out) ∧
        overflowRun dev hfsPlusVolumeOffset blockSize nodeSize extentsFile (fuel + k) bufPtr offset
          = overflowRun dev hfsPlusVolumeOffset blockSize nodeSize extentsFile fuel bufPtr
              offset := by
  intro fuel
  induction fuel with
  | zero =>
    intro bufPtr offset extents out h
    simp [walkLeaves] at h
  | succ fuel ih =>
    intro bufPtr offset extents out h
    have hw : ∀ m : Nat, walkLeaves dev hfsPlusVolumeOffset blockSize nodeSize extentsFile (m + 1)
        bufPtr offset extents
        = (ReadFile dev bufPtr offset nodeSize hfsPlusVolumeOffset blockSize extentsFile).bind
          fun (result, buf) =>
          if result = FSUR_IO_FAIL then .ret (result, extents)
          else
            (int8At buf bt.kind).bind fun kind =>
            if kind ≠ kBTLeafNode then .ret (FSUR_IO_FAIL, extents)
            else
              (be16At buf bt.numRecords).bind fun numRecords =>
              (scanRecords buf nodeSize numRecords.toNat 1 extents).bind fun (stop, extents1) =>
                if stop then .ret (result, extents1)
                else
                  (be32At buf bt.fLink).bind fun leafNode =>
                    if leafNode ≠ 0 then
                      walkLeaves dev hfsPlusVolumeOffset blockSize nodeSize extentsFile m buf
                        (leafNode * nodeSize) extents1
                    else .ret (result, extents1) := fun m => by rw [walkLeaves]
    have ho : ∀ m : Nat, overflowRun dev hfsPlusVolumeOffset blockSize nodeSize extentsFile (m + 1)
        bufPtr offset
        = match ReadFile dev bufPtr offset nodeSize hfsPlusVolumeOffset blockSize extentsFile with
          | .ret (_, buf) =>
            if (catalogRun (overflowRecords buf nodeSize)).length
                < (overflowRecords buf nodeSize).length then
              (catalogRun (overflowRecords buf nodeSize)).map (fun r => r.2)
            else if be32 buf bt.fLink = 0 then
              (catalogRun (overflowRecords buf nodeSize)).map (fun r => r.2)
            else (catalogRun (overflowRecords buf nodeSize)).map (fun r => r.2)
              ++ overflowRun dev hfsPlusVolumeOffset blockSize nodeSize extentsFile m buf
                (be32 buf bt.fLink * nodeSize)
          | _ => [] := fun m => by rw [overflowRun]
    have hk1 : ∀ k : Nat, fuel + 1 + k = (fuel + k) + 1 := fun k => by omega
    rw [hw] at h
    obtain ⟨⟨result, buf⟩, hrf, h⟩ := Exec.bind_eq_ret _ _ _ h
    simp only at h
    by_cases hfail : result = FSUR_IO_FAIL
    · rw [if_pos hfail] at h
      simp only [Exec.ret.injEq, Prod.mk.injEq] at h
      rw [hfail] at h
      exact absurd h.1 (by decide)
    rw [if_neg hfail] at h
    obtain ⟨kind, hkind, h⟩ := Exec.bind_eq_ret _ _ _ h
    by_cases hleaf : kind ≠ kBTLeafNode
    · rw [if_pos hleaf] at h
      simp only [Exec.ret.injEq, Prod.mk.injEq] at h
      exact absurd h.1 (by decide)
    rw [if_neg hleaf] at h
    obtain ⟨numRecords, hnum, h⟩ := Exec.bind_eq_ret _ _ _ h
    obtain ⟨⟨stop, extents1⟩, hscan, h⟩ := Exec.bind_eq_ret _ _ _ h
    simp only at h
    have enum : numRecords.toNat = (be16 buf bt.numRecords).toNat := by
      rw [be16At_ret _ _ _ hnum]; rfl
    obtain ⟨hout, hstop⟩ := scanRecords_run buf nodeSize _ 1 extents stop extents1 hscan
    rw [enum] at hout hstop
    have hlenrec : (overflowRecords buf nodeSize).length = (be16 buf bt.numRecords).toNat := by
      simp [overflowRecords]
    have hrecs : (List.range (be16 buf bt.numRecords).toNat).map
        (fun (j : Nat) => overflowRecord buf nodeSize (1 + (j : Int)))
        = overflowRecords buf nodeSize := rfl
    rw [hrecs] at hout hstop
    rw [← hlenrec] at hstop
    have hwk : ∀ m : Nat, walkLeaves dev hfsPlusVolumeOffset blockSize nodeSize extentsFile (m + 1)
        bufPtr offset extents
        = if stop then .ret (result, extents1)
          else
            (be32At buf bt.fLink).bind fun leafNode =>
              if leafNode ≠ 0 then
                walkLeaves dev hfsPlusVolumeOffset blockSize nodeSize extentsFile m buf
                  (leafNode * nodeSize) extents1
              else .ret (result, extents1) := by
      intro m
      rw [hw m, hrf]
      simp only [Exec.bind, if_neg hfail, hkind, if_neg hleaf, hnum, hscan]
    cases stop with
    | true =>
      simp only [if_true, Exec.ret.injEq, Prod.mk.injEq] at h
      have hlt := hstop.1 rfl
      have hrun : ∀ m : Nat, overflowRun dev hfsPlusVolumeOffset blockSize nodeSize extentsFile
          (m + 1) bufPtr offset = (catalogRun (overflowRecords buf nodeSize)).map (fun r => r.2) := by
        intro m
        rw [ho m, hrf]
        simp only [if_pos hlt]
      refine ⟨by rw [← h.2, hout, hrun fuel], fun k => ⟨?_, ?_⟩⟩
      · rw [hk1 k, hwk (fuel + k)]
        simp only [if_true, h.1, h.2]
      · rw [hk1 k, hrun (fuel + k), hrun fuel]
    | false =>
      simp only [Bool.false_eq_true, if_false] at h
      have hge : ¬ (catalogRun (overflowRecords buf nodeSize)).length
          < (overflowRecords buf nodeSize).length := fun hlt => by
        have := hstop.2 hlt
        exact absurd this (by decide)
      obtain ⟨leafNode, hlink, h⟩ := Exec.bind_eq_ret _ _ _ h
      have elink : leafNode = be32 buf bt.fLink := by
        rw [be32At_ret _ _ _ hlink]; rfl
      by_cases hnz : leafNode ≠ 0
      · rw [if_pos hnz] at h
        obtain ⟨ih1, ih2⟩ := ih buf (leafNode * nodeSize) extents1 out h
        have hrun : ∀ m : Nat, overflowRun dev hfsPlusVolumeOffset blockSize nodeSize extentsFile
            (m + 1) bufPtr offset = (catalogRun (overflowRecords buf nodeSize)).map (fun r => r.2)
              ++ overflowRun dev hfsPlusVolumeOffset blockSize nodeSize extentsFile m buf
                (leafNode * nodeSize) := by
          intro m
          rw [ho m, hrf]
          simp only [if_neg hge, if_neg (show ¬ (be32 buf bt.fLink = 0) from elink ▸ hnz), elink]
        refine ⟨?_, fun k => ⟨?_, ?_⟩⟩
        · rw [ih1, hout, hrun fuel, List.flatten_append, List.append_assoc]
        · rw [hk1 k, hwk (fuel + k)]
          simp only [Bool.false_eq_true, if_false, hlink, Exec.bind, if_pos hnz]
          exact (ih2 k).1
        · rw [hk1 k, hrun (fuel + k), hrun fuel, (ih2 k).2]
      · rw [if_neg hnz] at h
        simp only [Exec.ret.injEq, Prod.mk.injEq] at h
        have hz : be32 buf bt.fLink = 0 := by
          simp only [ne_eq, Decidable.not_not] at hnz
          rw [← elink]; exact hnz
        have hrun : ∀ m : Nat, overflowRun dev hfsPlusVolumeOffset blockSize nodeSize extentsFile
            (m + 1) bufPtr offset
            = (catalogRun (overflowRecords buf nodeSize)).map (fun r => r.2) := by
          intro m
          rw [ho m, hrf]
          simp only [if_neg hge, if_pos hz]
        refine ⟨by rw [← h.2, hout, hrun fuel], fun k => ⟨?_, ?_⟩⟩
        · rw [hk1 k, hwk (fuel + k)]
          simp only [Bool.false_eq_true, if_false, hlink, Exec.bind, if_neg hnz, h.1, h.2]
        · rw [hk1 k, hrun (fuel + k), hrun fuel]

theorem overflowRun_lengths (dev : Device) (hfsPlusVolumeOffset blockSize nodeSize : Int)
    (extentsFile : List HFSPlusExtentDescriptor) :
    ∀ (fuel : Nat) (bufPtr : List UInt8) (offset : Int),
      ∀ r ∈ overflowRun dev hfsPlusVolumeOffset blockSize nodeSize extentsFile fuel bufPtr offset,
        r.length = 8 := by
  intro fuel
  induction fuel with
  | zero => intro bufPtr offset r hr; simp [overflowRun] at hr
  | succ fuel ih =>
    intro bufPtr offset r hr
    have hrun : ∀ buf : List UInt8,
        ∀ r ∈ (catalogRun (overflowRecords buf nodeSize)).map (fun r => r.2), r.length = 8 := by
      intro buf r hr
      obtain ⟨x, hx, rfl⟩ := List.mem_map.1 hr
      have hx1 : x ∈ overflowRecords buf nodeSize := (List.takeWhile_sublist _).subset hx
      obtain ⟨j, _, rfl⟩ := List.mem_map.1 hx1
      exact decodeExtents_length _ _
    rw [overflowRun] at hr
    split at hr
    · rename_i res buf heq
      simp only at hr
      split at hr
      · exact hrun buf r hr
      · split at hr
        · exact hrun buf r hr
        · rcases List.mem_append.1 hr with h1 | h1
          · exact hrun buf r h1
          · exact ih _ _ r h1
    · simp at hr

theorem flatten_length_eight (l : List (List HFSPlusExtentDescriptor))
    (h : ∀ r ∈ l, r.length = 8) : l.flatten.length = 8 * l.length := by
  induction l with
  | nil => rfl
  | cons a t ih =>
    rw [List.flatten_cons, List.length_append, h a (List.mem_cons_self _ _),
      ih (fun r hr => h r (List.mem_cons_of_mem _ hr)), List.length_cons]
    ring

/-- C13: `GetCatalogOverflowExtents` builds the catalog extent list as
inline-then-overflow.  When it returns `FSUR_IO_SUCCESS`, the returned list is
the list it was given (the 8 inline descriptors), unchanged, followed by the
8-descriptor extent record of each record in the maximal leading run of records
whose key `fileID` is the Catalog file ID, in walk order: leaf nodes from the
first leaf along the forward links, records in trailer order, the walk ending at
the first record of another file (the forward link not followed) or at a node
whose forward link is zero.  The returned count is the given count plus 8 per
such record.  A larger budget of nodes gives the same result. -/
theorem GetCatalogOverflowExtents_inline_then_overflow (fuel : Nat) (junk : Nat → UInt8)
    (dev : Device) (hfsPlusVolumeOffset : Int) (volHdrPtr : List UInt8)
    (catalogExtents out : List HFSPlusExtentDescriptor)
    (h : GetCatalogOverflowExtents fuel junk dev hfsPlusVolumeOffset volHdrPtr catalogExtents
      = .ret (FSUR_IO_SUCCESS, out)) :
    out = catalogExtents
      ++ (catalogOverflowRun fuel junk dev hfsPlusVolumeOffset volHdrPtr).flatten ∧
    (∀ r ∈ catalogOverflowRun fuel junk dev hfsPlusVolumeOffset volHdrPtr, r.length = 8) ∧
    out.length = catalogExtents.length
      + 8 * (catalogOverflowRun fuel junk dev hfsPlusVolumeOffset volHdrPtr).length ∧
    ∀ k : Nat,
      GetCatalogOverflowExtents (fuel + k) junk dev hfsPlusVolumeOffset volHdrPtr catalogExtents
        = .ret (FSUR_IO_SUCCESS, out) ∧
      catalogOverflowRun (fuel + k) junk dev hfsPlusVolumeOffset volHdrPtr
        = catalogOverflowRun fuel junk dev hfsPlusVolumeOffset volHdrPtr := by
  have hlen : ∀ r ∈ catalogOverflowRun fuel junk dev hfsPlusVolumeOffset volHdrPtr,
      r.length = 8 := by
    intro r hr
    unfold catalogOverflowRun at hr
    split at hr
    · split at hr
      · simp at hr
      · exact overflowRun_lengths _ _ _ _ _ _ _ _ r hr
    · simp at hr
  have hmain : out = catalogExtents
      ++ (catalogOverflowRun fuel junk dev hfsPlusVolumeOffset volHdrPtr).flatten ∧
      ∀ k : Nat,
        GetCatalogOverflowExtents (fuel + k) junk dev hfsPlusVolumeOffset volHdrPtr
          catalogExtents = .ret (FSUR_IO_SUCCESS, out) ∧
        catalogOverflowRun (fuel + k) junk dev hfsPlusVolumeOffset volHdrPtr
          = catalogOverflowRun fuel junk dev hfsPlusVolumeOffset volHdrPtr := by
    unfold GetCatalogOverflowExtents at h
    simp only at h
    obtain ⟨⟨result, info⟩, hinfo, h⟩ := Exec.bind_eq_ret _ _ _ h
    simp only at h
    unfold GetCatalogOverflowExtents catalogOverflowRun
    simp only [hinfo, Exec.bind]
    cases info with
    | none =>
      simp only [Exec.ret.injEq, Prod.mk.injEq] at h
      simp [h.1, h.2]
    | some p =>
      obtain ⟨nodeSize, leafNode⟩ := p
      simp only at h ⊢
      by_cases hc : result ≠ FSUR_IO_SUCCESS ∨ leafNode = 0
      · rw [if_pos hc] at h
        simp only [Exec.ret.injEq, Prod.mk.injEq] at h
        have hz : leafNode = 0 := by
          rcases hc with hc | hc
          · exact absurd h.1 hc
          · exact hc
        simp [hz, h.2]
        exact h.1
      · rw [if_neg hc] at h
        have hnz : ¬ leafNode = 0 := fun hz => hc (Or.inr hz)
        obtain ⟨w1, w2⟩ := walkLeaves_run dev hfsPlusVolumeOffset _ nodeSize _ fuel _ _ _ _ h
        simp only [if_neg hc, if_neg hnz]
        exact ⟨w1, w2⟩
  refine ⟨hmain.1, hlen, ?_, hmain.2⟩
  rw [hmain.1, List.length_append, flatten_length_eight _ hlen]


theorem GetCatalogOverflowExtents_inline_then_overflow_witness :
    (decodeExtents overflowHeader vh.catalogFile_extents
        ++ (singleExtentRecord 20 ++ singleExtentRecord 21 ++ singleExtentRecord 22)
      = decodeExtents overflowHeader vh.catalogFile_extents
        ++ (catalogOverflowRun 2 (fun _ => 0) overflowImage 0 overflowHeader).flatten) ∧
    (decodeExtents overflowHeader vh.catalogFile_extents
        ++ (singleExtentRecord 20 ++ singleExtentRecord 21 ++ singleExtentRecord 22)).length
      = 8 + 8 * 3 ∧
    catalogOverflowRun 2 (fun _ => 0) overflowImage 0 overflowHeader
      = [singleExtentRecord 20, singleExtentRecord 21, singleExtentRecord 22] :=
  ⟨(GetCatalogOverflowExtents_inline_then_overflow 2 (fun _ => 0) overflowImage 0 overflowHeader
      (decodeExtents overflowHeader vh.catalogFile_extents)
      (decodeExtents overflowHeader vh.catalogFile_extents
        ++ (singleExtentRecord 20 ++ singleExtentRecord 21 ++ singleExtentRecord 22))
      (by decide!)).1, by decide!, by decide!⟩

/-! ## Name extraction and the Extents-Overflow tree -/

/-- The outcome of `readAt` depends on the geometry of the device only, and a
successful read delivers the device bytes of the range. -/
theorem readAt_geometry (d1 d2 : Device) (buf : List UInt8) (o l : Int)
    (hbs : d1.blocksize = d2.blocksize) (hlen : d1.data.length = d2.data.length) :
    (readAt d1 buf o l
        = .ret (FSUR_IO_SUCCESS, (d1.data.drop o.toNat).take l.toNat ++ buf.drop l.toNat) ∧
      readAt d2 buf o l
        = .ret (FSUR_IO_SUCCESS, (d2.data.drop o.toNat).take l.toNat ++ buf.drop l.toNat) ∧
      0 ≤ o ∧ 0 ≤ l) ∨
    (readAt d1 buf o l = .ub ∧ readAt d2 buf o l = .ub) ∨
    (readAt d1 buf o l = .ret (FSUR_IO_FAIL, buf) ∧ readAt d2 buf o l = .ret (FSUR_IO_FAIL, buf)) := by
  have hrl : ∀ R L : Int, (read d1 R L).length = (read d2 R L).length := by
    intro R L
    simp [read, hlen]
  have hcontent : ∀ (d : Device) (R L : Int), 0 ≤ R → 0 ≤ o - R → 0 ≤ l → o - R + l ≤ L →
      bcopy ((read d R L).drop (o - R).toNat) buf l
        = (d.data.drop o.toNat).take l.toNat ++ buf.drop l.toNat := by
    intro d R L h1 h2 h3 h4
    unfold bcopy read
    congr 1
    rw [List.drop_take, List.drop_drop, List.take_take]
    have e1 : R.toNat + (o - R).toNat = o.toNat := by omega
    rw [e1]
    congr 1
    omega
  unfold readAt
  rw [hbs]
  cases d2.blocksize with
  | none => exact Or.inr (Or.inr ⟨rfl, rfl⟩)
  | some B =>
    simp only
    by_cases hB : B = 0
    · rw [if_pos hB, if_pos hB]; exact Or.inr (Or.inl ⟨rfl, rfl⟩)
    rw [if_neg hB, if_neg hB]
    by_cases h1 : rawLengthOf o l B < 0
    · rw [if_pos h1, if_pos h1]; exact Or.inr (Or.inr ⟨rfl, rfl⟩)
    rw [if_neg h1, if_neg h1]
    by_cases h2 : lseek (rawOffsetOf o B) ≠ rawOffsetOf o B
    · rw [if_pos h2, if_pos h2]; exact Or.inr (Or.inr ⟨rfl, rfl⟩)
    rw [if_neg h2, if_neg h2]
    by_cases h3 : rawOffsetOf o B < 0
    · rw [if_pos h3, if_pos h3]; exact Or.inr (Or.inl ⟨rfl, rfl⟩)
    rw [if_neg h3, if_neg h3, ← hrl]
    by_cases h4 : ((read d1 (rawOffsetOf o B) (rawLengthOf o l B)).length : Int)
        ≠ rawLengthOf o l B
    · rw [if_pos h4, if_pos h4]; exact Or.inr (Or.inr ⟨rfl, rfl⟩)
    rw [if_neg h4, if_neg h4]
    by_cases h5 : 0 ≤ o - rawOffsetOf o B ∧ 0 ≤ l ∧ o - rawOffsetOf o B + l ≤ rawLengthOf o l B
    · rw [if_pos h5, if_pos h5, hcontent d1 _ _ (by omega) h5.1 h5.2.1 h5.2.2,
        hcontent d2 _ _ (by omega) h5.1 h5.2.1 h5.2.2]
      exact Or.inl ⟨rfl, rfl, by omega, h5.2.1⟩
    · rw [if_neg h5, if_neg h5]; exact Or.inr (Or.inl ⟨rfl, rfl⟩)

theorem readAt_congr (d1 d2 : Device) (buf : List UInt8) (o l : Int)
    (hbs : d1.blocksize = d2.blocksize) (hlen : d1.data.length = d2.data.length)
    (hsame : SameBytes d1 d2 o l) : readAt d1 buf o l = readAt d2 buf o l := by
  rcases readAt_geometry d1 d2 buf o l hbs hlen with ⟨h1, h2, -, -⟩ | ⟨h1, h2⟩ | ⟨h1, h2⟩
  · unfold SameBytes at hsame
    rw [h1, h2, hsame]
  · rw [h1, h2]
  · rw [h1, h2]


/-- Two devices of the same geometry that hold the same bytes wherever the
extent mapper maps the file give the same run of `ReadFile`'s loop. -/
theorem ReadFileLoop_congr (d1 d2 : Device) (volOffset blockSize : Int)
    (l : List HFSPlusExtentDescriptor) (hbs : d1.blocksize = d2.blocksize)
    (hlen : d1.data.length = d2.data.length)
    (hmap : ∀ (offset length r p n : Int), 0 ≤ offset →
      LogicalToPhysical offset length blockSize l = .ret (r, some (p, n)) →
      SameBytes d1 d2 (volOffset + p) n) :
    ∀ (fuel : Nat) (buffer : List UInt8) (offset length : Int), 0 ≤ offset →
      ReadFileLoop d1 volOffset blockSize l fuel buffer offset length
        = ReadFileLoop d2 volOffset blockSize l fuel buffer offset length := by
  intro fuel
  induction fuel with
  | zero =>
    intro buffer offset length _
    unfold ReadFileLoop
    rfl
  | succ fuel ih =>
    intro buffer offset length hoff
    rw [ReadFileLoop, ReadFileLoop]
    by_cases hpos : length > 0
    · rw [if_pos hpos, if_pos hpos]
      cases hmp : LogicalToPhysical offset length blockSize l with
      | ub => rfl
      | nofuel => rfl
      | ret a =>
        obtain ⟨r, m⟩ := a
        cases m with
        | none => rfl
        | some pn =>
          obtain ⟨p, n⟩ := pn
          simp only
          have hs := hmap offset length r p n hoff hmp
          rcases readAt_geometry d1 d2 buffer (volOffset + p) n hbs hlen with
            ⟨h1, h2, -, hn⟩ | ⟨h1, h2⟩ | ⟨h1, h2⟩
          · unfold SameBytes at hs
            rw [h1, h2, hs]
            simp only [ne_eq, not_true_eq_false, if_false]
            rw [ih _ _ _ (by omega)]
          · rw [h1, h2]
          · rw [h1, h2]
            have d : FSUR_IO_FAIL ≠ FSUR_IO_SUCCESS := by decide
            simp only [ne_eq, d, not_false_eq_true, if_true]
    · rw [if_neg hpos, if_neg hpos]

theorem findExtent_some (l : List HFSPlusExtentDescriptor) :
    ∀ (b : Int) (e : HFSPlusExtentDescriptor) (r : Int), 0 ≤ b →
      findExtent b l = some (e, r) → e ∈ fileExtents l ∧ 0 ≤ r ∧ r < e.blockCount := by
  induction l with
  | nil => intro b e r _ h; simp [findExtent] at h
  | cons e0 rest ih =>
    intro b e r hb h
    rw [findExtent] at h
    by_cases hz : e0.blockCount = 0
    · rw [if_pos hz] at h; simp at h
    rw [if_neg hz] at h
    have hfe : fileExtents (e0 :: rest) = e0 :: fileExtents rest := by simp [fileExtents, hz]
    rw [hfe]
    by_cases hlt : b < e0.blockCount
    · rw [if_pos hlt] at h
      simp only [Option.some.injEq, Prod.mk.injEq] at h
      rw [← h.1, ← h.2]
      exact ⟨List.mem_cons_self _ _, hb, hlt⟩
    · rw [if_neg hlt] at h
      obtain ⟨h1, h2, h3⟩ := ih _ e r (Int.emod_nonneg _ (by decide)) h
      exact ⟨List.mem_cons_of_mem _ h1, h2, h3⟩

theorem sameBytes_sub (d1 d2 : Device) (a m o n : Int) (h : SameBytes d1 d2 a m) (ha : 0 ≤ a)
    (h1 : a ≤ o) (h2 : o + n ≤ a + m) : SameBytes d1 d2 o n := by
  unfold SameBytes at h ⊢
  have e : ∀ d : Device, (d.data.drop o.toNat).take n.toNat
      = (((d.data.drop a.toNat).take m.toNat).drop (o - a).toNat).take n.toNat := by
    intro d
    rw [List.drop_take, List.drop_drop, List.take_take]
    have e1 : a.toNat + (o - a).toNat = o.toNat := by omega
    rw [e1]
    congr 1
    omega
  rw [e d1, e d2, h]

/-- Two devices that hold the same bytes in every extent of a file hold the same
bytes wherever the extent mapper maps the file (block numbers not wrapping). -/
theorem sameBytes_of_extents (d1 d2 : Device) (volOffset blockSize : Int)
    (l : List HFSPlusExtentDescriptor) (hvol : 0 ≤ volOffset) (hbs0 : 0 ≤ blockSize)
    (htyped : ExtentsTyped l) (hfit : ∀ e ∈ l, e.startBlock + e.blockCount ≤ 2 ^ 32)
    (hext : ∀ e ∈ fileExtents l,
      extentBytes d1 volOffset blockSize e = extentBytes d2 volOffset blockSize e) :
    ∀ (offset length r p n : Int), 0 ≤ offset →
      LogicalToPhysical offset length blockSize l = .ret (r, some (p, n)) →
      SameBytes d1 d2 (volOffset + p) n := by
  intro offset length r p n hoff h
  by_cases hz : blockSize = 0
  · simp [LogicalToPhysical, hz] at h
  have hbs : 1 ≤ blockSize := by omega
  rw [LogicalToPhysical_unfold offset length blockSize l hbs hoff] at h
  have hb0 : 0 ≤ (offset / blockSize) % 2 ^ 32 := Int.emod_nonneg _ (by decide)
  cases hf : findExtent ((offset / blockSize) % 2 ^ 32) l with
  | none => rw [hf] at h; simp at h
  | some er =>
    obtain ⟨e, r1⟩ := er
    rw [hf] at h
    simp only [Exec.ret.injEq, Prod.mk.injEq, Option.some.injEq] at h
    obtain ⟨he, hr0, hr1⟩ := findExtent_some l _ e r1 hb0 hf
    have hel := mem_of_mem_fileExtents l e he
    obtain ⟨⟨hs0, hs1⟩, ⟨hc0, hc1⟩⟩ := htyped e hel
    have hw := hfit e hel
    have hm1 : (e.startBlock + r1) % 2 ^ 32 = e.startBlock + r1 :=
      Int.emod_eq_of_lt (by omega) (by omega)
    have hm2 : (e.blockCount - r1) % 2 ^ 32 = e.blockCount - r1 :=
      Int.emod_eq_of_lt (by omega) (by omega)
    rw [hm1, hm2] at h
    have ho0 : 0 ≤ offset % blockSize := Int.emod_nonneg _ (by omega)
    have ho1 : offset % blockSize < blockSize := Int.emod_lt_of_pos _ (by omega)
    have hp := h.2.1
    have hn : n ≤ (e.blockCount - r1) * blockSize - offset % blockSize := by
      rw [← h.2.2]
      split <;> omega
    have hsb : 0 ≤ e.startBlock * blockSize := Int.mul_nonneg hs0 hbs0
    have hrb : 0 ≤ r1 * blockSize := Int.mul_nonneg hr0 hbs0
    have e1 : (e.startBlock + r1) * blockSize = e.startBlock * blockSize + r1 * blockSize := by ring
    have e2 : (e.blockCount - r1) * blockSize = e.blockCount * blockSize - r1 * blockSize := by
      ring
    have hx := hext e he
    unfold extentBytes at hx
    exact sameBytes_sub d1 d2 (volOffset + e.startBlock * blockSize) (e.blockCount * blockSize)
      (volOffset + p) n hx (by omega) (by omega) (by omega)

theorem ReadFile_congr (d1 d2 : Device) (volOffset blockSize : Int)
    (l : List HFSPlusExtentDescriptor) (hbs : d1.blocksize = d2.blocksize)
    (hlen : d1.data.length = d2.data.length)
    (hmap : ∀ (offset length r p n : Int), 0 ≤ offset →
      LogicalToPhysical offset length blockSize l = .ret (r, some (p, n)) →
      SameBytes d1 d2 (volOffset + p) n)
    (buffer : List UInt8) (offset length : Int) (hoff : 0 ≤ offset) :
    ReadFile d1 buffer offset length volOffset blockSize l
      = ReadFile d2 buffer offset length volOffset blockSize l :=
  ReadFileLoop_congr d1 d2 volOffset blockSize l hbs hlen hmap _ buffer offset length hoff

theorem GetBTreeNodeInfo_congr (junk : Nat → UInt8) (d1 d2 : Device) (volOffset blockSize : Int)
    (l : List HFSPlusExtentDescriptor) (hbs : d1.blocksize = d2.blocksize)
    (hlen : d1.data.length = d2.data.length)
    (hmap : ∀ (offset length r p n : Int), 0 ≤ offset →
      LogicalToPhysical offset length blockSize l = .ret (r, some (p, n)) →
      SameBytes d1 d2 (volOffset + p) n) :
    GetBTreeNodeInfo junk d1 volOffset blockSize l = GetBTreeNodeInfo junk d2 volOffset blockSize l := by
  unfold GetBTreeNodeInfo
  rw [ReadFile_congr d1 d2 volOffset blockSize l hbs hlen hmap _ 0 _ (le_refl _)]

theorem GetBTreeNodeInfo_nonneg (junk : Nat → UInt8) (dev : Device) (volOffset blockSize : Int)
    (l : List HFSPlusExtentDescriptor) (result nodeSize leafNode : Int)
    (h : GetBTreeNodeInfo junk dev volOffset blockSize l = .ret (result, some (nodeSize, leafNode))) :
    0 ≤ nodeSize ∧ 0 ≤ leafNode := by
  unfold GetBTreeNodeInfo at h
  split at h
  · simp at h
  · simp at h
  · rename_i res hdr heq
    split at h
    · simp at h
    · split at h
      · simp at h
      · simp only [Exec.ret.injEq, Prod.mk.injEq, Option.some.injEq] at h
        rw [← h.2.1, ← h.2.2]
        refine ⟨(be16_bounds _ _).1, ?_⟩
        split
        · exact le_refl _
        · exact (be32_bounds _ _).1

theorem nameFromCatalogExtents_congr (junk : Nat → UInt8) (d1 d2 : Device)
    (volOffset blockSize : Int) (l : List HFSPlusExtentDescriptor) (name_o : List UInt8)
    (hbs : d1.blocksize = d2.blocksize) (hlen : d1.data.length = d2.data.length)
    (hmap : ∀ (offset length r p n : Int), 0 ≤ offset →
      LogicalToPhysical offset length blockSize l = .ret (r, some (p, n)) →
      SameBytes d1 d2 (volOffset + p) n) :
    nameFromCatalogExtents junk d1 volOffset blockSize l name_o
      = nameFromCatalogExtents junk d2 volOffset blockSize l name_o := by
  unfold nameFromCatalogExtents
  rw [GetBTreeNodeInfo_congr junk d1 d2 volOffset blockSize l hbs hlen hmap]
  cases hinfo : GetBTreeNodeInfo junk d2 volOffset blockSize l with
  | ub => rfl
  | nofuel => rfl
  | ret a =>
    obtain ⟨result, info⟩ := a
    simp only [Exec.bind]
    by_cases hr : result ≠ FSUR_IO_SUCCESS
    · rw [if_pos hr, if_pos hr]
    rw [if_neg hr, if_neg hr]
    cases info with
    | none => rfl
    | some p =>
      obtain ⟨nodeSize, leafNode⟩ := p
      obtain ⟨h1, h2⟩ := GetBTreeNodeInfo_nonneg junk d2 volOffset blockSize l _ _ _ hinfo
      simp only
      rw [ReadFile_congr d1 d2 volOffset blockSize l hbs hlen hmap _ _ _ (Int.mul_nonneg h2 h1)]

/-- With a zero `blockCount` in inline catalog extent slot 7 the name
extraction runs on the 8 inline descriptors, whatever the budget of the
overflow walk. -/
theorem GetName_inline (fuel : Nat) (junk : Nat → UInt8) (dev : Device) (vol : Int)
    (name_o hdr : List UInt8)
    (hread : readAt dev (malloc junk HFS_BLOCK_SIZE) (vol + 2 * HFS_BLOCK_SIZE) HFS_BLOCK_SIZE
      = .ret (FSUR_IO_SUCCESS, hdr))
    (hsig : be16 hdr vh.signature = kHFSPlusSigWord ∨ be16 hdr vh.signature = kHFSXSigWord)
    (hslot : ((decodeExtents hdr vh.catalogFile_extents).getD 7 ⟨0, 0⟩).blockCount = 0) :
    GetNameFromHFSPlusVolumeStartingAt fuel junk dev vol name_o
      = nameFromCatalogExtents junk dev vol (be32 hdr vh.blockSize)
          (decodeExtents hdr vh.catalogFile_extents) name_o := by
  have d : FSUR_IO_SUCCESS ≠ FSUR_IO_FAIL := by decide
  have hs : ¬ (be16 hdr vh.signature ≠ kHFSPlusSigWord ∧ be16 hdr vh.signature ≠ kHFSXSigWord) := by
    rcases hsig with h | h
    · exact fun hc => hc.1 h
    · exact fun hc => hc.2 h
  unfold GetNameFromHFSPlusVolumeStartingAt readFirstCatalogLeaf nameFromCatalogExtents
  simp only [hread, Exec.bind, d, if_false, hs, hslot, ne_eq, not_true_eq_false]
  cases GetBTreeNodeInfo junk dev vol (be32 hdr vh.blockSize)
      (decodeExtents hdr vh.catalogFile_extents) with
  | ub => rfl
  | nofuel => rfl
  | ret a =>
    obtain ⟨result, info⟩ := a
    simp only
    by_cases hr : result = FSUR_IO_SUCCESS
    · simp only [hr, not_true_eq_false, if_false]
      cases info with
      | none => rfl
      | some p =>
        obtain ⟨nodeSize, leafNode⟩ := p
        simp only
        cases ReadFile dev (malloc junk nodeSize) (leafNode * nodeSize) nodeSize vol
            (be32 hdr vh.blockSize) (decodeExtents hdr vh.catalogFile_extents) with
        | ub => rfl
        | nofuel => rfl
        | ret b =>
          obtain ⟨result3, bufPtr⟩ := b
          simp only
          by_cases h3 : result3 = FSUR_IO_FAIL
          · simp only [h3, if_true]
          · simp only [h3, if_false]
    · simp only [hr, not_false_eq_true, if_true]


theorem getD_of_take_drop (h1 h2 : List UInt8) (m n : Nat) (ht : h1.take m = h2.take m)
    (hd : h1.drop n = h2.drop n) (i : Nat) (hi : i < m ∨ n ≤ i) :
    h1.getD i 0 = h2.getD i 0 := by
  simp only [List.getD_eq_getElem?_getD]
  rcases hi with hi | hi
  · have e : ∀ l : List UInt8, l[i]? = (l.take m)[i]? := fun l =>
      (List.getElem?_take_of_lt hi).symm
    rw [e h1, e h2, ht]
  · have e : ∀ l : List UInt8, l[i]? = (l.drop n)[i - n]? := by
      intro l
      rw [List.getElem?_drop]
      congr 1
      omega
    rw [e h1, e h2, hd]

/-- Two header blocks that differ at most in the extents-file record (bytes 208
to 271) have the same signature, block size and inline catalog extents. -/
theorem header_fields_agree (h1 h2 : List UInt8) (ht : h1.take 208 = h2.take 208)
    (hd : h1.drop 272 = h2.drop 272) :
    be16 h1 vh.signature = be16 h2 vh.signature ∧ be32 h1 vh.blockSize = be32 h2 vh.blockSize ∧
    decodeExtents h1 vh.catalogFile_extents = decodeExtents h2 vh.catalogFile_extents := by
  have g := getD_of_take_drop h1 h2 208 272 ht hd
  refine ⟨?_, ?_, ?_⟩
  · unfold be16
    rw [g _ (Or.inl (by decide)), g _ (Or.inl (by decide))]
  · unfold be32
    rw [g _ (Or.inl (by decide)), g _ (Or.inl (by decide)), g _ (Or.inl (by decide)),
      g _ (Or.inl (by decide))]
  · unfold decodeExtents
    apply List.map_congr_left
    intro i _
    have e : vh.catalogFile_extents = 288 := rfl
    unfold be32
    rw [e, g _ (Or.inr (by omega)), g _ (Or.inr (by omega)), g _ (Or.inr (by omega)),
      g _ (Or.inr (by omega)), g _ (Or.inr (by omega)), g _ (Or.inr (by omega)),
      g _ (Or.inr (by omega)), g _ (Or.inr (by omega))]

theorem decodeExtents_typed (b : List UInt8) (off : Nat) : ExtentsTyped (decodeExtents b off) := by
  intro e he
  unfold decodeExtents at he
  obtain ⟨i, _, rfl⟩ := List.mem_map.1 he
  exact ⟨be32_bounds _ _, be32_bounds _ _⟩

theorem sameCatalog_headers (d1 d2 : Device) (vol : Int) (hvol : 0 ≤ vol)
    (hsame : SameCatalog d1 d2 vol) :
    (headerBlockAt d1 (vol + 1024)).take 208 = (headerBlockAt d2 (vol + 1024)).take 208 ∧
    (headerBlockAt d1 (vol + 1024)).drop 272 = (headerBlockAt d2 (vol + 1024)).drop 272 := by
  obtain ⟨-, -, s1, s2, -⟩ := hsame
  unfold SameBytes at s1 s2
  unfold headerBlockAt
  have e1 : (208 : Int).toNat = 208 := rfl
  have e2 : (240 : Int).toNat = 240 := rfl
  have e3 : (vol + 1024 + 272).toNat = (vol + 1024).toNat + 272 := by omega
  rw [e1] at s1
  rw [e2, e3] at s2
  constructor
  · rw [List.take_take, List.take_take]
    exact s1
  · rw [List.drop_take, List.drop_take, List.drop_drop, List.drop_drop]
    exact s2

theorem uint8_ofNat_toNat (b : UInt8) : UInt8.ofNat b.toNat = b := by
  apply UInt8.ext
  simp [UInt8.toNat, UInt8.ofNat]

theorem utf16ToUtf8_ascii : ∀ s : List UInt8, (∀ b ∈ s, b.toNat < 128) →
    utf16ToUtf8 (asciiUnits s) = some s
  | [], _ => rfl
  | [a], h => by
    have ha := h a (List.mem_cons_self _ _)
    have e : asciiUnits [a] = [(a.toNat : Int)] := rfl
    rw [e, utf16ToUtf8, if_neg (by omega)]
    simp only [Int.toNat_ofNat, utf8OfCodePoint, if_pos ha, uint8_ofNat_toNat]
  | a :: b :: rest, h => by
    have ha := h a (List.mem_cons_self _ _)
    have ih := utf16ToUtf8_ascii (b :: rest) (fun x hx => h x (List.mem_cons_of_mem _ hx))
    have e : asciiUnits (a :: b :: rest) = (a.toNat : Int) :: (b.toNat : Int) :: asciiUnits rest :=
      rfl
    have e2 : asciiUnits (b :: rest) = (b.toNat : Int) :: asciiUnits rest := rfl
    rw [e2] at ih
    rw [e, utf16ToUtf8, if_neg (by omega), if_neg (by omega), ih]
    simp only [Int.toNat_ofNat, utf8OfCodePoint, if_pos ha, uint8_ofNat_toNat, Option.map_some',
      List.singleton_append]

theorem copyName_units (buf : List UInt8) (unicode : Int) (h0 : 0 ≤ unicode) :
    ∀ (n : Nat) (i : Int), 0 ≤ i → unicode + 2 * (i + n) ≤ (buf.length : Int) →
      copyName buf unicode n i
        = .ret ((List.range n).map (fun (j : Nat) => be16 buf (unicode + 2 * (i + (j : Int))).toNat)) := by
  intro n
  induction n with
  | zero => intro i _ _; rfl
  | succ n ih =>
    intro i hi hle
    have hrest := ih (i + 1) (by omega) (by push_cast at hle ⊢; omega)
    unfold copyName
    rw [be16At_inside buf (unicode + 2 * i) (by omega) (by push_cast at hle; omega), hrest]
    simp only [Exec.bind]
    rw [List.range_succ_eq_map, List.map_cons, List.map_map, Nat.cast_zero, add_zero]
    refine congrArg _ (congrArg _ (List.map_congr_left ?_))
    intro j _
    have e : i + 1 + (j : Int) = i + ((Nat.succ j : Nat) : Int) := by
      rw [Nat.succ_eq_add_one, Nat.cast_add, Nat.cast_one]; ring
    show be16 buf (unicode + 2 * (i + 1 + (j : Int))).toNat = _
    rw [e]
    rfl

theorem strlen_terminated (s rest : List UInt8) (hs : ∀ b ∈ s, b ≠ 0) :
    strlen (s ++ 0 :: rest) = .ret (s.length : Int) ∧
    (s ++ 0 :: rest).take s.length = s := by
  have hmem : (0 : UInt8) ∈ s ++ 0 :: rest :=
    List.mem_append_right _ (List.mem_cons_self _ _)
  have htw : (s ++ 0 :: rest).takeWhile (fun c => decide (c ≠ 0)) = s := by
    induction s with
    | nil => simp [List.takeWhile]
    | cons a t iht =>
      have ha := hs a (List.mem_cons_self _ _)
      rw [List.cons_append, List.takeWhile_cons]
      simp only [ha, ne_eq, not_false_eq_true, decide_True, if_true]
      rw [iht (fun b hb => hs b (List.mem_cons_of_mem _ hb))
        (List.mem_append_right _ (List.mem_cons_self _ _))]
  constructor
  · unfold strlen
    rw [if_pos hmem, htw]
  · exact List.take_left' rfl


/-- The extraction of the root name on a node whose examined bytes are inside
the buffer and whose first record passes the validation: the name handed to
the transcoder is the sequence of units stored in the key. -/
theorem rootNameFromLeaf_units (bufPtr : List UInt8) (nodeSize : Int) (name_o : List UInt8)
    (hin : KeyInsideNode bufPtr nodeSize) (hgood : ¬ RootRecordRejected bufPtr nodeSize)
    (hl254 : firstKeyNameLength bufPtr nodeSize ≤ 254) :
    rootNameFromLeaf bufPtr nodeSize name_o
      = .ret (FSUR_IO_SUCCESS,
          (CFStringGetCString (firstKeyNameUnits bufPtr nodeSize) name_o (NAME_MAX * 3 + 1)).2) := by
  obtain ⟨hnum, hn2, hnl, hkey, hname⟩ := hin
  have hoff := be16_bounds bufPtr (nodeSize - 2).toNat
  have hlen := be16_bounds bufPtr (firstRecordOffset bufPtr nodeSize + key.nodeName_length).toNat
  have kp : (key.parentID : Int) = 2 := rfl
  have kl : (key.nodeName_length : Int) = 6 := rfl
  have ku : (key.nodeName_unicode : Int) = 8 := rfl
  have e1 : be16At bufPtr bt.numRecords = .ret (nodeNumRecords bufPtr) :=
    be16At_inside bufPtr _ (by decide) hnum
  have e2 : be16At bufPtr (nodeSize - 2) = .ret (firstRecordOffset bufPtr nodeSize) :=
    be16At_inside bufPtr _ (by omega) (by omega)
  have hro : 0 ≤ firstRecordOffset bufPtr nodeSize := hoff.1
  have e3 : be32At bufPtr (firstRecordOffset bufPtr nodeSize + key.parentID)
      = .ret (firstKeyParentID bufPtr nodeSize) :=
    be32At_inside bufPtr _ (by omega) (by omega)
  have e4 : be16At bufPtr (firstRecordOffset bufPtr nodeSize + key.nodeName_length)
      = .ret (firstKeyNameLength bufPtr nodeSize) :=
    be16At_inside bufPtr _ (by omega) (by omega)
  have hl0 : 0 ≤ firstKeyNameLength bufPtr nodeSize := hlen.1
  have h1 : ¬ nodeNumRecords bufPtr < 1 := fun h => hgood (Or.inl h)
  have h2 : ¬ firstKeyParentID bufPtr nodeSize ≠ kHFSRootParentID :=
    fun h => hgood (Or.inr (Or.inl h))
  have h3 : ¬ (firstKeyNameLength bufPtr nodeSize > 255 ∨
      firstKeyNameLength bufPtr nodeSize > 255) := by
    intro h; rcases h with h | h <;> omega
  have hunits := copyName_units bufPtr
    (firstRecordOffset bufPtr nodeSize + key.nodeName_unicode) (by omega)
    (firstKeyNameLength bufPtr nodeSize).toNat 0 (le_refl _)
    (by have := hname (by omega); rw [Int.toNat_of_nonneg hl0]; omega)
  have hu : (List.range (firstKeyNameLength bufPtr nodeSize).toNat).map (fun (j : Nat) =>
      be16 bufPtr (firstRecordOffset bufPtr nodeSize + key.nodeName_unicode
        + 2 * (0 + (j : Int))).toNat) = firstKeyNameUnits bufPtr nodeSize := by
    unfold firstKeyNameUnits
    apply List.map_congr_left
    intro j _
    rw [zero_add]
  rw [hu] at hunits
  unfold rootNameFromLeaf
  rw [e1]
  simp only [Exec.bind_ret]
  rw [if_neg h1, e2]
  simp only [Exec.bind_ret]
  rw [e3]
  simp only [Exec.bind_ret]
  rw [if_neg h2, e4]
  simp only [Exec.bind_ret]
  rw [if_neg h3, hunits]
  simp only [Exec.bind_ret]
  rw [if_pos (by unfold sizeofHFSUniStr255; omega)]

theorem CFStringGetCString_ascii (s buffer : List UInt8) (hs : ∀ b ∈ s, b.toNat < 128)
    (hl : s.length ≤ 254) :
    CFStringGetCString (asciiUnits s) buffer (NAME_MAX * 3 + 1)
      = (true, s ++ 0 :: buffer.drop (s.length + 1)) := by
  unfold CFStringGetCString
  rw [utf16ToUtf8_ascii s hs]
  simp only
  rw [if_pos (by unfold NAME_MAX; omega)]
  unfold bcopy
  have e : ((s.length : Int) + 1).toNat = s.length + 1 := by omega
  rw [e, List.take_of_length_le (by simp), List.append_assoc]
  rfl

/-- Whatever `DoProbe` writes to standard output, it writes when it returns
`FSUR_RECOGNIZED`. -/
theorem DoProbe_output (fuel : Nat) (junk : Nat → UInt8) (fd : Int) (dev : Device)
    (volnameUTF8 : List UInt8) (r : Int) (out : List UInt8)
    (h : DoProbe fuel junk fd dev volnameUTF8 = .ret (r, out)) (hr : r ≠ FSUR_RECOGNIZED) :
    out = [] := by
  unfold DoProbe at h
  split at h
  · simp only [Exec.ret.injEq, Prod.mk.injEq] at h; exact h.2.symm
  · obtain ⟨⟨result, bufPtr⟩, -, h⟩ := Exec.bind_eq_ret _ _ _ h
    simp only at h
    split at h
    · simp only [Exec.ret.injEq, Prod.mk.injEq] at h; exact h.2.symm
    · obtain ⟨⟨result1, volname⟩, -, h⟩ := Exec.bind_eq_ret _ _ _ h
      simp only at h
      split at h
      · obtain ⟨n, -, h⟩ := Exec.bind_eq_ret _ _ _ h
        simp only [Exec.ret.injEq, Prod.mk.injEq] at h
        exact absurd h.1.symm hr
      · simp only [Exec.ret.injEq, Prod.mk.injEq] at h; exact h.2.symm

/-- C11 (amended): end-to-end probe of an unmounted image.  For every image
whose sector 2 is read and carries the HFS+ or HFSX signature, whose first
catalog leaf node is read, and whose first record lies inside the node, passes
the root validation and holds as its name the big-endian UTF-16 units of an
ASCII string `s` of at most 254 characters, none of them NUL, `DoProbe` writes
to standard output exactly the bytes of `s`, nothing after them, and returns
`FSUR_RECOGNIZED`.  Whenever `DoProbe` returns another result code it has
written nothing. -/
theorem DoProbe_prints_root_name (fuel : Nat) (junk : Nat → UInt8) (fd : Int) (dev : Device)
    (volnameUTF8 hdr node s : List UInt8) (nodeSize : Int) (hfd : 0 ≤ fd)
    (hread : readAt dev (malloc junk HFS_BLOCK_SIZE) (2 * HFS_BLOCK_SIZE) HFS_BLOCK_SIZE
      = .ret (FSUR_IO_SUCCESS, hdr))
    (hsig : be16 hdr vh.signature = kHFSPlusSigWord ∨ be16 hdr vh.signature = kHFSXSigWord)
    (hleaf : readFirstCatalogLeaf fuel junk dev 0 = .ret (.leaf node nodeSize))
    (hin : KeyInsideNode node nodeSize) (hgood : ¬ RootRecordRejected node nodeSize)
    (hname : firstKeyNameUnits node nodeSize = asciiUnits s) (hs : IsAsciiName s)
    (hl : s.length ≤ 254) :
    DoProbe fuel junk fd dev volnameUTF8 = .ret (FSUR_RECOGNIZED, s) ∧
    ∀ (fuel1 : Nat) (junk1 : Nat → UInt8) (fd1 : Int) (dev1 : Device) (v : List UInt8) (r : Int)
      (out : List UInt8), DoProbe fuel1 junk1 fd1 dev1 v = .ret (r, out) →
      r ≠ FSUR_RECOGNIZED → out = [] := by
  refine ⟨?_, DoProbe_output⟩
  have hlenu : (firstKeyNameLength node nodeSize).toNat = s.length := by
    have := congrArg List.length hname
    simpa [firstKeyNameUnits, asciiUnits] using this
  have hl0 := (be16_bounds node (firstRecordOffset node nodeSize + key.nodeName_length).toNat).1
  have hl254 : firstKeyNameLength node nodeSize ≤ 254 := by
    unfold firstKeyNameLength at hlenu ⊢
    omega
  have hroot := rootNameFromLeaf_units node nodeSize volnameUTF8 hin hgood hl254
  rw [hname, CFStringGetCString_ascii s volnameUTF8 (fun b hb => (hs b hb).2) hl] at hroot
  have hget : GetNameFromHFSPlusVolumeStartingAt fuel junk dev 0 volnameUTF8
      = .ret (FSUR_IO_SUCCESS, s ++ 0 :: volnameUTF8.drop (s.length + 1)) := by
    unfold GetNameFromHFSPlusVolumeStartingAt
    rw [hleaf]
    exact hroot
  obtain ⟨hstr, htake⟩ := strlen_terminated s (volnameUTF8.drop (s.length + 1))
    (fun b hb => (hs b hb).1)
  have e0 : mdb.drSigWord = vh.signature := rfl
  have hnh : be16 hdr vh.signature ≠ kHFSSigWord := by
    rcases hsig with h | h <;> rw [h] <;> decide
  have d : FSUR_IO_FAIL ≠ FSUR_IO_SUCCESS := by decide
  unfold DoProbe
  rw [if_neg (by omega), hread]
  simp only [Exec.bind, d, if_false, e0, hnh, false_and, hsig, true_or, if_true, hget,
    hstr, Int.toNat_ofNat, htake]
  rcases hsig with h | h
  · simp only [h, true_or, if_true, hget, Exec.bind, hstr, Int.toNat_ofNat, htake]
  · simp only [h, true_or, or_true, if_true, hget, Exec.bind, hstr, Int.toNat_ofNat, htake]


theorem DoProbe_prints_root_name_witness :
    DoProbe 0 (fun _ => 0) 3 testVolImage (List.replicate 766 0xAA)
      = .ret (FSUR_RECOGNIZED, [0x54, 0x65, 0x73, 0x74, 0x56, 0x6F, 0x6C]) :=
  (DoProbe_prints_root_name 0 (fun _ => 0) 3 testVolImage (List.replicate 766 0xAA) exampleHeader
    testVolLeafNode [0x54, 0x65, 0x73, 0x74, 0x56, 0x6F, 0x6C] 512 (by decide) (by decide!)
    (by decide!) (by decide!) (by decide!) (by decide!) (by decide!) (by decide!) (by decide)).1

/-- C11 as stated fails: (a) the root name of the long-name image is the ASCII
string of 255 characters `A`, its record lies inside the node and passes the
validation, but the store of the terminator at `swapped->unicode[255]` is
outside the `HFSUniStr255` block: the run of `DoProbe` is undefined, it neither
writes the name nor returns `FSUR_RECOGNIZED`; (b) the root name `A`, NUL, `C`
consists of three ASCII characters, and `DoProbe` writes the single byte `A`,
the length of the output being taken with `strlen`. -/
theorem DoProbe_long_name_undefined :
    (firstKeyNameUnits longNameLeafNode 1024 = asciiUnits (List.replicate 255 0x41) ∧
      readFirstCatalogLeaf 0 (fun _ => 0) longNameImage 0 = .ret (.leaf longNameLeafNode 1024) ∧
      KeyInsideNode longNameLeafNode 1024 ∧ ¬ RootRecordRejected longNameLeafNode 1024 ∧
      DoProbe 0 (fun _ => 0) 3 longNameImage (List.replicate 766 0xAA) = .ub) ∧
    (firstKeyNameUnits nulNameLeafNode 512 = asciiUnits [0x41, 0, 0x43] ∧
      DoProbe 0 (fun _ => 0) 3 nulNameImage (List.replicate 766 0xAA)
        = .ret (FSUR_RECOGNIZED, [0x41])) := by
  refine ⟨⟨by decide!, by decide!, by decide!, by decide!, by decide!⟩, by decide!, by decide!⟩

/-- The outcome of `LogicalToPhysical` on an extent list of 32-bit fields: the
extent scan decides, and the outputs are those of the extent it finds. -/
theorem LogicalToPhysical_outputs (offset length blockSize : Int)
    (extentList : List HFSPlusExtentDescriptor) (hbs : 1 ≤ blockSize) (hoff : 0 ≤ offset)
    (htyped : ExtentsTyped extentList) (result p n : Int)
    (h : LogicalToPhysical offset length blockSize extentList = .ret (result, some (p, n))) :
    ∃ e r, findExtent ((offset / blockSize) % 2 ^ 32) extentList = some (e, r) ∧
      e ∈ fileExtents extentList ∧ 0 ≤ r ∧ r < e.blockCount ∧ result = FSUR_IO_SUCCESS ∧
      p = ((e.startBlock + r) % 2 ^ 32) * blockSize + offset % blockSize ∧
      n = min length ((e.blockCount - r) * blockSize - offset % blockSize) := by
  rw [LogicalToPhysical_unfold offset length blockSize extentList hbs hoff] at h
  have hb0 : 0 ≤ (offset / blockSize) % 2 ^ 32 := Int.emod_nonneg _ (by decide)
  cases hf : findExtent ((offset / blockSize) % 2 ^ 32) extentList with
  | none => rw [hf] at h; simp at h
  | some er =>
    obtain ⟨e, r⟩ := er
    rw [hf] at h
    simp only [Exec.ret.injEq, Prod.mk.injEq, Option.some.injEq] at h
    obtain ⟨he, hr0, hr1⟩ := findExtent_some extentList _ e r hb0 hf
    obtain ⟨-, ⟨hc0, hc1⟩⟩ := htyped e (mem_of_mem_fileExtents extentList e he)
    have hm2 : (e.blockCount - r) % 2 ^ 32 = e.blockCount - r :=
      Int.emod_eq_of_lt (by omega) (by omega)
    rw [hm2] at h
    refine ⟨e, r, rfl, he, hr0, hr1, h.1.symm, h.2.1.symm, ?_⟩
    rw [← h.2.2]
    split
    · rw [min_eq_right (by omega)]
    · rw [min_eq_left (by omega)]

/-- C23 (amended): `LogicalToPhysical` reports the contiguous bytes available.
For every `blockSize ≥ 1`, every `offset ≥ 0` and every extent list of 32-bit
fields in which the block index `offset / blockSize` falls inside extent `k`
at remaining index `r`, provided the block index is below `2 ^ 32` and the
values of `temp` computed for that extent are values of `off_t` (no signed
overflow in `temp *= blockSize`), `LogicalToPhysical` returns
`FSUR_IO_SUCCESS` with
`availableBytes = min length ((blockCount k - r) * blockSize - offset % blockSize)`,
so `availableBytes` never exceeds `length` and the mapped range never reaches
past the end of extent `k`. -/
theorem LogicalToPhysical_availableBytes (offset length blockSize : Int)
    (extentList : List HFSPlusExtentDescriptor) (k : Nat) (e : HFSPlusExtentDescriptor) (r : Int)
    (hbs : 1 ≤ blockSize) (hoff : 0 ≤ offset) (htyped : ExtentsTyped extentList)
    (hin : FallsInside extentList (offset / blockSize) k e r)
    (hlog : offset / blockSize < 2 ^ 32)
    (hfits : TempsFitOffT blockSize (offset % blockSize) e r) :
    (∃ p, LogicalToPhysical offset length blockSize extentList
      = .ret (FSUR_IO_SUCCESS,
          some (p, min length ((e.blockCount - r) * blockSize - offset % blockSize)))) ∧
    min length ((e.blockCount - r) * blockSize - offset % blockSize) ≤ length ∧
    offset % blockSize + min length ((e.blockCount - r) * blockSize - offset % blockSize)
      ≤ (e.blockCount - r) * blockSize ∧
    IsOffT ((e.blockCount - r) * blockSize - offset % blockSize) := by
  have hb0 : 0 ≤ offset / blockSize := Int.ediv_nonneg hoff (by omega)
  have hmod : (offset / blockSize) % 2 ^ 32 = offset / blockSize := Int.emod_eq_of_lt hb0 hlog
  have hfind := findExtent_inside extentList (offset / blockSize) k e r
    (fun e1 he1 => (htyped e1 he1).2.1) hb0 hlog hin
  have he : e ∈ extentList := List.getElem?_mem hin.1
  obtain ⟨-, ⟨hc0, hc1⟩⟩ := htyped e he
  have hr0 : 0 ≤ r := hin.2.2.2.1
  have hr1 : r < e.blockCount := hin.2.2.2.2
  have hm2 : (e.blockCount - r) % 2 ^ 32 = e.blockCount - r :=
    Int.emod_eq_of_lt (by omega) (by omega)
  refine ⟨?_, min_le_left _ _, ?_, ?_⟩
  · rw [LogicalToPhysical_unfold offset length blockSize extentList hbs hoff, hmod, hfind]
    simp only [hm2]
    refine ⟨(e.startBlock + r) % 2 ^ 32 * blockSize + offset % blockSize, ?_⟩
    congr 4
    split
    · rw [min_eq_right (by omega)]
    · rw [min_eq_left (by omega)]
  · have := min_le_right length ((e.blockCount - r) * blockSize - offset % blockSize)
    omega
  · have h := hfits.2.2.2
    rw [hm2] at h
    exact h

theorem LogicalToPhysical_availableBytes_witness :
    ∃ p, LogicalToPhysical (2 * 512 + 100) 5000 512 [⟨100, 2⟩, ⟨500, 3⟩]
      = .ret (FSUR_IO_SUCCESS, some (p, min 5000 ((3 - 0) * 512 - (2 * 512 + 100) % 512))) :=
  (LogicalToPhysical_availableBytes (2 * 512 + 100) 5000 512 [⟨100, 2⟩, ⟨500, 3⟩] 1 ⟨500, 3⟩ 0
    (by decide) (by decide) (by decide) (by decide) (by decide) (by decide)).1

/-- C23 as stated fails: with extents `[(0, 4294967295), (7, 5)]` and
`blockSize = 1`, offset `2 ^ 32` has block index `2 ^ 32`, which falls inside
extent 1 at remaining index 1, so the claim gives
`min 10 ((5 - 1) * 1 - 0) = 4` available bytes; the code keeps the block index
in 32 bits, takes block 0 of extent 0 and returns `FSUR_IO_SUCCESS` with 10
available bytes. -/
theorem LogicalToPhysical_availableBytes_truncates :
    FallsInside [⟨0, 4294967295⟩, ⟨7, 5⟩] (4294967296 / 1) 1 ⟨7, 5⟩ 1 ∧
    LogicalToPhysical 4294967296 10 1 [⟨0, 4294967295⟩, ⟨7, 5⟩]
      = .ret (FSUR_IO_SUCCESS, some (0, 10)) ∧
    min (10 : Int) ((5 - 1) * 1 - 4294967296 % 1) = 4 ∧ (10 : Int) ≠ 4 ∧
    TempsFitOffT 1 (4294967296 % 1) ⟨7, 5⟩ 1 := by
  decide

/-- Every successful `LogicalToPhysical` call maps at least one byte and at most
`length` bytes. -/
theorem LogicalToPhysical_progress (offset length blockSize : Int)
    (extentList : List HFSPlusExtentDescriptor) (hbs : 1 ≤ blockSize)
    (htyped : ExtentsTyped extentList) (result p n : Int)
    (h : LogicalToPhysical offset length blockSize extentList = .ret (result, some (p, n)))
    (hl : 1 ≤ length) : 1 ≤ n ∧ n ≤ length := by
  unfold LogicalToPhysical at h
  rw [if_neg (by omega)] at h
  simp only at h
  have hb0 : 0 ≤ (offset.tdiv blockSize) % 2 ^ 32 := Int.emod_nonneg _ (by decide)
  cases hf : findExtent ((offset.tdiv blockSize) % 2 ^ 32) extentList with
  | none => rw [hf] at h; simp at h
  | some er =>
    obtain ⟨e, r⟩ := er
    rw [hf] at h
    simp only [Exec.ret.injEq, Prod.mk.injEq, Option.some.injEq] at h
    obtain ⟨he, hr0, hr1⟩ := findExtent_some extentList _ e r hb0 hf
    obtain ⟨-, ⟨hc0, hc1⟩⟩ := htyped e (mem_of_mem_fileExtents extentList e he)
    have hm2 : (e.blockCount - r) % 2 ^ 32 = e.blockCount - r :=
      Int.emod_eq_of_lt (by omega) (by omega)
    have ht : offset.tmod blockSize < blockSize := Int.tmod_lt_of_pos _ (by omega)
    have hmul : blockSize ≤ (e.blockCount - r) * blockSize := by
      have : 1 * blockSize ≤ (e.blockCount - r) * blockSize :=
        Int.mul_le_mul_of_nonneg_right (by omega) (by omega)
      omega
    rw [hm2] at h
    rw [← h.2.2]
    split <;> omega

/-- The loop of `ReadFile` with no iteration left. -/
theorem ReadFileLoop_zero (dev : Device) (volOffset blockSize : Int)
    (l : List HFSPlusExtentDescriptor) (buffer : List UInt8) (offset length : Int) :
    ReadFileLoop dev volOffset blockSize l 0 buffer offset length
      = if length > 0 then .nofuel else .ret (FSUR_IO_SUCCESS, buffer) := by
  rw [ReadFileLoop]

/-- One iteration of the loop of `ReadFile`. -/
theorem ReadFileLoop_succ (dev : Device) (volOffset blockSize : Int)
    (l : List HFSPlusExtentDescriptor) (fuel : Nat) (buffer : List UInt8) (offset length : Int) :
    ReadFileLoop dev volOffset blockSize l (fuel + 1) buffer offset length
      = if length > 0 then
          match LogicalToPhysical offset length blockSize l with
          | .ub => .ub
          | .nofuel => .nofuel
          | .ret (result, none) => .ret (result, buffer)
          | .ret (_, some (physOffset, physLength)) =>
            match readAt dev buffer (volOffset + physOffset) physLength with
            | .ub => .ub
            | .nofuel => .nofuel
            | .ret (result, buffer1) =>
              if result ≠ FSUR_IO_SUCCESS then .ret (result, buffer1)
              else
                match ReadFileLoop dev volOffset blockSize l fuel
                    (buffer1.drop physLength.toNat) (offset + physLength) (length - physLength) with
                | .ret (r, rest) => .ret (r, buffer1.take physLength.toNat ++ rest)
                | .ub => .ub
                | .nofuel => .nofuel
        else .ret (FSUR_IO_SUCCESS, buffer) := by
  rw [ReadFileLoop]

/-- More fuel does not change a run of `ReadFile's` loop that ended. -/
theorem ReadFileLoop_mono (dev : Device) (volOffset blockSize : Int)
    (l : List HFSPlusExtentDescriptor) :
    ∀ (fuel : Nat) (buffer : List UInt8) (offset length : Int),
      ReadFileLoop dev volOffset blockSize l fuel buffer offset length ≠ .nofuel →
      ReadFileLoop dev volOffset blockSize l (fuel + 1) buffer offset length
        = ReadFileLoop dev volOffset blockSize l fuel buffer offset length := by
  intro fuel
  induction fuel with
  | zero =>
    intro buffer offset length h
    rw [ReadFileLoop_zero] at h
    rw [ReadFileLoop_succ, ReadFileLoop_zero]
    by_cases hpos : length > 0
    · rw [if_pos hpos] at h; exact absurd rfl h
    · rw [if_neg hpos, if_neg hpos]
  | succ fuel ih =>
    intro buffer offset length h
    rw [ReadFileLoop_succ] at h
    rw [ReadFileLoop_succ, ReadFileLoop_succ]
    by_cases hpos : length > 0
    · rw [if_pos hpos] at h
      rw [if_pos hpos, if_pos hpos]
      cases hmp : LogicalToPhysical offset length blockSize l with
      | ub => rfl
      | nofuel => rfl
      | ret a =>
        obtain ⟨r, m⟩ := a
        cases m with
        | none => rfl
        | some pn =>
          obtain ⟨p, n⟩ := pn
          rw [hmp] at h
          simp only at h ⊢
          cases hrd : readAt dev buffer (volOffset + p) n with
          | ub => rfl
          | nofuel => rfl
          | ret b =>
            obtain ⟨r1, buffer1⟩ := b
            rw [hrd] at h
            simp only at h ⊢
            by_cases hr1 : r1 ≠ FSUR_IO_SUCCESS
            · rw [if_pos hr1, if_pos hr1]
            · rw [if_neg hr1] at h
              rw [if_neg hr1, if_neg hr1]
              have hne : ReadFileLoop dev volOffset blockSize l fuel (buffer1.drop n.toNat)
                  (offset + n) (length - n) ≠ .nofuel := by
                intro hc
                rw [hc] at h
                exact h rfl
              rw [ih _ _ _ hne]
    · rw [if_neg hpos, if_neg hpos]

/-- On an extent list of 32-bit fields and with `blockSize ≥ 1`, `length`
iterations are enough for `ReadFile's` loop. -/
theorem ReadFileLoop_ends (dev : Device) (volOffset blockSize : Int)
    (l : List HFSPlusExtentDescriptor) (hbs : 1 ≤ blockSize) (htyped : ExtentsTyped l) :
    ∀ (fuel : Nat) (buffer : List UInt8) (offset length : Int), length.toNat ≤ fuel →
      ReadFileLoop dev volOffset blockSize l fuel buffer offset length ≠ .nofuel := by
  intro fuel
  induction fuel with
  | zero =>
    intro buffer offset length hf
    rw [ReadFileLoop_zero, if_neg (by omega)]
    exact fun h => nomatch h
  | succ fuel ih =>
    intro buffer offset length hf
    rw [ReadFileLoop_succ]
    by_cases hpos : length > 0
    · rw [if_pos hpos]
      cases hmp : LogicalToPhysical offset length blockSize l with
      | ub => exact fun h => nomatch h
      | nofuel =>
        unfold LogicalToPhysical at hmp
        rw [if_neg (by omega)] at hmp
        simp only at hmp
        split at hmp <;> simp at hmp
      | ret a =>
        obtain ⟨r, m⟩ := a
        cases m with
        | none => exact fun h => nomatch h
        | some pn =>
          obtain ⟨p, n⟩ := pn
          obtain ⟨hn1, hn2⟩ := LogicalToPhysical_progress offset length blockSize l hbs htyped
            r p n hmp (by omega)
          simp only
          cases hrd : readAt dev buffer (volOffset + p) n with
          | ub => exact fun h => nomatch h
          | nofuel =>
            rcases readAt_geometry dev dev buffer (volOffset + p) n rfl rfl with
              ⟨h1, -, -, -⟩ | ⟨h1, -⟩ | ⟨h1, -⟩ <;> rw [h1] at hrd <;> simp at hrd
          | ret b =>
            obtain ⟨r1, buffer1⟩ := b
            simp only
            by_cases hr1 : r1 ≠ FSUR_IO_SUCCESS
            · rw [if_pos hr1]; exact fun h => nomatch h
            · rw [if_neg hr1]
              have hne := ih (buffer1.drop n.toNat) (offset + n) (length - n) (by omega)
              cases hrec : ReadFileLoop dev volOffset blockSize l fuel (buffer1.drop n.toNat)
                  (offset + n) (length - n) with
              | ub => exact fun h => nomatch h
              | nofuel => exact absurd hrec hne
              | ret c => exact fun h => nomatch h
    · rw [if_neg hpos]
      exact fun h => nomatch h

/-- Any larger iteration budget gives the result of a run that ended. -/
theorem ReadFileLoop_more_fuel (dev : Device) (volOffset blockSize : Int)
    (l : List HFSPlusExtentDescriptor) (fuel : Nat) (buffer : List UInt8) (offset length : Int)
    (h : ReadFileLoop dev volOffset blockSize l fuel buffer offset length ≠ .nofuel) :
    ∀ k : Nat, ReadFileLoop dev volOffset blockSize l (fuel + k) buffer offset length
      = ReadFileLoop dev volOffset blockSize l fuel buffer offset length := by
  intro k
  induction k with
  | zero => rfl
  | succ k ih =>
    have hne : ReadFileLoop dev volOffset blockSize l (fuel + k) buffer offset length ≠ .nofuel := by
      rw [ih]; exact h
    rw [← Nat.add_assoc, ReadFileLoop_mono dev volOffset blockSize l (fuel + k) buffer offset length hne, ih]

/-- With an allocation block size of at most `2 ^ 31` every call of
`LogicalToPhysical` stays within `off_t`. -/
theorem callFitsOffT_of_blockSize (offset blockSize : Int)
    (extentList : List HFSPlusExtentDescriptor) (hbs : 1 ≤ blockSize) (hmax : blockSize ≤ 2 ^ 31) :
    CallFitsOffT offset blockSize extentList := by
  unfold CallFitsOffT
  cases hf : findExtent ((offset.tdiv blockSize) % 2 ^ 32) extentList with
  | none => trivial
  | some er =>
    obtain ⟨e, r⟩ := er
    simp only
    have ha := Int.emod_nonneg (e.startBlock + r) (by decide : (2 : Int) ^ 32 ≠ 0)
    have ha1 := Int.emod_lt_of_pos (e.startBlock + r) (by decide : (0 : Int) < 2 ^ 32)
    have hc := Int.emod_nonneg (e.blockCount - r) (by decide : (2 : Int) ^ 32 ≠ 0)
    have hc1 := Int.emod_lt_of_pos (e.blockCount - r) (by decide : (0 : Int) < 2 ^ 32)
    have ht1 : offset.tmod blockSize < blockSize := Int.tmod_lt_of_pos _ (by omega)
    have ht2 : -blockSize < offset.tmod blockSize := by
      by_cases h : 0 ≤ offset
      · have := Int.tmod_nonneg blockSize h
        omega
      · have e1 := Int.tmod_def offset blockSize
        have e2 := Int.tmod_def (-offset) blockSize
        rw [Int.neg_tdiv] at e2
        have e3 : blockSize * -(offset.tdiv blockSize) = -(blockSize * offset.tdiv blockSize) := by
          ring
        have := Int.tmod_lt_of_pos (-offset) (by omega : 0 < blockSize)
        omega
    have p1 : ((e.startBlock + r) % 2 ^ 32) * blockSize ≤ (2 ^ 32 - 1) * 2 ^ 31 :=
      Int.mul_le_mul (by omega) hmax (by omega) (by decide)
    have p2 : ((e.blockCount - r) % 2 ^ 32) * blockSize ≤ (2 ^ 32 - 1) * 2 ^ 31 :=
      Int.mul_le_mul (by omega) hmax (by omega) (by decide)
    have q1 : 0 ≤ ((e.startBlock + r) % 2 ^ 32) * blockSize := Int.mul_nonneg ha (by omega)
    have q2 : 0 ≤ ((e.blockCount - r) % 2 ^ 32) * blockSize := Int.mul_nonneg hc (by omega)
    unfold TempsFitOffT IsOffT
    refine ⟨⟨by omega, by omega⟩, ⟨by omega, by omega⟩, ⟨by omega, by omega⟩, ⟨by omega, by omega⟩⟩

/-- C30 (refuted): the progress of `ReadFile` depends on a bound that the code
does not check. (1) With the extent `(0, 4294967295)` and the allocation block
size `2147483649`, both 32-bit values as read from a volume header, the call
at offset 0 finds block 0 of the extent and computes
`temp = 4294967295 * 2147483649 = 2 ^ 63 + 2 ^ 31 - 1` for the available
bytes, which is not a value of `off_t`: the multiplication `temp *= blockSize`
overflows. (2) For every `blockSize` from 1 to `2 ^ 31` and every extent list
of 32-bit fields, every call stays within `off_t`, each call that returns a
mapping for `length ≥ 1` returns `1 ≤ availableBytes ≤ length`, so that the
remaining length is smaller and not negative, the loop of `ReadFile` ends
within `length` iterations (a larger budget gives the same result), and with
`length ≤ 0` `ReadFile` returns `FSUR_IO_SUCCESS` and leaves the buffer as it
was. -/
theorem ReadFile_progress_needs_bounded_blockSize :
    (IsU32 2147483649 ∧ ExtentsTyped [⟨0, 4294967295⟩] ∧
      findExtent ((Int.tdiv 0 2147483649) % 2 ^ 32) [⟨0, 4294967295⟩]
        = some (⟨0, 4294967295⟩, 0) ∧
      ((4294967295 - 0) % 2 ^ 32) * 2147483649 = (2 ^ 63 + 2 ^ 31 - 1 : Int) ∧
      ¬ IsOffT (((4294967295 - 0) % 2 ^ 32) * 2147483649) ∧
      ¬ CallFitsOffT 0 2147483649 [⟨0, 4294967295⟩]) ∧
    (∀ (dev : Device) (volOffset blockSize : Int) (extentList : List HFSPlusExtentDescriptor),
      1 ≤ blockSize → blockSize ≤ 2 ^ 31 → ExtentsTyped extentList →
      (∀ offset : Int, CallFitsOffT offset blockSize extentList) ∧
      (∀ offset length result p n : Int, 1 ≤ length →
        LogicalToPhysical offset length blockSize extentList = .ret (result, some (p, n)) →
        1 ≤ n ∧ n ≤ length ∧ 0 ≤ length - n ∧ length - n < length) ∧
      (∀ (buffer : List UInt8) (offset length : Int),
        ReadFile dev buffer offset length volOffset blockSize extentList ≠ .nofuel ∧
        ∀ fuel : Nat, length.toNat ≤ fuel →
          ReadFileLoop dev volOffset blockSize extentList fuel buffer offset length
            = ReadFile dev buffer offset length volOffset blockSize extentList) ∧
      (∀ (buffer : List UInt8) (offset length : Int), length ≤ 0 →
        ReadFile dev buffer offset length volOffset blockSize extentList
          = .ret (FSUR_IO_SUCCESS, buffer))) := by
  refine ⟨by decide, ?_⟩
  intro dev volOffset blockSize extentList hbs hmax htyped
  refine ⟨fun offset => callFitsOffT_of_blockSize offset blockSize extentList hbs hmax, ?_, ?_, ?_⟩
  · intro offset length result p n hl h
    obtain ⟨h1, h2⟩ := LogicalToPhysical_progress offset length blockSize extentList hbs htyped
      result p n h hl
    exact ⟨h1, h2, by omega, by omega⟩
  · intro buffer offset length
    have hne := ReadFileLoop_ends dev volOffset blockSize extentList hbs htyped length.toNat
      buffer offset length (Nat.le_refl _)
    refine ⟨hne, ?_⟩
    intro fuel hf
    obtain ⟨k, rfl⟩ := Nat.exists_eq_add_of_le hf
    exact ReadFileLoop_more_fuel dev volOffset blockSize extentList length.toNat buffer offset
      length hne k
  · intro buffer offset length hl
    unfold ReadFile
    cases hfu : length.toNat with
    | zero => rw [ReadFileLoop_zero, if_neg (by omega)]
    | succ m => rw [ReadFileLoop_succ, if_neg (by omega)]

theorem ReadFile_progress_needs_bounded_blockSize_witness :
    ReadFile exampleImage (List.replicate 1024 0) 0 1024 0 512 [⟨3, 2⟩] ≠ .nofuel ∧
    ReadFile exampleImage (List.replicate 1024 0) 0 0 0 512 [⟨3, 2⟩]
      = .ret (FSUR_IO_SUCCESS, List.replicate 1024 0) ∧
    CallFitsOffT 0 512 [⟨3, 2⟩] :=
  ⟨((ReadFile_progress_needs_bounded_blockSize.2 exampleImage 0 512 [⟨3, 2⟩] (by decide) (by decide)
      (by decide)).2.2.1 (List.replicate 1024 0) 0 1024).1,
   (ReadFile_progress_needs_bounded_blockSize.2 exampleImage 0 512 [⟨3, 2⟩] (by decide) (by decide)
      (by decide)).2.2.2 (List.replicate 1024 0) 0 0 (by decide),
   (ReadFile_progress_needs_bounded_blockSize.2 exampleImage 0 512 [⟨3, 2⟩] (by decide) (by decide)
      (by decide)).1 0⟩

/-- The version byte `(b & 0x0F) | 0x30` has high nibble 3 and is not zero,
whatever `b` is. -/
theorem version_byte (b : UInt8) :
    ((b &&& 0x0F) ||| 0x30) >>> 4 = 3 ∧ ((b &&& 0x0F) ||| 0x30) ≠ 0 := by
  have h : ∀ f : Fin 256, (((UInt8.ofNat f.val) &&& 0x0F) ||| 0x30) >>> 4 = 3 ∧
      (((UInt8.ofNat f.val) &&& 0x0F) ||| 0x30) ≠ 0 := by decide!
  have hb := h ⟨b.toNat, b.toNat_lt⟩
  rw [uint8_ofNat_toNat] at hb
  exact hb

/-- A 16-byte UUID with a non-zero byte is not null. -/
theorem uuid_is_null_false (uu : List UInt8) (i : Nat) (hi : i < 16) (hlen : uu.length = 16)
    (h : uu.getD i 0 ≠ 0) : uuid_is_null uu = false := by
  unfold uuid_is_null
  rw [Bool.eq_false_iff]
  intro hall
  rw [List.all_eq_true] at hall
  have hi2 : i < uu.length := by omega
  have hmem : uu.getD i 0 ∈ uu.take 16 := by
    rw [List.take_of_length_le (by omega)]
    rw [List.getD_eq_getElem _ _ hi2]
    exact List.getElem_mem hi2
  have := hall _ hmem
  simp only [decide_eq_true_eq] at this
  exact h this

/-- C26: the null UUID is an exact sentinel for an unset legacy UUID. For every
legacy UUID whose halves are both non-zero, byte 6 of the UUID returned by
`ConvertHFSUUIDToUUID` has high nibble 3 whatever the MD5 digest is, so the
returned UUID is not all-zero; hence `uuid_is_null` holds of the derived UUID
if and only if a half of the legacy UUID is zero. -/
theorem ConvertHFSUUIDToUUID_null_iff_zero_half (host : ByteOrder) (dg : Digests)
    (u : hfs_UUID_t) :
    (u.high ≠ 0 → u.low ≠ 0 →
      (ConvertHFSUUIDToUUID host dg u).getD 6 0 >>> 4 = 3 ∧
      ConvertHFSUUIDToUUID host dg u ≠ List.replicate 16 0 ∧
      uuid_is_null (ConvertHFSUUIDToUUID host dg u) = false) ∧
    (uuid_is_null (ConvertHFSUUIDToUUID host dg u) = true ↔ u.high = 0 ∨ u.low = 0) := by
  have key : u.high ≠ 0 → u.low ≠ 0 →
      (ConvertHFSUUIDToUUID host dg u).getD 6 0 >>> 4 = 3 ∧
      ConvertHFSUUIDToUUID host dg u ≠ List.replicate 16 0 ∧
      uuid_is_null (ConvertHFSUUIDToUUID host dg u) = false := by
    intro hh hl
    have hne : ¬ (u.high = 0 ∨ u.low = 0) := by
      intro h; rcases h with h | h
      · exact hh h
      · exact hl h
    unfold ConvertHFSUUIDToUUID
    rw [if_neg hne]
    simp only
    obtain ⟨hlen, h6, -, -⟩ := uuid_create_md5_from_name_bytes dg dg.kFSUUIDNamespaceSHA1
      (bytes32 host (OSSwapHostToBigInt32 host u.high)
        ++ bytes32 host (OSSwapHostToBigInt32 host u.low))
    obtain ⟨hv1, hv2⟩ := version_byte ((dg.md5 (dg.kFSUUIDNamespaceSHA1 ++
      (bytes32 host (OSSwapHostToBigInt32 host u.high)
        ++ bytes32 host (OSSwapHostToBigInt32 host u.low)))).getD 6 0)
    have hnz : (uuid_create_md5_from_name dg dg.kFSUUIDNamespaceSHA1
      (bytes32 host (OSSwapHostToBigInt32 host u.high)
        ++ bytes32 host (OSSwapHostToBigInt32 host u.low))).getD 6 0 ≠ 0 := by
      rw [h6]; exact hv2
    refine ⟨by rw [h6]; exact hv1, ?_, uuid_is_null_false _ 6 (by decide) hlen hnz⟩
    intro hc
    rw [hc] at hnz
    exact hnz (by decide)
  refine ⟨key, ?_⟩
  constructor
  · intro hnull
    by_contra hc
    rw [not_or] at hc
    have := (key hc.1 hc.2).2.2
    rw [hnull] at this
    exact Bool.noConfusion this
  · intro hz
    unfold ConvertHFSUUIDToUUID
    rw [if_pos hz]
    decide

theorem ConvertHFSUUIDToUUID_null_iff_zero_half_witness :
    uuid_is_null (ConvertHFSUUIDToUUID .little toyDigests ⟨7, 9⟩) = false ∧
    uuid_is_null (ConvertHFSUUIDToUUID .little toyDigests ⟨7, 0⟩) = true :=
  ⟨((ConvertHFSUUIDToUUID_null_iff_zero_half .little toyDigests ⟨7, 9⟩).1
      (by decide) (by decide)).2.2,
   (ConvertHFSUUIDToUUID_null_iff_zero_half .little toyDigests ⟨7, 0⟩).2.2 (Or.inr rfl)⟩


/-- The extraction of the root name on a node whose examined bytes are inside
the buffer and whose first record passes the validation with a name of 255
units: the store of the terminator is outside the scratch structure. -/
theorem rootNameFromLeaf_terminator (bufPtr : List UInt8) (nodeSize : Int) (name_o : List UInt8)
    (hin : KeyInsideNode bufPtr nodeSize) (hgood : ¬ RootRecordRejected bufPtr nodeSize)
    (hl255 : firstKeyNameLength bufPtr nodeSize = 255) :
    rootNameFromLeaf bufPtr nodeSize name_o = .ub := by
  obtain ⟨hnum, hn2, hnl, hkey, hname⟩ := hin
  have hoff := be16_bounds bufPtr (nodeSize - 2).toNat
  have hlen := be16_bounds bufPtr (firstRecordOffset bufPtr nodeSize + key.nodeName_length).toNat
  have kp : (key.parentID : Int) = 2 := rfl
  have kl : (key.nodeName_length : Int) = 6 := rfl
  have ku : (key.nodeName_unicode : Int) = 8 := rfl
  have e1 : be16At bufPtr bt.numRecords = .ret (nodeNumRecords bufPtr) :=
    be16At_inside bufPtr _ (by decide) hnum
  have e2 : be16At bufPtr (nodeSize - 2) = .ret (firstRecordOffset bufPtr nodeSize) :=
    be16At_inside bufPtr _ (by omega) (by omega)
  have hro : 0 ≤ firstRecordOffset bufPtr nodeSize := hoff.1
  have e3 : be32At bufPtr (firstRecordOffset bufPtr nodeSize + key.parentID)
      = .ret (firstKeyParentID bufPtr nodeSize) :=
    be32At_inside bufPtr _ (by omega) (by omega)
  have e4 : be16At bufPtr (firstRecordOffset bufPtr nodeSize + key.nodeName_length)
      = .ret (firstKeyNameLength bufPtr nodeSize) :=
    be16At_inside bufPtr _ (by omega) (by omega)
  have h1 : ¬ nodeNumRecords bufPtr < 1 := fun h => hgood (Or.inl h)
  have h2 : ¬ firstKeyParentID bufPtr nodeSize ≠ kHFSRootParentID :=
    fun h => hgood (Or.inr (Or.inl h))
  have h3 : ¬ (firstKeyNameLength bufPtr nodeSize > 255 ∨
      firstKeyNameLength bufPtr nodeSize > 255) := by
    intro h; rcases h with h | h <;> omega
  obtain ⟨units, hunits⟩ := copyName_inside bufPtr
    (firstRecordOffset bufPtr nodeSize + key.nodeName_unicode) (by omega)
    (firstKeyNameLength bufPtr nodeSize).toNat 0 (le_refl _)
    (by
      have := hname (by omega)
      have hl0 : 0 ≤ firstKeyNameLength bufPtr nodeSize := hlen.1
      rw [Int.toNat_of_nonneg hl0]; omega)
  unfold rootNameFromLeaf
  rw [e1]
  simp only [Exec.bind_ret]
  rw [if_neg h1, e2]
  simp only [Exec.bind_ret]
  rw [e3]
  simp only [Exec.bind_ret]
  rw [if_neg h2, e4]
  simp only [Exec.bind_ret]
  rw [if_neg h3, hunits]
  simp only [Exec.bind_ret]
  rw [if_neg (by unfold sizeofHFSUniStr255; omega)]

/-- C28 (refuted): the terminator of the byte-swapped name copy is not always
stored inside the 255-element `unicode` array. For a first record that lies
inside the node and passes the validation with a name of `n` units (so
`n ≤ 255`), the indices stored to are `0 .. n`; they are all within the array
exactly when `n ≤ 254`. For `n = 255`, which the length check accepts, the
terminator is stored at index 255, one element past the array and past the
`malloc(sizeof(HFSUniStr255))` block, and the run is undefined; for
`n ≤ 254` the extraction returns `FSUR_IO_SUCCESS`. -/
theorem name_copy_terminator_index (bufPtr : List UInt8) (nodeSize : Int) (name_o : List UInt8)
    (hin : KeyInsideNode bufPtr nodeSize) (hgood : ¬ RootRecordRejected bufPtr nodeSize) :
    firstKeyNameLength bufPtr nodeSize ≤ 255 ∧
    ((firstKeyNameLength bufPtr nodeSize).toNat : Int)
      ∈ swappedStores (firstKeyNameLength bufPtr nodeSize).toNat ∧
    ((∀ i ∈ swappedStores (firstKeyNameLength bufPtr nodeSize).toNat,
        0 ≤ i ∧ i < unicodeCapacity) ↔ firstKeyNameLength bufPtr nodeSize ≤ 254) ∧
    (firstKeyNameLength bufPtr nodeSize = 255 →
      rootNameFromLeaf bufPtr nodeSize name_o = .ub) ∧
    (firstKeyNameLength bufPtr nodeSize ≤ 254 →
      ∃ name, rootNameFromLeaf bufPtr nodeSize name_o = .ret (FSUR_IO_SUCCESS, name)) := by
  have hlen := be16_bounds bufPtr (firstRecordOffset bufPtr nodeSize + key.nodeName_length).toNat
  have hl0 : 0 ≤ firstKeyNameLength bufPtr nodeSize := hlen.1
  have hle : firstKeyNameLength bufPtr nodeSize ≤ 255 := by
    by_contra hc
    exact hgood (Or.inr (Or.inr (by omega)))
  refine ⟨hle, ?_, ?_, ?_, ?_⟩
  · unfold swappedStores
    simp
  · unfold swappedStores unicodeCapacity
    constructor
    · intro h
      have := h ((firstKeyNameLength bufPtr nodeSize).toNat : Int) (by simp)
      omega
    · intro h i hi
      rw [List.mem_append, List.mem_map, List.mem_singleton] at hi
      rcases hi with ⟨j, hj, rfl⟩ | rfl
      · rw [List.mem_range] at hj
        omega
      · omega
  · exact rootNameFromLeaf_terminator bufPtr nodeSize name_o hin hgood
  · exact (rootNameFromLeaf_validation bufPtr nodeSize name_o hin).2 hgood

theorem name_copy_terminator_index_witness :
    firstKeyNameLength longNameLeafNode 1024 = 255 ∧
    (255 : Int) ∈ swappedStores 255 ∧ ¬ ((255 : Int) < unicodeCapacity) ∧
    rootNameFromLeaf longNameLeafNode 1024 (List.replicate 766 0xAA) = .ub :=
  ⟨by decide!, by decide!, by decide,
    (name_copy_terminator_index longNameLeafNode 1024 (List.replicate 766 0xAA)
      (by decide!) (by decide!)).2.2.2.1 (by decide!)⟩
/-- The validation block on a leaf node with at least one record whose stored
first record offset puts the `parentID` field of the key outside the node
buffer: the read is outside the allocation. -/
theorem rootNameFromLeaf_stray (bufPtr : List UInt8) (nodeSize : Int) (name_o : List UInt8)
    (hnum : ((bt.numRecords : Int) + 2 ≤ (bufPtr.length : Int)))
    (hn2 : 2 ≤ nodeSize) (hnl : nodeSize ≤ (bufPtr.length : Int))
    (hrec : 1 ≤ nodeNumRecords bufPtr)
    (hout : (bufPtr.length : Int) < firstRecordOffset bufPtr nodeSize + 6) :
    rootNameFromLeaf bufPtr nodeSize name_o = .ub := by
  have kp : (key.parentID : Int) = 2 := rfl
  have e1 : be16At bufPtr bt.numRecords = .ret (nodeNumRecords bufPtr) :=
    be16At_inside bufPtr _ (by decide) hnum
  have e2 : be16At bufPtr (nodeSize - 2) = .ret (firstRecordOffset bufPtr nodeSize) :=
    be16At_inside bufPtr _ (by omega) (by omega)
  have e3 : be32At bufPtr (firstRecordOffset bufPtr nodeSize + key.parentID) = .ub := by
    unfold be32At
    rw [if_neg (by omega)]
  unfold rootNameFromLeaf
  rw [e1]
  simp only [Exec.bind_ret]
  rw [if_neg (by omega), e2]
  simp only [Exec.bind_ret]
  rw [e3]
  rfl

/-- C27 (refuted): node parsing is not confined to the node and a stray node
is not rejected. (1) For every leaf node buffer of `nodeSize` bytes with at
least one record whose stored first record offset puts the key outside the
buffer, the name extraction reads the `parentID` outside the allocation: the
run is undefined, it does not return `FSUR_IO_FAIL`. (2) In the tiny-node
image the catalog header node reports a node size of 8, which
`GetBTreeNodeInfo` passes on; the `numRecords` field of a node lies at offset
10, outside the 8-byte node buffer, and
`GetNameFromHFSPlusVolumeStartingAt` is undefined. (3) In the stray overflow
image the first leaf node of the Extents-Overflow tree has one record whose
stored offset is `0xFFFF`; `GetCatalogOverflowExtents` reads the key outside
the 512-byte node buffer and is undefined. -/
theorem node_parsing_leaves_node :
    (∀ (bufPtr : List UInt8) (nodeSize : Int) (name_o : List UInt8),
      (bt.numRecords : Int) + 2 ≤ (bufPtr.length : Int) → 2 ≤ nodeSize →
      nodeSize ≤ (bufPtr.length : Int) → 1 ≤ nodeNumRecords bufPtr →
      (bufPtr.length : Int) < firstRecordOffset bufPtr nodeSize + 6 →
      rootNameFromLeaf bufPtr nodeSize name_o = .ub) ∧
    (GetBTreeNodeInfo (fun _ => 0) tinyNodeImage 0 512 [⟨3, 2⟩]
        = .ret (FSUR_IO_SUCCESS, some (8, 1)) ∧
      readFirstCatalogLeaf 0 (fun _ => 0) tinyNodeImage 0
        = .ret (.leaf [1, 0, 0, 0, 0, 0, 0, 0] 8) ∧
      GetNameFromHFSPlusVolumeStartingAt 0 (fun _ => 0) tinyNodeImage 0 [9, 9, 9, 9, 9] = .ub) ∧
    (GetBTreeNodeInfo (fun _ => 0) strayOverflowImage 0 512
        (decodeExtents overflowHeader vh.extentsFile_extents)
        = .ret (FSUR_IO_SUCCESS, some (512, 1)) ∧
      ReadFile strayOverflowImage (malloc (fun _ => 0) 512) 512 512 0 512
        (decodeExtents overflowHeader vh.extentsFile_extents)
        = .ret (FSUR_IO_SUCCESS, strayLeafNode) ∧
      be16 strayLeafNode bt.numRecords = 1 ∧ be16 strayLeafNode 510 = 65535 ∧
      ∀ fuel, GetCatalogOverflowExtents (fuel + 1) (fun _ => 0) strayOverflowImage 0 overflowHeader
        (decodeExtents overflowHeader vh.catalogFile_extents) = .ub) := by
  refine ⟨rootNameFromLeaf_stray, ⟨by decide!, by decide!, by decide!⟩,
    by decide!, by decide!, by decide!, by decide!, ?_⟩
  intro fuel
  have h1 : GetBTreeNodeInfo (fun _ => 0) strayOverflowImage 0 512
      (decodeExtents overflowHeader vh.extentsFile_extents)
      = .ret (FSUR_IO_SUCCESS, some (512, 1)) := by decide!
  have h2 : ReadFile strayOverflowImage (malloc (fun _ => 0) 512) (1 * 512) 512 0 512
      (decodeExtents overflowHeader vh.extentsFile_extents)
      = .ret (FSUR_IO_SUCCESS, strayLeafNode) := by decide!
  have h3 : be32 overflowHeader vh.blockSize = 512 := by decide!
  have h4 : ∀ ex, (int8At strayLeafNode bt.kind).bind (fun kind =>
      if kind ≠ kBTLeafNode then .ret (FSUR_IO_FAIL, ex)
      else (be16At strayLeafNode bt.numRecords).bind fun numRecords =>
        (scanRecords strayLeafNode 512 numRecords.toNat 1 ex).bind fun (stop, extents1) =>
          if stop then Exec.ret (FSUR_IO_SUCCESS, extents1)
          else (be32At strayLeafNode bt.fLink).bind fun leafNode =>
            if leafNode ≠ 0 then
              walkLeaves strayOverflowImage 0 512 512
                (decodeExtents overflowHeader vh.extentsFile_extents) fuel strayLeafNode
                (leafNode * 512) extents1
            else .ret (FSUR_IO_SUCCESS, extents1)) = .ub := by
    intro ex
    have a1 : int8At strayLeafNode bt.kind = .ret kBTLeafNode := by decide!
    have a2 : be16At strayLeafNode bt.numRecords = .ret 1 := by decide!
    have a3 : be16At strayLeafNode (512 - 2 * 1) = .ret 65535 := by decide!
    have a4 : be32At strayLeafNode (65535 + key.extentKey_fileID) = .ub := by decide!
    rw [a1]
    simp only [Exec.bind_ret, ne_eq, not_true_eq_false, if_false]
    rw [a2]
    simp only [Exec.bind_ret]
    have a5 : scanRecords strayLeafNode 512 (1 : Int).toNat 1 ex = .ub := by
      show scanRecords strayLeafNode 512 (0 + 1) 1 ex = .ub
      rw [scanRecords, a3]
      simp only [Exec.bind_ret]
      rw [a4]
      rfl
    rw [a5]
    rfl
  unfold GetCatalogOverflowExtents
  simp only [h3, h1, Exec.bind_ret]
  rw [if_neg (by decide)]
  rw [walkLeaves, h2]
  simp only [Exec.bind_ret]
  rw [if_neg (by decide)]
  exact h4 _

theorem node_parsing_leaves_node_witness :
    nodeNumRecords strayLeafNode = 1 ∧ firstRecordOffset strayLeafNode 512 = 65535 ∧
    rootNameFromLeaf strayLeafNode 512 [9, 9, 9, 9, 9] = .ub :=
  ⟨by decide!, by decide!,
    node_parsing_leaves_node.1 strayLeafNode 512 [9, 9, 9, 9, 9] (by decide!) (by decide)
      (by decide!) (by decide!) (by decide!)⟩


/-- The leaf walk on the self-link image, once the node buffer holds node 1:
every visit reads node 1 again and follows its forward link to node 1. -/
theorem walkLeaves_selfLink (extents : List HFSPlusExtentDescriptor) :
    ∀ fuel : Nat, walkLeaves selfLinkImage 0 512 512
      (decodeExtents overflowHeader vh.extentsFile_extents) fuel selfLinkLeaf (1 * 512) extents
      = .nofuel := by
  intro fuel
  induction fuel with
  | zero => rw [walkLeaves]
  | succ fuel ih =>
    have h2 : ReadFile selfLinkImage selfLinkLeaf (1 * 512) 512 0 512
        (decodeExtents overflowHeader vh.extentsFile_extents)
        = .ret (FSUR_IO_SUCCESS, selfLinkLeaf) := by decide!
    have a1 : int8At selfLinkLeaf bt.kind = .ret kBTLeafNode := by decide!
    have a2 : be16At selfLinkLeaf bt.numRecords = .ret 0 := by decide!
    have a3 : be32At selfLinkLeaf bt.fLink = .ret 1 := by decide!
    have a4 : scanRecords selfLinkLeaf 512 (0 : Int).toNat 1 extents = .ret (false, extents) := by
      show scanRecords selfLinkLeaf 512 0 1 extents = _
      rw [scanRecords]
    rw [walkLeaves, h2]
    simp only [Exec.bind_ret]
    rw [if_neg (by decide), a1]
    simp only [Exec.bind_ret]
    rw [if_neg (by decide), a2]
    simp only [Exec.bind_ret]
    rw [a4]
    simp only [Exec.bind_ret, Bool.false_eq_true, if_false]
    rw [a3]
    simp only [Exec.bind_ret]
    rw [if_pos (by decide)]
    exact ih

/-- C29 (refuted): `GetCatalogOverflowExtents` does not terminate on every
device image. In the self-link image the header node of the Extents-Overflow
tree names node 1 as first leaf node, and node 1 is a leaf node without records
whose forward link is 1. Each visit reads node 1 again, finds `fLink = 1 ≠ 0`
and jumps back to `again` with the same offset: for every bound `fuel` on the
number of nodes visited, the walk is still running when the bound is reached,
so no result is ever returned. -/
theorem GetCatalogOverflowExtents_self_link_loops :
    GetBTreeNodeInfo (fun _ => 0) selfLinkImage 0 512
        (decodeExtents overflowHeader vh.extentsFile_extents)
      = .ret (FSUR_IO_SUCCESS, some (512, 1)) ∧
    ReadFile selfLinkImage (malloc (fun _ => 0) 512) (1 * 512) 512 0 512
        (decodeExtents overflowHeader vh.extentsFile_extents)
      = .ret (FSUR_IO_SUCCESS, selfLinkLeaf) ∧
    int8 selfLinkLeaf bt.kind = kBTLeafNode ∧ be16 selfLinkLeaf bt.numRecords = 0 ∧
    be32 selfLinkLeaf bt.fLink = 1 ∧
    ∀ fuel : Nat, GetCatalogOverflowExtents fuel (fun _ => 0) selfLinkImage 0 overflowHeader
      (decodeExtents overflowHeader vh.catalogFile_extents) = .nofuel := by
  have h1 : GetBTreeNodeInfo (fun _ => 0) selfLinkImage 0 512
      (decodeExtents overflowHeader vh.extentsFile_extents)
      = .ret (FSUR_IO_SUCCESS, some (512, 1)) := by decide!
  have h2 : ReadFile selfLinkImage (malloc (fun _ => 0) 512) (1 * 512) 512 0 512
      (decodeExtents overflowHeader vh.extentsFile_extents)
      = .ret (FSUR_IO_SUCCESS, selfLinkLeaf) := by decide!
  refine ⟨h1, h2, by decide!, by decide!, by decide!, ?_⟩
  intro fuel
  have h3 : be32 overflowHeader vh.blockSize = 512 := by decide!
  unfold GetCatalogOverflowExtents
  simp only [h3, h1, Exec.bind_ret]
  rw [if_neg (by decide)]
  cases fuel with
  | zero => rw [walkLeaves]
  | succ fuel =>
    have a1 : int8At selfLinkLeaf bt.kind = .ret kBTLeafNode := by decide!
    have a2 : be16At selfLinkLeaf bt.numRecords = .ret 0 := by decide!
    have a3 : be32At selfLinkLeaf bt.fLink = .ret 1 := by decide!
    have a4 : ∀ ex, scanRecords selfLinkLeaf 512 (0 : Int).toNat 1 ex = .ret (false, ex) := by
      intro ex
      show scanRecords selfLinkLeaf 512 0 1 ex = _
      rw [scanRecords]
    rw [walkLeaves, h2]
    simp only [Exec.bind_ret]
    rw [if_neg (by decide), a1]
    simp only [Exec.bind_ret]
    rw [if_neg (by decide), a2]
    simp only [Exec.bind_ret]
    rw [a4]
    simp only [Exec.bind_ret, Bool.false_eq_true, if_false]
    rw [a3]
    simp only [Exec.bind_ret]
    rw [if_pos (by decide)]
    exact walkLeaves_selfLink _ fuel
/-- One visit of the leaf walk of `GetCatalogOverflowExtents`. -/
theorem walkLeaves_succ (dev : Device) (hfsPlusVolumeOffset blockSize nodeSize : Int)
    (extentsFile : List HFSPlusExtentDescriptor) (m : Nat) (bufPtr : List UInt8) (offset : Int)
    (extents : List HFSPlusExtentDescriptor) :
    walkLeaves dev hfsPlusVolumeOffset blockSize nodeSize extentsFile (m + 1) bufPtr offset extents
      = (ReadFile dev bufPtr offset nodeSize hfsPlusVolumeOffset blockSize extentsFile).bind
        fun (result, buf) =>
        if result = FSUR_IO_FAIL then .ret (result, extents)
        else
          (int8At buf bt.kind).bind fun kind =>
          if kind ≠ kBTLeafNode then .ret (FSUR_IO_FAIL, extents)
          else
            (be16At buf bt.numRecords).bind fun numRecords =>
            (scanRecords buf nodeSize numRecords.toNat 1 extents).bind fun (stop, extents1) =>
              if stop then .ret (result, extents1)
              else
                (be32At buf bt.fLink).bind fun leafNode =>
                  if leafNode ≠ 0 then
                    walkLeaves dev hfsPlusVolumeOffset blockSize nodeSize extentsFile m buf
                      (leafNode * nodeSize) extents1
                  else .ret (result, extents1) := by
  rw [walkLeaves]

/-- The function `GetCatalogOverflowExtents` after its read of the header node
of the Extents-Overflow tree. -/
theorem GetCatalogOverflowExtents_unfold (fuel : Nat) (junk : Nat → UInt8) (dev : Device)
    (hfsPlusVolumeOffset : Int) (volHdrPtr : List UInt8)
    (catalogExtents : List HFSPlusExtentDescriptor) :
    GetCatalogOverflowExtents fuel junk dev hfsPlusVolumeOffset volHdrPtr catalogExtents
      = (GetBTreeNodeInfo junk dev hfsPlusVolumeOffset (be32 volHdrPtr vh.blockSize)
          (decodeExtents volHdrPtr vh.extentsFile_extents)).bind fun (result, info) =>
        match info with
        | none => .ret (result, catalogExtents)
        | some (nodeSize, leafNode) =>
          if result ≠ FSUR_IO_SUCCESS ∨ leafNode = 0 then .ret (result, catalogExtents)
          else
            walkLeaves dev hfsPlusVolumeOffset (be32 volHdrPtr vh.blockSize) nodeSize
              (decodeExtents volHdrPtr vh.extentsFile_extents) fuel
              (malloc junk nodeSize) (leafNode * nodeSize) catalogExtents := by
  rfl

/-- The function `GetBTreeNodeInfo` after its read of node 0. -/
theorem GetBTreeNodeInfo_unfold (junk : Nat → UInt8) (dev : Device)
    (hfsPlusVolumeOffset blockSize : Int) (extentList : List HFSPlusExtentDescriptor) :
    GetBTreeNodeInfo junk dev hfsPlusVolumeOffset blockSize extentList
      = (ReadFile dev (malloc junk HFS_BLOCK_SIZE) 0 HFS_BLOCK_SIZE hfsPlusVolumeOffset blockSize
          extentList).bind fun (result, bTreeHeaderPtr) =>
        if result = FSUR_IO_FAIL then .ret (result, none)
        else if int8 bTreeHeaderPtr bt.kind ≠ kBTHeaderNode then .ret (FSUR_IO_FAIL, none)
        else
          .ret (result, some (be16 bTreeHeaderPtr bt.header_nodeSize,
            if be32 bTreeHeaderPtr bt.header_leafRecords = 0 then 0
            else be32 bTreeHeaderPtr bt.header_firstLeafNode)) := by
  unfold GetBTreeNodeInfo
  cases ReadFile dev (malloc junk HFS_BLOCK_SIZE) 0 HFS_BLOCK_SIZE hfsPlusVolumeOffset blockSize
      extentList with
  | ub => rfl
  | nofuel => rfl
  | ret a => rfl

/-- The part of `GetNameFromHFSPlusVolumeStartingAt` up to the read of the
first catalog leaf node, as a chain of its steps. -/
theorem readFirstCatalogLeaf_unfold (fuel : Nat) (junk : Nat → UInt8) (dev : Device)
    (hfsPlusVolumeOffset : Int) :
    readFirstCatalogLeaf fuel junk dev hfsPlusVolumeOffset
      = (readAt dev (malloc junk HFS_BLOCK_SIZE) (hfsPlusVolumeOffset + 2 * HFS_BLOCK_SIZE)
          HFS_BLOCK_SIZE).bind fun (result, volHdrPtr) =>
        if result = FSUR_IO_FAIL then .ret (.early result)
        else if be16 volHdrPtr vh.signature ≠ kHFSPlusSigWord ∧
            be16 volHdrPtr vh.signature ≠ kHFSXSigWord then .ret (.early FSUR_IO_FAIL)
        else
          (if ((decodeExtents volHdrPtr vh.catalogFile_extents).getD 7 ⟨0, 0⟩).blockCount ≠ 0 then
              (GetCatalogOverflowExtents fuel junk dev hfsPlusVolumeOffset volHdrPtr
                (decodeExtents volHdrPtr vh.catalogFile_extents)).bind
                fun (result1, extents) =>
                  .ret (if result1 ≠ FSUR_IO_SUCCESS then some result1 else none, extents)
            else .ret (none, decodeExtents volHdrPtr vh.catalogFile_extents)).bind
            fun (early, catalogExtents1) =>
          match early with
          | some result1 => .ret (.early result1)
          | none =>
            (GetBTreeNodeInfo junk dev hfsPlusVolumeOffset (be32 volHdrPtr vh.blockSize)
              catalogExtents1).bind
              fun (result2, info) =>
              if result2 ≠ FSUR_IO_SUCCESS then .ret (.early result2)
              else
                match info with
                | none => .ub
                | some (catalogNodeSize, leafNode) =>
                  (ReadFile dev (malloc junk catalogNodeSize) (leafNode * catalogNodeSize)
                    catalogNodeSize hfsPlusVolumeOffset (be32 volHdrPtr vh.blockSize)
                    catalogExtents1).bind
                    fun (result3, bufPtr) =>
                    if result3 = FSUR_IO_FAIL then .ret (.early result3)
                    else .ret (.leaf bufPtr catalogNodeSize) := by
  rfl

/-- The function `GetNameFromHFSPlusVolumeStartingAt` as the read of the first
catalog leaf node followed by the extraction of the name. -/
theorem GetName_unfold (fuel : Nat) (junk : Nat → UInt8) (dev : Device)
    (hfsPlusVolumeOffset : Int) (name_o : List UInt8) :
    GetNameFromHFSPlusVolumeStartingAt fuel junk dev hfsPlusVolumeOffset name_o
      = (readFirstCatalogLeaf fuel junk dev hfsPlusVolumeOffset).bind fun r =>
        match r with
        | .early result => .ret (result, name_o)
        | .leaf bufPtr catalogNodeSize => rootNameFromLeaf bufPtr catalogNodeSize name_o := by
  rfl

/-- The function `readAt` returns `FSUR_IO_SUCCESS` or `FSUR_IO_FAIL`. -/
theorem readAt_code (dev : Device) (buf : List UInt8) (o l r : Int) (b : List UInt8)
    (h : readAt dev buf o l = .ret (r, b)) : r = FSUR_IO_SUCCESS ∨ r = FSUR_IO_FAIL := by
  rcases readAt_geometry dev dev buf o l rfl rfl with ⟨h1, -, -, -⟩ | ⟨h1, -⟩ | ⟨h1, -⟩ <;>
    rw [h1] at h
  · simp only [Exec.ret.injEq, Prod.mk.injEq] at h
    exact Or.inl h.1.symm
  · exact nomatch h
  · simp only [Exec.ret.injEq, Prod.mk.injEq] at h
    exact Or.inr h.1.symm

/-- The function `LogicalToPhysical` returns `FSUR_IO_SUCCESS` with a mapping or
`FSUR_IO_FAIL` without one. -/
theorem LogicalToPhysical_code (offset length blockSize : Int)
    (l : List HFSPlusExtentDescriptor) (r : Int) (m : Option (Int × Int))
    (h : LogicalToPhysical offset length blockSize l = .ret (r, m)) :
    (r = FSUR_IO_SUCCESS ∧ m ≠ none) ∨ (r = FSUR_IO_FAIL ∧ m = none) := by
  unfold LogicalToPhysical at h
  split at h
  · exact nomatch h
  · simp only at h
    split at h
    · simp only [Exec.ret.injEq, Prod.mk.injEq] at h
      exact Or.inr ⟨h.1.symm, h.2.symm⟩
    · simp only [Exec.ret.injEq, Prod.mk.injEq] at h
      refine Or.inl ⟨h.1.symm, ?_⟩
      rw [← h.2]
      exact fun hc => nomatch hc

/-- The loop of `ReadFile` returns `FSUR_IO_SUCCESS` or `FSUR_IO_FAIL`. -/
theorem ReadFileLoop_code (dev : Device) (volOffset blockSize : Int)
    (l : List HFSPlusExtentDescriptor) :
    ∀ (fuel : Nat) (buffer : List UInt8) (offset length r : Int) (b : List UInt8),
      ReadFileLoop dev volOffset blockSize l fuel buffer offset length = .ret (r, b) →
      r = FSUR_IO_SUCCESS ∨ r = FSUR_IO_FAIL := by
  intro fuel
  induction fuel with
  | zero =>
    intro buffer offset length r b h
    rw [ReadFileLoop_zero] at h
    split at h
    · exact nomatch h
    · simp only [Exec.ret.injEq, Prod.mk.injEq] at h
      exact Or.inl h.1.symm
  | succ fuel ih =>
    intro buffer offset length r b h
    rw [ReadFileLoop_succ] at h
    split at h
    · cases hmp : LogicalToPhysical offset length blockSize l with
      | ub => rw [hmp] at h; exact nomatch h
      | nofuel => rw [hmp] at h; exact nomatch h
      | ret a =>
        obtain ⟨r0, m⟩ := a
        rw [hmp] at h
        cases m with
        | none =>
          simp only [Exec.ret.injEq, Prod.mk.injEq] at h
          rcases LogicalToPhysical_code _ _ _ _ _ _ hmp with ⟨-, h2⟩ | ⟨h1, -⟩
          · exact absurd rfl h2
          · rw [← h.1]; exact Or.inr h1
        | some pn =>
          obtain ⟨p, n⟩ := pn
          simp only at h
          cases hrd : readAt dev buffer (volOffset + p) n with
          | ub => rw [hrd] at h; exact nomatch h
          | nofuel => rw [hrd] at h; exact nomatch h
          | ret c =>
            obtain ⟨r1, buffer1⟩ := c
            rw [hrd] at h
            simp only at h
            split at h
            · simp only [Exec.ret.injEq, Prod.mk.injEq] at h
              rw [← h.1]
              exact readAt_code _ _ _ _ _ _ hrd
            · cases hrec : ReadFileLoop dev volOffset blockSize l fuel (buffer1.drop n.toNat)
                  (offset + n) (length - n) with
              | ub => rw [hrec] at h; exact nomatch h
              | nofuel => rw [hrec] at h; exact nomatch h
              | ret d =>
                obtain ⟨r2, rest⟩ := d
                rw [hrec] at h
                simp only [Exec.ret.injEq, Prod.mk.injEq] at h
                rw [← h.1]
                exact ih _ _ _ _ _ hrec
    · simp only [Exec.ret.injEq, Prod.mk.injEq] at h
      exact Or.inl h.1.symm

/-- The function `GetBTreeNodeInfo` returns `FSUR_IO_SUCCESS` with its outputs
stored or `FSUR_IO_FAIL` without them. -/
theorem GetBTreeNodeInfo_code (junk : Nat → UInt8) (dev : Device) (volOffset blockSize : Int)
    (l : List HFSPlusExtentDescriptor) (r : Int) (info : Option (Int × Int))
    (h : GetBTreeNodeInfo junk dev volOffset blockSize l = .ret (r, info)) :
    (r = FSUR_IO_SUCCESS ∧ info ≠ none) ∨ (r = FSUR_IO_FAIL ∧ info = none) := by
  rw [GetBTreeNodeInfo_unfold] at h
  obtain ⟨⟨r0, hdr⟩, hrf, h⟩ := Exec.bind_eq_ret _ _ _ h
  have hr0 := ReadFileLoop_code dev volOffset blockSize l _ _ _ _ _ _ hrf
  simp only at h
  split at h
  · rename_i hf
    simp only [Exec.ret.injEq, Prod.mk.injEq] at h
    exact Or.inr ⟨by rw [← h.1]; exact hf, h.2.symm⟩
  · rename_i hf
    split at h
    · simp only [Exec.ret.injEq, Prod.mk.injEq] at h
      exact Or.inr ⟨h.1.symm, h.2.symm⟩
    · simp only [Exec.ret.injEq, Prod.mk.injEq] at h
      refine Or.inl ⟨?_, ?_⟩
      · rw [← h.1]
        rcases hr0 with h0 | h0
        · exact h0
        · exact absurd h0 hf
      · rw [← h.2]
        exact fun hc => nomatch hc

/-- The leaf walk of `GetCatalogOverflowExtents` returns `FSUR_IO_SUCCESS` or
`FSUR_IO_FAIL`. -/
theorem walkLeaves_code (dev : Device) (hfsPlusVolumeOffset blockSize nodeSize : Int)
    (extentsFile : List HFSPlusExtentDescriptor) :
    ∀ (fuel : Nat) (bufPtr : List UInt8) (offset : Int)
      (extents : List HFSPlusExtentDescriptor) (r : Int) (out : List HFSPlusExtentDescriptor),
      walkLeaves dev hfsPlusVolumeOffset blockSize nodeSize extentsFile fuel bufPtr offset extents
        = .ret (r, out) →
      r = FSUR_IO_SUCCESS ∨ r = FSUR_IO_FAIL := by
  intro fuel
  induction fuel with
  | zero =>
    intro bufPtr offset extents r out h
    simp [walkLeaves] at h
  | succ fuel ih =>
    intro bufPtr offset extents r out h
    rw [walkLeaves_succ] at h
    obtain ⟨⟨result, buf⟩, hrf, h⟩ := Exec.bind_eq_ret _ _ _ h
    have hr0 := ReadFileLoop_code dev hfsPlusVolumeOffset blockSize extentsFile _ _ _ _ _ _ hrf
    simp only at h
    by_cases hfail : result = FSUR_IO_FAIL
    · rw [if_pos hfail] at h
      simp only [Exec.ret.injEq, Prod.mk.injEq] at h
      rw [← h.1]
      exact hr0
    rw [if_neg hfail] at h
    obtain ⟨kind, hkind, h⟩ := Exec.bind_eq_ret _ _ _ h
    by_cases hleaf : kind ≠ kBTLeafNode
    · rw [if_pos hleaf] at h
      simp only [Exec.ret.injEq, Prod.mk.injEq] at h
      exact Or.inr h.1.symm
    rw [if_neg hleaf] at h
    obtain ⟨numRecords, hnum, h⟩ := Exec.bind_eq_ret _ _ _ h
    obtain ⟨⟨stop, extents1⟩, hscan, h⟩ := Exec.bind_eq_ret _ _ _ h
    simp only at h
    cases stop with
    | true =>
      simp only [if_true, Exec.ret.injEq, Prod.mk.injEq] at h
      rw [← h.1]
      exact hr0
    | false =>
      simp only [Bool.false_eq_true, if_false] at h
      obtain ⟨leafNode, hlink, h⟩ := Exec.bind_eq_ret _ _ _ h
      by_cases hl : leafNode ≠ 0
      · rw [if_pos hl] at h
        exact ih _ _ _ _ _ h
      · rw [if_neg hl] at h
        simp only [Exec.ret.injEq, Prod.mk.injEq] at h
        rw [← h.1]
        exact hr0

/-- The function `GetCatalogOverflowExtents` returns `FSUR_IO_SUCCESS` or
`FSUR_IO_FAIL`. -/
theorem GetCatalogOverflowExtents_code (fuel : Nat) (junk : Nat → UInt8) (dev : Device)
    (hfsPlusVolumeOffset : Int) (volHdrPtr : List UInt8)
    (catalogExtents : List HFSPlusExtentDescriptor) (r : Int)
    (out : List HFSPlusExtentDescriptor)
    (h : GetCatalogOverflowExtents fuel junk dev hfsPlusVolumeOffset volHdrPtr catalogExtents
      = .ret (r, out)) :
    r = FSUR_IO_SUCCESS ∨ r = FSUR_IO_FAIL := by
  rw [GetCatalogOverflowExtents_unfold] at h
  obtain ⟨⟨result, info⟩, hinfo, h⟩ := Exec.bind_eq_ret _ _ _ h
  have hc := GetBTreeNodeInfo_code _ _ _ _ _ _ _ hinfo
  have hres : result = FSUR_IO_SUCCESS ∨ result = FSUR_IO_FAIL := by
    rcases hc with ⟨h1, -⟩ | ⟨h1, -⟩
    · exact Or.inl h1
    · exact Or.inr h1
  cases info with
  | none =>
    simp only [Exec.ret.injEq, Prod.mk.injEq] at h
    rw [← h.1]
    exact hres
  | some p =>
    obtain ⟨nodeSize, leafNode⟩ := p
    simp only at h
    split at h
    · simp only [Exec.ret.injEq, Prod.mk.injEq] at h
      rw [← h.1]
      exact hres
    · exact walkLeaves_code _ _ _ _ _ _ _ _ _ _ _ h

/-- The validation and extraction block returns `FSUR_IO_SUCCESS` or
`FSUR_IO_FAIL`. -/
theorem rootNameFromLeaf_code (bufPtr : List UInt8) (nodeSize : Int) (name_o : List UInt8)
    (r : Int) (name : List UInt8)
    (h : rootNameFromLeaf bufPtr nodeSize name_o = .ret (r, name)) :
    r = FSUR_IO_SUCCESS ∨ r = FSUR_IO_FAIL := by
  unfold rootNameFromLeaf at h
  obtain ⟨numRecords, -, h⟩ := Exec.bind_eq_ret _ _ _ h
  split at h
  · simp only [Exec.ret.injEq, Prod.mk.injEq] at h
    exact Or.inr h.1.symm
  obtain ⟨recOff, -, h⟩ := Exec.bind_eq_ret _ _ _ h
  obtain ⟨parentID, -, h⟩ := Exec.bind_eq_ret _ _ _ h
  split at h
  · simp only [Exec.ret.injEq, Prod.mk.injEq] at h
    exact Or.inr h.1.symm
  obtain ⟨length, -, h⟩ := Exec.bind_eq_ret _ _ _ h
  split at h
  · simp only [Exec.ret.injEq, Prod.mk.injEq] at h
    exact Or.inr h.1.symm
  obtain ⟨units, -, h⟩ := Exec.bind_eq_ret _ _ _ h
  split at h
  · simp only [Exec.ret.injEq, Prod.mk.injEq] at h
    exact Or.inl h.1.symm
  · exact nomatch h

/-- Whenever `GetNameFromHFSPlusVolumeStartingAt` leaves before the extraction
of the name, its result code is `FSUR_IO_FAIL`. -/
theorem readFirstCatalogLeaf_early (fuel : Nat) (junk : Nat → UInt8) (dev : Device)
    (hfsPlusVolumeOffset r : Int)
    (h : readFirstCatalogLeaf fuel junk dev hfsPlusVolumeOffset = .ret (.early r)) :
    r = FSUR_IO_FAIL := by
  rw [readFirstCatalogLeaf_unfold] at h
  obtain ⟨⟨result, volHdrPtr⟩, hrd, h⟩ := Exec.bind_eq_ret _ _ _ h
  simp only at h
  split at h
  · rename_i hf
    simp only [Exec.ret.injEq, LeafRead.early.injEq] at h
    rw [← h]; exact hf
  split at h
  · simp only [Exec.ret.injEq, LeafRead.early.injEq] at h
    exact h.symm
  obtain ⟨⟨early, catalogExtents1⟩, hov, h⟩ := Exec.bind_eq_ret _ _ _ h
  simp only at h
  cases early with
  | some result1 =>
    simp only [Exec.ret.injEq, LeafRead.early.injEq] at h
    split at hov
    · obtain ⟨⟨r1, ex⟩, hg, hov⟩ := Exec.bind_eq_ret _ _ _ hov
      simp only [Exec.ret.injEq, Prod.mk.injEq] at hov
      have hc := GetCatalogOverflowExtents_code _ _ _ _ _ _ _ _ hg
      by_cases hs : r1 ≠ FSUR_IO_SUCCESS
      · rw [if_pos hs] at hov
        have e : result1 = r1 := (Option.some.inj hov.1).symm
        rw [← h, e]
        rcases hc with h0 | h0
        · exact absurd h0 hs
        · exact h0
      · rw [if_neg hs] at hov
        exact nomatch hov.1
    · simp only [Exec.ret.injEq, Prod.mk.injEq] at hov
      exact nomatch hov.1
  | none =>
    simp only at h
    obtain ⟨⟨result2, info⟩, hinfo, h⟩ := Exec.bind_eq_ret _ _ _ h
    have hc := GetBTreeNodeInfo_code _ _ _ _ _ _ _ hinfo
    simp only at h
    split at h
    · rename_i hs
      simp only [Exec.ret.injEq, LeafRead.early.injEq] at h
      rw [← h]
      rcases hc with ⟨h0, -⟩ | ⟨h0, -⟩
      · exact absurd h0 hs
      · exact h0
    · cases info with
      | none => exact nomatch h
      | some p =>
        obtain ⟨catalogNodeSize, leafNode⟩ := p
        simp only at h
        obtain ⟨⟨result3, bufPtr⟩, hrf, h⟩ := Exec.bind_eq_ret _ _ _ h
        simp only at h
        split at h
        · rename_i hf
          simp only [Exec.ret.injEq, LeafRead.early.injEq] at h
          rw [← h]; exact hf
        · exact nomatch h

/-- The function `GetNameFromHFSPlusVolumeStartingAt` returns
`FSUR_IO_SUCCESS` or `FSUR_IO_FAIL`. -/
theorem GetName_code (fuel : Nat) (junk : Nat → UInt8) (dev : Device)
    (hfsPlusVolumeOffset : Int) (name_o : List UInt8) (r : Int) (name : List UInt8)
    (h : GetNameFromHFSPlusVolumeStartingAt fuel junk dev hfsPlusVolumeOffset name_o
      = .ret (r, name)) :
    r = FSUR_IO_SUCCESS ∨ r = FSUR_IO_FAIL := by
  rw [GetName_unfold] at h
  obtain ⟨lr, hlr, h⟩ := Exec.bind_eq_ret _ _ _ h
  cases lr with
  | early result =>
    simp only [Exec.ret.injEq, Prod.mk.injEq] at h
    rw [← h.1]
    exact Or.inr (readFirstCatalogLeaf_early _ _ _ _ _ hlr)
  | leaf bufPtr catalogNodeSize =>
    exact rootNameFromLeaf_code _ _ _ _ _ h

/-- C21: `GetNameFromHFSPlusVolumeStartingAt` returns only `FSUR_IO_SUCCESS`
or `FSUR_IO_FAIL`. For every device image, volume offset, name buffer and
budget of the overflow walk: (1) whatever result code a run returns is
`FSUR_IO_SUCCESS` or `FSUR_IO_FAIL`, never `FSUR_UNRECOGNIZED`; (2) when the
re-read volume header carries neither the HFS+ nor the HFSX signature, the
function returns `FSUR_IO_FAIL`; (3) when the header is read with a good
signature and node 0 of the B-tree read next (the catalog tree through the
inline extents when slot 7 is empty, else the Extents-Overflow tree, or the
catalog tree through the extended list after a successful overflow walk) is
read but is not a header node, the function returns `FSUR_IO_FAIL`; (4) when
the first catalog leaf node is read, the bytes of its first key lie inside the
node and the key validation fails, the function returns `FSUR_IO_FAIL`, and
when the validation passes with a name of at most 254 units it returns
`FSUR_IO_SUCCESS`; (5) when the function leaves before the extraction, it
returns `FSUR_IO_FAIL` with the name buffer untouched. -/
theorem GetName_returns_success_or_fail (fuel : Nat) (junk : Nat → UInt8) (dev : Device)
    (hfsPlusVolumeOffset : Int) (name_o : List UInt8) :
    (∀ (r : Int) (name : List UInt8),
      GetNameFromHFSPlusVolumeStartingAt fuel junk dev hfsPlusVolumeOffset name_o = .ret (r, name) →
      (r = FSUR_IO_SUCCESS ∨ r = FSUR_IO_FAIL) ∧ r ≠ FSUR_UNRECOGNIZED) ∧
    (∀ (r0 : Int) (hdr : List UInt8),
      readAt dev (malloc junk HFS_BLOCK_SIZE) (hfsPlusVolumeOffset + 2 * HFS_BLOCK_SIZE)
        HFS_BLOCK_SIZE = .ret (r0, hdr) →
      be16 hdr vh.signature ≠ kHFSPlusSigWord → be16 hdr vh.signature ≠ kHFSXSigWord →
      GetNameFromHFSPlusVolumeStartingAt fuel junk dev hfsPlusVolumeOffset name_o
        = .ret (FSUR_IO_FAIL, name_o)) ∧
    (∀ (hdr node0 : List UInt8) (r1 : Int) (l : List HFSPlusExtentDescriptor),
      readAt dev (malloc junk HFS_BLOCK_SIZE) (hfsPlusVolumeOffset + 2 * HFS_BLOCK_SIZE)
        HFS_BLOCK_SIZE = .ret (FSUR_IO_SUCCESS, hdr) →
      (be16 hdr vh.signature = kHFSPlusSigWord ∨ be16 hdr vh.signature = kHFSXSigWord) →
      ((((decodeExtents hdr vh.catalogFile_extents).getD 7 ⟨0, 0⟩).blockCount = 0 ∧
          l = decodeExtents hdr vh.catalogFile_extents) ∨
        (((decodeExtents hdr vh.catalogFile_extents).getD 7 ⟨0, 0⟩).blockCount ≠ 0 ∧
          l = decodeExtents hdr vh.extentsFile_extents) ∨
        (((decodeExtents hdr vh.catalogFile_extents).getD 7 ⟨0, 0⟩).blockCount ≠ 0 ∧
          GetCatalogOverflowExtents fuel junk dev hfsPlusVolumeOffset hdr
            (decodeExtents hdr vh.catalogFile_extents) = .ret (FSUR_IO_SUCCESS, l))) →
      ReadFile dev (malloc junk HFS_BLOCK_SIZE) 0 HFS_BLOCK_SIZE hfsPlusVolumeOffset
        (be32 hdr vh.blockSize) l = .ret (r1, node0) →
      int8 node0 bt.kind ≠ kBTHeaderNode →
      GetNameFromHFSPlusVolumeStartingAt fuel junk dev hfsPlusVolumeOffset name_o
        = .ret (FSUR_IO_FAIL, name_o)) ∧
    (∀ (bufPtr : List UInt8) (catalogNodeSize : Int),
      readFirstCatalogLeaf fuel junk dev hfsPlusVolumeOffset
        = .ret (.leaf bufPtr catalogNodeSize) →
      KeyInsideNode bufPtr catalogNodeSize →
      (RootRecordRejected bufPtr catalogNodeSize →
        GetNameFromHFSPlusVolumeStartingAt fuel junk dev hfsPlusVolumeOffset name_o
          = .ret (FSUR_IO_FAIL, name_o)) ∧
      (¬ RootRecordRejected bufPtr catalogNodeSize →
        firstKeyNameLength bufPtr catalogNodeSize ≤ 254 →
        ∃ name, GetNameFromHFSPlusVolumeStartingAt fuel junk dev hfsPlusVolumeOffset name_o
          = .ret (FSUR_IO_SUCCESS, name))) ∧
    (∀ r : Int, readFirstCatalogLeaf fuel junk dev hfsPlusVolumeOffset = .ret (.early r) →
      GetNameFromHFSPlusVolumeStartingAt fuel junk dev hfsPlusVolumeOffset name_o
        = .ret (FSUR_IO_FAIL, name_o)) := by
  have d : FSUR_IO_SUCCESS ≠ FSUR_IO_FAIL := by decide
  have hearly : ∀ r : Int,
      readFirstCatalogLeaf fuel junk dev hfsPlusVolumeOffset = .ret (.early r) →
      GetNameFromHFSPlusVolumeStartingAt fuel junk dev hfsPlusVolumeOffset name_o
        = .ret (FSUR_IO_FAIL, name_o) := by
    intro r h
    have hr := readFirstCatalogLeaf_early _ _ _ _ _ h
    rw [GetName_unfold, h, hr]
    rfl
  have hnode : ∀ (bs r1 : Int) (l : List HFSPlusExtentDescriptor) (node0 : List UInt8),
      ReadFile dev (malloc junk HFS_BLOCK_SIZE) 0 HFS_BLOCK_SIZE hfsPlusVolumeOffset bs l
        = .ret (r1, node0) →
      int8 node0 bt.kind ≠ kBTHeaderNode →
      GetBTreeNodeInfo junk dev hfsPlusVolumeOffset bs l = .ret (FSUR_IO_FAIL, none) := by
    intro bs r1 l node0 hrf hk
    rw [GetBTreeNodeInfo_unfold, hrf]
    simp only [Exec.bind_ret]
    by_cases hf : r1 = FSUR_IO_FAIL
    · rw [if_pos hf, hf]
    · rw [if_neg hf, if_pos hk]
  refine ⟨?_, ?_, ?_, ?_, hearly⟩
  · intro r name h
    have hc := GetName_code _ _ _ _ _ _ _ h
    refine ⟨hc, ?_⟩
    rcases hc with h0 | h0 <;> rw [h0] <;> decide
  · intro r0 hdr hread h1 h2
    apply hearly (if r0 = FSUR_IO_FAIL then r0 else FSUR_IO_FAIL)
    rw [readFirstCatalogLeaf_unfold, hread]
    simp only [Exec.bind_ret]
    by_cases hf : r0 = FSUR_IO_FAIL
    · rw [if_pos hf, if_pos hf]
    · rw [if_neg hf, if_neg hf, if_pos ⟨h1, h2⟩]
  · intro hdr node0 r1 l hread hsig hl hrf hk
    have hs : ¬ (be16 hdr vh.signature ≠ kHFSPlusSigWord ∧
        be16 hdr vh.signature ≠ kHFSXSigWord) := by
      rcases hsig with h | h
      · exact fun hc => hc.1 h
      · exact fun hc => hc.2 h
    have hinfo := hnode (be32 hdr vh.blockSize) r1 l node0 hrf hk
    apply hearly FSUR_IO_FAIL
    rw [readFirstCatalogLeaf_unfold, hread]
    simp only [Exec.bind_ret]
    rw [if_neg d, if_neg hs]
    rcases hl with ⟨hslot, rfl⟩ | ⟨hslot, rfl⟩ | ⟨hslot, hg⟩
    · rw [if_neg (not_not.2 hslot)]
      simp only [Exec.bind_ret]
      rw [hinfo]
      simp only [Exec.bind_ret]
      rw [if_pos (by decide)]
    · rw [if_pos hslot, GetCatalogOverflowExtents_unfold, hinfo]
      simp only [Exec.bind_ret]
      rw [if_pos (by decide)]
    · rw [if_pos hslot, hg]
      simp only [Exec.bind_ret, ne_eq, not_true_eq_false, if_false]
      rw [hinfo]
      simp only [Exec.bind_ret]
      rw [if_pos (by decide)]
  · intro bufPtr catalogNodeSize hleaf hin
    have hv := rootNameFromLeaf_validation bufPtr catalogNodeSize name_o hin
    have e : GetNameFromHFSPlusVolumeStartingAt fuel junk dev hfsPlusVolumeOffset name_o
        = rootNameFromLeaf bufPtr catalogNodeSize name_o := by
      rw [GetName_unfold, hleaf]
      rfl
    rw [e]
    exact hv

theorem GetName_returns_success_or_fail_witness :
    GetNameFromHFSPlusVolumeStartingAt 0 (fun _ => 0) truncatedWrappedDevice 0 [9, 9, 9, 9, 9]
      = .ret (FSUR_IO_FAIL, [9, 9, 9, 9, 9]) ∧
    ∃ name, GetNameFromHFSPlusVolumeStartingAt 0 (fun _ => 0) exampleImage 0 [9, 9, 9, 9, 9]
      = .ret (FSUR_IO_SUCCESS, name) :=
  ⟨(GetName_returns_success_or_fail 0 (fun _ => 0) truncatedWrappedDevice 0
      [9, 9, 9, 9, 9]).2.1 FSUR_IO_SUCCESS exampleMDB (by decide!) (by decide!) (by decide!),
   ((GetName_returns_success_or_fail 0 (fun _ => 0) exampleImage 0
      [9, 9, 9, 9, 9]).2.2.2.1 exampleLeafNode 512 (by decide!) (by decide!)).2
      (by decide!) (by decide!)⟩
/-- The function `DoProbe` after a successful read of sector 2 on an opened
device. -/
theorem DoProbe_unfold (fuel : Nat) (junk : Nat → UInt8) (fd : Int) (dev : Device)
    (volnameUTF8 bufPtr : List UInt8) (hfd : 0 ≤ fd)
    (hread : readAt dev (malloc junk HFS_BLOCK_SIZE) (2 * HFS_BLOCK_SIZE) HFS_BLOCK_SIZE
      = .ret (FSUR_IO_SUCCESS, bufPtr)) :
    DoProbe fuel junk fd dev volnameUTF8
      = (if be16 bufPtr mdb.drSigWord = kHFSSigWord ∧
              be16 bufPtr mdb.drEmbedSigWord ≠ kHFSPlusSigWord then
            Exec.ret (FSUR_UNRECOGNIZED, volnameUTF8)
          else if be16 bufPtr vh.signature = kHFSPlusSigWord ∨
              be16 bufPtr vh.signature = kHFSXSigWord ∨
              (be16 bufPtr mdb.drSigWord = kHFSSigWord ∧
                be16 bufPtr mdb.drEmbedSigWord = kHFSPlusSigWord) then
            if be16 bufPtr vh.signature = kHFSSigWord then
              if (GetEmbeddedHFSPlusVol bufPtr 0).1 ≠ FSUR_IO_SUCCESS then
                .ret ((GetEmbeddedHFSPlusVol bufPtr 0).1, volnameUTF8)
              else GetNameFromHFSPlusVolumeStartingAt fuel junk dev
                (GetEmbeddedHFSPlusVol bufPtr 0).2 volnameUTF8
            else GetNameFromHFSPlusVolumeStartingAt fuel junk dev 0 volnameUTF8
          else .ret (FSUR_UNRECOGNIZED, volnameUTF8)).bind fun (result1, volname) =>
          if FSUR_IO_SUCCESS = result1 then
            (strlen volname).bind fun n => .ret (FSUR_RECOGNIZED, volname.take n.toNat)
          else .ret (result1, []) := by
  have d : FSUR_IO_FAIL ≠ FSUR_IO_SUCCESS := by decide
  unfold DoProbe
  rw [if_neg (by omega), hread]
  simp only [Exec.bind_ret]
  rw [if_neg d]

/-- What `DoProbe` recognises. On an opened device whose
sector 2 is read into `hdr`: (1) when `hdr` is a plain classic-HFS Master
Directory Block (signature HFS, embedded signature other than HFS+) or carries
none of the three signatures, `DoProbe` writes nothing and returns
`FSUR_UNRECOGNIZED`; (2) when `hdr` carries the HFS+ or HFSX signature, or the
HFS signature with an embedded HFS+ volume, the name is extracted from the
volume at offset 0, respectively at the embedded offset: when the extraction
returns `FSUR_IO_SUCCESS` and the name buffer holds a NUL, `DoProbe` writes the
bytes before the first NUL and returns `FSUR_RECOGNIZED`, and when the
extraction returns `FSUR_IO_FAIL`, `DoProbe` writes nothing and returns
`FSUR_IO_FAIL`; (3) `DoProbe` returns `FSUR_UNRECOGNIZED` only in case (1). -/
theorem DoProbe_recognition (fuel : Nat) (junk : Nat → UInt8) (fd : Int) (dev : Device)
    (volnameUTF8 hdr : List UInt8) (hfd : 0 ≤ fd)
    (hread : readAt dev (malloc junk HFS_BLOCK_SIZE) (2 * HFS_BLOCK_SIZE) HFS_BLOCK_SIZE
      = .ret (FSUR_IO_SUCCESS, hdr)) :
    (((be16 hdr mdb.drSigWord = kHFSSigWord ∧ be16 hdr mdb.drEmbedSigWord ≠ kHFSPlusSigWord) ∨
        (be16 hdr vh.signature ≠ kHFSSigWord ∧ be16 hdr vh.signature ≠ kHFSPlusSigWord ∧
          be16 hdr vh.signature ≠ kHFSXSigWord)) →
      DoProbe fuel junk fd dev volnameUTF8 = .ret (FSUR_UNRECOGNIZED, [])) ∧
    ((be16 hdr vh.signature = kHFSPlusSigWord ∨ be16 hdr vh.signature = kHFSXSigWord ∨
        (be16 hdr mdb.drSigWord = kHFSSigWord ∧
          be16 hdr mdb.drEmbedSigWord = kHFSPlusSigWord)) →
      (∀ (name : List UInt8) (n : Int),
        GetNameFromHFSPlusVolumeStartingAt fuel junk dev
          (if be16 hdr vh.signature = kHFSSigWord then (GetEmbeddedHFSPlusVol hdr 0).2 else 0)
          volnameUTF8 = .ret (FSUR_IO_SUCCESS, name) →
        strlen name = .ret n →
        DoProbe fuel junk fd dev volnameUTF8 = .ret (FSUR_RECOGNIZED, name.take n.toNat)) ∧
      (∀ name : List UInt8,
        GetNameFromHFSPlusVolumeStartingAt fuel junk dev
          (if be16 hdr vh.signature = kHFSSigWord then (GetEmbeddedHFSPlusVol hdr 0).2 else 0)
          volnameUTF8 = .ret (FSUR_IO_FAIL, name) →
        DoProbe fuel junk fd dev volnameUTF8 = .ret (FSUR_IO_FAIL, []))) ∧
    (∀ out : List UInt8, DoProbe fuel junk fd dev volnameUTF8 = .ret (FSUR_UNRECOGNIZED, out) →
      (be16 hdr mdb.drSigWord = kHFSSigWord ∧ be16 hdr mdb.drEmbedSigWord ≠ kHFSPlusSigWord) ∨
        (be16 hdr vh.signature ≠ kHFSSigWord ∧ be16 hdr vh.signature ≠ kHFSPlusSigWord ∧
          be16 hdr vh.signature ≠ kHFSXSigWord)) := by
  have e0 : mdb.drSigWord = vh.signature := rfl
  have hu := DoProbe_unfold fuel junk fd dev volnameUTF8 hdr hfd hread
  rw [e0] at hu ⊢
  have hunrec : ∀ x : List UInt8, (Exec.ret (FSUR_UNRECOGNIZED, x)).bind
      (fun (p : Int × List UInt8) =>
        if FSUR_IO_SUCCESS = p.1 then
          (strlen p.2).bind fun n => Exec.ret (FSUR_RECOGNIZED, p.2.take n.toNat)
        else Exec.ret (p.1, ([] : List UInt8))) = .ret (FSUR_UNRECOGNIZED, []) := by
    intro x
    rfl
  -- the volume handed to the name extraction in the recognised cases
  have hnamed : (be16 hdr vh.signature = kHFSPlusSigWord ∨ be16 hdr vh.signature = kHFSXSigWord ∨
      (be16 hdr vh.signature = kHFSSigWord ∧ be16 hdr mdb.drEmbedSigWord = kHFSPlusSigWord)) →
      DoProbe fuel junk fd dev volnameUTF8
        = (GetNameFromHFSPlusVolumeStartingAt fuel junk dev
            (if be16 hdr vh.signature = kHFSSigWord then (GetEmbeddedHFSPlusVol hdr 0).2 else 0)
            volnameUTF8).bind fun (p : Int × List UInt8) =>
          if FSUR_IO_SUCCESS = p.1 then
            (strlen p.2).bind fun n => Exec.ret (FSUR_RECOGNIZED, p.2.take n.toNat)
          else Exec.ret (p.1, ([] : List UInt8)) := by
    intro hsig
    rw [hu]
    have h1 : ¬ (be16 hdr vh.signature = kHFSSigWord ∧
        be16 hdr mdb.drEmbedSigWord ≠ kHFSPlusSigWord) := by
      rintro ⟨a, b⟩
      rcases hsig with h | h | h
      · rw [h] at a; exact absurd a (by decide)
      · rw [h] at a; exact absurd a (by decide)
      · exact b h.2
    rw [if_neg h1, if_pos hsig]
    by_cases hw : be16 hdr vh.signature = kHFSSigWord
    · have hemb : be16 hdr mdb.drEmbedSigWord = kHFSPlusSigWord := by
        rcases hsig with h | h | h
        · rw [h] at hw; exact absurd hw (by decide)
        · rw [h] at hw; exact absurd hw (by decide)
        · exact h.2
      have hg : (GetEmbeddedHFSPlusVol hdr 0).1 = FSUR_IO_SUCCESS := by
        unfold GetEmbeddedHFSPlusVol
        rw [e0, if_neg (not_not.2 hw)]
        simp only
        rw [if_neg (not_not.2 hemb)]
      rw [if_pos hw, if_neg (not_not.2 hg), if_pos hw]
    · rw [if_neg hw, if_neg hw]
  refine ⟨?_, ?_, ?_⟩
  · intro h
    rw [hu]
    rcases h with h | ⟨h1, h2, h3⟩
    · rw [if_pos h]
      exact hunrec _
    · rw [if_neg (fun hc => h1 hc.1), if_neg (by
        intro hc
        rcases hc with hc | hc | hc
        · exact h2 hc
        · exact h3 hc
        · exact h1 hc.1)]
      exact hunrec _
  · intro hsig
    have hn := hnamed hsig
    constructor
    · intro name n hget hstr
      rw [hn, hget]
      simp only [Exec.bind_ret, if_true]
      rw [hstr]
      rfl
    · intro name hget
      rw [hn, hget]
      rfl
  · intro out h
    by_contra hc
    rw [not_or] at hc
    obtain ⟨c1, c2⟩ := hc
    have hsig : be16 hdr vh.signature = kHFSPlusSigWord ∨ be16 hdr vh.signature = kHFSXSigWord ∨
        (be16 hdr vh.signature = kHFSSigWord ∧ be16 hdr mdb.drEmbedSigWord = kHFSPlusSigWord) := by
      by_cases a : be16 hdr vh.signature = kHFSSigWord
      · right; right
        refine ⟨a, ?_⟩
        by_contra b
        exact c1 ⟨a, b⟩
      · by_cases b : be16 hdr vh.signature = kHFSPlusSigWord
        · exact Or.inl b
        · by_cases c : be16 hdr vh.signature = kHFSXSigWord
          · exact Or.inr (Or.inl c)
          · exact absurd ⟨a, b, c⟩ c2
    rw [hnamed hsig] at h
    obtain ⟨⟨r1, name⟩, hget, h⟩ := Exec.bind_eq_ret _ _ _ h
    have hcode := GetName_code _ _ _ _ _ _ _ hget
    simp only at h
    rcases hcode with h0 | h0
    · rw [h0] at h
      simp only [if_true] at h
      obtain ⟨n, -, h⟩ := Exec.bind_eq_ret _ _ _ h
      simp only [Exec.ret.injEq, Prod.mk.injEq] at h
      exact absurd h.1 (by decide)
    · rw [h0] at h
      rw [if_neg (by decide)] at h
      simp only [Exec.ret.injEq, Prod.mk.injEq] at h
      exact absurd h.1 (by decide)

theorem DoProbe_recognition_witness :
    DoProbe 0 (fun _ => 0) 3 wrappedTestVolImage (List.replicate 766 0xAA)
      = .ret (FSUR_RECOGNIZED, [0x54, 0x65, 0x73, 0x74, 0x56, 0x6F, 0x6C]) :=
  (((DoProbe_recognition 0 (fun _ => 0) 3 wrappedTestVolImage (List.replicate 766 0xAA) nearMDB
      (by decide) (by decide!)).2.1 (by decide!)).1
    ([0x54, 0x65, 0x73, 0x74, 0x56, 0x6F, 0x6C] ++ 0 :: List.replicate 758 0xAA) 7
    (by decide!) (by decide!)).trans (by decide!)

/-- C22 (refuted): `DoProbe` does not recognise classic HFS. (1) On every
opened device whose sector 2 is read and is a plain classic-HFS Master
Directory Block (signature HFS, embedded signature other than HFS+), `DoProbe`
prints nothing and returns `FSUR_UNRECOGNIZED`, for every budget of the
catalog walk: the branch commented "get classic HFS volume name (from MDB)"
only assigns that code. (2) On the device `plainHFSDevice`, whose sector 2 is
the Master Directory Block of the plain HFS volume `MyDisk`, `DoProbe` returns
`FSUR_UNRECOGNIZED` with no output, not `FSUR_RECOGNIZED` with the name; so
`FSUR_UNRECOGNIZED` is also returned for one of the three signatures. -/
theorem DoProbe_plain_HFS_unrecognized :
    (∀ (fuel : Nat) (junk : Nat → UInt8) (fd : Int) (dev : Device) (volnameUTF8 hdr : List UInt8),
      0 ≤ fd →
      readAt dev (malloc junk HFS_BLOCK_SIZE) (2 * HFS_BLOCK_SIZE) HFS_BLOCK_SIZE
        = .ret (FSUR_IO_SUCCESS, hdr) →
      be16 hdr mdb.drSigWord = kHFSSigWord → be16 hdr mdb.drEmbedSigWord ≠ kHFSPlusSigWord →
      DoProbe fuel junk fd dev volnameUTF8 = .ret (FSUR_UNRECOGNIZED, [])) ∧
    readAt plainHFSDevice (malloc (fun _ => 0) HFS_BLOCK_SIZE) (2 * HFS_BLOCK_SIZE) HFS_BLOCK_SIZE
      = .ret (FSUR_IO_SUCCESS, plainMDB) ∧
    be16 plainMDB mdb.drSigWord = kHFSSigWord ∧
    be16 plainMDB mdb.drEmbedSigWord ≠ kHFSPlusSigWord ∧
    DoProbe 0 (fun _ => 0) 3 plainHFSDevice (List.replicate 766 0xAA)
      = .ret (FSUR_UNRECOGNIZED, []) ∧
    FSUR_UNRECOGNIZED ≠ FSUR_RECOGNIZED := by
  refine ⟨?_, by decide!, by decide!, by decide!, by decide!, by decide⟩
  intro fuel junk fd dev volnameUTF8 hdr hfd hread hsig hemb
  exact (DoProbe_recognition fuel junk fd dev volnameUTF8 hdr hfd hread).1 (Or.inl ⟨hsig, hemb⟩)

/-- The result of the part of `ParseArgs` after the `switch` depends on the
length of the device name only, not on the flag words. -/
theorem checkDeviceAndFlags_result (argv : List String) (index : Nat)
    (mounting doLengthCheck : Bool) (out : ParsedArgs) :
    (checkDeviceAndFlags argv index mounting doLengthCheck out).1
      = if doLengthCheck = true ∧ (((argv.getD 2 "").utf8ByteSize : Int) < 3 ∨
          ((argv.getD 2 "").utf8ByteSize : Int) > NAME_MAX) then FSUR_INVAL else 0 := by
  unfold checkDeviceAndFlags
  by_cases h : doLengthCheck = true ∧ (((argv.getD 2 "").utf8ByteSize : Int) < 3 ∨
      ((argv.getD 2 "").utf8ByteSize : Int) > NAME_MAX)
  · rw [if_pos h, if_pos h]
    rfl
  · rw [if_neg h, if_neg h]
    by_cases hi : index ≠ 0
    · rw [if_pos hi]
      cases mounting
      · rw [if_neg (by decide)]
      · rw [if_pos rfl]
    · rw [if_neg hi]

/-- A flag word keeps the words reported before it. -/
theorem parseFlag_keeps (word yes no : String) (flag : Int) (reported : List String)
    (w : String) (h : w ∈ reported) : w ∈ (parseFlag word yes no flag reported).2 := by
  unfold parseFlag
  split
  · exact h
  · split
    · exact h
    · exact List.mem_append_left _ h

/-- A flag word that is neither of the two accepted words is reported. -/
theorem parseFlag_reports (word yes no : String) (flag : Int) (reported : List String)
    (h1 : word ≠ yes) (h2 : word ≠ no) : word ∈ (parseFlag word yes no flag reported).2 := by
  unfold parseFlag
  rw [if_neg h1, if_neg h2]
  exact List.mem_append_right _ (List.mem_singleton_self _)

/-- A first flag word other than `removable` and `fixed` is reported as
unrecognized. -/
theorem checkDeviceAndFlags_reports (argv : List String) (index : Nat)
    (mounting doLengthCheck : Bool) (out : ParsedArgs) (hi : index ≠ 0)
    (hlen : ¬ (doLengthCheck = true ∧ (((argv.getD 2 "").utf8ByteSize : Int) < 3 ∨
      ((argv.getD 2 "").utf8ByteSize : Int) > NAME_MAX)))
    (h1 : argv.getD index "" ≠ "removable") (h2 : argv.getD index "" ≠ "fixed") :
    argv.getD index "" ∈ (checkDeviceAndFlags argv index mounting doLengthCheck
      out).2.unrecognizedFlags := by
  have hr := parseFlag_reports (argv.getD index "") "removable" "fixed" out.isEjectable
    out.unrecognizedFlags h1 h2
  unfold checkDeviceAndFlags
  rw [if_neg hlen, if_pos hi]
  cases mounting
  · rw [if_neg (by decide)]
    exact parseFlag_keeps _ _ _ _ _ _ hr
  · rw [if_pos rfl]
    exact parseFlag_keeps _ _ _ _ _ _ (parseFlag_keeps _ _ _ _ _ _ (parseFlag_keeps _ _ _ _ _ _ hr))

/-- The function `ParseArgs` on an action that reaches the check of the device
name and of the flags. -/
theorem ParseArgs_checked (argv : List String) (out : ParsedArgs) (hargc : 3 ≤ argv.length)
    (hdash : charAt (argv.getD 1 "") 0 = '-') :
    (charAt (argv.getD 1 "") 1 = FSUC_PROBE → 5 ≤ argv.length →
      ParseArgs argv out
        = .ret (some (checkDeviceAndFlags argv 3 false true
              { out with action := (argv.getD 1 "").data.drop 1 }).1,
            (checkDeviceAndFlags argv 3 false true
              { out with action := (argv.getD 1 "").data.drop 1 }).2)) ∧
    (charAt (argv.getD 1 "") 1 = FSUC_MOUNT ∨ charAt (argv.getD 1 "") 1 = FSUC_MOUNT_FORCE →
      8 ≤ argv.length →
      ParseArgs argv out
        = .ret (some (checkDeviceAndFlags argv 4 true true
              { out with action := (argv.getD 1 "").data.drop 1, mountPoint := argv[3]? }).1,
            (checkDeviceAndFlags argv 4 true true
              { out with action := (argv.getD 1 "").data.drop 1, mountPoint := argv[3]? }).2)) ∧
    (charAt (argv.getD 1 "") 1 = FSUC_UNMOUNT →
      ParseArgs argv out
        = .ret (some (checkDeviceAndFlags argv 0 false true
              { out with action := (argv.getD 1 "").data.drop 1, mountPoint := argv[3]? }).1,
            (checkDeviceAndFlags argv 0 false true
              { out with action := (argv.getD 1 "").data.drop 1, mountPoint := argv[3]? }).2)) ∧
    (charAt (argv.getD 1 "") 1 = FSUC_GETUUID ∨ charAt (argv.getD 1 "") 1 = FSUC_SETUUID ∨
        charAt (argv.getD 1 "") 1 = FSUC_ADOPT ∨ charAt (argv.getD 1 "") 1 = FSUC_DISOWN →
      ParseArgs argv out
        = .ret (some (checkDeviceAndFlags argv 0 false true
              { out with action := (argv.getD 1 "").data.drop 1 }).1,
            (checkDeviceAndFlags argv 0 false true
              { out with action := (argv.getD 1 "").data.drop 1 }).2)) := by
  have hfirst : ¬ (argv.length < 3 ∨ charAt (argv.getD 1 "") 0 ≠ '-') :=
    fun h => h.elim (by omega) (fun h2 => h2 hdash)
  refine ⟨?_, ?_, ?_, ?_⟩
  · intro hc h5
    unfold ParseArgs
    simp only
    rw [if_neg hfirst, if_pos hc, if_neg (by omega)]
  · intro hc h8
    have n1 : charAt (argv.getD 1 "") 1 ≠ FSUC_PROBE := by
      rcases hc with h | h <;> rw [h] <;> decide
    have n2 : charAt (argv.getD 1 "") 1 ≠ FSUC_UNMOUNT := by
      rcases hc with h | h <;> rw [h] <;> decide
    unfold ParseArgs
    simp only
    rw [if_neg hfirst, if_neg n1, if_neg n2, if_pos hc, if_neg (by omega)]
  · intro hc
    have n1 : charAt (argv.getD 1 "") 1 ≠ FSUC_PROBE := by rw [hc]; decide
    unfold ParseArgs
    simp only
    rw [if_neg hfirst, if_neg n1, if_pos hc]
  · intro hc
    have n1 : charAt (argv.getD 1 "") 1 ≠ FSUC_PROBE := by
      rcases hc with h | h | h | h <;> rw [h] <;> decide
    have n2 : charAt (argv.getD 1 "") 1 ≠ FSUC_UNMOUNT := by
      rcases hc with h | h | h | h <;> rw [h] <;> decide
    have n3 : ¬ (charAt (argv.getD 1 "") 1 = FSUC_MOUNT ∨
        charAt (argv.getD 1 "") 1 = FSUC_MOUNT_FORCE) := by
      rcases hc with h | h | h | h <;> rw [h] <;> decide
    unfold ParseArgs
    simp only
    rw [if_neg hfirst, if_neg n1, if_neg n2, if_neg n3, if_pos hc]

/-- C24 (refuted): `ParseArgs` does not return `FSUR_INVAL` for a bad flag
word. (1) On `hfs.util -p disk0s2 bogus writable` the word `bogus` is
reported as an unrecognized flag, `*isEjectablePtr` is left as it was, and
`ParseArgs` returns 0. (2) In general, for `-p` with at least 5 arguments and
for `-m` or `-M` with at least 8 arguments, whenever the device name has 3 to
`NAME_MAX` characters `ParseArgs` returns 0 whatever the flag words are, and a
first flag word other than `removable` and `fixed` is among the words
reported. (3) The other rejections of the claim hold: `ParseArgs` returns
`FSUR_INVAL` for fewer than 3 arguments or an action argument that does not
start with `-`, for an action letter that is none of the fourteen known ones,
for `-p` with fewer than 5 and `-m` or `-M` with fewer than 8 arguments, and,
for the actions `p`, `u`, `m`, `M`, `k`, `s`, `a`, `d`, for a device name shorter
than 3 or longer than `NAME_MAX` characters. -/
theorem ParseArgs_accepts_bad_flag :
    ParseArgs ["hfs.util", "-p", "disk0s2", "bogus", "writable"] noArgs
      = .ret (some 0, ⟨[FSUC_PROBE], none, 0, 0, 0, 0, 0, false, ["bogus"]⟩) ∧
    (∀ (argv : List String) (out : ParsedArgs), 3 ≤ argv.length →
      charAt (argv.getD 1 "") 0 = '-' →
      ((charAt (argv.getD 1 "") 1 = FSUC_PROBE ∧ 5 ≤ argv.length ∧
          argv.getD 3 "" ≠ "removable" ∧ argv.getD 3 "" ≠ "fixed") ∨
        ((charAt (argv.getD 1 "") 1 = FSUC_MOUNT ∨ charAt (argv.getD 1 "") 1 = FSUC_MOUNT_FORCE) ∧
          8 ≤ argv.length ∧ argv.getD 4 "" ≠ "removable" ∧ argv.getD 4 "" ≠ "fixed")) →
      3 ≤ (argv.getD 2 "").utf8ByteSize → ((argv.getD 2 "").utf8ByteSize : Int) ≤ NAME_MAX →
      ∃ o, ParseArgs argv out = .ret (some 0, o) ∧
        (argv.getD 3 "" ∈ o.unrecognizedFlags ∨ argv.getD 4 "" ∈ o.unrecognizedFlags)) ∧
    (∀ (argv : List String) (out : ParsedArgs),
      argv.length < 3 ∨ charAt (argv.getD 1 "") 0 ≠ '-' →
      ∃ o, ParseArgs argv out = .ret (some FSUR_INVAL, o)) ∧
    (∀ (argv : List String) (out : ParsedArgs), 3 ≤ argv.length →
      charAt (argv.getD 1 "") 0 = '-' →
      charAt (argv.getD 1 "") 1 ∉ [FSUC_PROBE, FSUC_UNMOUNT, FSUC_MOUNT, FSUC_MOUNT_FORCE,
        FSUC_GETUUID, FSUC_SETUUID, FSUC_ADOPT, FSUC_DISOWN, FSUC_MKJNL, FSUC_UNJNL,
        FSUC_UNJNL_RAW, FSUC_JNLINFS_RAW, FSUC_EXTJNL_RAW, FSUC_JNLINFO] →
      ∃ o, ParseArgs argv out = .ret (some FSUR_INVAL, o)) ∧
    (∀ (argv : List String) (out : ParsedArgs), 3 ≤ argv.length →
      charAt (argv.getD 1 "") 0 = '-' →
      ((charAt (argv.getD 1 "") 1 = FSUC_PROBE ∧ argv.length < 5) ∨
        ((charAt (argv.getD 1 "") 1 = FSUC_MOUNT ∨ charAt (argv.getD 1 "") 1 = FSUC_MOUNT_FORCE) ∧
          argv.length < 8)) →
      ∃ o, ParseArgs argv out = .ret (some FSUR_INVAL, o)) ∧
    (∀ (argv : List String) (out : ParsedArgs), 3 ≤ argv.length →
      charAt (argv.getD 1 "") 0 = '-' →
      charAt (argv.getD 1 "") 1 ∈ [FSUC_PROBE, FSUC_UNMOUNT, FSUC_MOUNT, FSUC_MOUNT_FORCE,
        FSUC_GETUUID, FSUC_SETUUID, FSUC_ADOPT, FSUC_DISOWN] →
      ((argv.getD 2 "").utf8ByteSize : Int) < 3 ∨ ((argv.getD 2 "").utf8ByteSize : Int) > NAME_MAX →
      ∃ o, ParseArgs argv out = .ret (some FSUR_INVAL, o)) := by
  refine ⟨by decide!, ?_, ?_, ?_, ?_, ?_⟩
  · intro argv out hargc hdash hact hl1 hl2
    have hlen : ¬ ((true : Bool) = true ∧ (((argv.getD 2 "").utf8ByteSize : Int) < 3 ∨
        ((argv.getD 2 "").utf8ByteSize : Int) > NAME_MAX)) := by
      rintro ⟨-, h | h⟩ <;> omega
    obtain ⟨hp, hm, -, -⟩ := ParseArgs_checked argv out hargc hdash
    rcases hact with ⟨hc, h5, f1, f2⟩ | ⟨hc, h8, f1, f2⟩
    · refine ⟨(checkDeviceAndFlags argv 3 false true
          { out with action := (argv.getD 1 "").data.drop 1 }).2, ?_,
        Or.inl (checkDeviceAndFlags_reports argv 3 false true _ (by decide) hlen f1 f2)⟩
      rw [hp hc h5, checkDeviceAndFlags_result, if_neg hlen]
    · refine ⟨(checkDeviceAndFlags argv 4 true true
          { out with action := (argv.getD 1 "").data.drop 1, mountPoint := argv[3]? }).2, ?_,
        Or.inr (checkDeviceAndFlags_reports argv 4 true true _ (by decide) hlen f1 f2)⟩
      rw [hm hc h8, checkDeviceAndFlags_result, if_neg hlen]
  · intro argv out h
    refine ⟨?_, ?_⟩
    swap
    unfold ParseArgs
    simp only
    rw [if_pos h]
    exact rfl
  · intro argv out hargc hdash hc
    have hfirst : ¬ (argv.length < 3 ∨ charAt (argv.getD 1 "") 0 ≠ '-') :=
      fun h => h.elim (by omega) (fun h2 => h2 hdash)
    simp only [List.mem_cons, List.mem_singleton, List.not_mem_nil, or_false, not_or] at hc
    obtain ⟨c1, c2, c3, c4, c5, c6, c7, c8, c9, c10, c11, c12, c13, c14⟩ := hc
    refine ⟨?_, ?_⟩
    swap
    unfold ParseArgs
    simp only
    rw [if_neg hfirst, if_neg c1, if_neg c2, if_neg (not_or.2 ⟨c3, c4⟩),
      if_neg (not_or.2 ⟨c5, not_or.2 ⟨c6, not_or.2 ⟨c7, c8⟩⟩⟩), if_neg c9,
      if_neg (not_or.2 ⟨c10, not_or.2 ⟨c11, not_or.2 ⟨c12, not_or.2 ⟨c13, c14⟩⟩⟩⟩)]
    exact rfl
  · intro argv out hargc hdash hact
    have hfirst : ¬ (argv.length < 3 ∨ charAt (argv.getD 1 "") 0 ≠ '-') :=
      fun h => h.elim (by omega) (fun h2 => h2 hdash)
    refine ⟨?_, ?_⟩
    swap
    unfold ParseArgs
    simp only
    rcases hact with ⟨hc, h5⟩ | ⟨hc, h8⟩
    · rw [if_neg hfirst, if_pos hc, if_pos h5]
      exact rfl
    · have n1 : charAt (argv.getD 1 "") 1 ≠ FSUC_PROBE := by
        rcases hc with h | h <;> rw [h] <;> decide
      have n2 : charAt (argv.getD 1 "") 1 ≠ FSUC_UNMOUNT := by
        rcases hc with h | h <;> rw [h] <;> decide
      rw [if_neg hfirst, if_neg n1, if_neg n2, if_pos hc, if_pos h8]
      exact rfl
  · intro argv out hargc hdash hc hlen
    have hl : ((true : Bool) = true ∧ (((argv.getD 2 "").utf8ByteSize : Int) < 3 ∨
        ((argv.getD 2 "").utf8ByteSize : Int) > NAME_MAX)) := ⟨rfl, hlen⟩
    have hfirst : ¬ (argv.length < 3 ∨ charAt (argv.getD 1 "") 0 ≠ '-') :=
      fun h => h.elim (by omega) (fun h2 => h2 hdash)
    obtain ⟨hp, hm, hu, hk⟩ := ParseArgs_checked argv out hargc hdash
    simp only [List.mem_cons, List.mem_singleton, List.not_mem_nil, or_false] at hc
    by_cases hP : charAt (argv.getD 1 "") 1 = FSUC_PROBE
    · by_cases h5 : 5 ≤ argv.length
      · refine ⟨?_, ?_⟩
        swap
        rw [hp hP h5, checkDeviceAndFlags_result, if_pos hl]
        exact rfl
      · refine ⟨?_, ?_⟩
        swap
        unfold ParseArgs
        simp only
        rw [if_neg hfirst, if_pos hP, if_pos (by omega)]
        exact rfl
    by_cases hU : charAt (argv.getD 1 "") 1 = FSUC_UNMOUNT
    · refine ⟨?_, ?_⟩
      swap
      rw [hu hU, checkDeviceAndFlags_result, if_pos hl]
      exact rfl
    by_cases hM : charAt (argv.getD 1 "") 1 = FSUC_MOUNT ∨
        charAt (argv.getD 1 "") 1 = FSUC_MOUNT_FORCE
    · by_cases h8 : 8 ≤ argv.length
      · refine ⟨?_, ?_⟩
        swap
        rw [hm hM h8, checkDeviceAndFlags_result, if_pos hl]
        exact rfl
      · refine ⟨?_, ?_⟩
        swap
        unfold ParseArgs
        simp only
        rw [if_neg hfirst, if_neg hP, if_neg hU, if_pos hM, if_pos (by omega)]
        exact rfl
    have hK : charAt (argv.getD 1 "") 1 = FSUC_GETUUID ∨ charAt (argv.getD 1 "") 1 = FSUC_SETUUID ∨
        charAt (argv.getD 1 "") 1 = FSUC_ADOPT ∨ charAt (argv.getD 1 "") 1 = FSUC_DISOWN := by
      rcases hc with h | h | h | h | h | h | h | h
      · exact absurd h hP
      · exact absurd h hU
      · exact absurd (Or.inl h) hM
      · exact absurd (Or.inr h) hM
      · exact Or.inl h
      · exact Or.inr (Or.inl h)
      · exact Or.inr (Or.inr (Or.inl h))
      · exact Or.inr (Or.inr (Or.inr h))
    refine ⟨?_, ?_⟩
    swap
    rw [hk hK, checkDeviceAndFlags_result, if_pos hl]
    exact rfl
/-- The status that `DoAdopt` computes is `VOLUME_USEPERMISSIONS` and the one
that `DoDisown` computes is 0, whatever the status before. -/
theorem newStatus_values (s : Nat) :
    (s &&& VOLUME_VALIDSTATUSBITS) ||| VOLUME_USEPERMISSIONS = VOLUME_USEPERMISSIONS ∧
    (s &&& VOLUME_VALIDSTATUSBITS) &&& complement64 VOLUME_USEPERMISSIONS = 0 := by
  have h : s &&& 1 = s % 2 := Nat.and_one_is_mod s
  unfold VOLUME_VALIDSTATUSBITS VOLUME_USEPERMISSIONS
  rw [h]
  rcases Nat.mod_two_eq_zero_or_one s with h0 | h1
  · rw [h0]; exact ⟨by decide, by decide⟩
  · rw [h1]; exact ⟨by decide, by decide⟩

/-- After a record for `volumeID` has been updated in place or appended, the
search finds a record with that key and the stored status. -/
theorem findRecord_stored (volumeID : List UInt8) (v : Nat) :
    ∀ records : List (List UInt8 × Nat),
      ∃ i, findRecord volumeID
          (match findRecord volumeID records with
            | some i => records.set i (volumeID, v)
            | none => records ++ [(volumeID, v)]) = some i ∧
        (match findRecord volumeID records with
          | some i => records.set i (volumeID, v)
          | none => records ++ [(volumeID, v)]).getD i ([], 0) = (volumeID, v) := by
  intro records
  induction records with
  | nil => exact ⟨0, by simp [findRecord], rfl⟩
  | cons r rs ih =>
    by_cases hr : r.1 = volumeID
    · refine ⟨0, ?_, ?_⟩
      · simp [findRecord, hr]
      · simp [findRecord, hr]
    · obtain ⟨i, h1, h2⟩ := ih
      refine ⟨i + 1, ?_, ?_⟩
      · cases hf : findRecord volumeID rs with
        | none =>
          rw [hf] at h1
          simp only [findRecord, hr, if_false, hf, Option.map_none', List.cons_append] at h1 ⊢
          rw [h1]
          rfl
        | some j =>
          rw [hf] at h1
          simp only [findRecord, hr, if_false, hf, Option.map_some', List.set_cons_succ] at h1 ⊢
          rw [h1]
          rfl
      · cases hf : findRecord volumeID rs with
        | none =>
          rw [hf] at h2
          simp only [findRecord, hr, if_false, hf, Option.map_none', List.cons_append] at h2 ⊢
          simpa using h2
        | some j =>
          rw [hf] at h2
          simp only [findRecord, hr, if_false, hf, Option.map_some', List.set_cons_succ] at h2 ⊢
          simpa using h2

/-- The shared statements of `DoAdopt` and `DoDisown`, by whether the database
can be opened. -/
theorem updateVolumeStatus_cases (newStatus : Nat → Nat) (db : StatusDB)
    (targetVolumeUUID : List UInt8) (targetVolumeStatus : Nat) (hno : 0 ≤ db.openErrno) :
    (db.openErrno ≠ 0 →
      updateVolumeStatus newStatus db targetVolumeUUID targetVolumeStatus
        = .ret (FSUR_IO_FAIL, db, none)) ∧
    (db.openErrno = 0 →
      updateVolumeStatus newStatus db targetVolumeUUID targetVolumeStatus
        = .ret (
          if (SetVolumeStatusDBEntry db ⟨DBHANDLESIGNATURE⟩ targetVolumeUUID
                (newStatus
                  (if (GetVolumeStatusDBEntry db ⟨DBHANDLESIGNATURE⟩ targetVolumeUUID
                        targetVolumeStatus).1 ≠ 0 then 0
                    else (GetVolumeStatusDBEntry db ⟨DBHANDLESIGNATURE⟩ targetVolumeUUID
                        targetVolumeStatus).2))).1 ≠ 0 ∧
              (SetVolumeStatusDBEntry db ⟨DBHANDLESIGNATURE⟩ targetVolumeUUID
                (newStatus
                  (if (GetVolumeStatusDBEntry db ⟨DBHANDLESIGNATURE⟩ targetVolumeUUID
                        targetVolumeStatus).1 ≠ 0 then 0
                    else (GetVolumeStatusDBEntry db ⟨DBHANDLESIGNATURE⟩ targetVolumeUUID
                        targetVolumeStatus).2))).1 ≠ FSUR_IO_SUCCESS
            then FSUR_IO_FAIL else 0,
          (SetVolumeStatusDBEntry db ⟨DBHANDLESIGNATURE⟩ targetVolumeUUID
            (newStatus
              (if (GetVolumeStatusDBEntry db ⟨DBHANDLESIGNATURE⟩ targetVolumeUUID
                    targetVolumeStatus).1 ≠ 0 then 0
                else (GetVolumeStatusDBEntry db ⟨DBHANDLESIGNATURE⟩ targetVolumeUUID
                    targetVolumeStatus).2))).2,
          some (newStatus
            (if (GetVolumeStatusDBEntry db ⟨DBHANDLESIGNATURE⟩ targetVolumeUUID
                  targetVolumeStatus).1 ≠ 0 then 0
              else (GetVolumeStatusDBEntry db ⟨DBHANDLESIGNATURE⟩ targetVolumeUUID
                  targetVolumeStatus).2)))) := by
  constructor
  · intro h
    have ho : OpenVolumeStatusDB db = (db.openErrno, none) := by
      unfold OpenVolumeStatusDB; rw [if_pos h]
    unfold updateVolumeStatus
    simp only [ho]
    rw [if_pos h]
    simp only [Exec.bind_ret]
    rw [if_pos ⟨h, by unfold FSUR_IO_SUCCESS; omega⟩]
  · intro h
    have ho : OpenVolumeStatusDB db = (0, some ⟨DBHANDLESIGNATURE⟩) := by
      unfold OpenVolumeStatusDB; rw [if_neg (not_not.2 h)]
    unfold updateVolumeStatus
    simp only [ho]
    rw [if_neg (by decide)]
    generalize (if (GetVolumeStatusDBEntry db ⟨DBHANDLESIGNATURE⟩ targetVolumeUUID
        targetVolumeStatus).1 ≠ 0 then 0
      else (GetVolumeStatusDBEntry db ⟨DBHANDLESIGNATURE⟩ targetVolumeUUID
        targetVolumeStatus).2) = st0
    generalize SetVolumeStatusDBEntry db ⟨DBHANDLESIGNATURE⟩ targetVolumeUUID (newStatus st0)
      = set
    have hclose : CloseVolumeStatusDB ⟨DBHANDLESIGNATURE⟩ = 0 := by decide
    by_cases h0 : set.1 = 0
    · rw [if_neg (not_not.2 h0)]
      simp only [Exec.bind_ret, if_true, hclose]
      rw [if_neg (by decide), if_neg (fun hc => hc.1 h0)]
    · rw [if_pos h0]
      simp only [Exec.bind_ret, hclose]
      by_cases h3 : set.1 = FSUR_IO_SUCCESS
      · rw [if_pos h3, if_neg (by decide), if_neg (fun hc => hc.2 h3)]
      · rw [if_neg h3, if_pos ⟨h0, h3⟩, if_pos ⟨h0, h3⟩]

/-- A status without invalid bits is stored when the database can be locked:
`SetVolumeStatusDBEntry` returns 0 and, when the file is writable, the entry is
read back with the stored status. -/
theorem SetVolumeStatusDBEntry_stores (db : StatusDB) (volumeID : List UInt8) (v : Nat)
    (hlock : db.flockResult = 0) (hv : v &&& complement64 VOLUME_VALIDSTATUSBITS = 0) :
    (SetVolumeStatusDBEntry db ⟨DBHANDLESIGNATURE⟩ volumeID v).1 = 0 ∧
    (db.writable = true → ∀ s : Nat,
      GetVolumeStatusDBEntry (SetVolumeStatusDBEntry db ⟨DBHANDLESIGNATURE⟩ volumeID v).2
        ⟨DBHANDLESIGNATURE⟩ volumeID s = (0, VOLUME_RECORDED ||| v % 2 ^ 32)) := by
  have hs : ¬ ((⟨DBHANDLESIGNATURE⟩ : VSDBState).signature ≠ DBHANDLESIGNATURE) := by decide
  constructor
  · unfold SetVolumeStatusDBEntry
    rw [if_neg hs, if_neg (not_not.2 hv), if_neg (not_not.2 hlock)]
    simp only
    cases FindVolumeRecordByUUID db volumeID <;> rfl
  · intro hw s
    obtain ⟨i, h1, h2⟩ := findRecord_stored volumeID (v % 2 ^ 32) db.records
    unfold SetVolumeStatusDBEntry
    rw [if_neg hs, if_neg (not_not.2 hv), if_neg (not_not.2 hlock)]
    simp only
    unfold GetVolumeStatusDBEntry FindVolumeRecordByUUID
    rw [if_neg hs]
    cases hf : findRecord volumeID db.records with
    | none =>
      rw [hf] at h1 h2
      simp only [hw, if_true] at h1 h2 ⊢
      rw [if_neg (not_not.2 hlock), h1]
      simp only [h2]
    | some j =>
      rw [hf] at h1 h2
      simp only [hw, if_true] at h1 h2 ⊢
      rw [if_neg (not_not.2 hlock), h1]
      simp only [h2]

/-- C25 (refuted): `DoAdopt` and `DoDisown` do not return `FSUR_IO_SUCCESS`
when every step succeeds. (1) When `GetVolumeUUID` returns
`FSUR_IO_SUCCESS`, the status database is opened and can be locked, the status
handed to `SetVolumeStatusDBEntry` is `VOLUME_USEPERMISSIONS` for adopt and 0
for disown whatever status was recorded, and on a writable database the entry
is read back with that status; but the result, `FSUR_IO_SUCCESS` at that
point, is replaced by the result 0 of `CloseVolumeStatusDB`, and both functions
return 0, which is not `FSUR_IO_SUCCESS`. (2) After a successful
`GetVolumeUUID` both functions return 0 or `FSUR_IO_FAIL`, never
`FSUR_IO_SUCCESS`; they return `FSUR_IO_FAIL` when the database cannot be
opened. (3) When `GetVolumeUUID` returns another code, both functions return
that code and leave the database alone. -/
theorem DoAdopt_returns_zero (fuel : Nat) (host : ByteOrder) (dg : Digests)
    (junk : Nat → UInt8) (samples : Nat → List UInt8) (kernelUUID : List UInt8 → List UInt8)
    (mounts : List statfs) (vol : MountedVolume) (getFd setFd : Int) (dev : Device)
    (theDeviceNamePtr : String) (targetVolumeUUID : List UInt8) (targetVolumeStatus : Nat)
    (db : StatusDB) (hno : 0 ≤ db.openErrno) :
    (∀ (uuid : List UInt8) (vol1 : MountedVolume) (dev1 : Device),
      GetVolumeUUID fuel host dg junk samples kernelUUID mounts vol getFd setFd dev
        theDeviceNamePtr targetVolumeUUID true = .ret (FSUR_IO_SUCCESS, uuid, vol1, dev1) →
      (db.openErrno = 0 → db.flockResult = 0 →
        (∃ db1, DoAdopt fuel host dg junk samples kernelUUID mounts vol getFd setFd dev
            theDeviceNamePtr targetVolumeUUID targetVolumeStatus db
            = .ret (0, db1, some VOLUME_USEPERMISSIONS) ∧
          (db.writable = true → ∀ s : Nat,
            GetVolumeStatusDBEntry db1 ⟨DBHANDLESIGNATURE⟩ uuid s
              = (0, VOLUME_RECORDED ||| VOLUME_USEPERMISSIONS))) ∧
        (∃ db1, DoDisown fuel host dg junk samples kernelUUID mounts vol getFd setFd dev
            theDeviceNamePtr targetVolumeUUID targetVolumeStatus db
            = .ret (0, db1, some 0) ∧
          (db.writable = true → ∀ s : Nat,
            GetVolumeStatusDBEntry db1 ⟨DBHANDLESIGNATURE⟩ uuid s = (0, VOLUME_RECORDED)))) ∧
      (∀ (r : Int) (db1 : StatusDB) (stored : Option Nat),
        DoAdopt fuel host dg junk samples kernelUUID mounts vol getFd setFd dev
            theDeviceNamePtr targetVolumeUUID targetVolumeStatus db = .ret (r, db1, stored) ∨
          DoDisown fuel host dg junk samples kernelUUID mounts vol getFd setFd dev
            theDeviceNamePtr targetVolumeUUID targetVolumeStatus db = .ret (r, db1, stored) →
        (r = 0 ∨ r = FSUR_IO_FAIL) ∧ r ≠ FSUR_IO_SUCCESS) ∧
      (db.openErrno ≠ 0 →
        DoAdopt fuel host dg junk samples kernelUUID mounts vol getFd setFd dev
            theDeviceNamePtr targetVolumeUUID targetVolumeStatus db
          = .ret (FSUR_IO_FAIL, db, none) ∧
        DoDisown fuel host dg junk samples kernelUUID mounts vol getFd setFd dev
            theDeviceNamePtr targetVolumeUUID targetVolumeStatus db
          = .ret (FSUR_IO_FAIL, db, none))) ∧
    (0 : Int) ≠ FSUR_IO_SUCCESS ∧
    (∀ (r : Int) (uuid : List UInt8) (vol1 : MountedVolume) (dev1 : Device),
      GetVolumeUUID fuel host dg junk samples kernelUUID mounts vol getFd setFd dev
        theDeviceNamePtr targetVolumeUUID true = .ret (r, uuid, vol1, dev1) →
      r ≠ FSUR_IO_SUCCESS →
      DoAdopt fuel host dg junk samples kernelUUID mounts vol getFd setFd dev
          theDeviceNamePtr targetVolumeUUID targetVolumeStatus db = .ret (r, db, none) ∧
        DoDisown fuel host dg junk samples kernelUUID mounts vol getFd setFd dev
          theDeviceNamePtr targetVolumeUUID targetVolumeStatus db = .ret (r, db, none)) := by
  refine ⟨?_, by decide, ?_⟩
  · intro uuid vol1 dev1 hget
    have hA : DoAdopt fuel host dg junk samples kernelUUID mounts vol getFd setFd dev
        theDeviceNamePtr targetVolumeUUID targetVolumeStatus db
        = updateVolumeStatus (fun s => (s &&& VOLUME_VALIDSTATUSBITS) ||| VOLUME_USEPERMISSIONS)
            db uuid targetVolumeStatus := by
      unfold DoAdopt
      rw [hget]
      simp only [Exec.bind_ret]
      rw [if_neg (by decide)]
    have hD : DoDisown fuel host dg junk samples kernelUUID mounts vol getFd setFd dev
        theDeviceNamePtr targetVolumeUUID targetVolumeStatus db
        = updateVolumeStatus
            (fun s => (s &&& VOLUME_VALIDSTATUSBITS) &&& complement64 VOLUME_USEPERMISSIONS)
            db uuid targetVolumeStatus := by
      unfold DoDisown
      rw [hget]
      simp only [Exec.bind_ret]
      rw [if_neg (by decide)]
    have fA : (fun s : Nat => (s &&& VOLUME_VALIDSTATUSBITS) ||| VOLUME_USEPERMISSIONS)
        = fun _ => VOLUME_USEPERMISSIONS := funext (fun s => (newStatus_values s).1)
    have fD : (fun s : Nat =>
        (s &&& VOLUME_VALIDSTATUSBITS) &&& complement64 VOLUME_USEPERMISSIONS)
        = fun _ => 0 := funext (fun s => (newStatus_values s).2)
    rw [fA] at hA
    rw [fD] at hD
    have cA := updateVolumeStatus_cases (fun _ => VOLUME_USEPERMISSIONS) db uuid
      targetVolumeStatus hno
    have cD := updateVolumeStatus_cases (fun _ => 0) db uuid targetVolumeStatus hno
    simp only at cA cD
    refine ⟨?_, ?_, ?_⟩
    · intro hopen hlock
      have sA := SetVolumeStatusDBEntry_stores db uuid VOLUME_USEPERMISSIONS hlock (by decide)
      have sD := SetVolumeStatusDBEntry_stores db uuid 0 hlock (by decide)
      have eA : VOLUME_RECORDED ||| VOLUME_USEPERMISSIONS % 2 ^ 32
          = VOLUME_RECORDED ||| VOLUME_USEPERMISSIONS := by decide
      have eD : VOLUME_RECORDED ||| 0 % 2 ^ 32 = VOLUME_RECORDED := by decide
      rw [eA] at sA
      rw [eD] at sD
      constructor
      · refine ⟨(SetVolumeStatusDBEntry db ⟨DBHANDLESIGNATURE⟩ uuid VOLUME_USEPERMISSIONS).2,
          ?_, sA.2⟩
        rw [hA, cA.2 hopen, if_neg (fun hc => hc.1 sA.1)]
      · refine ⟨(SetVolumeStatusDBEntry db ⟨DBHANDLESIGNATURE⟩ uuid 0).2, ?_, sD.2⟩
        rw [hD, cD.2 hopen, if_neg (fun hc => hc.1 sD.1)]
    · intro r db1 stored h
      have hres : r = 0 ∨ r = FSUR_IO_FAIL := by
        by_cases hopen : db.openErrno = 0
        · rcases h with h | h
          · rw [hA, cA.2 hopen] at h
            simp only [Exec.ret.injEq, Prod.mk.injEq] at h
            rw [← h.1]
            split
            · exact Or.inr rfl
            · exact Or.inl rfl
          · rw [hD, cD.2 hopen] at h
            simp only [Exec.ret.injEq, Prod.mk.injEq] at h
            rw [← h.1]
            split
            · exact Or.inr rfl
            · exact Or.inl rfl
        · rcases h with h | h
          · rw [hA, cA.1 hopen] at h
            simp only [Exec.ret.injEq, Prod.mk.injEq] at h
            exact Or.inr h.1.symm
          · rw [hD, cD.1 hopen] at h
            simp only [Exec.ret.injEq, Prod.mk.injEq] at h
            exact Or.inr h.1.symm
      refine ⟨hres, ?_⟩
      rcases hres with h0 | h0 <;> rw [h0] <;> decide
    · intro hopen
      exact ⟨by rw [hA, cA.1 hopen], by rw [hD, cD.1 hopen]⟩
  · intro r uuid vol1 dev1 hget hr
    constructor
    · unfold DoAdopt
      rw [hget]
      simp only [Exec.bind_ret]
      rw [if_pos hr]
    · unfold DoDisown
      rw [hget]
      simp only [Exec.bind_ret]
      rw [if_pos hr]

theorem DoAdopt_returns_zero_witness :
    DoAdopt 5 .big toyDigests (fun _ => 0) toySamples (fun _ => []) exampleMounts
        exampleMounted 3 4 adoptedImage "/dev/disk2s1" (List.replicate 16 0xFF) 12345
        emptyStatusDB
      = .ret (0, ⟨0, true, 0, [(ConvertHFSUUIDToUUID .big toyDigests ⟨7, 9⟩, 1)]⟩, some 1) ∧
    ((0 : Int) = 0 ∨ (0 : Int) = FSUR_IO_FAIL) ∧ (0 : Int) ≠ FSUR_IO_SUCCESS :=
  have h : DoAdopt 5 .big toyDigests (fun _ => 0) toySamples (fun _ => []) exampleMounts
        exampleMounted 3 4 adoptedImage "/dev/disk2s1" (List.replicate 16 0xFF) 12345
        emptyStatusDB
      = .ret (0, ⟨0, true, 0, [(ConvertHFSUUIDToUUID .big toyDigests ⟨7, 9⟩, 1)]⟩, some 1) := by
    decide!
  ⟨h, ((DoAdopt_returns_zero 5 .big toyDigests (fun _ => 0) toySamples (fun _ => [])
      exampleMounts exampleMounted 3 4 adoptedImage "/dev/disk2s1" (List.replicate 16 0xFF) 12345
      emptyStatusDB (by decide)).1 (ConvertHFSUUIDToUUID .big toyDigests ⟨7, 9⟩) exampleMounted
      adoptedImage (by decide!)).2.1 0 _ _ (Or.inl h)⟩

end HfsUtil
